import Mathlib

/-!
# xv6-riscv-snu: physical page allocator and page-table mapper

A shallow embedding of `kernel/kalloc.c` (the `SNU` build: 4 KiB frames carved
lazily out of 2 MiB huge-page descriptors), of the mapping primitives of
`kernel/vm.c` and of the mapping layer of `kernel/proc.c` (`mmap`, `munmap`,
`pagefault`), together with theorems about them.

Conventions of the embedding.

* Physical memory is a map from the address of a 64-bit word to its value.
  Every pointer the modelled code dereferences is 8-byte aligned, so a
  `memset` over a range is the assignment of the fill word to every word
  address of the range.
* A pointer is a `Nat`; the null pointer is `0`.
* A C `int` counter is an `Int`.  Signed overflow is undefined in C and the
  managed memory holds at most `2^15` frames, so no wrap-around is modelled.
* `panic` never returns: a function that can panic returns an `Option` and
  `none` stands for the panic.
* Spin locks are not modelled: every function is executed by one CPU from
  entry to return.
* The mapping layer runs in a `kernel_state`: the allocator and memory, the
  global tables of Regions and Shared-Frame Records, and the calling process
  `myproc()`.  A slot of the process holds the index of its Region in the
  global table.
-/

namespace Xv6

/-! ## Constants of the absent headers -/

/-- Modelled from the spec: `PGSIZE` of `riscv.h`, the size of a frame,
"a fixed-size (4 KiB) unit of physical memory". -/
def PGSIZE : Nat := 4096

/-- Modelled from the spec: `HUGEPGSIZE` of `riscv.h`, the size of a huge
frame, "2 MiB". -/
def HUGEPGSIZE : Nat := 2097152

/-- Modelled from the spec: `PGINHUGEPG`, the capacity of a huge-frame
descriptor, the number of 4 KiB frames in a 2 MiB region. -/
def PGINHUGEPG : Int := 512

/-- Modelled from the spec: `KERNBASE` of `memlayout.h`, the start of the
"single contiguous physical-memory region known at boot" (the value of
xv6-riscv). -/
def KERNBASE : Nat := 0x80000000

/-- Modelled from the spec: `PHYSTOP` of `memlayout.h`, the end of the managed
region; `kinit` counts `1 << 15` frames of 4 KiB in it. -/
def PHYSTOP : Nat := KERNBASE + 128 * 1024 * 1024

/-- Modelled from the spec: `MAXHUGEPGS`, the number of huge-frame descriptors,
"one per 2 MiB-aligned physical region" of the managed region. -/
def MAXHUGEPGS : Nat := 64

/-- Modelled from the spec: `HUGEPGINDEX(pa)`, the index of the descriptor of
the 2 MiB-aligned region that holds `pa` (for `KERNBASE ≤ pa`). -/
def HUGEPGINDEX (pa : Nat) : Nat := (pa - KERNBASE) / HUGEPGSIZE

/-- Modelled from the spec: `HUGEPAGEADDR(i)`, the base address of the 2 MiB
region of descriptor `i`. -/
def HUGEPAGEADDR (i : Nat) : Nat := KERNBASE + i * HUGEPGSIZE

/-- The C constant `TRUE`. -/
def TRUE : Int := 1

/-- The C constant `FALSE`. -/
def FALSE : Int := 0

/-! ## Memory -/

/-- Physical memory: the 64-bit word stored at each word address. -/
abbrev Memory := Nat → Nat

/-- The 64-bit word all of whose bytes are `c`. -/
def fillword (c : Nat) : Nat := c * 0x0101010101010101

/-- The call `memset(dst, c, n)` for an 8-byte aligned `dst` and a multiple `n` of 8. -/
def memset (mem : Memory) (dst c n : Nat) : Memory :=
  fun a => if dst ≤ a ∧ a < dst + n then fillword c else mem a

/-- The store `*(uint64 *)a = v`. -/
def store (mem : Memory) (a v : Nat) : Memory :=
  fun x => if x = a then v else mem x

/-! ## kalloc.c -/

/-- The record `struct hugepage_entry` without its lock: the head of the chain of free
frames (`struct run *`), the count of free frames and the allocated-whole
flag. -/
structure hugepage_entry where
  freelist : Nat
  freecount : Int
  hugealloced : Int
deriving DecidableEq, Repr

/-- The state of the allocator: physical memory (which holds the `next` link
of every free frame in its first word), the array `hugepages[MAXHUGEPGS]`
(entry `i` for `i < MAXHUGEPGS`) and the three counters. -/
structure kstate where
  mem : Memory
  hugepages : Nat → hugepage_entry
  freemem : Int
  used4k : Int
  used2m : Int

/-- The assignment `hugepages[i] = e`. -/
def set_entry (hp : Nat → hugepage_entry) (i : Nat) (e : hugepage_entry) :
    Nat → hugepage_entry :=
  fun j => if j = i then e else hp j

/-- The function `_pop_page`: panics on an allocated-whole descriptor; otherwise takes the
head `r` of the chain (if it is not null) and decrements the count.  Returns
`r` and the descriptor. -/
def _pop_page (mem : Memory) (hugepage : hugepage_entry) :
    Option (Nat × hugepage_entry) :=
  if hugepage.hugealloced ≠ 0 then none
  else
    let r := hugepage.freelist
    if r ≠ 0 then
      some (r, { hugepage with freelist := mem r, freecount := hugepage.freecount - 1 })
    else some (r, hugepage)

/-- The scanning loop of `kalloc`, with `n` iterations left from index `i`.
Returns `r`, `free_hugepage` (the index of the remembered descriptor) and the
descriptor array; leaves the loop at the first descriptor that is not
allocated-whole whose count is positive and is not `PGINHUGEPG`. -/
def kalloc_loop (mem : Memory) :
    Nat → Nat → (Nat → hugepage_entry) → Option Nat →
      Option (Nat × Option Nat × (Nat → hugepage_entry))
  | 0, _, hp, free_hugepage => some (0, free_hugepage, hp)
  | n + 1, i, hp, free_hugepage =>
    if (hp i).hugealloced ≠ 0 then
      kalloc_loop mem n (i + 1) hp free_hugepage
    else if (hp i).freecount = PGINHUGEPG then
      kalloc_loop mem n (i + 1) hp
        (match free_hugepage with
         | none => some i
         | some j => some j)
    else if (hp i).freecount > 0 then
      match _pop_page mem (hp i) with
      | none => none
      | some (r, e) => some (r, free_hugepage, set_entry hp i e)
    else
      kalloc_loop mem n (i + 1) hp free_hugepage

/-- The second phase of `kalloc`: `if (!r && free_hugepage) r =
_pop_page(free_hugepage)`. -/
def kalloc_split (mem : Memory) (r : Nat) (free_hugepage : Option Nat)
    (hp : Nat → hugepage_entry) : Option (Nat × (Nat → hugepage_entry)) :=
  match free_hugepage with
  | none => some (r, hp)
  | some j =>
    if r = 0 then
      match _pop_page mem (hp j) with
      | none => none
      | some (r1, e) => some (r1, set_entry hp j e)
    else some (r, hp)

/-- The last phase of `kalloc`: a frame that was found is filled with the
junk byte 5 and the counters are updated. -/
def kalloc_finish (s : kstate) (r : Nat) (hp : Nat → hugepage_entry) : kstate :=
  if r ≠ 0 then
    { mem := memset s.mem r 5 PGSIZE, hugepages := hp,
      freemem := s.freemem - 1, used4k := s.used4k + 1, used2m := s.used2m }
  else { s with hugepages := hp }

/-- The function `kalloc`: returns the frame (or null) and the new state. -/
def kalloc (s : kstate) : Option (Nat × kstate) :=
  match kalloc_loop s.mem MAXHUGEPGS 0 s.hugepages none with
  | none => none
  | some (r, free_hugepage, hp) =>
    match kalloc_split s.mem r free_hugepage hp with
    | none => none
    | some (r1, hp1) => some (r1, kalloc_finish s r1 hp1)

/-- The function `kfree(pa)`, with `kernel_end` the address of the linker symbol `end`. -/
def kfree (kernel_end pa : Nat) (s : kstate) : Option kstate :=
  if pa % PGSIZE ≠ 0 ∨ pa < kernel_end ∨ pa ≥ PHYSTOP then none
  else
    let mem1 := memset s.mem pa 1 PGSIZE
    let hugepage := s.hugepages (HUGEPGINDEX pa)
    some
      { mem := store mem1 pa hugepage.freelist,
        hugepages := set_entry s.hugepages (HUGEPGINDEX pa)
          { hugepage with freelist := pa, freecount := hugepage.freecount + 1 },
        freemem := s.freemem + 1, used4k := s.used4k - 1, used2m := s.used2m }

/-- The loop of `kalloc_huge`, with `n` iterations left from index `i`:
returns `target` (`-1` when no descriptor was taken) and the descriptor
array. -/
def kalloc_huge_loop : Nat → Nat → (Nat → hugepage_entry) → Int × (Nat → hugepage_entry)
  | 0, _, hp => (-1, hp)
  | n + 1, i, hp =>
    if (hp i).freecount = PGINHUGEPG ∧ ¬ (hp i).hugealloced ≠ 0 then
      ((i : Int), set_entry hp i { hp i with hugealloced := TRUE })
    else kalloc_huge_loop n (i + 1) hp

/-- The function `kalloc_huge`: returns the base of the huge frame (or null) and the new
state. -/
def kalloc_huge (s : kstate) : Nat × kstate :=
  let res := kalloc_huge_loop MAXHUGEPGS 0 s.hugepages
  if res.1 > -1 then
    let pa := HUGEPAGEADDR res.1.toNat
    (pa, { mem := memset s.mem pa 5 HUGEPGSIZE, hugepages := res.2,
           freemem := s.freemem - PGINHUGEPG, used4k := s.used4k,
           used2m := s.used2m + 1 })
  else (0, { s with hugepages := res.2 })

/-- The function `kfree_huge(pa)`: panics on an address that is misaligned or
out of range and on a descriptor that is not allocated-whole. -/
def kfree_huge (kernel_end pa : Nat) (s : kstate) : Option kstate :=
  if pa % HUGEPGSIZE ≠ 0 ∨ pa < kernel_end ∨ pa ≥ PHYSTOP then none
  else
    let mem1 := memset s.mem pa 1 HUGEPGSIZE
    let hugepage := s.hugepages (HUGEPGINDEX pa)
    if ¬ hugepage.hugealloced ≠ 0 then none
    else
      some
        { mem := mem1,
          hugepages := set_entry s.hugepages (HUGEPGINDEX pa)
            { hugepage with hugealloced := FALSE },
          freemem := s.freemem + PGINHUGEPG, used4k := s.used4k,
          used2m := s.used2m - 1 }

/-- The function `kalloc_flex(is_huge)`. -/
def kalloc_flex (is_huge : Bool) (s : kstate) : Option (Nat × kstate) :=
  if is_huge then some (kalloc_huge s) else kalloc s

/-- The function `kfree_flex(pa, is_huge)`. -/
def kfree_flex (kernel_end pa : Nat) (is_huge : Bool) (s : kstate) : Option kstate :=
  if is_huge then kfree_huge kernel_end pa s else kfree kernel_end pa s

/-! ## vm.c -/

/-- Modelled from the spec: `PTE_V` of `riscv.h`, the valid bit of a
page-table entry (RISC-V Sv39). -/
def PTE_V : Nat := 1

/-- Modelled from the spec: `PTE_R` of `riscv.h`, the readable bit. -/
def PTE_R : Nat := 2

/-- Modelled from the spec: `PTE_W` of `riscv.h`, the writable bit. -/
def PTE_W : Nat := 4

/-- Modelled from the spec: `PTE_X` of `riscv.h`, the executable bit. -/
def PTE_X : Nat := 8

/-- Modelled from the spec: `PTE_U` of `riscv.h`, the user-accessible bit. -/
def PTE_U : Nat := 16

/-- Modelled from the spec: `PTE_SHR` of `riscv.h`, the shared bit, the first
of the two software bits of a Sv39 entry. -/
def PTE_SHR : Nat := 256

/-- Modelled from the spec: `PROT_READ`, a bit of the options of a mapping. -/
def PROT_READ : Nat := 0x001

/-- Modelled from the spec: `PROT_WRITE`; `user/mmaptest3.c` passes it as
`0x002`. -/
def PROT_WRITE : Nat := 0x002

/-- Modelled from the spec: `MAP_SHARED`, a bit of the options of a mapping. -/
def MAP_SHARED : Nat := 0x010

/-- Modelled from the spec: `MAP_PRIVATE`; `user/mmaptest3.c` passes it as
`0x020`. -/
def MAP_PRIVATE : Nat := 0x020

/-- Modelled from the spec: `MAP_HUGEPAGE`; `user/mmaptest3.c` passes
`MAP_PRIVATE | MAP_HUGEPAGE` as `0x120`. -/
def MAP_HUGEPAGE : Nat := 0x100

/-- Modelled from the spec: `ZEROHUGEPG` of `memlayout.h`, the address of the
Zero Frame, "one statically reserved, zero-filled frame (sized to the huge
granularity)"; taken to be the last 2 MiB region below `PHYSTOP`. -/
def ZEROHUGEPG : Nat := 0x87E00000

/-- Modelled from the spec: `MAXVA` of `riscv.h`, one beyond the highest
virtual address of the 3-level table, `1 << (9 + 9 + 9 + 12 - 1)`. -/
def MAXVA : Nat := 2 ^ 38

/-- Modelled from the spec: `PX(level, va)` of `riscv.h`, the 9-bit index of
`va` at `level`. -/
def PX (level va : Nat) : Nat := (va >>> (12 + 9 * level)) &&& 0x1FF

/-- Modelled from the spec: `PA2PTE(pa)` of `riscv.h`. -/
def PA2PTE (pa : Nat) : Nat := (pa >>> 12) <<< 10

/-- Modelled from the spec: `PTE2PA(pte)` of `riscv.h`. -/
def PTE2PA (pte : Nat) : Nat := (pte >>> 10) <<< 12

/-- Modelled from the spec: `PTE_FLAGS(pte)` of `riscv.h`, the low 10 bits. -/
def PTE_FLAGS (pte : Nat) : Nat := pte &&& 0x3FF

/-- Modelled from the spec: `PGROUNDDOWN(a)` of `riscv.h`,
`a & ~(PGSIZE - 1)`. -/
def PGROUNDDOWN (a : Nat) : Nat := a - a % PGSIZE

/-- Modelled from the spec: `HUGEPGROUNDDOWN(a)` of `riscv.h` (spelled
`HUGEPGROUNDDONW` in `flexmappages`), `a & ~(HUGEPGSIZE - 1)`. -/
def HUGEPGROUNDDOWN (a : Nat) : Nat := a - a % HUGEPGSIZE

/-- Arithmetic of `uint64`. -/
def u64 (a : Nat) : Nat := a % 2 ^ 64

/-- The address `&pagetable[i]` of entry `i` of the table at `pagetable`. -/
def pte_addr (pagetable i : Nat) : Nat := pagetable + 8 * i

/-- One iteration of the loop of `walk` (and the one step of `hugewalk`) at
`level`: follows the entry of `va` if it is valid, whatever its other flags;
otherwise, with `alloc`, installs a zero-filled table from `kalloc`.  Returns
the next table, or `none` for `return 0`. -/
def walk_step (pagetable va : Nat) (alloc : Bool) (level : Nat) (s : kstate) :
    Option (Option Nat × kstate) :=
  let pte := pte_addr pagetable (PX level va)
  if s.mem pte &&& PTE_V ≠ 0 then some (some (PTE2PA (s.mem pte)), s)
  else if alloc = false then some (none, s)
  else
    match kalloc s with
    | none => none
    | some (r, s1) =>
      if r = 0 then some (none, s1)
      else
        let mem1 := memset s1.mem r 0 PGSIZE
        some (some r, { s1 with mem := store mem1 pte (PA2PTE r ||| PTE_V) })

/-- The function `walk(pagetable, va, alloc)`: the address of the level-0 entry of `va`, or
null. -/
def walk (pagetable va : Nat) (alloc : Bool) (s : kstate) : Option (Nat × kstate) :=
  if va ≥ MAXVA then none
  else
    match walk_step pagetable va alloc 2 s with
    | none => none
    | some (none, s1) => some (0, s1)
    | some (some pagetable1, s1) =>
      match walk_step pagetable1 va alloc 1 s1 with
      | none => none
      | some (none, s2) => some (0, s2)
      | some (some pagetable0, s2) => some (pte_addr pagetable0 (PX 0 va), s2)

/-- The function `hugewalk(pagetable, va, alloc)`: the address of the level-1 entry of `va`,
or null. -/
def hugewalk (pagetable va : Nat) (alloc : Bool) (s : kstate) : Option (Nat × kstate) :=
  if va ≥ MAXVA then none
  else
    match walk_step pagetable va alloc 2 s with
    | none => none
    | some (none, s1) => some (0, s1)
    | some (some pagetable1, s1) => some (pte_addr pagetable1 (PX 1 va), s1)

/-- The loop of `walkfind` from `level` down to 1: `none` is the panic on a
leaf at level 2, `some none` is `return NULL`, and `some (some (pte, is_huge))`
the entry found. -/
def walkfind_loop (mem : Memory) (va : Nat) : Nat → Nat → Option (Option (Nat × Bool))
  | 0, pagetable => some (some (pte_addr pagetable (PX 0 va), false))
  | level + 1, pagetable =>
    let pte := pte_addr pagetable (PX (level + 1) va)
    if ¬ (mem pte &&& PTE_V ≠ 0) then some none
    else if PTE_FLAGS (mem pte) = PTE_V then walkfind_loop mem va level (PTE2PA (mem pte))
    else if level + 1 = 2 then none
    else some (some (pte, true))

/-- The function `walkfind(pagetable, va, &is_huge)`, which reads the table and
stops at the first entry that is invalid or a leaf. -/
def walkfind (mem : Memory) (pagetable va : Nat) : Option (Option (Nat × Bool)) :=
  if va ≥ MAXVA then none else walkfind_loop mem va 2 pagetable

/-- The entry `flexmappages` stores for the physical address `pa`. -/
def flex_entry (pa flags : Nat) (to_zeropg : Bool) : Nat :=
  let e0 := PA2PTE pa ||| PTE_U ||| PTE_R ||| PTE_V
  let e1 := if to_zeropg = false ∧ flags &&& PROT_WRITE ≠ 0 then e0 ||| PTE_W else e0
  if flags &&& MAP_SHARED ≠ 0 then e1 ||| PTE_SHR else e1

/-- The loop `while (a <= last)` of `flexmappages` with `n` pages left, the
next one at `a`.  (The loop visits `a`, `a + step`, ... up to `last`; the
sum can only wrap around after a page at or above `MAXVA`, where the walk
panics.)  Returns 0 or -1. -/
def flexmappages_loop (pagetable flags : Nat) (to_zeropg : Bool) :
    Nat → Nat → Nat → kstate → Option (Int × kstate)
  | 0, _, _, s => some (0, s)
  | n + 1, a, pa, s =>
    match (if flags &&& MAP_HUGEPAGE ≠ 0 then hugewalk pagetable a true s
           else walk pagetable a true s) with
    | none => none
    | some (pte, s1) =>
      if pte = 0 ∨ s1.mem pte &&& PTE_V ≠ 0 then some (-1, s1)
      else
        let s2 := { s1 with mem := store s1.mem pte (flex_entry pa flags to_zeropg) }
        let step := if flags &&& MAP_HUGEPAGE ≠ 0 then HUGEPGSIZE else PGSIZE
        flexmappages_loop pagetable flags to_zeropg n (u64 (a + step))
          (if to_zeropg then pa else u64 (pa + step)) s2

/-- The number of iterations of `while (a <= last)` with `a` advancing by
`step`. -/
def pages_between (a last step : Nat) : Nat :=
  if a ≤ last then (last - a) / step + 1 else 0

/-- The function `flexmappages(pagetable, va, size, pa, flags)` of `vm.c`:
panics on `size == 0`, maps to the Zero Frame when `pa` is null. -/
def flexmappages (pagetable va size pa flags : Nat) (s : kstate) : Option (Int × kstate) :=
  if size = 0 then none
  else
    let a := if flags &&& MAP_HUGEPAGE ≠ 0 then HUGEPGROUNDDOWN va else PGROUNDDOWN va
    let last := if flags &&& MAP_HUGEPAGE ≠ 0 then HUGEPGROUNDDOWN (u64 (va + size - 1))
                else PGROUNDDOWN (u64 (va + size - 1))
    let step := if flags &&& MAP_HUGEPAGE ≠ 0 then HUGEPGSIZE else PGSIZE
    flexmappages_loop pagetable flags (decide (pa = 0)) (pages_between a last step) a
      (if pa = 0 then ZEROHUGEPG else pa) s

/-! ## kalloc.c: initialisation -/

/-- Modelled from the spec: `PGROUNDUP(sz)` of `riscv.h`,
`(sz + PGSIZE - 1) & ~(PGSIZE - 1)`. -/
def PGROUNDUP (sz : Nat) : Nat := (sz + PGSIZE - 1) - (sz + PGSIZE - 1) % PGSIZE

/-- The loop of `freerange` with `n` iterations left, the next frame at `p`. -/
def freerange_loop (kernel_end : Nat) : Nat → Nat → kstate → Option kstate
  | 0, _, s => some s
  | n + 1, p, s =>
    match kfree kernel_end p s with
    | none => none
    | some s1 => freerange_loop kernel_end n (p + PGSIZE) s1

/-- The function `freerange(pa_start, pa_end)`: `kfree` of every frame from
`PGROUNDUP(pa_start)` that ends at or below `pa_end`; the loop
`for (; p + PGSIZE <= pa_end; p += PGSIZE)` runs
`(pa_end - PGROUNDUP(pa_start)) / PGSIZE` times. -/
def freerange (kernel_end pa_start pa_end : Nat) (s : kstate) : Option kstate :=
  freerange_loop kernel_end ((pa_end - PGROUNDUP pa_start) / PGSIZE) (PGROUNDUP pa_start) s

/-- The function `kinit()`: every frame from `end` to `PHYSTOP` is freed, the
counters are set, and the Zero Frame is marked allocated-whole and filled with
zeros. -/
def kinit (kernel_end : Nat) (s : kstate) : Option kstate :=
  match freerange kernel_end kernel_end PHYSTOP s with
  | none => none
  | some s1 =>
    some
      { mem := memset s1.mem ZEROHUGEPG 0 HUGEPGSIZE,
        hugepages := set_entry s1.hugepages (HUGEPGINDEX ZEROHUGEPG)
          { s1.hugepages (HUGEPGINDEX ZEROHUGEPG) with hugealloced := TRUE },
        freemem := s1.freemem - PGINHUGEPG,
        used4k := (1 <<< 15 : Int) - s1.freemem,
        used2m := 0 + 1 }

/-- The state before `kinit`: the array `hugepages` and the counters are
zero-initialised, the memory is whatever the machine holds. -/
def boot_state (mem : Memory) : kstate :=
  { mem := mem, hugepages := fun _ => ⟨0, 0, 0⟩, freemem := 0, used4k := 0, used2m := 0 }

/-! ## proc.c -/

/-- Modelled from the spec: `MMAP_PROC_MAX` of `param.h`, "each address space
holds up to a small fixed number (4) of references" into the Region table. -/
def MMAP_PROC_MAX : Nat := 4

/-- Modelled from the spec: `MMAP_GLOBAL_MAX` of `param.h`, the capacity of the
"fixed-capacity global table" of Regions; the comment of `mmap` gives 64. -/
def MMAP_GLOBAL_MAX : Nat := 64

/-- Modelled from the spec: `MMAP_MAX_SIZE` of `param.h`, the "maximum region
size"; the comment of `mmap` gives 64 MiB. -/
def MMAP_MAX_SIZE : Int := 64 * 1024 * 1024

/-- Modelled from the spec: `MAXPGS`, the number of Shared-Frame Records, "one
slot per physical frame in the system"; the comments of `proc.c` give `2^15`. -/
def MAXPGS : Nat := 32768

/-- Modelled from the spec: `PGINDEX(pa)`, the index of the record of the frame
`pa`, "keyed implicitly by frame address" (for `KERNBASE ≤ pa`). -/
def PGINDEX (pa : Nat) : Nat := (pa - KERNBASE) / PGSIZE

/-- Modelled from the spec: `SCAUSE_LOAD`, the cause of a load page fault
(13 on RISC-V). -/
def SCAUSE_LOAD : Nat := 13

/-- Modelled from the spec: `SCAUSE_STORE`, the cause of a store page fault
(15 on RISC-V). -/
def SCAUSE_STORE : Nat := 15

/-- Modelled from the spec: `struct vm_area` of `proc.h`, the Region: "start,
end, length, option bits, needs private copy flag, validity flag, identity
index".  The field `end` is `area_end`. -/
structure vm_area where
  idx : Int
  is_valid : Int
  start : Nat
  area_end : Nat
  length : Nat
  options : Nat
  needs_cow : Int
deriving DecidableEq, Repr

/-- Modelled from the spec: `struct shared_page` of `proc.h` without its lock,
the Shared-Frame Record: "owning region identity, region-relative aligned
offset, cached PTE bit pattern, reference count". -/
structure shared_page where
  vma_idx : Int
  start_va : Nat
  ref_count : Int
  pte : Nat
deriving DecidableEq, Repr

/-- Modelled from the spec: the fields of `struct proc` (`proc.h`) that the
mapping layer uses: the root of the page table, the slots `mmap[MMAP_PROC_MAX]`
(a slot holds the index in `mmap_areas` of the Region it points to, or `none`
for `NULL`), `mmap_count` and `killed`. -/
structure proc where
  pagetable : Nat
  mmap : Nat → Option Nat
  mmap_count : Int
  killed : Int

/-- The state of the kernel that the mapping layer reads and writes: the
allocator and memory, the tables `mmap_areas[MMAP_GLOBAL_MAX]` and
`shared_pages[MAXPGS]`, the counter `pagefaults`, and the process `myproc()`. -/
structure kernel_state where
  k : kstate
  mmap_areas : Nat → vm_area
  shared_pages : Nat → shared_page
  pagefaults : Int
  p : proc

/-- The value of an `int` passed for a `uint64` parameter. -/
def int_to_u64 (n : Int) : Nat := (n % 2 ^ 64).toNat

/-- The call `memmove(dst, src, n)` for 8-byte aligned `dst`, `src` and a
multiple `n` of 8. -/
def memmove (mem : Memory) (dst src n : Nat) : Memory :=
  fun a => if dst ≤ a ∧ a < dst + n then mem (src + (a - dst)) else mem a

/-- The function `options_to_flags(options)`. -/
def options_to_flags (options : Nat) : Nat :=
  let f0 := PTE_V ||| PTE_U
  let f1 := if options &&& PROT_READ ≠ 0 then f0 ||| PTE_R else f0
  let f2 := if options &&& PROT_WRITE ≠ 0 then f1 ||| PTE_W else f1
  if options &&& MAP_SHARED ≠ 0 then f2 ||| PTE_SHR else f2

/-- The loop of `find_empty_vma`, with `n` iterations left from index `i`: the
index of the first Region that is not valid. -/
def find_empty_vma_loop (areas : Nat → vm_area) : Nat → Nat → Option Nat
  | 0, _ => none
  | n + 1, i =>
    if ¬ (areas i).is_valid ≠ 0 then some i else find_empty_vma_loop areas n (i + 1)

/-- The function `find_empty_vma()`: the Region found (its `idx` is assigned)
or `NULL`, and the table. -/
def find_empty_vma (areas : Nat → vm_area) : Option Nat × (Nat → vm_area) :=
  match find_empty_vma_loop areas MMAP_GLOBAL_MAX 0 with
  | none => (none, areas)
  | some i => (some i, fun j => if j = i then { areas i with idx := (i : Int) } else areas j)

/-- The loop over the slots of the process in `add_vma` and `share_vma`, with
`n` iterations left from slot `i`: the first slot that is `NULL`. -/
def empty_slot (m : Nat → Option Nat) : Nat → Nat → Option Nat
  | 0, _ => none
  | n + 1, i => if m i = none then some i else empty_slot m n (i + 1)

/-- The function `add_vma(p, start, length, options, needs_cow)`; returns 0 or
-1. -/
def add_vma (start length options : Nat) (needs_cow : Int) (s : kernel_state) :
    Int × kernel_state :=
  match find_empty_vma s.mmap_areas with
  | (none, areas) => (-1, { s with mmap_areas := areas })
  | (some ai, areas) =>
    match empty_slot s.p.mmap MMAP_PROC_MAX 0 with
    | none => (-1, { s with mmap_areas := areas })
    | some i =>
      (0, { s with
            mmap_areas := fun j =>
              if j = ai then
                { areas ai with
                  is_valid := TRUE, start := start, area_end := u64 (start + length),
                  length := length, options := options, needs_cow := needs_cow }
              else areas j,
            p := { s.p with
                   mmap := fun j => if j = i then some ai else s.p.mmap j,
                   mmap_count := s.p.mmap_count + 1 } })

/-- The loop of `get_vma`, with `n` iterations left from slot `i`: the slot of
the first Region of the process with `start <= addr < end`. -/
def get_vma_loop (areas : Nat → vm_area) (m : Nat → Option Nat) (addr : Nat) :
    Nat → Nat → Option Nat
  | 0, _ => none
  | n + 1, i =>
    match m i with
    | none => get_vma_loop areas m addr n (i + 1)
    | some ai =>
      if (areas ai).start ≤ addr ∧ addr < (areas ai).area_end then some i
      else get_vma_loop areas m addr n (i + 1)

/-- The function `get_vma(p, addr, pop)`: the Region found or `NULL`, and the
process; with `pop` the slot is cleared and `mmap_count` decremented. -/
def get_vma (p : proc) (areas : Nat → vm_area) (addr : Nat) (pop : Bool) :
    Option Nat × proc :=
  match get_vma_loop areas p.mmap addr MMAP_PROC_MAX 0 with
  | none => (none, p)
  | some i =>
    (p.mmap i,
      if pop then
        { p with mmap := fun j => if j = i then none else p.mmap j,
                 mmap_count := p.mmap_count - 1 }
      else p)

/-- The function `get_shpg(pa)`: the index of the record of the frame `pa`. -/
def get_shpg (pa : Nat) : Nat := PGINDEX pa

/-- The loop of `find_shpg`, with `n` iterations left from index `i`: the first
record with the given Region index and address. -/
def find_shpg_loop (shpgs : Nat → shared_page) (vma_idx : Int) (start_va : Nat) :
    Nat → Nat → Option Nat
  | 0, _ => none
  | n + 1, i =>
    if (shpgs i).vma_idx = vma_idx ∧ (shpgs i).start_va = start_va then some i
    else find_shpg_loop shpgs vma_idx start_va n (i + 1)

/-- The function `find_shpg(vma_idx, start_va)`. -/
def find_shpg (shpgs : Nat → shared_page) (vma_idx : Int) (start_va : Nat) : Option Nat :=
  find_shpg_loop shpgs vma_idx start_va MAXPGS 0

/-- The function `mmap(addr, length, prot, flags)`; returns `addr` or null.
The call of `flexmappages` in `proc.c` has a sixth argument, the entry flags,
which the function of `vm.c` does not take; the first five are passed. -/
def mmap (addr : Nat) (length : Int) (prot flags : Nat) (s : kernel_state) :
    Option (Nat × kernel_state) :=
  let a := addr
  let is_huge := decide (flags &&& MAP_HUGEPAGE ≠ 0)
  if is_huge = true ∧ a % HUGEPGSIZE ≠ 0 then some (0, s)
  else if is_huge = false ∧ a % PGSIZE ≠ 0 then some (0, s)
  else if length > MMAP_MAX_SIZE ∨ s.p.mmap_count ≥ (MMAP_PROC_MAX : Int) then some (0, s)
  else
    match flexmappages s.p.pagetable a (int_to_u64 length) 0 (flags &&& MAP_HUGEPAGE) s.k with
    | none => none
    | some (r, k1) =>
      if r = -1 then some (0, { s with k := k1 })
      else
        some (addr,
          (add_vma a (int_to_u64 length) (prot ||| flags) FALSE { s with k := k1 }).2)

/-- The loop `while (a <= last)` of `munmap` with `n` pages left, the next one
at `a`: every entry must be found and must not be a pointer to a table; it is
cleared, and with `is_idle` its frame is freed.  Returns 0 or -1. -/
def munmap_loop (kernel_end pagetable : Nat) (is_huge is_idle : Bool) :
    Nat → Nat → kstate → Option (Int × kstate)
  | 0, _, k => some (0, k)
  | n + 1, a, k =>
    match (if is_huge then hugewalk pagetable a false k else walk pagetable a false k) with
    | none => none
    | some (pte, k1) =>
      if pte = 0 ∨ PTE_FLAGS (k1.mem pte) = PTE_V then some (-1, k1)
      else
        let pa := PTE2PA (k1.mem pte)
        let k2 := { k1 with mem := store k1.mem pte 0 }
        match (if is_idle then kfree_flex kernel_end pa is_huge k2 else some k2) with
        | none => none
        | some k3 =>
          munmap_loop kernel_end pagetable is_huge is_idle n
            (u64 (a + if is_huge then HUGEPGSIZE else PGSIZE)) k3

/-- The part of `munmap` for a shared Region `ai` at `va`: the reference count
of its record is decremented; at 0 the Region is marked invalid and the record
reset.  Returns `is_idle` and the two tables. -/
def munmap_shared (areas : Nat → vm_area) (shpgs : Nat → shared_page) (ai va : Nat) :
    Bool × (Nat → vm_area) × (Nat → shared_page) :=
  if (areas ai).options &&& MAP_SHARED ≠ 0 then
    match find_shpg shpgs (areas ai).idx va with
    | none => (false, areas, shpgs)
    | some r =>
      if (shpgs r).ref_count - 1 = 0 then
        (true,
          fun j => if j = ai then { areas ai with is_valid := FALSE } else areas j,
          fun j => if j = r then ⟨-1, 0, 0, 0⟩ else shpgs j)
      else
        (false, areas,
          fun j => if j = r then { shpgs r with ref_count := (shpgs r).ref_count - 1 }
                   else shpgs j)
  else (true, areas, shpgs)

/-- The function `munmap(addr)`; returns 0 or -1. -/
def munmap (kernel_end addr : Nat) (s : kernel_state) : Option (Int × kernel_state) :=
  let va := addr
  match get_vma s.p s.mmap_areas va true with
  | (none, p1) => some (-1, { s with p := p1 })
  | (some ai, p1) =>
    if va ≠ (s.mmap_areas ai).start then some (-1, { s with p := p1 })
    else
      let sh := munmap_shared s.mmap_areas s.shared_pages ai va
      let is_huge := decide ((s.mmap_areas ai).options &&& MAP_HUGEPAGE ≠ 0)
      let last0 := u64 (va + (s.mmap_areas ai).length + (2 ^ 64 - 1))
      let last := if is_huge then HUGEPGROUNDDOWN last0 else PGROUNDDOWN last0
      match munmap_loop kernel_end p1.pagetable is_huge sh.1
          (pages_between va last (if is_huge then HUGEPGSIZE else PGSIZE)) va s.k with
      | none => none
      | some (r, k1) =>
        some (r, { s with k := k1, mmap_areas := sh.2.1, shared_pages := sh.2.2, p := p1 })

/-- The loop of `munmap_all`, with `n` iterations left from slot `i`. -/
def munmap_all_loop (kernel_end : Nat) : Nat → Nat → kernel_state → Option (Int × kernel_state)
  | 0, _, s => some (0, s)
  | n + 1, i, s =>
    match s.p.mmap i with
    | none => munmap_all_loop kernel_end n (i + 1) s
    | some ai =>
      match munmap kernel_end (s.mmap_areas ai).start s with
      | none => none
      | some (r, s1) =>
        if r = -1 then some (-1, s1) else munmap_all_loop kernel_end n (i + 1) s1

/-- The function `munmap_all()`; returns 0 or -1. -/
def munmap_all (kernel_end : Nat) (s : kernel_state) : Option (Int × kernel_state) :=
  munmap_all_loop kernel_end MMAP_PROC_MAX 0 s

/-- The function `setkilled(p)`. -/
def setkilled (s : kernel_state) : kernel_state :=
  { s with p := { s.p with killed := 1 } }

/-- The function `handle_shared_fault(p, pte, va, area, is_huge)` for the
Region `ai`; panics when no frame can be allocated or when the record of the
new frame is in use. -/
def handle_shared_fault (pte va ai : Nat) (is_huge : Bool) (s : kernel_state) :
    Option kernel_state :=
  let start_va := if is_huge then HUGEPGROUNDDOWN va else PGROUNDDOWN va
  match find_shpg s.shared_pages (s.mmap_areas ai).idx start_va with
  | none =>
    match kalloc_flex is_huge s.k with
    | none => none
    | some (m, k1) =>
      if m = 0 then none
      else
        let mem1 := memset k1.mem m 0 (if is_huge then HUGEPGSIZE else PGSIZE)
        let e0 := PA2PTE m ||| PTE_V ||| PTE_U ||| PTE_R
        let e := if (s.mmap_areas ai).options &&& PROT_WRITE ≠ 0 then e0 ||| PTE_W else e0
        let k2 := { k1 with mem := store mem1 pte e }
        let r := get_shpg m
        if (s.shared_pages r).ref_count > 0 then none
        else
          some { s with
                 k := k2,
                 shared_pages := fun j =>
                   if j = r then
                     ⟨(s.mmap_areas ai).idx, start_va, (s.shared_pages r).ref_count + 1,
                       k2.mem pte⟩
                   else s.shared_pages j }
  | some r =>
    some { s with
           k := { s.k with mem := store s.k.mem pte (s.shared_pages r).pte },
           shared_pages := fun j =>
             if j = r then { s.shared_pages r with ref_count := (s.shared_pages r).ref_count + 1 }
             else s.shared_pages j }

/-- The function `handle_private_fault(p, pte, va, area, is_huge)` for the
Region `ai`; panics when no frame can be allocated. -/
def handle_private_fault (pte ai : Nat) (is_huge : Bool) (s : kernel_state) :
    Option kernel_state :=
  match kalloc_flex is_huge s.k with
  | none => none
  | some (m, k1) =>
    if m = 0 then none
    else
      let size := if is_huge then HUGEPGSIZE else PGSIZE
      let cow := decide ((s.mmap_areas ai).needs_cow ≠ 0)
      let mem1 := if cow then memmove k1.mem m (PTE2PA (k1.mem pte)) size
                  else memset k1.mem m 0 size
      let areas1 : Nat → vm_area := if cow then
          fun j => if j = ai then { s.mmap_areas ai with needs_cow := FALSE } else s.mmap_areas j
        else s.mmap_areas
      some { s with
             k := { k1 with
                    mem := store mem1 pte (PA2PTE m ||| PTE_V ||| PTE_U ||| PTE_R ||| PTE_W) },
             mmap_areas := areas1 }

/-- The function `pagefault(scause, stval)`. -/
def pagefault (scause stval : Nat) (s : kernel_state) : Option kernel_state :=
  let s0 := { s with pagefaults := s.pagefaults + 1 }
  match walkfind s0.k.mem s0.p.pagetable stval with
  | none => none
  | some none => some (setkilled s0)
  | some (some (pte, is_huge)) =>
    match (get_vma s0.p s0.mmap_areas stval false).1 with
    | none => some (setkilled s0)
    | some ai =>
      if (s0.mmap_areas ai).options ≠ 0 ∧ MAP_SHARED ≠ 0 then
        handle_shared_fault pte stval ai is_huge s0
      else if scause = SCAUSE_LOAD then some (setkilled s0)
      else if ¬ ((s0.mmap_areas ai).options &&& PROT_WRITE ≠ 0) then some (setkilled s0)
      else handle_private_fault pte ai is_huge s0

/-! ## vm.c: copying an address space -/

/-- The loop `for(;;)` of `mappages` with the next page at `a` and the next
frame at `pa`: returns -1 when `walk` cannot allocate a table, panics on an
entry that is valid already, and leaves after the page `last`.  The number
`fuel` bounds the iterations; an iteration at or above `MAXVA` panics in
`walk`, so `MAXVA / PGSIZE + 1` iterations are never used up. -/
def mappages_loop (pagetable perm last : Nat) :
    Nat → Nat → Nat → kstate → Option (Int × kstate)
  | 0, _, _, _ => none
  | fuel + 1, a, pa, s =>
    match walk pagetable a true s with
    | none => none
    | some (pte, s1) =>
      if pte = 0 then some (-1, s1)
      else if s1.mem pte &&& PTE_V ≠ 0 then none
      else
        let s2 := { s1 with mem := store s1.mem pte (PA2PTE pa ||| perm ||| PTE_V) }
        if a = last then some (0, s2)
        else mappages_loop pagetable perm last fuel (u64 (a + PGSIZE)) (u64 (pa + PGSIZE)) s2

/-- The function `mappages(pagetable, va, size, pa, perm)`; returns 0 or -1,
and panics on `size == 0`. -/
def mappages (pagetable va size pa perm : Nat) (s : kstate) : Option (Int × kstate) :=
  if size = 0 then none
  else
    mappages_loop pagetable perm (PGROUNDDOWN (u64 (va + size - 1))) (MAXVA / PGSIZE + 1)
      (PGROUNDDOWN va) pa s

/-- The loop of `uvmunmap` with `n` pages left, the next one at `a`: panics
when the entry of the page is not found, not valid or not a leaf; with
`do_free` the frame is freed, and the entry is cleared. -/
def uvmunmap_loop (kernel_end pagetable : Nat) (do_free : Bool) :
    Nat → Nat → kstate → Option kstate
  | 0, _, s => some s
  | n + 1, a, s =>
    match walk pagetable a false s with
    | none => none
    | some (pte, s1) =>
      if pte = 0 then none
      else if s1.mem pte &&& PTE_V = 0 then none
      else if PTE_FLAGS (s1.mem pte) = PTE_V then none
      else
        match (if do_free then kfree kernel_end (PTE2PA (s1.mem pte)) s1 else some s1) with
        | none => none
        | some s2 =>
          uvmunmap_loop kernel_end pagetable do_free n (u64 (a + PGSIZE))
            { s2 with mem := store s2.mem pte 0 }

/-- The function `uvmunmap(pagetable, va, npages, do_free)`; panics on a `va`
that is not page-aligned.  The loop `for (a = va; a < va + npages*PGSIZE;
a += PGSIZE)` runs over the pages from `va` up to the 64-bit sum. -/
def uvmunmap (kernel_end pagetable va npages : Nat) (do_free : Bool) (s : kstate) :
    Option kstate :=
  if va % PGSIZE ≠ 0 then none
  else
    uvmunmap_loop kernel_end pagetable do_free ((u64 (va + npages * PGSIZE) - va) / PGSIZE) va s

/-- The loop of `uvmcopy` with `n` pages left, the next one at `i`: `none` is a
panic, `some (none, s)` the end of the loop, and `some (some i, s)` the jump to
`err` with the page `i`, after a frame or a table could not be allocated. -/
def uvmcopy_loop (kernel_end old new : Nat) :
    Nat → Nat → kstate → Option (Option Nat × kstate)
  | 0, _, s => some (none, s)
  | n + 1, i, s =>
    match walk old i false s with
    | none => none
    | some (pte, s1) =>
      if pte = 0 then none
      else if s1.mem pte &&& PTE_V = 0 then none
      else
        match kalloc s1 with
        | none => none
        | some (m, s2) =>
          if m = 0 then some (some i, s2)
          else
            match mappages new i PGSIZE m (PTE_FLAGS (s1.mem pte))
                { s2 with mem := memmove s2.mem m (PTE2PA (s1.mem pte)) PGSIZE } with
            | none => none
            | some (r, s4) =>
              if r ≠ 0 then
                match kfree kernel_end m s4 with
                | none => none
                | some s5 => some (some i, s5)
              else uvmcopy_loop kernel_end old new n (u64 (i + PGSIZE)) s4

/-- The function `uvmcopy(old, new, sz)` of `vm.c`; returns 0, or -1 after
`uvmunmap(new, 0, i / PGSIZE, 1)`.  The loop `for (i = 0; i < sz; i += PGSIZE)`
runs over the `(sz + PGSIZE - 1) / PGSIZE` pages below `sz`. -/
def uvmcopy (kernel_end old new sz : Nat) (s : kstate) : Option (Int × kstate) :=
  match uvmcopy_loop kernel_end old new ((sz + PGSIZE - 1) / PGSIZE) 0 s with
  | none => none
  | some (none, s1) => some (0, s1)
  | some (some i, s1) =>
    match uvmunmap kernel_end new 0 (i / PGSIZE) true s1 with
    | none => none
    | some s2 => some (-1, s2)

/-! ## vm.c: translating an address -/

/-- The function `walkaddr(pagetable, va)` of `vm.c`: the physical address of
the page of `va`, or 0 when the page is not mapped for the user. -/
def walkaddr (pagetable va : Nat) (s : kstate) : Option (Nat × kstate) :=
  if va ≥ MAXVA then some (0, s)
  else
    match walk pagetable va false s with
    | none => none
    | some (pte, s1) =>
      if pte = 0 then some (0, s1)
      else if s1.mem pte &&& PTE_V = 0 then some (0, s1)
      else if s1.mem pte &&& PTE_U = 0 then some (0, s1)
      else some (PTE2PA (s1.mem pte), s1)

/-! ## proc.c: sharing a Region -/

/-- The loop of `share_vma`, with `n` iterations left from slot `i`: the first
slot that is `NULL` or points to a Region that is not valid. -/
def share_slot (areas : Nat → vm_area) (m : Nat → Option Nat) : Nat → Nat → Option Nat
  | 0, _ => none
  | n + 1, i =>
    match m i with
    | none => some i
    | some ai => if (areas ai).is_valid = FALSE then some i else share_slot areas m n (i + 1)

/-- The function `share_vma(np, area)` for the Region `ai`; returns 0 or -1. -/
def share_vma (ai : Nat) (areas : Nat → vm_area) (np : proc) : Int × proc :=
  match share_slot areas np.mmap MMAP_PROC_MAX 0 with
  | none => (-1, np)
  | some i =>
    (0, { np with mmap := fun j => if j = i then some ai else np.mmap j,
                  mmap_count := np.mmap_count + 1 })

/-! ## Vocabulary of the properties -/

/-- A descriptor granted to a huge-frame caller. -/
def allocated_whole (e : hugepage_entry) : Prop := e.hugealloced ≠ 0

/-- A descriptor none of whose frames is in use. -/
def whole_free (e : hugepage_entry) : Prop :=
  e.freecount = PGINHUGEPG ∧ e.hugealloced = 0

/-- A split descriptor in the sense of the specification: not allocated-whole,
with `0 < freecount < PGINHUGEPG`. -/
def split (e : hugepage_entry) : Prop :=
  e.hugealloced = 0 ∧ 0 < e.freecount ∧ e.freecount < PGINHUGEPG

/-- The descriptors the scanning loop of `kalloc` serves a frame from: not
allocated-whole, with a positive count different from `PGINHUGEPG`. -/
def servable (e : hugepage_entry) : Prop :=
  e.hugealloced = 0 ∧ 0 < e.freecount ∧ e.freecount ≠ PGINHUGEPG

instance (e : hugepage_entry) : Decidable (allocated_whole e) := by
  unfold allocated_whole; infer_instance

instance (e : hugepage_entry) : Decidable (whole_free e) := by
  unfold whole_free; infer_instance

instance (e : hugepage_entry) : Decidable (split e) := by
  unfold split; infer_instance

instance (e : hugepage_entry) : Decidable (servable e) := by
  unfold servable; infer_instance

/-- The chain of `struct run` nodes that starts at `head` and ends at the null
pointer visits exactly the addresses of `l`, in this order. -/
def is_chain (mem : Memory) : Nat → List Nat → Prop
  | head, [] => head = 0
  | head, x :: l => head = x ∧ x ≠ 0 ∧ is_chain mem (mem x) l

instance (mem : Memory) : ∀ (head : Nat) (l : List Nat), Decidable (is_chain mem head l)
  | head, [] => by unfold is_chain; infer_instance
  | head, x :: l => by
    unfold is_chain
    have := instDecidableIs_chain mem (mem x) l
    infer_instance

/-- The count of descriptor `e` is the length of its free list. -/
def count_ok (mem : Memory) (e : hugepage_entry) : Prop :=
  ∃ l : List Nat, is_chain mem e.freelist l ∧ e.freecount = (l.length : Int)

/-- The first `n` addresses of the chain that starts at `head`. -/
def follow (mem : Memory) : Nat → Nat → List Nat
  | _, 0 => []
  | head, n + 1 => head :: follow mem (mem head) n

/-- The quantity of the frame accounting: free frames, 4 KiB frames in use
and the frames of the huge frames in use. -/
def accounted (s : kstate) : Int :=
  s.freemem + s.used4k + PGINHUGEPG * s.used2m

/-- The first index `p` among the `n` indices from `i` with `P p`. -/
def first_from (P : Nat → Prop) [DecidablePred P] : Nat → Nat → Option Nat
  | 0, _ => none
  | n + 1, i => if P i then some i else first_from P n (i + 1)

/-- The pointer `free_hugepage` is assigned only while it is null. -/
def keep_first (free_hugepage found : Option Nat) : Option Nat :=
  match free_hugepage with
  | none => found
  | some j => some j

/-- The state after `kalloc` has served the head of the chain of descriptor
`p`: the head is unlinked, the count decremented, the frame filled with junk
and the counters updated. -/
def served (s : kstate) (p : Nat) : kstate :=
  { mem := memset s.mem (s.hugepages p).freelist 5 PGSIZE,
    hugepages := set_entry s.hugepages p
      { s.hugepages p with
        freelist := s.mem (s.hugepages p).freelist,
        freecount := (s.hugepages p).freecount - 1 },
    freemem := s.freemem - 1, used4k := s.used4k + 1, used2m := s.used2m }

/-- The state after a `kfree(pa)` that returned: the frame is filled with
junk, linked in front of the chain of its descriptor, and the counters are
updated. -/
def freed (s : kstate) (pa : Nat) : kstate :=
  { mem := store (memset s.mem pa 1 PGSIZE) pa (s.hugepages (HUGEPGINDEX pa)).freelist,
    hugepages := set_entry s.hugepages (HUGEPGINDEX pa)
      { s.hugepages (HUGEPGINDEX pa) with
        freelist := pa, freecount := (s.hugepages (HUGEPGINDEX pa)).freecount + 1 },
    freemem := s.freemem + 1, used4k := s.used4k - 1, used2m := s.used2m }

/-- What `kalloc` does once its loop has popped nothing and has scanned the
descriptors below `b`: it serves the head of the first whole-free descriptor
below `b` if there is one with a chain that is not empty, and returns null
otherwise. -/
def fallback (s : kstate) (b : Nat) : Nat × kstate :=
  match first_from (fun j => whole_free (s.hugepages j)) b 0 with
  | none => (0, s)
  | some w =>
    if (s.hugepages w).freelist ≠ 0 then ((s.hugepages w).freelist, served s w)
    else (0, s)

/-- The state after `k` consecutive calls of `kalloc` (`none` if one of them
panics). -/
def kalloc_n : Nat → kstate → Option kstate
  | 0, s => some s
  | k + 1, s =>
    match kalloc s with
    | none => none
    | some (_, s1) => kalloc_n k s1

/-- The invariant of a run of `kalloc` calls, `n` calls after a state whose
whole-free descriptors were those of `W`: either every descriptor of `W` is
still whole-free, or exactly one of them, `a`, the lowest-indexed one, is not,
and `a` is not allocated-whole and has given out at most `n` frames. -/
def lazy_split_inv (W : Nat → Prop) (n : Nat) (s : kstate) : Prop :=
  (∀ i, i < MAXHUGEPGS → W i → whole_free (s.hugepages i)) ∨
  ∃ a, a < MAXHUGEPGS ∧ W a ∧ (s.hugepages a).hugealloced = 0 ∧
    (s.hugepages a).freecount < PGINHUGEPG ∧
    PGINHUGEPG ≤ (s.hugepages a).freecount + (n : Int) ∧
    ∀ i, i < MAXHUGEPGS → W i → i ≠ a → a < i ∧ whole_free (s.hugepages i)

/-- The address `x` is a frame that lies inside the 2 MiB region of
descriptor `i`: a page-aligned address of the region. -/
def frame_of (i x : Nat) : Prop :=
  x % PGSIZE = 0 ∧ HUGEPAGEADDR i ≤ x ∧ x < HUGEPAGEADDR i + HUGEPGSIZE

instance (i x : Nat) : Decidable (frame_of i x) := by
  unfold frame_of; infer_instance

/-- A call of the 4 KiB interface of the allocator. -/
inductive kop where
  | alloc : kop
  | free : Nat → kop
deriving DecidableEq, Repr

/-- A run of calls of `kalloc` and `kfree` from a state `s` in which the frames
of `live` are allocated.  A frame that `kalloc` returns becomes live; `kfree`
is applied only to a live frame, which then is live no more.  The result is
`none` when a call panics or a frame that is not live is freed. -/
def run (kernel_end : Nat) : List kop → kstate × List Nat → Option (kstate × List Nat)
  | [], c => some c
  | kop.alloc :: ops, (s, live) =>
    match kalloc s with
    | none => none
    | some (r, s1) => run kernel_end ops (s1, if r = 0 then live else r :: live)
  | kop.free pa :: ops, (s, live) =>
    if pa ∈ live then
      match kfree kernel_end pa s with
      | none => none
      | some s1 => run kernel_end ops (s1, live.erase pa)
    else none

/-- The free list of descriptor `i` is a chain without duplicates of frames of
the region of `i`, none of which is live. -/
def free_list_ok (s : kstate) (live : List Nat) (i : Nat) : Prop :=
  ∃ l : List Nat, is_chain s.mem (s.hugepages i).freelist l ∧ l.Nodup ∧
    (∀ x, x ∈ l → frame_of i x) ∧ (∀ x, x ∈ l → x ∉ live)

/-- The invariant of a run: every free list is well formed and holds no live
frame, and the live frames are distinct frames of the descriptors. -/
def alloc_inv (s : kstate) (live : List Nat) : Prop :=
  (∀ i, i < MAXHUGEPGS → free_list_ok s live i) ∧ live.Nodup ∧
    ∀ x, x ∈ live → ∃ i, i < MAXHUGEPGS ∧ frame_of i x

/-- A present leaf: a valid entry that is not a pointer to a table (the test
`PTE_FLAGS(*pte) == PTE_V` of `munmap` and `walkfind`). -/
def present_leaf (e : Nat) : Prop := e &&& PTE_V ≠ 0 ∧ PTE_FLAGS e ≠ PTE_V

instance (e : Nat) : Decidable (present_leaf e) := by
  unfold present_leaf
  exact inferInstance

/-- The entry of `va` that `walk` (for a 4 KiB page) or `hugewalk` (for a 2 MiB
page) reaches in `mem` without allocating: the level-0 or level-1 entry, or 0
when an entry above it is not valid. -/
def leaf_slot (mem : Memory) (pagetable va : Nat) (is_huge : Bool) : Nat :=
  if mem (pte_addr pagetable (PX 2 va)) &&& PTE_V ≠ 0 then
    if is_huge then pte_addr (PTE2PA (mem (pte_addr pagetable (PX 2 va)))) (PX 1 va)
    else if mem (pte_addr (PTE2PA (mem (pte_addr pagetable (PX 2 va)))) (PX 1 va)) &&& PTE_V ≠ 0
    then
      pte_addr
        (PTE2PA (mem (pte_addr (PTE2PA (mem (pte_addr pagetable (PX 2 va)))) (PX 1 va))))
        (PX 0 va)
    else 0
  else 0

/-- The entries above the leaf that the walk to the entry of `va` reads: the
level-2 entry, and for a 4 KiB page the level-1 entry. -/
def path_words (mem : Memory) (pagetable va : Nat) (is_huge : Bool) : List Nat :=
  if is_huge then [pte_addr pagetable (PX 2 va)]
  else [pte_addr pagetable (PX 2 va),
        pte_addr (PTE2PA (mem (pte_addr pagetable (PX 2 va)))) (PX 1 va)]

/-- The word `x` lies in the frame of `size` bytes at `pa`. -/
def in_frame (pa size x : Nat) : Prop := pa ≤ x ∧ x < pa + size

instance (pa size x : Nat) : Decidable (in_frame pa size x) := by
  unfold in_frame
  exact inferInstance

/-- The size of a page of a mapping. -/
def page_size (is_huge : Bool) : Nat := if is_huge then HUGEPGSIZE else PGSIZE

/-- The `n` pages `a`, `a + step`, ... that the loop of `munmap` visits. -/
def region_pages (step : Nat) : Nat → Nat → List Nat
  | 0, _ => []
  | n + 1, a => a :: region_pages step n (a + step)

/-- The pages of a Region are mapped by a well-formed page table: every page is
below `MAXVA` and its entry is found and is a present leaf; different pages
have different entries; no entry of a page is read as a table entry on the way
to a page; and, when the frames are freed (`is_idle`), no frame of a page
holds an entry of a page or a table entry on the way to one. -/
def region_ok (mem : Memory) (pagetable : Nat) (is_huge is_idle : Bool) (pages : List Nat) :
    Prop :=
  (∀ v ∈ pages, v < MAXVA ∧ leaf_slot mem pagetable v is_huge ≠ 0 ∧
    present_leaf (mem (leaf_slot mem pagetable v is_huge))) ∧
  pages.Pairwise
    (fun u v => leaf_slot mem pagetable u is_huge ≠ leaf_slot mem pagetable v is_huge) ∧
  (∀ u ∈ pages, ∀ v ∈ pages,
    leaf_slot mem pagetable u is_huge ∉ path_words mem pagetable v is_huge) ∧
  (is_idle = true → ∀ u ∈ pages, ∀ v ∈ pages,
    ∀ w ∈ leaf_slot mem pagetable v is_huge :: path_words mem pagetable v is_huge,
      ¬ in_frame (PTE2PA (mem (leaf_slot mem pagetable u is_huge))) (page_size is_huge) w)

/-- Whether the Region is mapped with 2 MiB pages (`is_huge` of `munmap`). -/
def region_huge (area : vm_area) : Bool := decide (area.options &&& MAP_HUGEPAGE ≠ 0)

/-- The pages that `munmap` visits for the Region: from `start` to the page of
`start + length - 1`, as the function computes them. -/
def covered_pages (area : vm_area) : List Nat :=
  region_pages (page_size (region_huge area))
    (pages_between area.start
      (if region_huge area then HUGEPGROUNDDOWN (u64 (area.start + area.length + (2 ^ 64 - 1)))
       else PGROUNDDOWN (u64 (area.start + area.length + (2 ^ 64 - 1))))
      (page_size (region_huge area)))
    area.start

/-- A descriptor all of whose frames are in use as 4 KiB frames: not
allocated-whole, with the count 0. -/
def exhausted (e : hugepage_entry) : Prop := e.hugealloced = 0 ∧ e.freecount = 0

instance (e : hugepage_entry) : Decidable (exhausted e) := by
  unfold exhausted; infer_instance

/-- Exactly one of four propositions holds. -/
def exactly_one (a b c d : Prop) : Prop :=
  (a ∧ ¬ b ∧ ¬ c ∧ ¬ d) ∨ (¬ a ∧ b ∧ ¬ c ∧ ¬ d) ∨ (¬ a ∧ ¬ b ∧ c ∧ ¬ d) ∨
    (¬ a ∧ ¬ b ∧ ¬ c ∧ d)

/-- A call of the allocator. -/
inductive aop where
  | alloc : aop
  | free : Nat → aop
  | alloc_huge : aop
  | free_huge : Nat → aop
deriving DecidableEq, Repr

/-- A run of calls of the allocator from a state `s` in which the 4 KiB frames
of `live` are allocated.  A frame that `kalloc` returns becomes live; `kfree`
is applied only to a live frame, which then is live no more; `kfree_huge`
panics unless the descriptor is allocated-whole.  The result is `none` when a
call panics, when a frame that is not live is freed, and when `kalloc` hands
out an address that is not null and not in the managed memory: the `memset` of
`kalloc` on such an address traps. -/
def arun (kernel_end : Nat) : List aop → kstate × List Nat → Option (kstate × List Nat)
  | [], c => some c
  | aop.alloc :: ops, (s, live) =>
    match kalloc s with
    | none => none
    | some (r, s1) =>
      if r = 0 then arun kernel_end ops (s1, live)
      else if KERNBASE ≤ r ∧ r < PHYSTOP then arun kernel_end ops (s1, r :: live)
      else none
  | aop.free pa :: ops, (s, live) =>
    if pa ∈ live then
      match kfree kernel_end pa s with
      | none => none
      | some s1 => arun kernel_end ops (s1, live.erase pa)
    else none
  | aop.alloc_huge :: ops, (s, live) => arun kernel_end ops ((kalloc_huge s).2, live)
  | aop.free_huge pa :: ops, (s, live) =>
    match kfree_huge kernel_end pa s with
    | none => none
    | some s1 => arun kernel_end ops (s1, live)

/-- The chain of `struct run` nodes that starts at `head` visits the addresses
of `l`, in this order, and ends at the pointer `t`. -/
def chain_to (mem : Memory) (t : Nat) : Nat → List Nat → Prop
  | head, [] => head = t
  | head, x :: l => head = x ∧ chain_to mem t (mem x) l

/-- The pointer `t` is null or not an address of the managed memory. -/
def outside_memory (t : Nat) : Prop := t = 0 ∨ t < KERNBASE ∨ PHYSTOP ≤ t

/-- The free list of descriptor `i` is a chain without duplicates of frames of
the region of `i`, none of which is live, that ends at a pointer that is null
or outside the managed memory (the fill pattern that `kalloc_huge` and
`kfree_huge` write over the links). -/
def list_ok (s : kstate) (live : List Nat) (i : Nat) : Prop :=
  ∃ (l : List Nat) (t : Nat), chain_to s.mem t (s.hugepages i).freelist l ∧
    outside_memory t ∧ l.Nodup ∧ (∀ x, x ∈ l → frame_of i x) ∧ (∀ x, x ∈ l → x ∉ live)

/-- The number of live frames of the region of descriptor `i`. -/
def live_in (live : List Nat) (i : Nat) : Int :=
  ((live.filter (fun x => decide (HUGEPGINDEX x = i))).length : Int)

/-- The invariant of a run of the allocator: every free list is well formed,
the count of a descriptor is not negative, the count and the number of live
frames of a descriptor are together at most `PGINHUGEPG`, and the live frames
are distinct frames of the descriptors. -/
def count_inv (s : kstate) (live : List Nat) : Prop :=
  (∀ i, i < MAXHUGEPGS → list_ok s live i ∧ 0 ≤ (s.hugepages i).freecount ∧
    (s.hugepages i).freecount + live_in live i ≤ PGINHUGEPG) ∧
  live.Nodup ∧ ∀ x, x ∈ live → ∃ i, i < MAXHUGEPGS ∧ frame_of i x

/-- The invariant of the loop of `freerange` before the frame `p` is freed:
every free list is a null-terminated chain without duplicates of frames of its
region below `p`, and the count of a descriptor is not negative, at most
`PGINHUGEPG`, and at most the number of frames of its region below `p`. -/
def free_below (p : Nat) (s : kstate) : Prop :=
  ∀ i, i < MAXHUGEPGS →
    (∃ l : List Nat, chain_to s.mem 0 (s.hugepages i).freelist l ∧ l.Nodup ∧
      ∀ x, x ∈ l → frame_of i x ∧ x < p) ∧
    0 ≤ (s.hugepages i).freecount ∧ (s.hugepages i).freecount ≤ PGINHUGEPG ∧
    (s.hugepages i).freecount * 4096 ≤ ((p - HUGEPAGEADDR i : Nat) : Int)

/-- The invariant of the allocator with the frames of `live` in use
(`alloc_inv`), where moreover every frame, live or on a free list, lies at or
above `kernel_end`, so that `kfree` accepts it. -/
def kinv (kernel_end : Nat) (s : kstate) (live : List Nat) : Prop :=
  alloc_inv s live ∧ (∀ x, x ∈ live → kernel_end ≤ x) ∧
  ∀ i, i < MAXHUGEPGS → ∀ l, is_chain s.mem (s.hugepages i).freelist l →
    ∀ x, x ∈ l → kernel_end ≤ x

/-- The frames of `L` are distinct and page-aligned. -/
def frames_apart (L : List Nat) : Prop := L.Nodup ∧ ∀ f, f ∈ L → f % PGSIZE = 0

/-- The frame `x` is on the free list of a descriptor. -/
def on_free_list (s : kstate) (x : Nat) : Prop :=
  ∃ i l, i < MAXHUGEPGS ∧ is_chain s.mem (s.hugepages i).freelist l ∧ x ∈ l

/-- The level-1 entry of `va` in the table that the level-2 entry of `va` in
the root `pagetable` points to. -/
def l1_word (mem : Memory) (pagetable va : Nat) : Nat :=
  pte_addr (PTE2PA (mem (pte_addr pagetable (PX 2 va)))) (PX 1 va)

/-- The level-0 entry of `va` in the table that its level-1 entry points
to. -/
def l0_word (mem : Memory) (pagetable va : Nat) : Nat :=
  pte_addr (PTE2PA (mem (l1_word mem pagetable va))) (PX 0 va)

/-- The walk to the page `va` in the table `new` goes through valid entries:
the level-2 entry points to a table of `T1` and the level-1 entry to a table of
`T0`. -/
def path_ok (mem : Memory) (new : Nat) (T1 T0 : List Nat) (va : Nat) : Prop :=
  va < MAXVA ∧
  mem (pte_addr new (PX 2 va)) &&& PTE_V ≠ 0 ∧
  PTE2PA (mem (pte_addr new (PX 2 va))) ∈ T1 ∧
  mem (l1_word mem new va) &&& PTE_V ≠ 0 ∧
  PTE2PA (mem (l1_word mem new va)) ∈ T0

/-- The page `p.1` is mapped in `new` by a present leaf to the frame `p.2`. -/
def page_mapped (mem : Memory) (new : Nat) (T1 T0 : List Nat) (p : Nat × Nat) : Prop :=
  path_ok mem new T1 T0 p.1 ∧ present_leaf (mem (l0_word mem new p.1)) ∧
  PTE2PA (mem (l0_word mem new p.1)) = p.2

/-- The leaf entry of the page `va` in `new` is reached and holds 0. -/
def page_cleared (mem : Memory) (new : Nat) (T1 T0 : List Nat) (va : Nat) : Prop :=
  path_ok mem new T1 T0 va ∧ mem (l0_word mem new va) = 0

/-- The page table `new` while `uvmcopy` fills and empties it, in the memory
`mem` that started as `mem0` with the frames of `live0` in use: the frames of
`live0` other than the root `new` hold what they held; an entry of the root
that changed points to a table of `T1`; a valid entry of a table of `T1` points
to a table of `T0`; the pages of `M` are mapped to their frames, by leaf
entries that differ; and the pages of `C` are cleared. -/
structure tables_inv (new : Nat) (mem0 mem : Memory) (live0 T1 T0 : List Nat)
    (M : List (Nat × Nat)) (C : List Nat) : Prop where
  old : ∀ f, f ∈ live0 → f ≠ new → ∀ x, in_frame f PGSIZE x → mem x = mem0 x
  root : ∀ x, in_frame new PGSIZE x → mem x ≠ mem0 x → PTE2PA (mem x) ∈ T1
  l1 : ∀ t, t ∈ T1 → ∀ x, in_frame t PGSIZE x → mem x &&& PTE_V ≠ 0 → PTE2PA (mem x) ∈ T0
  pages : ∀ p, p ∈ M → page_mapped mem new T1 T0 p
  slots : M.Pairwise (fun a b => l0_word mem new a.1 ≠ l0_word mem new b.1)
  cleared : ∀ va, va ∈ C → page_cleared mem new T1 T0 va

/-- The frames in use while `uvmcopy` runs: the frames `X` just allocated,
the frames of the pages of `M`, the tables of `T0` and `T1`, and the frames
`live0` that were in use before. -/
def copy_live (X : List Nat) (M : List (Nat × Nat)) (T1 T0 live0 : List Nat) : List Nat :=
  X ++ (M.map Prod.snd ++ (T0 ++ (T1 ++ live0)))

/-- The invariant of `uvmcopy`: the allocator is well formed with the frames of
`copy_live` in use, the root `new` is one of the frames that were in use
before, the table `new` is as `tables_inv` says, and the count of free frames
has gone down by the number of frames taken. -/
def copy_inv (kernel_end new : Nat) (mem0 : Memory) (live0 : List Nat) (f0 : Int)
    (s : kstate) (X : List Nat) (M : List (Nat × Nat)) (T1 T0 : List Nat) (C : List Nat) :
    Prop :=
  kinv kernel_end s (copy_live X M T1 T0 live0) ∧ new ∈ live0 ∧
  tables_inv new mem0 s.mem live0 T1 T0 M C ∧
  s.freemem = f0 - ((copy_live X M T1 T0 []).length : Int)

/-- A page of the table `old`: its address is below `MAXVA`, its leaf entry is
found and is a present leaf, and the entries of its walk lie in frames in use
other than the root of `new`. -/
def old_page (mem : Memory) (old new : Nat) (live0 : List Nat) (va : Nat) : Prop :=
  va < MAXVA ∧ leaf_slot mem old va false ≠ 0 ∧
  present_leaf (mem (leaf_slot mem old va false)) ∧
  ∀ w, w ∈ leaf_slot mem old va false :: path_words mem old va false →
    ∃ f, f ∈ live0 ∧ f ≠ new ∧ in_frame f PGSIZE w

/-- A pointer to a table: a valid entry whose flags are `V` alone (the test
`PTE_FLAGS(*pte) == PTE_V` of `walkfind`). -/
def table_pointer (e : Nat) : Prop := e &&& PTE_V ≠ 0 ∧ PTE_FLAGS e = PTE_V

instance (e : Nat) : Decidable (table_pointer e) := by
  unfold table_pointer
  exact inferInstance

/-- The step of `walk` installed the table `t` at the entry `x`, from the state
`s` with the frames of `live` in use to the state `s1`: the frame `t` was not
in use, is page-aligned and not null; the entry holds `PA2PTE(t) | PTE_V`; the
words of `t` other than `x` hold 0; every other word is as before; and `t`
overlaps no frame that was in use. -/
structure installed (s s1 : kstate) (live : List Nat) (x t : Nat) : Prop where
  fresh : t ∉ live
  aligned : t % PGSIZE = 0
  nonzero : t ≠ 0
  entry : s1.mem x = PA2PTE t ||| PTE_V
  zero : ∀ y, y ≠ x → in_frame t PGSIZE y → s1.mem y = 0
  same : ∀ y, y ≠ x → ¬ in_frame t PGSIZE y → s1.mem y = s.mem y
  apart : ∀ g, g ∈ live → ∀ y, in_frame g PGSIZE y → ¬ in_frame t PGSIZE y

/-- The predicate on the free lists: for every descriptor, the count is the
number of frames on the free list, a null-terminated chain, and every frame on
the list is page-aligned and lies in the region of the descriptor. -/
def lists_in_region (s : kstate) : Prop :=
  ∀ i, i < MAXHUGEPGS → ∃ l : List Nat, is_chain s.mem (s.hugepages i).freelist l ∧
    (s.hugepages i).freecount = (l.length : Int) ∧ ∀ x, x ∈ l → frame_of i x

/-- The number of the slots `i`, ..., `i + n - 1` that are not `NULL`. -/
def slots_used (m : Nat → Option Nat) : Nat → Nat → Int
  | 0, _ => 0
  | n + 1, i => (if m i = none then 0 else 1) + slots_used m n (i + 1)

/-- The bookkeeping of the slots of a process: `mmap_count` is the number of
the slots that are not `NULL`, and is at most `MMAP_PROC_MAX`. -/
def slots_ok (p : proc) : Prop :=
  p.mmap_count = slots_used p.mmap MMAP_PROC_MAX 0 ∧ p.mmap_count ≤ (MMAP_PROC_MAX : Int)

instance (p : proc) : Decidable (slots_ok p) := by
  unfold slots_ok; infer_instance

/-- An entry with at least one of the bits R, W and X. -/
def has_rwx (e : Nat) : Prop := e &&& (PTE_R ||| PTE_W ||| PTE_X) ≠ 0

/-- The entries that the kernel stores in a page table: the cleared entry 0
(`memset` of a new table, `*pte = 0`), a pointer to a table, whose flags are
`V` alone (`walk`, `hugewalk`), and a valid leaf with at least one of R, W and
X (`flexmappages` and the fault handlers set R, and every call of `mappages`
passes R in `perm`). -/
def built_entry (e : Nat) : Prop :=
  e = 0 ∨ table_pointer e ∨ (e &&& PTE_V ≠ 0 ∧ has_rwx e)

instance (e : Nat) : Decidable (has_rwx e) := by
  unfold has_rwx
  infer_instance

instance (e : Nat) : Decidable (built_entry e) := by
  unfold built_entry
  infer_instance

/-! ## Example states -/

/-- An example state: descriptor 0 is split with the one free frame
`0x80100000`, descriptor 1 is allocated-whole, descriptor 2 is split with the
two free frames `0x80400000` and `0x80401000`, and the other descriptors have
no free frame. -/
def example_state : kstate :=
  { mem := fun a => if a = 0x80400000 then 0x80401000 else 0,
    hugepages := fun i =>
      if i = 0 then ⟨0x80100000, 1, 0⟩
      else if i = 1 then ⟨0, 0, 1⟩
      else if i = 2 then ⟨0x80400000, 2, 0⟩
      else ⟨0, 0, 0⟩,
    freemem := 3, used4k := 100, used2m := 1 }

/-- A state with an over-full descriptor: the chain of descriptor 2 links the
513 frames `0x80400000`, `0x80401000`, ..., `0x80600000` and its count is 513;
descriptor 3 is split with the one free frame `0x80700000`; the other
descriptors have no free frame. -/
def overfull_state : kstate :=
  { mem := fun a => if 0x80400000 ≤ a ∧ a < 0x80600000 then a + 4096 else 0,
    hugepages := fun i =>
      if i = 2 then ⟨0x80400000, 513, 0⟩
      else if i = 3 then ⟨0x80700000, 1, 0⟩
      else ⟨0, 0, 0⟩,
    freemem := 514, used4k := 32254, used2m := 0 }

/-- A state without a free frame: descriptor 1 is allocated-whole and the
count of every other descriptor is 0. -/
def exhausted_state : kstate :=
  { mem := fun _ => 0,
    hugepages := fun i => if i = 1 then ⟨0, 0, 1⟩ else ⟨0, 0, 0⟩,
    freemem := 0, used4k := 32256, used2m := 1 }

/-- A state with two whole-free descriptors, 2 and 3: the chain of each links
its 512 constituent frames in ascending order.  Descriptor 0 is split with one
free frame, descriptor 1 is allocated-whole and the other descriptors have no
free frame. -/
def fresh_state : kstate :=
  { mem := fun a =>
      if 0x80400000 ≤ a ∧ a < 0x80800000 ∧ (a + 4096) % 2097152 ≠ 0 then a + 4096 else 0,
    hugepages := fun i =>
      if i = 0 then ⟨0x80100000, 1, 0⟩
      else if i = 1 then ⟨0, 0, 1⟩
      else if i = 2 then ⟨0x80400000, 512, 0⟩
      else if i = 3 then ⟨0x80600000, 512, 0⟩
      else ⟨0, 0, 0⟩,
    freemem := 1025, used4k := 31231, used2m := 1 }

/-- An address space with a touched private huge mapping.  The root table is
the frame `0x87000000`; its entry 4 points to the level-1 table `0x87001000`,
whose entry 0 is a leaf that maps the 2 MiB page at the virtual address
`0x100000000` to the huge frame `0x80400000`, valid, user, readable and
writable.  The mapped frame holds zeros.  The allocator has no free frame. -/
def huge_mapped_state : kstate :=
  { mem := fun a =>
      if a = 0x87000020 then PA2PTE 0x87001000 ||| PTE_V
      else if a = 0x87001000 then
        PA2PTE 0x80400000 ||| PTE_V ||| PTE_U ||| PTE_R ||| PTE_W
      else 0,
    hugepages := fun i => if i = 2 ∨ i = 63 then ⟨0, 0, 1⟩ else ⟨0, 0, 0⟩,
    freemem := 0, used4k := 31744, used2m := 2 }

/-- The memory of a process whose page table has the root `0x87000000`, the
level-1 table `0x87001000` for the addresses from `0x100000000` and the level-0
table `0x87002000` for the 2 MiB from `0x100000000`; `e0` and `e1` are the
entries of the pages `0x100000000` and `0x100001000`.  Every other word is 0. -/
def table_mem (e0 e1 : Nat) : Memory := fun a =>
  if a = 0x87000020 then PA2PTE 0x87001000 ||| PTE_V
  else if a = 0x87001000 then PA2PTE 0x87002000 ||| PTE_V
  else if a = 0x87002000 then e0
  else if a = 0x87002008 then e1
  else 0

/-- The allocator over `mem` as `kinit` leaves the descriptor of the Zero Frame
(`freerange` has pushed its 512 frames, the last one `0x87FFF000`, then
`hugealloced` is set and the frame zeroed), with every other frame in use. -/
def booted_kstate (mem : Memory) : kstate :=
  { mem := mem,
    hugepages := fun i => if i = 63 then ⟨0x87FFF000, 512, 1⟩ else ⟨0, 0, 0⟩,
    freemem := 0, used4k := 32256, used2m := 1 }

/-- A process with an empty page `0x100000000` and `0x100001000` and without
Regions; every Region of the global table is invalid. -/
def no_region_state : kernel_state :=
  { k := booted_kstate (table_mem 0 0),
    mmap_areas := fun _ => ⟨0, 0, 0, 0, 0, 0, 0⟩,
    shared_pages := fun _ => ⟨0, 0, 0, 0⟩,
    pagefaults := 0,
    p := { pagetable := 0x87000000, mmap := fun _ => none, mmap_count := 0, killed := 0 } }

/-- A process with one private writable Region of 100 bytes at `0x100001000`,
in slot 0, its page backed by the frame `0x80100000`; the page `0x100000000` is
not mapped. -/
def one_region_state : kernel_state :=
  { k := booted_kstate
      (table_mem 0 (PA2PTE 0x80100000 ||| PTE_V ||| PTE_U ||| PTE_R ||| PTE_W)),
    mmap_areas := fun i =>
      if i = 0 then ⟨0, 1, 0x100001000, 0x100001064, 100, PROT_WRITE ||| MAP_PRIVATE, 0⟩
      else ⟨0, 0, 0, 0, 0, 0, 0⟩,
    shared_pages := fun _ => ⟨0, 0, 0, 0⟩,
    pagefaults := 0,
    p := { pagetable := 0x87000000, mmap := fun i => if i = 0 then some 0 else none,
           mmap_count := 1, killed := 0 } }

/-- A process without Regions while every Region of the global table is valid
(the Regions of other processes, at `0x200000000`). -/
def full_table_state : kernel_state :=
  { k := booted_kstate (table_mem 0 0),
    mmap_areas := fun i =>
      ⟨(i : Int), 1, 0x200000000, 0x200000064, 100, PROT_WRITE ||| MAP_PRIVATE, 0⟩,
    shared_pages := fun _ => ⟨0, 0, 0, 0⟩,
    pagefaults := 0,
    p := { pagetable := 0x87000000, mmap := fun _ => none, mmap_count := 0, killed := 0 } }

/-- A process with one private writable Region of two 4 KiB pages at
`0x100000000`, in slot 0, its pages backed by the frames `0x80100000` and
`0x80101000`. -/
def two_page_state : kernel_state :=
  { k := booted_kstate
      (table_mem (PA2PTE 0x80100000 ||| PTE_V ||| PTE_U ||| PTE_R ||| PTE_W)
        (PA2PTE 0x80101000 ||| PTE_V ||| PTE_U ||| PTE_R ||| PTE_W)),
    mmap_areas := fun i =>
      if i = 0 then ⟨0, 1, 0x100000000, 0x100002000, 8192, PROT_WRITE ||| MAP_PRIVATE, 0⟩
      else ⟨0, 0, 0, 0, 0, 0, 0⟩,
    shared_pages := fun _ => ⟨0, 0, 0, 0⟩,
    pagefaults := 0,
    p := { pagetable := 0x87000000, mmap := fun i => if i = 0 then some 0 else none,
           mmap_count := 1, killed := 0 } }

/-- The state in which `munmap(0x100000000)` leaves `two_page_state`. -/
def two_page_unmapped : kernel_state :=
  match munmap 0x80021000 0x100000000 two_page_state with
  | some (_, t) => t
  | none => two_page_state

/-- A process with one shared writable Region of 100 bytes at `0x100000000`,
in slot 0, its page backed by the frame `0x80021000`, whose Shared-Frame
Record (index `PGINDEX(0x80021000)`, 33) has the reference count `n` and
caches the entry of the page.  The Region is entry 1 of the global table. -/
def shared_state (n : Int) : kernel_state :=
  { k := booted_kstate
      (table_mem (PA2PTE 0x80021000 ||| PTE_V ||| PTE_U ||| PTE_R ||| PTE_W) 0),
    mmap_areas := fun i =>
      if i = 1 then ⟨1, 1, 0x100000000, 0x100000064, 100, PROT_WRITE ||| MAP_SHARED, 0⟩
      else ⟨0, 0, 0, 0, 0, 0, 0⟩,
    shared_pages := fun i =>
      if i = 33 then
        ⟨1, 0x100000000, n, PA2PTE 0x80021000 ||| PTE_V ||| PTE_U ||| PTE_R ||| PTE_W⟩
      else ⟨0, 0, 0, 0⟩,
    pagefaults := 0,
    p := { pagetable := 0x87000000, mmap := fun i => if i = 0 then some 1 else none,
           mmap_count := 1, killed := 0 } }

/-- The allocator over `mem` after boot, with three free frames left:
descriptor 0 is split and its chain links `0x80021000`, `0x80022000` and
`0x80023000`; the descriptor of the Zero Frame is as `kinit` leaves it. -/
def roomy_kstate (mem : Memory) : kstate :=
  { mem := fun a =>
      if a = 0x80021000 then 0x80022000
      else if a = 0x80022000 then 0x80023000
      else if a = 0x80023000 then 0
      else mem a,
    hugepages := fun i =>
      if i = 0 then ⟨0x80021000, 3, 0⟩
      else if i = 63 then ⟨0x87FFF000, 512, 1⟩ else ⟨0, 0, 0⟩,
    freemem := 3, used4k := 32253, used2m := 1 }

/-- A process without Regions, with the pages `0x100000000` and `0x100001000`
empty, while the allocator has three free frames. -/
def roomy_state : kernel_state :=
  { k := roomy_kstate (table_mem 0 0),
    mmap_areas := fun _ => ⟨0, 0, 0, 0, 0, 0, 0⟩,
    shared_pages := fun _ => ⟨0, 0, 0, 0⟩,
    pagefaults := 0,
    p := { pagetable := 0x87000000, mmap := fun _ => none, mmap_count := 0, killed := 0 } }

/-- The state after a call of `mmap` that returned, and `s` for a call that
panicked. -/
def state_after (r : Option (Nat × kernel_state)) (s : kernel_state) : kernel_state :=
  match r with
  | some (_, t) => t
  | none => s

/-- The state of `roomy_state` after `mmap(0x100000000, 100, PROT_READ,
MAP_PRIVATE)`: a private read-only Region whose page is lazily backed. -/
def private_ro_state : kernel_state :=
  state_after (mmap 0x100000000 100 PROT_READ MAP_PRIVATE roomy_state) roomy_state

/-- The state of `roomy_state` after `mmap(0x100000000, 100, PROT_WRITE,
MAP_PRIVATE)`: a private writable Region whose page is lazily backed. -/
def private_rw_state : kernel_state :=
  state_after (mmap 0x100000000 100 PROT_WRITE MAP_PRIVATE roomy_state) roomy_state

/-- The state after a call of `kalloc_flex` that returned, and `s` for a call
that panicked. -/
def kalloc_flex_state (is_huge : Bool) (s : kstate) : kstate :=
  match kalloc_flex is_huge s with
  | some (_, k1) => k1
  | none => s

/-- A process after a duplication: a private writable Region of two pages at
`0x100000000` with `needs_cow` set, whose pages are mapped read-only to the
frames `0x80200000` and `0x80201000` of the other process; every word of the
two frames holds `0x1234`.  The allocator has three free frames. -/
def cow_state : kernel_state :=
  { k := roomy_kstate (fun a =>
      if 0x80200000 ≤ a ∧ a < 0x80202000 then 0x1234
      else table_mem (PA2PTE 0x80200000 ||| PTE_V ||| PTE_U ||| PTE_R)
        (PA2PTE 0x80201000 ||| PTE_V ||| PTE_U ||| PTE_R) a),
    mmap_areas := fun i =>
      if i = 0 then ⟨0, 1, 0x100000000, 0x100002000, 8192, PROT_WRITE ||| MAP_PRIVATE, 1⟩
      else ⟨0, 0, 0, 0, 0, 0, 0⟩,
    shared_pages := fun _ => ⟨0, 0, 0, 0⟩,
    pagefaults := 0,
    p := { pagetable := 0x87000000, mmap := fun i => if i = 0 then some 0 else none,
           mmap_count := 1, killed := 0 } }

/-- The state of `no_region_state` after `mmap(0x100000000, -1, PROT_WRITE,
MAP_PRIVATE)` and `mmap(0x100001000, 100, PROT_WRITE, MAP_PRIVATE)`, which both
return their address: slot 0 holds a Region that ends below its start, slot 1
the Region of the page `0x100001000`. -/
def two_mappings_state : kernel_state :=
  state_after
    (mmap 0x100001000 100 PROT_WRITE MAP_PRIVATE
      (state_after (mmap 0x100000000 (-1) PROT_WRITE MAP_PRIVATE no_region_state)
        no_region_state))
    no_region_state

/-- The state of `roomy_state` after `mmap(0x100000000, 8192, PROT_WRITE,
MAP_SHARED)`: a shared writable Region of two lazily backed pages. -/
def shared_two_page_state : kernel_state :=
  state_after (mmap 0x100000000 8192 PROT_WRITE MAP_SHARED roomy_state) roomy_state

/-- The state after `kinit` of a machine whose kernel image ends at
`0x87FFE000` and whose memory holds zeros: the two frames above the image lie
in the Zero Frame. -/
def tiny_boot_state : kstate :=
  match kinit 0x87FFE000 (boot_state (fun _ => 0)) with
  | some s => s
  | none => boot_state (fun _ => 0)

/-- A state before `fork` copies an address space of two pages: the table
`old` has its root at `0x87000000`, a table of level 1 at `0x87001000` and a
table of level 0 at `0x87002000`, which maps the pages 0 and `0x1000` to the
frames `0x80200000` and `0x80201000`; the root of `new` at `0x87010000` is
empty; and three frames are free, `0x80021000`, `0x80022000` and
`0x80023000`, on the list of descriptor 0. -/
def fork_state : kstate :=
  { mem := fun a =>
      if a = 0x87000000 then PA2PTE 0x87001000 ||| PTE_V
      else if a = 0x87001000 then PA2PTE 0x87002000 ||| PTE_V
      else if a = 0x87002000 then PA2PTE 0x80200000 ||| PTE_V ||| PTE_U ||| PTE_R ||| PTE_W
      else if a = 0x87002008 then PA2PTE 0x80201000 ||| PTE_V ||| PTE_U ||| PTE_R ||| PTE_W
      else if 0x80200000 ≤ a ∧ a < 0x80202000 then 0x1234
      else if a = 0x80021000 then 0x80022000
      else if a = 0x80022000 then 0x80023000
      else 0,
    hugepages := fun i => if i = 0 then ⟨0x80021000, 3, 0⟩ else ⟨0, 0, 0⟩,
    freemem := 3, used4k := 6, used2m := 0 }

/-- The frames in use in `fork_state`: the three tables and the two frames of
`old`, and the root of `new`. -/
def fork_live : List Nat :=
  [0x87000000, 0x87001000, 0x87002000, 0x80200000, 0x80201000, 0x87010000]

/-- The state in which the loop of `uvmcopy` leaves at `err` from
`fork_state`. -/
def fork_err_state : kstate :=
  match uvmcopy_loop 0x80021000 0x87000000 0x87010000 2 0 fork_state with
  | some (_, s) => s
  | none => fork_state

/-- A memory that holds the entry `e2` in the word `0x87000020` (entry 4 of the
root `0x87000000`, the level-2 entry of the address `0x100000000`) and the
entry `e1` in the word `0x87001000`; every other word is 0. -/
def flag_mem (e2 e1 : Nat) : Memory := fun a =>
  if a = 0x87000020 then e2 else if a = 0x87001000 then e1 else 0

/-- An address space with a private huge mapping as `huge_mapped_state`, whose
mapped frame `0x80400000` holds user data: its first word is `d`. -/
def huge_data_state (d : Nat) : kstate :=
  { huge_mapped_state with
    mem := fun a => if a = 0x80400000 then d else huge_mapped_state.mem a }

/-- The state after a call of `kfree_huge` that returned, and `s` for a call
that panicked. -/
def kfree_huge_state (kernel_end pa : Nat) (s : kstate) : kstate :=
  match kfree_huge kernel_end pa s with
  | some s1 => s1
  | none => s

/-- The Region table of the examples of `share_vma`: the Region 0 is not valid
(it was dropped by the last `munmap` of a sharer) and the Regions 1 to 4 are
valid shared Regions. -/
def stale_areas : Nat → vm_area := fun i =>
  if i = 0 then ⟨0, 0, 0x100000000, 0x100000064, 100, PROT_WRITE ||| MAP_SHARED, 0⟩
  else if i ≤ 4 then
    ⟨(i : Int), 1, 0x100000000 + i * 0x1000, 0x100000064 + i * 0x1000, 100,
      PROT_WRITE ||| MAP_SHARED, 0⟩
  else ⟨0, 0, 0, 0, 0, 0, 0⟩

/-- A process whose slot 0 still points to the Region 0, which is not valid any
more, and whose other slots are `NULL`. -/
def stale_proc : proc :=
  { pagetable := 0x87000000, mmap := fun i => if i = 0 then some 0 else none,
    mmap_count := 1, killed := 0 }

/-- A process whose four slots are in use, slot 0 by the Region 0, which is not
valid any more. -/
def stale_full_proc : proc :=
  { pagetable := 0x87000000, mmap := fun i => if i < 4 then some i else none,
    mmap_count := 4, killed := 0 }

/-- The state `fresh_state` after its one split descriptor has been used up:
descriptor 0 is empty, descriptor 1 is allocated whole, descriptors 2 and 3 are
whole-free. -/
def whole_only_state : kstate :=
  { fresh_state with
    hugepages := fun i => if i = 0 then ⟨0, 0, 0⟩ else fresh_state.hugepages i }

/-- A sharer that has not touched its page: the state `shared_state 1`, in
which the fault of another sharer has made the record of the frame `0x80021000`
with count 1, while the leaf of the calling process is still the lazy mapping
of the Zero Frame that `mmap` stores. -/
def lazy_sharer_state : kernel_state :=
  { shared_state 1 with
    k := booted_kstate (table_mem (PA2PTE ZEROHUGEPG ||| PTE_U ||| PTE_R ||| PTE_V) 0) }

theorem first_from_none (P : Nat → Prop) [DecidablePred P] :
    ∀ n i, first_from P n i = none ↔ ∀ j, i ≤ j → j < i + n → ¬ P j := by
  intro n
  induction n with
  | zero =>
    intro i
    simp only [first_from, true_iff]
    intro j h1 h2
    omega
  | succ n ih =>
    intro i
    unfold first_from
    by_cases h : P i
    · simp only [h, if_true]
      constructor
      · intro hc
        cases hc
      · intro hall
        exact absurd h (hall i (Nat.le_refl i) (by omega))
    · simp only [h, if_false, ih]
      constructor
      · intro hall j h1 h2
        by_cases hj : j = i
        · subst hj
          exact h
        · exact hall j (by omega) (by omega)
      · intro hall j h1 h2
        exact hall j (by omega) (by omega)

theorem first_from_some (P : Nat → Prop) [DecidablePred P] :
    ∀ n i p, first_from P n i = some p ↔
      (i ≤ p ∧ p < i + n ∧ P p ∧ ∀ j, i ≤ j → j < p → ¬ P j) := by
  intro n
  induction n with
  | zero =>
    intro i p
    simp only [first_from]
    constructor
    · intro hc
      cases hc
    · rintro ⟨h1, h2, -, -⟩
      omega
  | succ n ih =>
    intro i p
    unfold first_from
    by_cases h : P i
    · simp only [h, if_true, Option.some.injEq]
      constructor
      · intro hip
        subst hip
        exact ⟨Nat.le_refl _, by omega, h, fun j h1 h2 => by omega⟩
      · rintro ⟨h1, -, -, h4⟩
        by_contra hne
        exact h4 i (Nat.le_refl i) (by omega) h
    · simp only [h, if_false, ih]
      constructor
      · rintro ⟨h1, h2, h3, h4⟩
        refine ⟨by omega, by omega, h3, ?_⟩
        intro j hj1 hj2
        by_cases hj : j = i
        · subst hj
          exact h
        · exact h4 j (by omega) hj2
      · rintro ⟨h1, h2, h3, h4⟩
        have hne : p ≠ i := by
          intro hpi
          subst hpi
          exact h h3
        exact ⟨by omega, by omega, h3, fun j hj1 hj2 => h4 j (by omega) hj2⟩

/-- The scanning loop of `kalloc` when no scanned descriptor is servable: it
runs to the end, pops nothing and remembers the first whole-free descriptor. -/
theorem kalloc_loop_none (mem : Memory) (hp : Nat → hugepage_entry) :
    ∀ n i fh, (∀ j, i ≤ j → j < i + n → ¬ servable (hp j)) →
      kalloc_loop mem n i hp fh =
        some (0, keep_first fh (first_from (fun j => whole_free (hp j)) n i), hp) := by
  intro n
  induction n with
  | zero =>
    intro i fh _
    cases fh <;> rfl
  | succ n ih =>
    intro i fh hall
    have hi := hall i (Nat.le_refl i) (by omega)
    have hrest : ∀ j, i + 1 ≤ j → j < i + 1 + n → ¬ servable (hp j) :=
      fun j h1 h2 => hall j (by omega) (by omega)
    unfold kalloc_loop first_from
    by_cases h1 : (hp i).hugealloced ≠ 0
    · have hw : ¬ whole_free (hp i) := fun hw => h1 hw.2
      rw [if_pos h1, if_neg hw]
      exact ih (i + 1) fh hrest
    · have h1' : (hp i).hugealloced = 0 := not_not.mp h1
      by_cases h2 : (hp i).freecount = PGINHUGEPG
      · have hw : whole_free (hp i) := ⟨h2, h1'⟩
        rw [if_neg h1, if_pos h2, if_pos hw, ih (i + 1) _ hrest]
        cases fh <;> rfl
      · have hw : ¬ whole_free (hp i) := fun hw => h2 hw.1
        have h3 : ¬ (hp i).freecount > 0 := fun h3 => hi ⟨h1', h3, h2⟩
        rw [if_neg h1, if_neg h2, if_neg h3, if_neg hw]
        exact ih (i + 1) fh hrest

/-- The scanning loop of `kalloc` when `p` is the first servable descriptor: it
pops the head of `p`, leaves at `p`, and remembers the first whole-free
descriptor below `p`. -/
theorem kalloc_loop_some (mem : Memory) (hp : Nat → hugepage_entry) :
    ∀ n i fh p, i ≤ p → p < i + n → servable (hp p) →
      (∀ j, i ≤ j → j < p → ¬ servable (hp j)) →
      kalloc_loop mem n i hp fh =
        (_pop_page mem (hp p)).map (fun re =>
          (re.1, keep_first fh (first_from (fun j => whole_free (hp j)) (p - i) i),
            set_entry hp p re.2)) := by
  intro n
  induction n with
  | zero =>
    intro i fh p h1 h2
    omega
  | succ n ih =>
    intro i fh p hip hpn hs hall
    by_cases hpi : p = i
    · subst hpi
      have e0 : p - p = 0 := Nat.sub_self p
      unfold kalloc_loop
      have h1 : ¬ (hp p).hugealloced ≠ 0 := not_not.mpr hs.1
      have h2 : ¬ (hp p).freecount = PGINHUGEPG := hs.2.2
      have h3 : (hp p).freecount > 0 := hs.2.1
      rw [if_neg h1, if_neg h2, if_pos h3, e0]
      cases hpop : _pop_page mem (hp p) with
      | none => rfl
      | some re =>
        cases fh <;> rfl
    · have hi : ¬ servable (hp i) := hall i (Nat.le_refl i) (by omega)
      have hrest : ∀ j, i + 1 ≤ j → j < p → ¬ servable (hp j) :=
        fun j h1 h2 => hall j (by omega) h2
      have e1 : p - i = (p - (i + 1)) + 1 := by omega
      have hip1 : i + 1 ≤ p := by omega
      have hpn1 : p < i + 1 + n := by omega
      rw [e1]
      unfold kalloc_loop first_from
      by_cases h1 : (hp i).hugealloced ≠ 0
      · have hw : ¬ whole_free (hp i) := fun hw => h1 hw.2
        rw [if_pos h1, if_neg hw]
        exact ih (i + 1) fh p hip1 hpn1 hs hrest
      · have h1' : (hp i).hugealloced = 0 := not_not.mp h1
        by_cases h2 : (hp i).freecount = PGINHUGEPG
        · have hw : whole_free (hp i) := ⟨h2, h1'⟩
          rw [if_neg h1, if_pos h2, if_pos hw, ih (i + 1) _ p hip1 hpn1 hs hrest]
          cases fh <;> rfl
        · have hw : ¬ whole_free (hp i) := fun hw => h2 hw.1
          have h3 : ¬ (hp i).freecount > 0 := fun h3 => hi ⟨h1', h3, h2⟩
          rw [if_neg h1, if_neg h2, if_neg h3, if_neg hw]
          exact ih (i + 1) fh p hip1 hpn1 hs hrest

theorem set_entry_self (hp : Nat → hugepage_entry) (p : Nat) :
    set_entry hp p (hp p) = hp := by
  funext j
  unfold set_entry
  by_cases h : j = p
  · rw [if_pos h, h]
  · rw [if_neg h]

theorem pop_page_null (mem : Memory) (e : hugepage_entry)
    (ha : e.hugealloced = 0) (hh : e.freelist = 0) :
    _pop_page mem e = some (0, e) := by
  unfold _pop_page
  rw [if_neg (not_not.mpr ha)]
  simp only [hh, ne_eq, not_true_eq_false, if_false]

theorem pop_page_head (mem : Memory) (e : hugepage_entry)
    (ha : e.hugealloced = 0) (hh : e.freelist ≠ 0) :
    _pop_page mem e =
      some (e.freelist, { e with freelist := mem e.freelist, freecount := e.freecount - 1 }) := by
  unfold _pop_page
  rw [if_neg (not_not.mpr ha)]
  simp only [hh, ne_eq, not_false_eq_true, if_true]

/-- The second and the last phase of `kalloc` after a loop that popped
nothing. -/
theorem kalloc_after_null (s : kstate) (b : Nat) :
    (match kalloc_split s.mem 0
        (keep_first none (first_from (fun j => whole_free (s.hugepages j)) b 0))
        s.hugepages with
      | none => none
      | some (r1, hp1) => some (r1, kalloc_finish s r1 hp1)) = some (fallback s b) := by
  unfold fallback keep_first kalloc_split
  cases hw : first_from (fun j => whole_free (s.hugepages j)) b 0 with
  | none =>
    simp only [kalloc_finish, ne_eq, not_true_eq_false, if_false]
  | some w =>
    have hwf : whole_free (s.hugepages w) :=
      ((first_from_some _ b 0 w).mp hw).2.2.1
    by_cases hh : (s.hugepages w).freelist = 0
    · simp only [pop_page_null s.mem _ hwf.2 hh, set_entry_self, kalloc_finish, hh, ne_eq,
        not_true_eq_false, if_false, if_true]
    · simp only [pop_page_head s.mem _ hwf.2 hh, kalloc_finish, hh, ne_eq,
        not_false_eq_true, if_false, if_true, served]

/-- The result of `kalloc` when `p` is the first servable descriptor and its chain is not
empty: the head of `p` is served. -/
theorem kalloc_servable (s : kstate) (p : Nat) (hp : p < MAXHUGEPGS)
    (hs : servable (s.hugepages p)) (hfirst : ∀ j, j < p → ¬ servable (s.hugepages j))
    (hh : (s.hugepages p).freelist ≠ 0) :
    kalloc s = some ((s.hugepages p).freelist, served s p) := by
  unfold kalloc
  rw [kalloc_loop_some s.mem s.hugepages MAXHUGEPGS 0 none p (Nat.zero_le p) (by omega) hs
    (fun j _ h2 => hfirst j h2), pop_page_head s.mem _ hs.1 hh]
  simp only [Option.map_some', kalloc_split]
  cases keep_first none (first_from (fun j => whole_free (s.hugepages j)) (p - 0) 0) <;>
    simp only [hh, if_false, kalloc_finish, ne_eq, not_false_eq_true, if_true, served]

/-- The result of `kalloc` when `p` is the first servable descriptor and its chain is empty:
the loop is left with a null `r`. -/
theorem kalloc_servable_null (s : kstate) (p : Nat) (hp : p < MAXHUGEPGS)
    (hs : servable (s.hugepages p)) (hfirst : ∀ j, j < p → ¬ servable (s.hugepages j))
    (hh : (s.hugepages p).freelist = 0) :
    kalloc s = some (fallback s p) := by
  unfold kalloc
  rw [kalloc_loop_some s.mem s.hugepages MAXHUGEPGS 0 none p (Nat.zero_le p) (by omega) hs
    (fun j _ h2 => hfirst j h2), pop_page_null s.mem _ hs.1 hh]
  simp only [Option.map_some', set_entry_self, Nat.sub_zero]
  exact kalloc_after_null s p

/-- The result of `kalloc` when no descriptor is servable. -/
theorem kalloc_no_servable (s : kstate)
    (hnone : ∀ j, j < MAXHUGEPGS → ¬ servable (s.hugepages j)) :
    kalloc s = some (fallback s MAXHUGEPGS) := by
  unfold kalloc
  rw [kalloc_loop_none s.mem s.hugepages MAXHUGEPGS 0 none
    (fun j _ h2 => hnone j (by omega))]
  exact kalloc_after_null s MAXHUGEPGS

/-! ## Frame accounting -/

theorem kalloc_finish_accounted (s : kstate) (r : Nat) (hp : Nat → hugepage_entry) :
    accounted (kalloc_finish s r hp) = accounted s := by
  unfold kalloc_finish accounted
  by_cases h : r ≠ 0
  · rw [if_pos h]
    simp only
    ring
  · rw [if_neg h]

/-- C1: every call of `kalloc`, `kfree`, `kalloc_huge` or `kfree_huge` that
returns leaves `freemem + used4k + PGINHUGEPG * used2m` unchanged. -/
theorem C1_frame_accounting (kernel_end pa : Nat) (s : kstate) :
    (∀ r s1, kalloc s = some (r, s1) → accounted s1 = accounted s) ∧
    (∀ s1, kfree kernel_end pa s = some s1 → accounted s1 = accounted s) ∧
    accounted (kalloc_huge s).2 = accounted s ∧
    (∀ s1, kfree_huge kernel_end pa s = some s1 → accounted s1 = accounted s) := by
  refine ⟨?_, ?_, ?_, ?_⟩
  · intro r s1 h
    unfold kalloc at h
    cases h1 : kalloc_loop s.mem MAXHUGEPGS 0 s.hugepages none with
    | none => rw [h1] at h; cases h
    | some res =>
      obtain ⟨r0, fh, hp⟩ := res
      rw [h1] at h
      simp only at h
      cases h2 : kalloc_split s.mem r0 fh hp with
      | none => rw [h2] at h; cases h
      | some res2 =>
        obtain ⟨r1, hp1⟩ := res2
        rw [h2] at h
        simp only [Option.some.injEq, Prod.mk.injEq] at h
        rw [← h.2]
        exact kalloc_finish_accounted s r1 hp1
  · intro s1 h
    unfold kfree at h
    by_cases hc : pa % PGSIZE ≠ 0 ∨ pa < kernel_end ∨ pa ≥ PHYSTOP
    · rw [if_pos hc] at h; cases h
    · rw [if_neg hc] at h
      simp only [Option.some.injEq] at h
      rw [← h]
      unfold accounted
      simp only
      ring
  · unfold kalloc_huge
    by_cases hc : (kalloc_huge_loop MAXHUGEPGS 0 s.hugepages).1 > -1
    · simp only [hc, if_true]
      unfold accounted
      simp only
      ring
    · simp only [hc, if_false]
      rfl
  · intro s1 h
    unfold kfree_huge at h
    by_cases hc : pa % HUGEPGSIZE ≠ 0 ∨ pa < kernel_end ∨ pa ≥ PHYSTOP
    · rw [if_pos hc] at h; cases h
    · rw [if_neg hc] at h
      simp only at h
      by_cases hc2 : ¬ (s.hugepages (HUGEPGINDEX pa)).hugealloced ≠ 0
      · rw [if_pos hc2] at h; cases h
      · rw [if_neg hc2] at h
        simp only [Option.some.injEq] at h
        rw [← h]
        unfold accounted
        simp only
        ring

/-- Witness of C1: in the example state `kalloc` serves the frame of
descriptor 0, `kfree` takes back `0x80101000`, and `kfree_huge` takes back the
huge frame of descriptor 1; the accounted quantity stays the same. -/
theorem C1_frame_accounting_witness :
    accounted (served example_state 0) = accounted example_state ∧
    (∀ s1, kfree 0x80021000 0x80101000 example_state = some s1 →
      accounted s1 = accounted example_state) ∧
    (kfree 0x80021000 0x80101000 example_state).isSome = true ∧
    (kfree_huge 0x80021000 0x80200000 example_state).isSome = true :=
  ⟨(C1_frame_accounting 0x80021000 0x80101000 example_state).1 0x80100000
      (served example_state 0)
      (kalloc_servable example_state 0 (by decide) (by decide)
        (fun j hj => absurd hj (Nat.not_lt_zero j)) (by decide)),
    (C1_frame_accounting 0x80021000 0x80101000 example_state).2.1,
    by decide, by decide⟩

/-! ## Which frame `kalloc` serves -/

/-- The two outcomes of `kalloc`: it returns null and changes nothing, or it
serves the head of the chain of a descriptor `p` that is the first servable
one, or a whole-free one with no servable and no whole-free descriptor below
it. -/
theorem kalloc_cases (s : kstate) :
    kalloc s = some (0, s) ∨
    ∃ p, p < MAXHUGEPGS ∧ (s.hugepages p).hugealloced = 0 ∧ (s.hugepages p).freelist ≠ 0 ∧
      ((servable (s.hugepages p) ∧ ∀ j, j < p → ¬ servable (s.hugepages j)) ∨
       (whole_free (s.hugepages p) ∧
          ∀ j, j < p → ¬ servable (s.hugepages j) ∧ ¬ whole_free (s.hugepages j))) ∧
      kalloc s = some ((s.hugepages p).freelist, served s p) := by
  have hfb : ∀ b, b ≤ MAXHUGEPGS → (∀ j, j < b → ¬ servable (s.hugepages j)) →
      kalloc s = some (fallback s b) →
      kalloc s = some (0, s) ∨
      ∃ p, p < MAXHUGEPGS ∧ (s.hugepages p).hugealloced = 0 ∧ (s.hugepages p).freelist ≠ 0 ∧
        ((servable (s.hugepages p) ∧ ∀ j, j < p → ¬ servable (s.hugepages j)) ∨
         (whole_free (s.hugepages p) ∧
            ∀ j, j < p → ¬ servable (s.hugepages j) ∧ ¬ whole_free (s.hugepages j))) ∧
        kalloc s = some ((s.hugepages p).freelist, served s p) := by
    intro b hb hnos hk
    unfold fallback at hk
    cases hw : first_from (fun j => whole_free (s.hugepages j)) b 0 with
    | none =>
      rw [hw] at hk
      exact Or.inl hk
    | some w =>
      rw [hw] at hk
      obtain ⟨-, hwb, hwf, hwfirst⟩ := (first_from_some _ b 0 w).mp hw
      by_cases hh : (s.hugepages w).freelist ≠ 0
      · simp only at hk
        rw [if_pos hh] at hk
        refine Or.inr ⟨w, by omega, hwf.2, hh, Or.inr ⟨hwf, ?_⟩, hk⟩
        intro j hj
        exact ⟨hnos j (by omega), hwfirst j (Nat.zero_le j) hj⟩
      · simp only at hk
        rw [if_neg hh] at hk
        exact Or.inl hk
  cases hs : first_from (fun j => servable (s.hugepages j)) MAXHUGEPGS 0 with
  | none =>
    have hnone := (first_from_none _ MAXHUGEPGS 0).mp hs
    have hnone1 : ∀ j, j < MAXHUGEPGS → ¬ servable (s.hugepages j) :=
      fun j hj => hnone j (Nat.zero_le j) (by omega)
    exact hfb MAXHUGEPGS (Nat.le_refl _) hnone1 (kalloc_no_servable s hnone1)
  | some p =>
    obtain ⟨-, hpb, hps, hpfirst⟩ := (first_from_some _ MAXHUGEPGS 0 p).mp hs
    have hpb1 : p < MAXHUGEPGS := by omega
    have hfirst1 : ∀ j, j < p → ¬ servable (s.hugepages j) :=
      fun j hj => hpfirst j (Nat.zero_le j) hj
    by_cases hh : (s.hugepages p).freelist ≠ 0
    · exact Or.inr ⟨p, hpb1, hps.1, hh, Or.inl ⟨hps, hfirst1⟩,
        kalloc_servable s p hpb1 hps hfirst1 hh⟩
    · exact hfb p (by omega) hfirst1
        (kalloc_servable_null s p hpb1 hps hfirst1 (not_not.mp hh))

/-- Totality: `kalloc` never panics. -/
theorem kalloc_returns (s : kstate) : ∃ r s1, kalloc s = some (r, s1) := by
  rcases kalloc_cases s with h | ⟨p, -, -, -, -, h⟩
  · exact ⟨_, _, h⟩
  · exact ⟨_, _, h⟩

theorem follow_length (mem : Memory) : ∀ n head, (follow mem head n).length = n := by
  intro n
  induction n with
  | zero => intro head; rfl
  | succ n ih =>
    intro head
    simp only [follow, List.length_cons, ih]

/-- A chain that is not empty starts at a frame. -/
theorem chain_head_ne_zero (mem : Memory) (e : hugepage_entry)
    (hok : count_ok mem e) (hpos : 0 < e.freecount) : e.freelist ≠ 0 := by
  obtain ⟨l, hc, hl⟩ := hok
  cases l with
  | nil =>
    simp only [List.length_nil, Nat.cast_zero] at hl
    omega
  | cons x l =>
    unfold is_chain at hc
    rw [hc.1]
    exact hc.2.1

theorem count_ok_nonneg (mem : Memory) (e : hugepage_entry) (hok : count_ok mem e) :
    0 ≤ e.freecount := by
  obtain ⟨l, -, hl⟩ := hok
  rw [hl]
  exact Int.natCast_nonneg _

/-- A way to establish `count_ok` by evaluation. -/
theorem count_ok_of_follow (mem : Memory) (e : hugepage_entry)
    (h : 0 ≤ e.freecount ∧ is_chain mem e.freelist (follow mem e.freelist e.freecount.toNat)) :
    count_ok mem e := by
  refine ⟨_, h.2, ?_⟩
  rw [follow_length]
  exact (Int.toNat_of_nonneg h.1).symm

theorem served_other (s : kstate) (p j : Nat) (h : j ≠ p) :
    (served s p).hugepages j = s.hugepages j := by
  unfold served set_entry
  simp only [h, if_false]

theorem served_self (s : kstate) (p : Nat) :
    (served s p).hugepages p =
      { s.hugepages p with
        freelist := s.mem (s.hugepages p).freelist,
        freecount := (s.hugepages p).freecount - 1 } := by
  unfold served set_entry
  simp only [if_true]

theorem example_state_count_ok :
    ∀ i, i < MAXHUGEPGS → count_ok example_state.mem (example_state.hugepages i) := by
  intro i hi
  apply count_ok_of_follow
  revert i
  decide

theorem exhausted_state_count_ok :
    ∀ i, i < MAXHUGEPGS → count_ok exhausted_state.mem (exhausted_state.hugepages i) := by
  intro i hi
  apply count_ok_of_follow
  revert i
  decide

theorem overfull_chain : ∀ n a, 0x80400000 ≤ a → a + 4096 * (n + 1) = 0x80601000 →
    is_chain overfull_state.mem a (follow overfull_state.mem a (n + 1)) := by
  intro n
  induction n with
  | zero =>
    intro a h1 h2
    have ha : a = 0x80600000 := by omega
    subst ha
    decide
  | succ n ih =>
    intro a h1 h2
    have hm : overfull_state.mem a = a + 4096 := by
      have hlt : a < 0x80600000 := by omega
      simp only [overfull_state, h1, hlt, and_self, if_true]
    have hrec := ih (a + 4096) (by omega) (by omega)
    have hne : a ≠ 0 := by omega
    show a = a ∧ a ≠ 0 ∧
      is_chain overfull_state.mem (overfull_state.mem a)
        (follow overfull_state.mem (overfull_state.mem a) (n + 1))
    rw [hm]
    exact ⟨rfl, hne, hrec⟩

theorem overfull_state_count_ok :
    ∀ i, i < MAXHUGEPGS → count_ok overfull_state.mem (overfull_state.hugepages i) := by
  intro i hi
  by_cases h2 : i = 2
  · subst h2
    refine ⟨follow overfull_state.mem 0x80400000 513, ?_, ?_⟩
    · exact overfull_chain 512 0x80400000 (by decide) (by decide)
    · rw [follow_length]
      rfl
  · by_cases h3 : i = 3
    · subst h3
      apply count_ok_of_follow
      decide
    · apply count_ok_of_follow
      simp only [overfull_state, h2, h3, if_false]
      decide

/-- The scan of `kalloc` tests `freecount != PGINHUGEPG`, not
`freecount < PGINHUGEPG`.  The tests differ only on a count above
`PGINHUGEPG`, which no run of the allocator produces (`count_inv_arun`): in
`overfull_state`, where the list of descriptor 2 runs on into the region of
descriptor 3 and its count is 513, `kalloc` returns the head `0x80400000` of
descriptor 2 and not the head `0x80700000` of the split descriptor 3. -/
theorem overfull_served_first :
    (∀ i, i < MAXHUGEPGS → count_ok overfull_state.mem (overfull_state.hugepages i)) ∧
    split (overfull_state.hugepages 3) ∧
    (∀ j, j < 3 → ¬ split (overfull_state.hugepages j)) ∧
    (overfull_state.hugepages 3).freelist = 0x80700000 ∧
    (kalloc overfull_state).map Prod.fst = some 0x80400000 ∧
    ¬ ∃ s1, kalloc overfull_state = some ((overfull_state.hugepages 3).freelist, s1) := by
  have hk : kalloc overfull_state =
      some ((overfull_state.hugepages 2).freelist, served overfull_state 2) :=
    kalloc_servable overfull_state 2 (by decide) (by decide) (by decide) (by decide)
  refine ⟨overfull_state_count_ok, by decide, by decide, rfl, ?_, ?_⟩
  · rw [hk]
    rfl
  · rintro ⟨s1, h⟩
    rw [hk] at h
    simp only [Option.some.injEq, Prod.mk.injEq] at h
    exact absurd h.1 (by decide)

/-- The choice of `kalloc`: when every count is the length of its free list,
`kalloc` returns the head of the free list of the lowest-indexed servable
descriptor
(not allocated-whole, count positive and different from `PGINHUGEPG`) and
changes no other descriptor; when no descriptor is servable, it returns the
head of the free list of the lowest-indexed whole-free descriptor, leaves it
with count `PGINHUGEPG - 1` and changes no other descriptor. -/
theorem kalloc_choice (s : kstate)
    (hok : ∀ i, i < MAXHUGEPGS → count_ok s.mem (s.hugepages i)) :
    (∀ p, p < MAXHUGEPGS → servable (s.hugepages p) →
      (∀ j, j < p → ¬ servable (s.hugepages j)) →
      ∃ s1, kalloc s = some ((s.hugepages p).freelist, s1) ∧
        (s.hugepages p).freelist ≠ 0 ∧
        ∀ j, j ≠ p → s1.hugepages j = s.hugepages j) ∧
    ((∀ j, j < MAXHUGEPGS → ¬ servable (s.hugepages j)) →
      ∀ w, w < MAXHUGEPGS → whole_free (s.hugepages w) →
      (∀ j, j < w → ¬ whole_free (s.hugepages j)) →
      ∃ s1, kalloc s = some ((s.hugepages w).freelist, s1) ∧
        (s.hugepages w).freelist ≠ 0 ∧
        (s1.hugepages w).freecount = PGINHUGEPG - 1 ∧
        (s1.hugepages w).hugealloced = 0 ∧
        ∀ j, j ≠ w → s1.hugepages j = s.hugepages j) := by
  constructor
  · intro p hp hs hfirst
    have hh : (s.hugepages p).freelist ≠ 0 :=
      chain_head_ne_zero s.mem _ (hok p hp) hs.2.1
    exact ⟨served s p, kalloc_servable s p hp hs hfirst hh, hh,
      fun j hj => served_other s p j hj⟩
  · intro hnone w hw hwf hfirst
    have hpos : 0 < (s.hugepages w).freecount := by
      rw [hwf.1]
      decide
    have hh : (s.hugepages w).freelist ≠ 0 :=
      chain_head_ne_zero s.mem _ (hok w hw) hpos
    have hff : first_from (fun j => whole_free (s.hugepages j)) MAXHUGEPGS 0 = some w :=
      (first_from_some _ MAXHUGEPGS 0 w).mpr
        ⟨Nat.zero_le w, by omega, hwf, fun j _ hj => hfirst j hj⟩
    have hk : kalloc s = some ((s.hugepages w).freelist, served s w) := by
      rw [kalloc_no_servable s hnone]
      unfold fallback
      rw [hff]
      simp only
      rw [if_pos hh]
    refine ⟨served s w, hk, hh, ?_, ?_, fun j hj => served_other s w j hj⟩
    · rw [served_self]
      simp only [hwf.1]
    · rw [served_self]
      exact hwf.2

/-- An example of `kalloc_choice`: in the example state descriptor 0 is the
first servable descriptor and `kalloc` returns its head `0x80100000`. -/
theorem kalloc_choice_example :
    ∃ s1, kalloc example_state = some (0x80100000, s1) ∧
      (0x80100000 : Nat) ≠ 0 ∧
      ∀ j, j ≠ 0 → s1.hugepages j = example_state.hugepages j :=
  (kalloc_choice example_state example_state_count_ok).1 0 (by decide) (by decide)
    (fun j hj => absurd hj (Nat.not_lt_zero j))

/-- Exhaustion: `kalloc` returns null and changes nothing when every descriptor is
allocated-whole or has count 0. -/
theorem kalloc_null_of_exhausted (s : kstate)
    (hall : ∀ i, i < MAXHUGEPGS →
      allocated_whole (s.hugepages i) ∨ (s.hugepages i).freecount = 0) :
    kalloc s = some (0, s) := by
  have hnone : ∀ j, j < MAXHUGEPGS → ¬ servable (s.hugepages j) := by
    intro j hj hsj
    rcases hall j hj with h | h
    · exact h hsj.1
    · have := hsj.2.1
      omega
  have hnw : first_from (fun j => whole_free (s.hugepages j)) MAXHUGEPGS 0 = none := by
    rw [first_from_none]
    intro j _ hj hwf
    rcases hall j (by omega) with h | h
    · exact h hwf.2
    · rw [hwf.1] at h
      exact absurd h (by decide)
  rw [kalloc_no_servable s hnone]
  unfold fallback
  rw [hnw]

/-- C3: when every count is the length of its free list, `kalloc` returns null
exactly when every descriptor is allocated-whole or has count 0; and a
`kalloc` that returns null changes nothing. -/
theorem C3_kalloc_null (s : kstate)
    (hok : ∀ i, i < MAXHUGEPGS → count_ok s.mem (s.hugepages i)) :
    ((∃ s1, kalloc s = some (0, s1)) ↔
      ∀ i, i < MAXHUGEPGS →
        allocated_whole (s.hugepages i) ∨ (s.hugepages i).freecount = 0) ∧
    (∀ s1, kalloc s = some (0, s1) → s1 = s) := by
  have hserved : ∀ p, p < MAXHUGEPGS → (s.hugepages p).freelist ≠ 0 →
      kalloc s = some ((s.hugepages p).freelist, served s p) →
      ∀ s1, kalloc s = some (0, s1) → False := by
    intro p _ hh hk s1 h0
    rw [hk] at h0
    simp only [Option.some.injEq, Prod.mk.injEq] at h0
    exact hh h0.1
  refine ⟨⟨?_, ?_⟩, ?_⟩
  · rintro ⟨s1, h0⟩ i hi
    by_contra hcon
    simp only [allocated_whole, not_or, ne_eq, not_not] at hcon
    have hpos : 0 < (s.hugepages i).freecount := by
      have := count_ok_nonneg s.mem _ (hok i hi)
      have := hcon.2
      omega
    by_cases hex : ∃ p, p < MAXHUGEPGS ∧ servable (s.hugepages p)
    · cases hs : first_from (fun j => servable (s.hugepages j)) MAXHUGEPGS 0 with
      | none =>
        obtain ⟨p, hp, hps⟩ := hex
        exact (first_from_none _ MAXHUGEPGS 0).mp hs p (Nat.zero_le p) (by omega) hps
      | some p =>
        obtain ⟨-, hpb, hps, hpfirst⟩ := (first_from_some _ MAXHUGEPGS 0 p).mp hs
        have hpb1 : p < MAXHUGEPGS := by omega
        have hh := chain_head_ne_zero s.mem _ (hok p hpb1) hps.2.1
        exact hserved p hpb1 hh
          (kalloc_servable s p hpb1 hps (fun j hj => hpfirst j (Nat.zero_le j) hj) hh) s1 h0
    · have hnone : ∀ j, j < MAXHUGEPGS → ¬ servable (s.hugepages j) :=
        fun j hj hsj => hex ⟨j, hj, hsj⟩
      have hwf : whole_free (s.hugepages i) := by
        refine ⟨?_, hcon.1⟩
        by_contra hne
        exact hnone i hi ⟨hcon.1, hpos, hne⟩
      cases hs : first_from (fun j => whole_free (s.hugepages j)) MAXHUGEPGS 0 with
      | none =>
        exact (first_from_none _ MAXHUGEPGS 0).mp hs i (Nat.zero_le i) (by omega) hwf
      | some w =>
        obtain ⟨-, hwb, hww, -⟩ := (first_from_some _ MAXHUGEPGS 0 w).mp hs
        have hwb1 : w < MAXHUGEPGS := by omega
        have hposw : 0 < (s.hugepages w).freecount := by
          rw [hww.1]
          decide
        have hh := chain_head_ne_zero s.mem _ (hok w hwb1) hposw
        have hk : kalloc s = some ((s.hugepages w).freelist, served s w) := by
          rw [kalloc_no_servable s hnone]
          unfold fallback
          rw [hs]
          simp only
          rw [if_pos hh]
        exact hserved w hwb1 hh hk s1 h0
  · intro hall
    exact ⟨s, kalloc_null_of_exhausted s hall⟩
  · intro s1 h0
    rcases kalloc_cases s with h | ⟨p, hp, -, hh, -, hk⟩
    · rw [h] at h0
      simp only [Option.some.injEq, Prod.mk.injEq, true_and] at h0
      exact h0.symm
    · exact (hserved p hp hh hk s1 h0).elim

/-- Witness of C3: in `exhausted_state` every count is the length of its free
list and `kalloc` returns null. -/
theorem C3_kalloc_null_witness :
    ∃ s1, kalloc exhausted_state = some (0, s1) :=
  (C3_kalloc_null exhausted_state exhausted_state_count_ok).1.mpr (by decide)

/-! ## `kfree` does not check what it is given -/

/-- C5, evaluated on the code: in the example state the frame `0x80100000` is
the head of the free list of descriptor 0 and descriptor 1 is allocated-whole
with the constituent frame `0x80200000`.  `kfree` of either address returns
without a panic; it links the frame (the first into a chain that now loops on
itself), increments the count of the descriptor and `freemem`, and decrements
`used4k`. -/
theorem C5_kfree_accepts_unallocated :
    (example_state.hugepages 0).freelist = 0x80100000 ∧
    allocated_whole (example_state.hugepages 1) ∧
    HUGEPGINDEX 0x80200000 = 1 ∧
    (kfree 0x80021000 0x80100000 example_state).map
        (fun s1 => (s1.hugepages 0, s1.mem 0x80100000, s1.freemem, s1.used4k)) =
      some (⟨0x80100000, 2, 0⟩, 0x80100000, 4, 99) ∧
    (kfree 0x80021000 0x80200000 example_state).map
        (fun s1 => (s1.hugepages 1, s1.freemem, s1.used4k)) =
      some (⟨0x80200000, 1, 1⟩, 4, 99) := by
  decide

/-! ## Exhaustion -/

/-- The loop of `kalloc_huge` takes the first whole-free descriptor. -/
theorem kalloc_huge_loop_spec (hp : Nat → hugepage_entry) :
    ∀ n i, kalloc_huge_loop n i hp =
      match first_from (fun j => whole_free (hp j)) n i with
      | none => (-1, hp)
      | some w => ((w : Int), set_entry hp w { hp w with hugealloced := TRUE }) := by
  intro n
  induction n with
  | zero => intro i; rfl
  | succ n ih =>
    intro i
    unfold kalloc_huge_loop first_from
    by_cases hw : whole_free (hp i)
    · have hc : (hp i).freecount = PGINHUGEPG ∧ ¬ (hp i).hugealloced ≠ 0 :=
        ⟨hw.1, not_not.mpr hw.2⟩
      rw [if_pos hc, if_pos hw]
    · have hc : ¬ ((hp i).freecount = PGINHUGEPG ∧ ¬ (hp i).hugealloced ≠ 0) :=
        fun hc => hw ⟨hc.1, not_not.mp hc.2⟩
      rw [if_neg hc, if_neg hw]
      exact ih (i + 1)

/-- The result of `kalloc_huge` when no descriptor is whole-free. -/
theorem kalloc_huge_none (s : kstate)
    (hnone : ∀ i, i < MAXHUGEPGS → ¬ whole_free (s.hugepages i)) :
    kalloc_huge s = (0, s) := by
  have hf : first_from (fun j => whole_free (s.hugepages j)) MAXHUGEPGS 0 = none :=
    (first_from_none _ MAXHUGEPGS 0).mpr (fun j _ hj => hnone j (by omega))
  unfold kalloc_huge
  rw [kalloc_huge_loop_spec, hf]
  simp only [gt_iff_lt, lt_self_iff_false, if_false]

/-- The result of `kalloc_huge` when `w` is the first whole-free descriptor. -/
theorem kalloc_huge_some (s : kstate) (w : Nat) (hw : w < MAXHUGEPGS)
    (hwf : whole_free (s.hugepages w)) (hfirst : ∀ j, j < w → ¬ whole_free (s.hugepages j)) :
    kalloc_huge s =
      (HUGEPAGEADDR w,
        { mem := memset s.mem (HUGEPAGEADDR w) 5 HUGEPGSIZE,
          hugepages := set_entry s.hugepages w { s.hugepages w with hugealloced := TRUE },
          freemem := s.freemem - PGINHUGEPG, used4k := s.used4k,
          used2m := s.used2m + 1 }) := by
  have hf : first_from (fun j => whole_free (s.hugepages j)) MAXHUGEPGS 0 = some w :=
    (first_from_some _ MAXHUGEPGS 0 w).mpr
      ⟨Nat.zero_le w, by omega, hwf, fun j _ hj => hfirst j hj⟩
  have hpos : (w : Int) > -1 := by omega
  unfold kalloc_huge
  rw [kalloc_huge_loop_spec, hf]
  simp only [hpos, if_true, Int.toNat_ofNat]

/-- C6: when `freemem` is the sum of the counts of the descriptors that are not
allocated-whole and every count is the length of its free list, `freemem == 0`
makes both `kalloc` and `kalloc_huge` return null. -/
theorem C6_no_free_memory (s : kstate)
    (hsum : s.freemem = ∑ i in Finset.range MAXHUGEPGS,
      if (s.hugepages i).hugealloced = 0 then (s.hugepages i).freecount else 0)
    (hok : ∀ i, i < MAXHUGEPGS → count_ok s.mem (s.hugepages i))
    (hzero : s.freemem = 0) :
    (∃ s1, kalloc s = some (0, s1)) ∧ (kalloc_huge s).1 = 0 := by
  have hnonneg : ∀ i ∈ Finset.range MAXHUGEPGS,
      0 ≤ (if (s.hugepages i).hugealloced = 0 then (s.hugepages i).freecount else 0) := by
    intro i hi
    have hi1 : i < MAXHUGEPGS := Finset.mem_range.mp hi
    by_cases ha : (s.hugepages i).hugealloced = 0
    · rw [if_pos ha]
      exact count_ok_nonneg s.mem _ (hok i hi1)
    · rw [if_neg ha]
  have hall : ∀ i, i < MAXHUGEPGS →
      allocated_whole (s.hugepages i) ∨ (s.hugepages i).freecount = 0 := by
    intro i hi
    have h0 := (Finset.sum_eq_zero_iff_of_nonneg hnonneg).mp (by rw [← hsum, hzero]) i
      (Finset.mem_range.mpr hi)
    by_cases ha : (s.hugepages i).hugealloced = 0
    · rw [if_pos ha] at h0
      exact Or.inr h0
    · exact Or.inl ha
  refine ⟨⟨s, kalloc_null_of_exhausted s hall⟩, ?_⟩
  rw [kalloc_huge_none s]
  intro i hi hwf
  rcases hall i hi with h | h
  · exact h hwf.2
  · rw [hwf.1] at h
    exact absurd h (by decide)

/-- Witness of C6: `exhausted_state` has `freemem == 0`, the sum of the counts
of its descriptors that are not allocated-whole is 0, and both allocators
return null. -/
theorem C6_no_free_memory_witness :
    (∃ s1, kalloc exhausted_state = some (0, s1)) ∧ (kalloc_huge exhausted_state).1 = 0 :=
  C6_no_free_memory exhausted_state (by decide) exhausted_state_count_ok rfl

/-! ## Huge frames -/

theorem HUGEPAGEADDR_aligned (w : Nat) : HUGEPAGEADDR w % HUGEPGSIZE = 0 := by
  unfold HUGEPAGEADDR KERNBASE HUGEPGSIZE
  omega

theorem HUGEPAGEADDR_ne_zero (w : Nat) : HUGEPAGEADDR w ≠ 0 := by
  unfold HUGEPAGEADDR KERNBASE
  omega

/-- C8: `kalloc_huge` returns a frame exactly when some descriptor is
whole-free.  It then returns the 2 MiB-aligned base of the lowest-indexed
whole-free descriptor, sets the allocated-whole flag of that descriptor and
nothing else in the array (the head pointer and the count of the descriptor
stay as they were), takes `PGINHUGEPG` from `freemem` and adds 1 to `used2m`.
When no descriptor is whole-free it returns null and changes nothing. -/
theorem C8_kalloc_huge (s : kstate) :
    ((kalloc_huge s).1 ≠ 0 ↔ ∃ i, i < MAXHUGEPGS ∧ whole_free (s.hugepages i)) ∧
    (∀ w, w < MAXHUGEPGS → whole_free (s.hugepages w) →
      (∀ j, j < w → ¬ whole_free (s.hugepages j)) →
      (kalloc_huge s).1 = HUGEPAGEADDR w ∧
      HUGEPAGEADDR w % HUGEPGSIZE = 0 ∧
      (kalloc_huge s).2.hugepages w = { s.hugepages w with hugealloced := TRUE } ∧
      (∀ j, j ≠ w → (kalloc_huge s).2.hugepages j = s.hugepages j) ∧
      (kalloc_huge s).2.freemem = s.freemem - PGINHUGEPG ∧
      (kalloc_huge s).2.used2m = s.used2m + 1 ∧
      (kalloc_huge s).2.used4k = s.used4k) ∧
    ((∀ i, i < MAXHUGEPGS → ¬ whole_free (s.hugepages i)) → kalloc_huge s = (0, s)) := by
  refine ⟨⟨?_, ?_⟩, ?_, ?_⟩
  · intro hne
    by_contra hno
    have hnone : ∀ i, i < MAXHUGEPGS → ¬ whole_free (s.hugepages i) :=
      fun i hi hwf => hno ⟨i, hi, hwf⟩
    rw [kalloc_huge_none s hnone] at hne
    exact hne rfl
  · rintro ⟨i, hi, hwf⟩
    cases hf : first_from (fun j => whole_free (s.hugepages j)) MAXHUGEPGS 0 with
    | none =>
      exact absurd hwf ((first_from_none _ MAXHUGEPGS 0).mp hf i (Nat.zero_le i) (by omega))
    | some w =>
      obtain ⟨-, hwb, hww, hwfirst⟩ := (first_from_some _ MAXHUGEPGS 0 w).mp hf
      rw [kalloc_huge_some s w (by omega) hww (fun j hj => hwfirst j (Nat.zero_le j) hj)]
      exact HUGEPAGEADDR_ne_zero w
  · intro w hw hwf hfirst
    rw [kalloc_huge_some s w hw hwf hfirst]
    refine ⟨rfl, HUGEPAGEADDR_aligned w, ?_, ?_, rfl, rfl, rfl⟩
    · simp only [set_entry, if_true]
    · intro j hj
      simp only [set_entry, hj, if_false]
  · exact kalloc_huge_none s

/-- Witness of C8: in `fresh_state` the lowest-indexed whole-free descriptor is
descriptor 2 and `kalloc_huge` returns its base `0x80400000`. -/
theorem C8_kalloc_huge_witness :
    (kalloc_huge fresh_state).1 = 0x80400000 ∧
    (kalloc_huge fresh_state).2.hugepages 2 = ⟨0x80400000, 512, 1⟩ ∧
    (kalloc_huge fresh_state).2.freemem = 513 :=
  have h := (C8_kalloc_huge fresh_state).2.1 2 (by decide) (by decide) (by decide)
  ⟨h.1, h.2.2.1, h.2.2.2.2.1⟩

/-- C9: `kfree_huge(pa)` panics when `pa` is not 2 MiB-aligned, is below `end`
or at or above `PHYSTOP`, or when the descriptor of `pa` is not
allocated-whole.  Otherwise it returns, having cleared the allocated-whole flag
of that descriptor and nothing else in the array, added `PGINHUGEPG` to
`freemem` and taken 1 from `used2m`.  For `KERNBASE ≤ end` the descriptor of an
accepted `pa` is one of the array and `pa` is the base of its region. -/
theorem C9_kfree_huge (kernel_end pa : Nat) (s : kstate) :
    ((pa % HUGEPGSIZE ≠ 0 ∨ pa < kernel_end ∨ PHYSTOP ≤ pa ∨
        ¬ allocated_whole (s.hugepages (HUGEPGINDEX pa))) →
      kfree_huge kernel_end pa s = none) ∧
    (¬ (pa % HUGEPGSIZE ≠ 0 ∨ pa < kernel_end ∨ PHYSTOP ≤ pa ∨
        ¬ allocated_whole (s.hugepages (HUGEPGINDEX pa))) →
      ∃ s1, kfree_huge kernel_end pa s = some s1 ∧
        s1.hugepages (HUGEPGINDEX pa) =
          { s.hugepages (HUGEPGINDEX pa) with hugealloced := FALSE } ∧
        (∀ j, j ≠ HUGEPGINDEX pa → s1.hugepages j = s.hugepages j) ∧
        s1.freemem = s.freemem + PGINHUGEPG ∧
        s1.used2m = s.used2m - 1 ∧
        s1.used4k = s.used4k ∧
        (KERNBASE ≤ kernel_end →
          HUGEPGINDEX pa < MAXHUGEPGS ∧ HUGEPAGEADDR (HUGEPGINDEX pa) = pa)) := by
  constructor
  · intro h
    unfold kfree_huge
    by_cases hc : pa % HUGEPGSIZE ≠ 0 ∨ pa < kernel_end ∨ pa ≥ PHYSTOP
    · rw [if_pos hc]
    · rw [if_neg hc]
      have hna : ¬ (s.hugepages (HUGEPGINDEX pa)).hugealloced ≠ 0 := by
        rcases h with h | h | h | h
        · exact absurd (Or.inl h) hc
        · exact absurd (Or.inr (Or.inl h)) hc
        · exact absurd (Or.inr (Or.inr h)) hc
        · exact h
      simp only
      rw [if_pos hna]
  · intro h
    simp only [not_or, not_not, not_lt, not_le] at h
    obtain ⟨h1, h2, h3, h4⟩ := h
    have hc : ¬ (pa % HUGEPGSIZE ≠ 0 ∨ pa < kernel_end ∨ pa ≥ PHYSTOP) := by
      simp only [not_or, not_not, not_lt, ge_iff_le, not_le]
      exact ⟨h1, h2, h3⟩
    have hna : ¬ ¬ (s.hugepages (HUGEPGINDEX pa)).hugealloced ≠ 0 := not_not.mpr h4
    refine ⟨{ mem := memset s.mem pa 1 HUGEPGSIZE,
              hugepages := set_entry s.hugepages (HUGEPGINDEX pa)
                { s.hugepages (HUGEPGINDEX pa) with hugealloced := FALSE },
              freemem := s.freemem + PGINHUGEPG, used4k := s.used4k,
              used2m := s.used2m - 1 }, ?_, ?_, ?_, rfl, rfl, rfl, ?_⟩
    · unfold kfree_huge
      rw [if_neg hc]
      simp only
      rw [if_neg hna]
    · simp only [set_entry, if_true]
    · intro j hj
      simp only [set_entry, hj, if_false]
    · intro hk
      unfold HUGEPGINDEX HUGEPAGEADDR MAXHUGEPGS
      unfold PHYSTOP KERNBASE at h3
      unfold HUGEPGSIZE at h1
      unfold KERNBASE at hk
      unfold KERNBASE HUGEPGSIZE
      omega

/-- Witness of C9: in the example state descriptor 1 is allocated-whole and
`kfree_huge` of its base `0x80200000` returns with the flag of descriptor 1
cleared. -/
theorem C9_kfree_huge_witness :
    ∃ s1, kfree_huge 0x80021000 0x80200000 example_state = some s1 ∧
      s1.hugepages 1 = ⟨0, 0, 0⟩ ∧ s1.freemem = 515 ∧ s1.used2m = 0 :=
  have h := (C9_kfree_huge 0x80021000 0x80200000 example_state).2 (by decide)
  h.elim fun s1 h1 => ⟨s1, h1.1, h1.2.1, h1.2.2.2.1, h1.2.2.2.2.1⟩

/-! ## Lazy splitting -/

theorem lazy_split_step (W : Nat → Prop) (n : Nat) (s : kstate) (r : Nat) (s1 : kstate)
    (hinv : lazy_split_inv W n s) (hn : (n : Int) < PGINHUGEPG)
    (hk : kalloc s = some (r, s1)) : lazy_split_inv W (n + 1) s1 := by
  have hmono : lazy_split_inv W n s → lazy_split_inv W (n + 1) s := by
    rintro (h | ⟨a, ha, hWa, h1, h2, h3, h4⟩)
    · exact Or.inl h
    · refine Or.inr ⟨a, ha, hWa, h1, h2, ?_, h4⟩
      push_cast
      omega
  rcases kalloc_cases s with h0 | ⟨p, hp, hpa, hph, hcase, hserved⟩
  · rw [h0] at hk
    simp only [Option.some.injEq, Prod.mk.injEq] at hk
    rw [← hk.2]
    exact hmono hinv
  · rw [hserved] at hk
    simp only [Option.some.injEq, Prod.mk.injEq] at hk
    rw [← hk.2]
    -- a descriptor of `W` other than `p` is not touched
    have hkeep : ∀ i, i ≠ p → whole_free (s.hugepages i) →
        whole_free ((served s p).hugepages i) := by
      intro i hi hwf
      rw [served_other s p i hi]
      exact hwf
    rcases hinv with hall | ⟨a, ha, hWa, h1, h2, h3, h4⟩
    · by_cases hWp : W p
      · have hwfp : whole_free (s.hugepages p) := hall p hp hWp
        have hlow : ∀ j, j < p → ¬ whole_free (s.hugepages j) := by
          rcases hcase with ⟨hs, -⟩ | ⟨-, hlow⟩
          · exact absurd hwfp.1 hs.2.2
          · exact fun j hj => (hlow j hj).2
        refine Or.inr ⟨p, hp, hWp, ?_, ?_, ?_, ?_⟩
        · rw [served_self]
          exact hpa
        · rw [served_self]
          simp only [hwfp.1]
          decide
        · rw [served_self]
          simp only [hwfp.1]
          push_cast
          unfold PGINHUGEPG
          omega
        · intro i hi hWi hip
          have hwfi := hall i hi hWi
          refine ⟨?_, hkeep i hip hwfi⟩
          by_contra hlt
          exact hlow i (by omega) hwfi
      · refine Or.inl ?_
        intro i hi hWi
        have hip : i ≠ p := fun h => hWp (h ▸ hWi)
        exact hkeep i hip (hall i hi hWi)
    · have hpos : 0 < (s.hugepages a).freecount := by
        unfold PGINHUGEPG at h3 hn
        omega
      have hsa : servable (s.hugepages a) := ⟨h1, hpos, by omega⟩
      have hple : p ≤ a := by
        by_contra hlt
        rcases hcase with ⟨-, hlow⟩ | ⟨-, hlow⟩
        · exact hlow a (by omega) hsa
        · exact (hlow a (by omega)).1 hsa
      by_cases hpa2 : p = a
      · subst hpa2
        refine Or.inr ⟨p, hp, hWa, ?_, ?_, ?_, ?_⟩
        · rw [served_self]
          exact hpa
        · rw [served_self]
          simp only
          omega
        · rw [served_self]
          simp only
          push_cast
          omega
        · intro i hi hWi hip
          exact ⟨(h4 i hi hWi hip).1, hkeep i hip (h4 i hi hWi hip).2⟩
      · have hWp : ¬ W p := by
          intro hWp
          have := (h4 p hp hWp hpa2).1
          omega
        refine Or.inr ⟨a, ha, hWa, ?_, ?_, ?_, ?_⟩
        · rw [served_other s p a (Ne.symm hpa2)]
          exact h1
        · rw [served_other s p a (Ne.symm hpa2)]
          exact h2
        · rw [served_other s p a (Ne.symm hpa2)]
          push_cast
          omega
        · intro i hi hWi hia
          have hip : i ≠ p := fun h => hWp (h ▸ hWi)
          exact ⟨(h4 i hi hWi hia).1, hkeep i hip (h4 i hi hWi hia).2⟩

theorem lazy_split_run (W : Nat → Prop) :
    ∀ k n s sk, lazy_split_inv W n s → ((n + k : Nat) : Int) ≤ PGINHUGEPG →
      kalloc_n k s = some sk → lazy_split_inv W (n + k) sk := by
  intro k
  induction k with
  | zero =>
    intro n s sk hinv _ hrun
    simp only [kalloc_n, Option.some.injEq] at hrun
    rw [← hrun]
    exact hinv
  | succ k ih =>
    intro n s sk hinv hle hrun
    unfold kalloc_n at hrun
    obtain ⟨r, s1, hk⟩ := kalloc_returns s
    rw [hk] at hrun
    simp only at hrun
    have hn : (n : Int) < PGINHUGEPG := by
      push_cast at hle
      omega
    have hstep := lazy_split_step W n s r s1 hinv hn hk
    have hle2 : ((n + 1 + k : Nat) : Int) ≤ PGINHUGEPG := by
      have e : n + 1 + k = n + (k + 1) := by omega
      rw [e]
      exact hle
    have := ih (n + 1) s1 sk hstep hle2 hrun
    have e : n + (k + 1) = n + 1 + k := by omega
    rw [e]
    exact this

theorem kalloc_n_returns : ∀ k s, ∃ sk, kalloc_n k s = some sk := by
  intro k
  induction k with
  | zero => intro s; exact ⟨s, rfl⟩
  | succ k ih =>
    intro s
    obtain ⟨r, s1, hk⟩ := kalloc_returns s
    obtain ⟨sk, hsk⟩ := ih s1
    refine ⟨sk, ?_⟩
    unfold kalloc_n
    rw [hk]
    exact hsk

/-- C7: from every state (in particular from one in which every count is the
length of its free list), `k` consecutive calls of `kalloc` with
`k ≤ PGINHUGEPG` return, and at most one descriptor that was whole-free before
them is not whole-free after them. -/
theorem C7_lazy_split (s : kstate) (k : Nat) (hk : (k : Int) ≤ PGINHUGEPG) :
    ∃ sk, kalloc_n k s = some sk ∧
      ∀ i j, i < MAXHUGEPGS → j < MAXHUGEPGS →
        whole_free (s.hugepages i) → whole_free (s.hugepages j) →
        ¬ whole_free (sk.hugepages i) → ¬ whole_free (sk.hugepages j) → i = j := by
  obtain ⟨sk, hrun⟩ := kalloc_n_returns k s
  refine ⟨sk, hrun, ?_⟩
  have hstart : lazy_split_inv (fun i => whole_free (s.hugepages i)) 0 s :=
    Or.inl (fun i _ hwf => hwf)
  have hend := lazy_split_run (fun i => whole_free (s.hugepages i)) k 0 s sk hstart
    (by rw [Nat.zero_add]; exact hk) hrun
  intro i j hi hj hwi hwj hni hnj
  rcases hend with hall | ⟨a, -, -, -, -, -, h4⟩
  · exact absurd (hall i hi hwi) hni
  · have hia : i = a := by
      by_contra hne
      exact hni (h4 i hi hwi hne).2
    have hja : j = a := by
      by_contra hne
      exact hnj (h4 j hj hwj hne).2
    rw [hia, hja]

/-- Witness of C7: two calls of `kalloc` in `fresh_state` (the first serves the
split descriptor 0, the second splits descriptor 2). -/
theorem C7_lazy_split_witness :
    ∃ sk, kalloc_n 2 fresh_state = some sk ∧
      ∀ i j, i < MAXHUGEPGS → j < MAXHUGEPGS →
        whole_free (fresh_state.hugepages i) → whole_free (fresh_state.hugepages j) →
        ¬ whole_free (sk.hugepages i) → ¬ whole_free (sk.hugepages j) → i = j :=
  C7_lazy_split fresh_state 2 (by decide)

/-! ## No frame is handed out twice -/

theorem is_chain_congr (mem mem1 : Memory) :
    ∀ (l : List Nat) (head : Nat), (∀ x, x ∈ l → mem1 x = mem x) →
      is_chain mem head l → is_chain mem1 head l := by
  intro l
  induction l with
  | nil => intro head _ h; exact h
  | cons y l ih =>
    intro head hsame h
    unfold is_chain at h ⊢
    refine ⟨h.1, h.2.1, ?_⟩
    rw [hsame y (List.mem_cons_self y l)]
    exact ih (mem y) (fun x hx => hsame x (List.mem_cons_of_mem y hx)) h.2.2

/-- A chain with a head that is not null starts with its head. -/
theorem is_chain_cons (mem : Memory) (head : Nat) (l : List Nat)
    (hh : head ≠ 0) (hc : is_chain mem head l) :
    ∃ l1, l = head :: l1 ∧ is_chain mem (mem head) l1 := by
  cases l with
  | nil =>
    unfold is_chain at hc
    exact absurd hc hh
  | cons y l1 =>
    unfold is_chain at hc
    refine ⟨l1, ?_, ?_⟩
    · rw [hc.1]
    · rw [hc.1]
      exact hc.2.2

/-- Two frames that differ do not overlap. -/
theorem frame_apart (x r : Nat) (hx : x % PGSIZE = 0) (hr : r % PGSIZE = 0) (hne : x ≠ r) :
    ¬ (r ≤ x ∧ x < r + PGSIZE) := by
  unfold PGSIZE at *
  omega

theorem frame_of_index (i x : Nat) (h : frame_of i x) : HUGEPGINDEX x = i := by
  obtain ⟨-, h2, h3⟩ := h
  unfold HUGEPAGEADDR at h2 h3
  unfold HUGEPGINDEX
  have hle : KERNBASE ≤ x := by omega
  have e : x - KERNBASE = (x - KERNBASE - i * HUGEPGSIZE) + i * HUGEPGSIZE := by omega
  rw [e, Nat.add_mul_div_right _ _ (by decide : 0 < HUGEPGSIZE)]
  have hlt : x - KERNBASE - i * HUGEPGSIZE < HUGEPGSIZE := by omega
  rw [Nat.div_eq_of_lt hlt, Nat.zero_add]

theorem frame_of_unique (i j x : Nat) (hi : frame_of i x) (hj : frame_of j x) : i = j := by
  rw [← frame_of_index i x hi, ← frame_of_index j x hj]

theorem frame_of_ne_zero (i x : Nat) (h : frame_of i x) : x ≠ 0 := by
  obtain ⟨-, h2, -⟩ := h
  unfold HUGEPAGEADDR KERNBASE at h2
  omega

/-- Serving the head of a well-formed free list keeps the invariant, and the
served frame was not live. -/
theorem alloc_inv_served (s : kstate) (live : List Nat) (p : Nat) (hp : p < MAXHUGEPGS)
    (hh : (s.hugepages p).freelist ≠ 0) (hinv : alloc_inv s live) :
    (s.hugepages p).freelist ∉ live ∧ frame_of p (s.hugepages p).freelist ∧
      alloc_inv (served s p) ((s.hugepages p).freelist :: live) := by
  obtain ⟨hlists, hnd, hfr⟩ := hinv
  obtain ⟨l, hc, hlnd, hlfr, hllive⟩ := hlists p hp
  obtain ⟨l1, hl, hc1⟩ := is_chain_cons s.mem _ l hh hc
  subst hl
  have hrl : (s.hugepages p).freelist ∈ (s.hugepages p).freelist :: l1 :=
    List.mem_cons_self _ _
  have hrlive := hllive _ hrl
  have hrfr := hlfr _ hrl
  have hr1 : (s.hugepages p).freelist ∉ l1 := (List.nodup_cons.mp hlnd).1
  -- the junk fill of the served frame does not reach a node that differs from it
  have hmem : ∀ i x, frame_of i x → x ≠ (s.hugepages p).freelist →
      (served s p).mem x = s.mem x := by
    intro i x hx hne
    have := frame_apart x _ hx.1 hrfr.1 hne
    simp only [served, memset, this, if_false]
  refine ⟨hrlive, hrfr, ?_, ?_, ?_⟩
  · intro i hi
    by_cases hip : i = p
    · subst hip
      refine ⟨l1, ?_, (List.nodup_cons.mp hlnd).2,
        fun x hx => hlfr x (List.mem_cons_of_mem _ hx), ?_⟩
      · rw [served_self]
        apply is_chain_congr s.mem _ l1 _ _ hc1
        intro x hx
        exact hmem i x (hlfr x (List.mem_cons_of_mem _ hx)) (fun h => hr1 (h ▸ hx))
      · intro x hx hxl
        rcases List.mem_cons.mp hxl with h | h
        · exact hr1 (h ▸ hx)
        · exact hllive x (List.mem_cons_of_mem _ hx) h
    · obtain ⟨li, hci, hlind, hlifr, hlilive⟩ := hlists i hi
      have hne : ∀ x, x ∈ li → x ≠ (s.hugepages p).freelist := by
        intro x hx h
        exact hip (frame_of_unique i p x (hlifr x hx) (h ▸ hrfr))
      refine ⟨li, ?_, hlind, hlifr, ?_⟩
      · rw [served_other s p i hip]
        apply is_chain_congr s.mem _ li _ _ hci
        intro x hx
        exact hmem i x (hlifr x hx) (hne x hx)
      · intro x hx hxl
        rcases List.mem_cons.mp hxl with h | h
        · exact hne x hx h
        · exact hlilive x hx h
  · exact List.nodup_cons.mpr ⟨hrlive, hnd⟩
  · intro x hx
    rcases List.mem_cons.mp hx with h | h
    · exact ⟨p, hp, h ▸ hrfr⟩
    · exact hfr x h

/-- Preservation: `kalloc` keeps the invariant; a frame it returns was not live and is a
frame of the region of the descriptor it was taken from. -/
theorem alloc_inv_kalloc (s : kstate) (live : List Nat) (r : Nat) (s1 : kstate)
    (hinv : alloc_inv s live) (hk : kalloc s = some (r, s1)) :
    alloc_inv s1 (if r = 0 then live else r :: live) ∧
    (r ≠ 0 → r ∉ live ∧
      ∃ i, i < MAXHUGEPGS ∧ (s.hugepages i).freelist = r ∧ s1 = served s i ∧ frame_of i r) := by
  rcases kalloc_cases s with h0 | ⟨p, hp, -, hh, -, hserved⟩
  · rw [h0] at hk
    simp only [Option.some.injEq, Prod.mk.injEq] at hk
    rw [← hk.1, ← hk.2]
    simp only [if_true, ne_eq, not_true_eq_false, false_implies, and_true]
    exact hinv
  · rw [hserved] at hk
    simp only [Option.some.injEq, Prod.mk.injEq] at hk
    obtain ⟨h1, h2, h3⟩ := alloc_inv_served s live p hp hh hinv
    rw [← hk.1, ← hk.2, if_neg hh]
    exact ⟨h3, fun _ => ⟨h1, p, hp, rfl, rfl, h2⟩⟩

/-- Preservation: `kfree` of a live frame keeps the invariant. -/
theorem alloc_inv_kfree (kernel_end pa : Nat) (s s1 : kstate) (live : List Nat)
    (hinv : alloc_inv s live) (hlive : pa ∈ live)
    (hk : kfree kernel_end pa s = some s1) : alloc_inv s1 (live.erase pa) := by
  obtain ⟨hlists, hnd, hfr⟩ := hinv
  obtain ⟨ip, hip, hpafr⟩ := hfr pa hlive
  have hidx : HUGEPGINDEX pa = ip := frame_of_index ip pa hpafr
  unfold kfree at hk
  by_cases hc : pa % PGSIZE ≠ 0 ∨ pa < kernel_end ∨ pa ≥ PHYSTOP
  · rw [if_pos hc] at hk
    cases hk
  · rw [if_neg hc] at hk
    simp only [Option.some.injEq] at hk
    rw [hidx] at hk
    have hmem : ∀ i x, frame_of i x → x ≠ pa → s1.mem x = s.mem x := by
      intro i x hx hne
      have := frame_apart x pa hx.1 hpafr.1 hne
      rw [← hk]
      simp only [store, memset, hne, this, if_false]
    have hmempa : s1.mem pa = (s.hugepages ip).freelist := by
      rw [← hk]
      simp only [store, if_true]
    have hself : s1.hugepages ip =
        { s.hugepages ip with freelist := pa, freecount := (s.hugepages ip).freecount + 1 } := by
      rw [← hk]
      simp only [set_entry, if_true]
    have hother : ∀ i, i ≠ ip → s1.hugepages i = s.hugepages i := by
      intro i hi
      rw [← hk]
      simp only [set_entry, hi, if_false]
    refine ⟨?_, hnd.erase pa, fun x hx => hfr x (List.mem_of_mem_erase hx)⟩
    intro i hi
    obtain ⟨li, hci, hlind, hlifr, hlilive⟩ := hlists i hi
    have hne : ∀ x, x ∈ li → x ≠ pa := fun x hx h => hlilive x hx (h ▸ hlive)
    have hci1 : is_chain s1.mem (s.hugepages i).freelist li :=
      is_chain_congr s.mem s1.mem li _ (fun x hx => hmem i x (hlifr x hx) (hne x hx)) hci
    have hnolive : ∀ x, x ∈ li → x ∉ live.erase pa :=
      fun x hx h => hlilive x hx (List.mem_of_mem_erase h)
    by_cases hiip : i = ip
    · subst hiip
      refine ⟨pa :: li, ?_, ?_, ?_, ?_⟩
      · rw [hself]
        show pa = pa ∧ pa ≠ 0 ∧ is_chain s1.mem (s1.mem pa) li
        rw [hmempa]
        exact ⟨rfl, frame_of_ne_zero i pa hpafr, hci1⟩
      · exact List.nodup_cons.mpr ⟨fun h => hne pa h rfl, hlind⟩
      · intro x hx
        rcases List.mem_cons.mp hx with h | h
        · exact h ▸ hpafr
        · exact hlifr x h
      · intro x hx
        rcases List.mem_cons.mp hx with h | h
        · rw [h]
          exact fun hmem => (List.Nodup.mem_erase_iff hnd).mp hmem |>.1 rfl
        · exact hnolive x h
    · refine ⟨li, ?_, hlind, hlifr, hnolive⟩
      rw [hother i hiip]
      exact hci1

/-- Every run keeps the invariant. -/
theorem alloc_inv_run (kernel_end : Nat) :
    ∀ (ops : List kop) (s : kstate) (live : List Nat) (s1 : kstate) (live1 : List Nat),
      alloc_inv s live → run kernel_end ops (s, live) = some (s1, live1) →
      alloc_inv s1 live1 := by
  intro ops
  induction ops with
  | nil =>
    intro s live s1 live1 hinv hrun
    simp only [run, Option.some.injEq, Prod.mk.injEq] at hrun
    rw [← hrun.1, ← hrun.2]
    exact hinv
  | cons op ops ih =>
    intro s live s1 live1 hinv hrun
    cases op with
    | alloc =>
      obtain ⟨r, s2, hk⟩ := kalloc_returns s
      simp only [run, hk] at hrun
      exact ih s2 _ s1 live1 (alloc_inv_kalloc s live r s2 hinv hk).1 hrun
    | free pa =>
      simp only [run] at hrun
      by_cases hlive : pa ∈ live
      · rw [if_pos hlive] at hrun
        cases hk : kfree kernel_end pa s with
        | none =>
          rw [hk] at hrun
          cases hrun
        | some s2 =>
          rw [hk] at hrun
          exact ih s2 _ s1 live1 (alloc_inv_kfree kernel_end pa s s2 live hinv hlive hk) hrun
      · rw [if_neg hlive] at hrun
        cases hrun

/-- C4: start from a state in which every free list is a chain without
duplicates of frames (page-aligned addresses) that lie inside the region of
their descriptor, with no frame allocated.  After every run of `kalloc` and
`kfree` calls in which `kfree` is applied only to frames that are currently
allocated, the allocated frames are pairwise distinct, and the next `kalloc`
returns, and if the result `r` is not null then `r` is not currently allocated
and `r` is a frame inside the region of the descriptor `i` it was taken from. -/
theorem C4_no_double_allocation (kernel_end : Nat) (s0 : kstate) (ops : List kop)
    (s : kstate) (live : List Nat)
    (h0 : ∀ i, i < MAXHUGEPGS → ∃ l : List Nat,
      is_chain s0.mem (s0.hugepages i).freelist l ∧ l.Nodup ∧ ∀ x, x ∈ l → frame_of i x)
    (hrun : run kernel_end ops (s0, []) = some (s, live)) :
    live.Nodup ∧
    (∃ r s1, kalloc s = some (r, s1)) ∧
    ∀ r s1, kalloc s = some (r, s1) → r ≠ 0 →
      r ∉ live ∧
      ∃ i, i < MAXHUGEPGS ∧ (s.hugepages i).freelist = r ∧ s1 = served s i ∧ frame_of i r := by
  have hstart : alloc_inv s0 [] := by
    refine ⟨?_, List.nodup_nil, fun x hx => absurd hx (List.not_mem_nil x)⟩
    intro i hi
    obtain ⟨l, hc, hnd, hfr⟩ := h0 i hi
    exact ⟨l, hc, hnd, hfr, fun x _ => List.not_mem_nil x⟩
  have hinv := alloc_inv_run kernel_end ops s0 [] s live hstart hrun
  refine ⟨hinv.2.1, kalloc_returns s, ?_⟩
  intro r s1 hk hr
  exact (alloc_inv_kalloc s live r s1 hinv hk).2 hr

theorem example_state_lists :
    ∀ i, i < MAXHUGEPGS → ∃ l : List Nat,
      is_chain example_state.mem (example_state.hugepages i).freelist l ∧ l.Nodup ∧
        ∀ x, x ∈ l → frame_of i x := by
  intro i hi
  refine ⟨follow example_state.mem (example_state.hugepages i).freelist
    (example_state.hugepages i).freecount.toNat, ?_⟩
  revert i
  decide

/-- Witness of C4: in the example state, after `kalloc` (which returns
`0x80100000`), `kalloc` (which returns `0x80400000`) and `kfree(0x80100000)`,
the one allocated frame is `0x80400000`, and the next `kalloc` returns a frame
that is not allocated. -/
theorem C4_no_double_allocation_witness :
    [0x80400000].Nodup ∧
    (∃ r s1,
      kalloc (freed (served (served example_state 0) 2) 0x80100000) = some (r, s1)) ∧
    ∀ r s1,
      kalloc (freed (served (served example_state 0) 2) 0x80100000) = some (r, s1) →
      r ≠ 0 →
      r ∉ [0x80400000] ∧
      ∃ i, i < MAXHUGEPGS ∧
        ((freed (served (served example_state 0) 2) 0x80100000).hugepages i).freelist = r ∧
        s1 = served (freed (served (served example_state 0) 2) 0x80100000) i ∧
        frame_of i r :=
  C4_no_double_allocation 0x80021000 example_state
    [kop.alloc, kop.alloc, kop.free 0x80100000]
    (freed (served (served example_state 0) 2) 0x80100000) [0x80400000]
    example_state_lists rfl

/-! ## `flexmappages` over a huge leaf -/

/-- The entry that `flexmappages` stores when no physical address is supplied
names the Zero Frame and is valid, user and readable, shared exactly when
`MAP_SHARED` is requested, and never writable. -/
theorem flex_entry_zero_frame (flags : Nat) :
    PTE2PA (flex_entry ZEROHUGEPG flags true) = ZEROHUGEPG ∧
    PTE_FLAGS (flex_entry ZEROHUGEPG flags true) =
      (PTE_V ||| PTE_U ||| PTE_R ||| if flags &&& MAP_SHARED ≠ 0 then PTE_SHR else 0) ∧
    flex_entry ZEROHUGEPG flags true &&& PTE_W = 0 := by
  unfold flex_entry
  by_cases h : flags &&& MAP_SHARED ≠ 0
  · rw [if_pos h, if_pos h]
    simp only [Bool.true_eq_false, false_and, if_false]
    decide
  · rw [if_neg h, if_neg h]
    simp only [Bool.true_eq_false, false_and, if_false]
    decide

/-- C10, evaluated on the code: in `huge_mapped_state` the page at
`0x100001000` lies inside a 2 MiB page that a writable level-1 leaf maps to the
frame `0x80400000`.  `flexmappages(pagetable, 0x100001000, 100, NULL,
PROT_WRITE | MAP_PRIVATE)` returns 0.  Its `walk` follows the leaf as if it
pointed to a table, so the entry of the Zero Frame is stored in the word
`0x80400008` of the mapped frame; the level-1 leaf is unchanged and `walkfind`
still resolves the page to it: the page stays writable, on the frame
`0x80400000`, not on the Zero Frame.  A second input: for
`va = 0xFFFFFFFFFFFFF000` and `size = 8192` the sum `va + size - 1` wraps
around, the loop body never runs, and the call returns 0 in every state
without storing an entry. -/
theorem C10_flexmappages_through_leaf :
    walkfind huge_mapped_state.mem 0x87000000 0x100001000 = some (some (0x87001000, true)) ∧
    huge_mapped_state.mem 0x80400008 = 0 ∧
    (flexmappages 0x87000000 0x100001000 100 0 (PROT_WRITE ||| MAP_PRIVATE)
        huge_mapped_state).map
      (fun r => (r.1, r.2.mem 0x80400008, r.2.mem 0x87001000)) =
      some (0, PA2PTE ZEROHUGEPG ||| PTE_U ||| PTE_R ||| PTE_V,
        PA2PTE 0x80400000 ||| PTE_V ||| PTE_U ||| PTE_R ||| PTE_W) ∧
    (flexmappages 0x87000000 0x100001000 100 0 (PROT_WRITE ||| MAP_PRIVATE)
        huge_mapped_state).bind
      (fun r => walkfind r.2.mem 0x87000000 0x100001000) =
      some (some (0x87001000, true)) ∧
    (PA2PTE 0x80400000 ||| PTE_V ||| PTE_U ||| PTE_R ||| PTE_W) &&& PTE_W ≠ 0 ∧
    PTE2PA (PA2PTE 0x80400000 ||| PTE_V ||| PTE_U ||| PTE_R ||| PTE_W) ≠ ZEROHUGEPG ∧
    (∀ (pagetable : Nat) (s : kstate),
      flexmappages pagetable 0xFFFFFFFFFFFFF000 8192 0 (PROT_WRITE ||| MAP_PRIVATE) s =
        some (0, s)) := by
  refine ⟨by decide, by decide, by decide, by decide, by decide, by decide, ?_⟩
  intro pagetable s
  rfl

/-! ## `mmap`: the requests that are refused -/

/-- C11: when `addr` is not aligned to the requested granularity (2 MiB with
`MAP_HUGEPAGE`, 4 KiB without), or `length > MMAP_MAX_SIZE`, or the process
holds `MMAP_PROC_MAX` mappings (`mmap_count >= MMAP_PROC_MAX`), the call
`mmap(addr, length, prot, flags)` returns `NULL` and the whole state is the one
before the call: memory with the page table, the allocator, the slots and
`mmap_count` of the process, and the global Region table. -/
theorem C11_mmap_rejects (addr : Nat) (length : Int) (prot flags : Nat) (s : kernel_state)
    (h : (flags &&& MAP_HUGEPAGE ≠ 0 ∧ addr % HUGEPGSIZE ≠ 0) ∨
      (flags &&& MAP_HUGEPAGE = 0 ∧ addr % PGSIZE ≠ 0) ∨
      length > MMAP_MAX_SIZE ∨ s.p.mmap_count ≥ (MMAP_PROC_MAX : Int)) :
    mmap addr length prot flags s = some (0, s) := by
  unfold mmap
  simp only [decide_eq_true_eq, decide_eq_false_iff_not, not_not]
  by_cases h1 : flags &&& MAP_HUGEPAGE ≠ 0 ∧ addr % HUGEPGSIZE ≠ 0
  · rw [if_pos h1]
  · rw [if_neg h1]
    by_cases h2 : flags &&& MAP_HUGEPAGE = 0 ∧ addr % PGSIZE ≠ 0
    · rw [if_pos h2]
    · rw [if_neg h2]
      rcases h with h | h | h
      · exact absurd h h1
      · exact absurd h h2
      · rw [if_pos h]

/-- C11 at a request in `one_region_state` whose address is not a multiple of
the page size. -/
theorem C11_mmap_rejects_witness :
    (MAP_PRIVATE &&& MAP_HUGEPAGE = 0 ∧ 0x100000800 % PGSIZE ≠ 0) ∧
    mmap 0x100000800 100 PROT_WRITE MAP_PRIVATE one_region_state =
      some (0, one_region_state) :=
  ⟨by decide,
    C11_mmap_rejects 0x100000800 100 PROT_WRITE MAP_PRIVATE one_region_state
      (Or.inr (Or.inl (by decide)))⟩

/-! ## `mmap`: side effects of a failed request -/

/-- C12, evaluated on the code: in `one_region_state` the page `0x100001000`
is mapped and the page `0x100000000` before it is not (its entry, the word
`0x87002000`, is 0).  The call `mmap(0x100000000, 8192, PROT_WRITE,
MAP_PRIVATE)` returns `NULL`, records no Region (`mmap_count` stays 1, slot 1
stays `NULL`), and leaves the entry of the Zero Frame in the word `0x87002000`:
`flexmappages` has mapped the first page before it found the second one valid,
and nothing takes that entry back. -/
theorem C12_mmap_partial_mapping :
    one_region_state.k.mem 0x87002000 = 0 ∧
    one_region_state.k.mem 0x87002008 &&& PTE_V ≠ 0 ∧
    walkfind one_region_state.k.mem 0x87000000 0x100000000 = some (some (0x87002000, false)) ∧
    walkfind one_region_state.k.mem 0x87000000 0x100001000 = some (some (0x87002008, false)) ∧
    (mmap 0x100000000 8192 PROT_WRITE MAP_PRIVATE one_region_state).map
      (fun r => (r.1, r.2.k.mem 0x87002000, r.2.k.mem 0x87002008,
        r.2.p.mmap 0, r.2.p.mmap 1, r.2.p.mmap_count)) =
      some (0, PA2PTE ZEROHUGEPG ||| PTE_U ||| PTE_R ||| PTE_V,
        PA2PTE 0x80100000 ||| PTE_V ||| PTE_U ||| PTE_R ||| PTE_W, some 0, none, 1) ∧
    PA2PTE ZEROHUGEPG ||| PTE_U ||| PTE_R ||| PTE_V ≠ 0 := by
  refine ⟨by decide, by decide, by decide, by decide, rfl, by decide⟩

/-- C13, evaluated on the code: in `full_table_state` every Region of the global
table is valid (`find_empty_vma` finds none) and the process holds no Region.
The call `mmap(0x100000000, 100, PROT_WRITE, MAP_PRIVATE)` returns `addr`, not
`NULL`: the result -1 of `add_vma` is not looked at.  The entry of the Zero
Frame that `flexmappages` stored for the page (word `0x87002000`, 0 before)
stays, and no slot of the process records the mapping. -/
theorem C13_mmap_ignores_add_vma :
    (find_empty_vma full_table_state.mmap_areas).1 = none ∧
    full_table_state.k.mem 0x87002000 = 0 ∧
    (add_vma 0x100000000 100 (PROT_WRITE ||| MAP_PRIVATE) FALSE full_table_state).1 = -1 ∧
    (mmap 0x100000000 100 PROT_WRITE MAP_PRIVATE full_table_state).map
      (fun r => (r.1, r.2.k.mem 0x87002000, r.2.p.mmap 0, r.2.p.mmap 1, r.2.p.mmap 2,
        r.2.p.mmap 3, r.2.p.mmap_count)) =
      some (0x100000000, PA2PTE ZEROHUGEPG ||| PTE_U ||| PTE_R ||| PTE_V,
        none, none, none, none, 0) := by
  refine ⟨by decide, by decide, by decide, rfl⟩

/-- C14, evaluated on the code: in `no_region_state`, a process without
mappings, `mmap(0x100000000, 0, PROT_WRITE, MAP_PRIVATE)` panics (the check
`size == 0` of `flexmappages`), and so does `mmap` at the aligned address
`MAXVA` (the check of `walk`).  With the length -1, converted to the `uint64`
`2^64 - 1`, the call returns `addr`: no entry is stored, and the Region recorded
in slot 0 ends below its start. -/
theorem C14_mmap_panics :
    (mmap 0x100000000 0 PROT_WRITE MAP_PRIVATE no_region_state).isNone = true ∧
    MAXVA % PGSIZE = 0 ∧
    (mmap MAXVA 100 PROT_WRITE MAP_PRIVATE no_region_state).isNone = true ∧
    (∀ (pagetable va flags : Nat) (s : kstate),
      flexmappages pagetable va 0 0 flags s = none) ∧
    (mmap 0x100000000 (-1) PROT_WRITE MAP_PRIVATE no_region_state).map
      (fun r => (r.1, r.2.k.mem 0x87002000, r.2.p.mmap 0, r.2.p.mmap_count,
        r.2.mmap_areas 0)) =
      some (0x100000000, 0, some 0, 1,
        ⟨0, 1, 0x100000000, 0xFFFFFFFF, 2 ^ 64 - 1, PROT_WRITE ||| MAP_PRIVATE, 0⟩) := by
  refine ⟨by decide, by decide, by decide, ?_, by decide⟩
  intro pagetable va flags s
  rfl

/-! ## `munmap`: an address that is not the start of a Region -/

/-- The slot that `get_vma` finds lies in the scanned range and holds a Region
that contains the address. -/
theorem get_vma_loop_some (areas : Nat → vm_area) (m : Nat → Option Nat) (addr : Nat) :
    ∀ (n i j : Nat), get_vma_loop areas m addr n i = some j →
      i ≤ j ∧ j < i + n ∧
      ∃ ai, m j = some ai ∧ (areas ai).start ≤ addr ∧ addr < (areas ai).area_end := by
  intro n
  induction n with
  | zero => intro i j h; simp [get_vma_loop] at h
  | succ n ih =>
    intro i j h
    unfold get_vma_loop at h
    cases hm : m i with
    | none =>
      rw [hm] at h
      simp only at h
      have := ih (i + 1) j h
      exact ⟨by omega, by omega, this.2.2⟩
    | some ai =>
      rw [hm] at h
      simp only at h
      by_cases hc : (areas ai).start ≤ addr ∧ addr < (areas ai).area_end
      · rw [if_pos hc] at h
        cases h
        exact ⟨le_refl _, by omega, ai, hm, hc⟩
      · rw [if_neg hc] at h
        have := ih (i + 1) j h
        exact ⟨by omega, by omega, this.2.2⟩

/-- C15: when `va` is not the recorded start of a Region held in a slot of the
process (it lies strictly inside one, or in none), `munmap(va)` returns -1 and
the memory with every page-table entry, the allocator (no frame is returned),
the global Region table and the Shared-Frame Records are the ones before the
call. -/
theorem C15_munmap_not_start (kernel_end va : Nat) (s : kernel_state)
    (h : ∀ i ai, i < MMAP_PROC_MAX → s.p.mmap i = some ai → (s.mmap_areas ai).start ≠ va) :
    ∃ s1, munmap kernel_end va s = some (-1, s1) ∧ s1.k = s.k ∧
      s1.mmap_areas = s.mmap_areas ∧ s1.shared_pages = s.shared_pages := by
  unfold munmap get_vma
  cases hg : get_vma_loop s.mmap_areas s.p.mmap va MMAP_PROC_MAX 0 with
  | none =>
    simp only [hg]
    exact ⟨_, rfl, rfl, rfl, rfl⟩
  | some i =>
    obtain ⟨_, hi, ai, hm, _⟩ := get_vma_loop_some _ _ _ _ _ _ hg
    have hne : va ≠ (s.mmap_areas ai).start := fun e => h i ai (by omega) hm e.symm
    simp only [hg, hm]
    rw [if_pos hne]
    exact ⟨_, rfl, rfl, rfl, rfl⟩

/-- C15 at the address `0x100001010` strictly inside the Region of
`one_region_state`. -/
theorem C15_munmap_not_start_witness :
    ∃ s1, munmap 0x80021000 0x100001010 one_region_state = some (-1, s1) ∧
      s1.k = one_region_state.k ∧
      s1.mmap_areas = one_region_state.mmap_areas ∧
      s1.shared_pages = one_region_state.shared_pages :=
  C15_munmap_not_start 0x80021000 0x100001010 one_region_state (by
    intro i ai hi hm
    by_cases h0 : i = 0
    · subst h0
      have : ai = 0 := by
        have h1 : one_region_state.p.mmap 0 = some 0 := rfl
        rw [h1] at hm
        exact (Option.some.inj hm).symm
      subst this
      decide
    · have h1 : one_region_state.p.mmap i = none := by
        simp [one_region_state, h0]
      rw [h1] at hm
      cases hm)

/-! ## `munmap`: the loop over the pages -/

/-- Without allocating, the walks return the entry `leaf_slot` and leave the
state as it is. -/
theorem walk_no_alloc (pagetable va : Nat) (is_huge : Bool) (k : kstate) (hva : va < MAXVA) :
    (if is_huge then hugewalk pagetable va false k else walk pagetable va false k) =
      some (leaf_slot k.mem pagetable va is_huge, k) := by
  have hge : ¬ va ≥ MAXVA := by omega
  unfold leaf_slot
  cases is_huge with
  | true =>
    simp only [if_true]
    unfold hugewalk walk_step
    rw [if_neg hge]
    by_cases h2 : k.mem (pte_addr pagetable (PX 2 va)) &&& PTE_V ≠ 0
    · simp only [if_pos h2]
    · simp only [if_neg h2, if_true]
  | false =>
    simp only [Bool.false_eq_true, if_false]
    unfold walk walk_step
    rw [if_neg hge]
    by_cases h2 : k.mem (pte_addr pagetable (PX 2 va)) &&& PTE_V ≠ 0
    · simp only [if_pos h2]
      by_cases h1 : k.mem (pte_addr (PTE2PA (k.mem (pte_addr pagetable (PX 2 va))))
          (PX 1 va)) &&& PTE_V ≠ 0
      · simp only [if_pos h1]
      · simp only [if_neg h1, if_true]
    · simp only [if_neg h2, if_true]

/-- The entry reached and the entries read on the way depend only on the
entries read on the way. -/
theorem leaf_slot_congr (m m1 : Memory) (pagetable va : Nat) (is_huge : Bool)
    (h : ∀ w ∈ path_words m pagetable va is_huge, m1 w = m w) :
    leaf_slot m1 pagetable va is_huge = leaf_slot m pagetable va is_huge ∧
    path_words m1 pagetable va is_huge = path_words m pagetable va is_huge := by
  cases is_huge with
  | true =>
    have h2 : m1 (pte_addr pagetable (PX 2 va)) = m (pte_addr pagetable (PX 2 va)) :=
      h _ (by simp [path_words])
    constructor
    · unfold leaf_slot
      rw [h2]
      simp only [if_true]
    · rfl
  | false =>
    have h2 : m1 (pte_addr pagetable (PX 2 va)) = m (pte_addr pagetable (PX 2 va)) :=
      h _ (by simp [path_words])
    have h1 : m1 (pte_addr (PTE2PA (m (pte_addr pagetable (PX 2 va)))) (PX 1 va)) =
        m (pte_addr (PTE2PA (m (pte_addr pagetable (PX 2 va)))) (PX 1 va)) :=
      h _ (by simp [path_words])
    constructor
    · unfold leaf_slot
      rw [h2, h1]
    · unfold path_words
      rw [h2]

/-- The function `kfree_flex` writes only inside the frame it is given. -/
theorem kfree_flex_mem (kernel_end pa : Nat) (is_huge : Bool) (k k1 : kstate)
    (h : kfree_flex kernel_end pa is_huge k = some k1) (x : Nat)
    (hx : ¬ in_frame pa (page_size is_huge) x) : k1.mem x = k.mem x := by
  unfold in_frame page_size at hx
  unfold kfree_flex at h
  cases is_huge with
  | true =>
    simp only [if_true] at h hx
    unfold kfree_huge at h
    split at h
    · cases h
    · simp only at h
      split at h
      · cases h
      · cases h
        simp only [memset]
        rw [if_neg hx]
  | false =>
    simp only [Bool.false_eq_true, if_false] at h hx
    unfold kfree at h
    split at h
    · cases h
    · cases h
      simp only [memset, store]
      have hne : x ≠ pa := by
        intro e
        apply hx
        rw [e]
        exact ⟨le_refl _, by unfold PGSIZE; omega⟩
      rw [if_neg hne, if_neg hx]

/-- A memory that agrees with `mem` on the entries of the pages and on the
entries read on the way to them maps the pages as well as `mem` does. -/
theorem region_ok_congr (m m1 : Memory) (pagetable : Nat) (is_huge is_idle : Bool)
    (pages : List Nat) (hok : region_ok m pagetable is_huge is_idle pages)
    (h : ∀ v ∈ pages,
      ∀ w ∈ leaf_slot m pagetable v is_huge :: path_words m pagetable v is_huge, m1 w = m w) :
    region_ok m1 pagetable is_huge is_idle pages := by
  have hs : ∀ v ∈ pages, leaf_slot m1 pagetable v is_huge = leaf_slot m pagetable v is_huge ∧
      path_words m1 pagetable v is_huge = path_words m pagetable v is_huge ∧
      m1 (leaf_slot m pagetable v is_huge) = m (leaf_slot m pagetable v is_huge) := by
    intro v hv
    have hc := leaf_slot_congr m m1 pagetable v is_huge
      (fun w hw => h v hv w (List.mem_cons_of_mem _ hw))
    exact ⟨hc.1, hc.2, h v hv _ (List.mem_cons_self _ _)⟩
  obtain ⟨h1, h2, h3, h4⟩ := hok
  refine ⟨?_, ?_, ?_, ?_⟩
  · intro v hv
    rw [(hs v hv).1, (hs v hv).2.2]
    exact h1 v hv
  · refine List.Pairwise.imp_of_mem ?_ h2
    intro u v hu hv huv
    rw [(hs u hu).1, (hs v hv).1]
    exact huv
  · intro u hu v hv
    rw [(hs u hu).1, (hs v hv).2.1]
    exact h3 u hu v hv
  · intro hi u hu v hv w hw
    rw [(hs v hv).1, (hs v hv).2.1] at hw
    rw [(hs u hu).1, (hs u hu).2.2]
    exact h4 hi u hu v hv w hw

/-- The pages after the first one of a well-mapped list are well mapped. -/
theorem region_ok_tail (m : Memory) (pagetable : Nat) (is_huge is_idle : Bool)
    (a : Nat) (rest : List Nat) (hok : region_ok m pagetable is_huge is_idle (a :: rest)) :
    region_ok m pagetable is_huge is_idle rest := by
  obtain ⟨h1, h2, h3, h4⟩ := hok
  refine ⟨?_, ?_, ?_, ?_⟩
  · intro v hv
    exact h1 v (List.mem_cons_of_mem _ hv)
  · exact (List.pairwise_cons.mp h2).2
  · intro u hu v hv
    exact h3 u (List.mem_cons_of_mem _ hu) v (List.mem_cons_of_mem _ hv)
  · intro hi u hu v hv w hw
    exact h4 hi u (List.mem_cons_of_mem _ hu) v (List.mem_cons_of_mem _ hv) w hw

/-- A page is at most 2 MiB. -/
theorem page_size_le (is_huge : Bool) : page_size is_huge ≤ HUGEPGSIZE := by
  unfold page_size
  cases is_huge with
  | true => simp
  | false => simp only [Bool.false_eq_true, if_false]; decide

/-- The loop of `munmap` over well-mapped pages: when it returns, it returns 0,
the entry of every page is 0, and every word that is not such an entry and, when
the frames are freed, not inside the frame of a page, is unchanged. -/
theorem munmap_loop_clears (kernel_end pagetable : Nat) (is_huge is_idle : Bool) :
    ∀ (n a : Nat) (k : kstate) (r : Int) (k1 : kstate),
      region_ok k.mem pagetable is_huge is_idle (region_pages (page_size is_huge) n a) →
      munmap_loop kernel_end pagetable is_huge is_idle n a k = some (r, k1) →
      r = 0 ∧
      (∀ v ∈ region_pages (page_size is_huge) n a,
        k1.mem (leaf_slot k.mem pagetable v is_huge) = 0) ∧
      (∀ x, (∀ v ∈ region_pages (page_size is_huge) n a,
            x ≠ leaf_slot k.mem pagetable v is_huge) →
          (is_idle = true → ∀ v ∈ region_pages (page_size is_huge) n a,
            ¬ in_frame (PTE2PA (k.mem (leaf_slot k.mem pagetable v is_huge)))
              (page_size is_huge) x) →
          k1.mem x = k.mem x) := by
  intro n
  induction n with
  | zero =>
    intro a k r k1 _ h
    simp only [munmap_loop, Option.some.injEq, Prod.mk.injEq] at h
    obtain ⟨hr, hk⟩ := h
    subst hr hk
    refine ⟨rfl, ?_, ?_⟩
    · intro v hv
      simp [region_pages] at hv
    · intro x _ _
      rfl
  | succ n ih =>
    intro a k r k1 hok h
    have hpages : region_pages (page_size is_huge) (n + 1) a =
        a :: region_pages (page_size is_huge) n (a + page_size is_huge) := rfl
    rw [hpages] at hok ⊢
    have hok0 := hok
    obtain ⟨h1, h2, h3, h4⟩ := hok
    obtain ⟨hva, hslot, hleaf⟩ := h1 a (List.mem_cons_self _ _)
    have hpair := List.pairwise_cons.mp h2
    unfold munmap_loop at h
    rw [walk_no_alloc pagetable a is_huge k hva] at h
    simp only at h
    have hnot : ¬ (leaf_slot k.mem pagetable a is_huge = 0 ∨
        PTE_FLAGS (k.mem (leaf_slot k.mem pagetable a is_huge)) = PTE_V) := by
      intro hc
      rcases hc with hc | hc
      · exact hslot hc
      · exact hleaf.2 hc
    rw [if_neg hnot] at h
    have hstep : u64 (a + if is_huge = true then HUGEPGSIZE else PGSIZE) =
        a + page_size is_huge := by
      have hps : (if is_huge = true then HUGEPGSIZE else PGSIZE) = page_size is_huge := rfl
      rw [hps]
      have hle := page_size_le is_huge
      have hH : HUGEPGSIZE = 2097152 := by decide
      have hM : MAXVA = 274877906944 := by decide
      unfold u64
      apply Nat.mod_eq_of_lt
      omega
    rw [hstep] at h
    -- the state after the first page
    cases hk3 : (if is_idle = true then
        kfree_flex kernel_end (PTE2PA (k.mem (leaf_slot k.mem pagetable a is_huge))) is_huge
          { k with mem := store k.mem (leaf_slot k.mem pagetable a is_huge) 0 }
        else some { k with mem := store k.mem (leaf_slot k.mem pagetable a is_huge) 0 }) with
    | none =>
      rw [hk3] at h
      cases h
    | some k3 =>
      rw [hk3] at h
      simp only at h
      have hmem : ∀ x, x ≠ leaf_slot k.mem pagetable a is_huge →
          (is_idle = true → ¬ in_frame (PTE2PA (k.mem (leaf_slot k.mem pagetable a is_huge)))
            (page_size is_huge) x) → k3.mem x = k.mem x := by
        intro x hx hfr
        cases hi : is_idle with
        | true =>
          rw [hi] at hk3
          simp only [if_true] at hk3
          rw [kfree_flex_mem _ _ _ _ _ hk3 x (hfr hi)]
          simp only [store]
          rw [if_neg hx]
        | false =>
          rw [hi] at hk3
          simp only [Bool.false_eq_true, if_false, Option.some.injEq] at hk3
          rw [← hk3]
          simp only [store]
          rw [if_neg hx]
      have hzero : k3.mem (leaf_slot k.mem pagetable a is_huge) = 0 := by
        cases hi : is_idle with
        | true =>
          rw [hi] at hk3
          simp only [if_true] at hk3
          rw [kfree_flex_mem _ _ _ _ _ hk3 _
            (h4 hi a (List.mem_cons_self _ _) a (List.mem_cons_self _ _) _
              (List.mem_cons_self _ _))]
          simp [store]
        | false =>
          rw [hi] at hk3
          simp only [Bool.false_eq_true, if_false, Option.some.injEq] at hk3
          rw [← hk3]
          simp [store]
      -- the remaining pages are mapped in the new memory as before
      have hagree : ∀ v ∈ region_pages (page_size is_huge) n (a + page_size is_huge),
          ∀ w ∈ leaf_slot k.mem pagetable v is_huge :: path_words k.mem pagetable v is_huge,
            k3.mem w = k.mem w := by
        intro v hv w hw
        apply hmem
        · rcases List.mem_cons.mp hw with hw | hw
          · rw [hw]
            exact fun e => hpair.1 v hv e.symm
          · intro e
            rw [e] at hw
            exact h3 a (List.mem_cons_self _ _) v (List.mem_cons_of_mem _ hv) hw
        · intro hi
          exact h4 hi a (List.mem_cons_self _ _) v (List.mem_cons_of_mem _ hv) w hw
      have hrest := region_ok_tail _ _ _ _ _ _ hok0
      have hok3 := region_ok_congr k.mem k3.mem pagetable is_huge is_idle _ hrest hagree
      have hs : ∀ v ∈ region_pages (page_size is_huge) n (a + page_size is_huge),
          leaf_slot k3.mem pagetable v is_huge = leaf_slot k.mem pagetable v is_huge ∧
          k3.mem (leaf_slot k.mem pagetable v is_huge) =
            k.mem (leaf_slot k.mem pagetable v is_huge) := by
        intro v hv
        exact ⟨(leaf_slot_congr k.mem k3.mem pagetable v is_huge
          (fun w hw => hagree v hv w (List.mem_cons_of_mem _ hw))).1,
          hagree v hv _ (List.mem_cons_self _ _)⟩
      obtain ⟨hr, hcl, hfrm⟩ := ih (a + page_size is_huge) k3 r k1 hok3 h
      refine ⟨hr, ?_, ?_⟩
      · intro v hv
        rcases List.mem_cons.mp hv with hv | hv
        · rw [hv, hfrm _ ?_ ?_]
          · exact hzero
          · intro u hu
            rw [(hs u hu).1]
            exact hpair.1 u hu
          · intro hi u hu
            rw [(hs u hu).1, (hs u hu).2]
            exact h4 hi u (List.mem_cons_of_mem _ hu) a (List.mem_cons_self _ _) _
              (List.mem_cons_self _ _)
        · have := hcl v hv
          rw [(hs v hv).1] at this
          exact this
      · intro x hx hfr
        rw [hfrm x ?_ ?_]
        · exact hmem x (hx a (List.mem_cons_self _ _))
            (fun hi => hfr hi a (List.mem_cons_self _ _))
        · intro u hu
          rw [(hs u hu).1]
          exact hx u (List.mem_cons_of_mem _ hu)
        · intro hi u hu
          rw [(hs u hu).1, (hs u hu).2]
          exact hfr hi u (List.mem_cons_of_mem _ hu)

/-- The function `get_vma` keeps the page table of the process. -/
theorem get_vma_pagetable (p : proc) (areas : Nat → vm_area) (addr : Nat) (pop : Bool) :
    (get_vma p areas addr pop).2.pagetable = p.pagetable := by
  unfold get_vma
  cases get_vma_loop areas p.mmap addr MMAP_PROC_MAX 0 with
  | none => rfl
  | some i =>
    cases pop with
    | true => rfl
    | false => rfl

/-- C16: let the process hold a Region (private or shared, of 4 KiB or 2 MiB
pages) that starts at `va`, and let its pages be mapped by a well-formed page
table (`region_ok`: every covered page has a present leaf of the granularity of
the Region, the leaves are distinct words that are not table entries above a
leaf, and the frames that will be freed hold none of these entries).  When
`munmap(va)` returns 0, then in the resulting page table the walk to every
covered page reaches the same entry as before, and that entry is 0, whether
the frames were freed or retained (`is_idle` of `munmap_shared`); and every
word of memory, so every page-table entry, that is not a leaf of the Region
and, when the frames were freed, not inside one of them, is unchanged. -/
theorem C16_munmap_clears (kernel_end va ai : Nat) (s s1 : kernel_state)
    (hfind : (get_vma s.p s.mmap_areas va true).1 = some ai)
    (hstart : (s.mmap_areas ai).start = va)
    (hok : region_ok s.k.mem s.p.pagetable (region_huge (s.mmap_areas ai))
      (munmap_shared s.mmap_areas s.shared_pages ai va).1 (covered_pages (s.mmap_areas ai)))
    (hret : munmap kernel_end va s = some (0, s1)) :
    (∀ v ∈ covered_pages (s.mmap_areas ai),
      leaf_slot s1.k.mem s1.p.pagetable v (region_huge (s.mmap_areas ai)) =
        leaf_slot s.k.mem s.p.pagetable v (region_huge (s.mmap_areas ai)) ∧
      s1.k.mem (leaf_slot s1.k.mem s1.p.pagetable v (region_huge (s.mmap_areas ai))) = 0) ∧
    (∀ x,
      (∀ v ∈ covered_pages (s.mmap_areas ai),
        x ≠ leaf_slot s.k.mem s.p.pagetable v (region_huge (s.mmap_areas ai))) →
      ((munmap_shared s.mmap_areas s.shared_pages ai va).1 = true →
        ∀ v ∈ covered_pages (s.mmap_areas ai),
          ¬ in_frame
            (PTE2PA (s.k.mem (leaf_slot s.k.mem s.p.pagetable v
              (region_huge (s.mmap_areas ai)))))
            (page_size (region_huge (s.mmap_areas ai))) x) →
      s1.k.mem x = s.k.mem x) := by
  subst hstart
  have hpt := get_vma_pagetable s.p s.mmap_areas (s.mmap_areas ai).start true
  unfold munmap at hret
  simp only [] at hret
  rcases hg : get_vma s.p s.mmap_areas (s.mmap_areas ai).start true with ⟨o, p1⟩
  rw [hg] at hfind hret hpt
  simp only at hfind hpt
  subst hfind
  simp only [ne_eq, not_true_eq_false, if_false] at hret
  rw [hpt] at hret
  cases hl : munmap_loop kernel_end s.p.pagetable
      (decide ((s.mmap_areas ai).options &&& MAP_HUGEPAGE ≠ 0))
      (munmap_shared s.mmap_areas s.shared_pages ai (s.mmap_areas ai).start).1
      (pages_between (s.mmap_areas ai).start
        (if decide ((s.mmap_areas ai).options &&& MAP_HUGEPAGE ≠ 0) = true then
          HUGEPGROUNDDOWN (u64 ((s.mmap_areas ai).start + (s.mmap_areas ai).length + (2 ^ 64 - 1)))
        else PGROUNDDOWN (u64 ((s.mmap_areas ai).start + (s.mmap_areas ai).length + (2 ^ 64 - 1))))
        (if decide ((s.mmap_areas ai).options &&& MAP_HUGEPAGE ≠ 0) = true then HUGEPGSIZE
          else PGSIZE))
      (s.mmap_areas ai).start s.k with
  | none =>
    rw [hl] at hret
    cases hret
  | some rk =>
    obtain ⟨r, k1⟩ := rk
    rw [hl] at hret
    simp only [Option.some.injEq, Prod.mk.injEq] at hret
    obtain ⟨_, hs1⟩ := hret
    subst hs1
    obtain ⟨_, hcl, hfrm⟩ := munmap_loop_clears kernel_end s.p.pagetable
      (region_huge (s.mmap_areas ai))
      (munmap_shared s.mmap_areas s.shared_pages ai (s.mmap_areas ai).start).1 _ _ s.k r k1
      hok hl
    obtain ⟨_, _, h3, h4⟩ := hok
    refine ⟨?_, hfrm⟩
    intro v hv
    have hc := (leaf_slot_congr s.k.mem k1.mem s.p.pagetable v (region_huge (s.mmap_areas ai))
      (fun w hw => hfrm w
        (fun u hu e => h3 u hu v hv (e ▸ hw))
        (fun hi u hu => h4 hi u hu v hv w (List.mem_cons_of_mem _ hw)))).1
    simp only [hpt]
    rw [hc]
    exact ⟨rfl, hcl v hv⟩

/-- C16 at the Region of two pages of `two_page_state`, whose frames
`0x80100000` and `0x80101000` are freed. -/
theorem C16_munmap_clears_witness :
    munmap 0x80021000 0x100000000 two_page_state = some (0, two_page_unmapped) ∧
    covered_pages (two_page_state.mmap_areas 0) = [0x100000000, 0x100001000] ∧
    ((∀ v ∈ covered_pages (two_page_state.mmap_areas 0),
      leaf_slot two_page_unmapped.k.mem two_page_unmapped.p.pagetable v
          (region_huge (two_page_state.mmap_areas 0)) =
        leaf_slot two_page_state.k.mem two_page_state.p.pagetable v
          (region_huge (two_page_state.mmap_areas 0)) ∧
      two_page_unmapped.k.mem (leaf_slot two_page_unmapped.k.mem
        two_page_unmapped.p.pagetable v (region_huge (two_page_state.mmap_areas 0))) = 0) ∧
    (∀ x,
      (∀ v ∈ covered_pages (two_page_state.mmap_areas 0),
        x ≠ leaf_slot two_page_state.k.mem two_page_state.p.pagetable v
          (region_huge (two_page_state.mmap_areas 0))) →
      ((munmap_shared two_page_state.mmap_areas two_page_state.shared_pages 0
          0x100000000).1 = true →
        ∀ v ∈ covered_pages (two_page_state.mmap_areas 0),
          ¬ in_frame
            (PTE2PA (two_page_state.k.mem (leaf_slot two_page_state.k.mem
              two_page_state.p.pagetable v (region_huge (two_page_state.mmap_areas 0)))))
            (page_size (region_huge (two_page_state.mmap_areas 0))) x) →
      two_page_unmapped.k.mem x = two_page_state.k.mem x)) :=
  ⟨rfl, by decide,
    C16_munmap_clears 0x80021000 0x100000000 0 two_page_state two_page_unmapped
      (by decide) (by decide) (by unfold region_ok; decide) rfl⟩

/-! ## `munmap`: the Region table and the Shared-Frame Records -/

/-- C17, evaluated on the code: in `one_region_state` the process holds one
private Region, entry 0 of the global table, at `0x100001000`.  The call
`munmap(0x100001000)` returns 0, clears the entry of the page and the slot of
the process (`mmap_count` becomes 0), but entry 0 of the global table still has
`is_valid == TRUE`: only the branch for shared Regions assigns `FALSE`.  The
table then has one valid entry while the process maps no Region, and
`find_empty_vma` skips entry 0. -/
theorem C17_private_munmap_keeps_valid :
    one_region_state.p.mmap 0 = some 0 ∧
    (one_region_state.mmap_areas 0).options &&& MAP_SHARED = 0 ∧
    (munmap 0x80021000 0x100001000 one_region_state).map
      (fun r => (r.1, r.2.k.mem 0x87002008, (r.2.mmap_areas 0).is_valid,
        r.2.p.mmap 0, r.2.p.mmap 1, r.2.p.mmap 2, r.2.p.mmap 3, r.2.p.mmap_count)) =
      some (0, 0, TRUE, none, none, none, none, 0) ∧
    (munmap 0x80021000 0x100001000 one_region_state).map
      (fun r => (find_empty_vma r.2.mmap_areas).1) = some (some 1) := by
  refine ⟨by decide, by decide, rfl, by decide⟩

/-- A list of pages with one element is the list of one page. -/
theorem region_pages_one (step n a va : Nat) (h : region_pages step n a = [va]) : n = 1 := by
  cases n with
  | zero => simp [region_pages] at h
  | succ n =>
    cases n with
    | zero => rfl
    | succ n => simp [region_pages] at h

/-- The loop of `munmap` over one page with a present leaf: the entry is
cleared, and with `is_idle` the frame is given to `kfree_flex`. -/
theorem munmap_loop_one (kernel_end pagetable va : Nat) (is_huge is_idle : Bool) (k : kstate)
    (hva : va < MAXVA) (hslot : leaf_slot k.mem pagetable va is_huge ≠ 0)
    (hleaf : present_leaf (k.mem (leaf_slot k.mem pagetable va is_huge))) :
    munmap_loop kernel_end pagetable is_huge is_idle 1 va k =
      (if is_idle then
        kfree_flex kernel_end (PTE2PA (k.mem (leaf_slot k.mem pagetable va is_huge))) is_huge
          { k with mem := store k.mem (leaf_slot k.mem pagetable va is_huge) 0 }
       else some { k with mem := store k.mem (leaf_slot k.mem pagetable va is_huge) 0 }).map
        (fun k3 => ((0 : Int), k3)) := by
  unfold munmap_loop
  rw [walk_no_alloc pagetable va is_huge k hva]
  simp only
  have hnot : ¬ (leaf_slot k.mem pagetable va is_huge = 0 ∨
      PTE_FLAGS (k.mem (leaf_slot k.mem pagetable va is_huge)) = PTE_V) := by
    intro hc
    rcases hc with hc | hc
    · exact hslot hc
    · exact hleaf.2 hc
  rw [if_neg hnot]
  cases (if is_idle = true then
      kfree_flex kernel_end (PTE2PA (k.mem (leaf_slot k.mem pagetable va is_huge))) is_huge
        { k with mem := store k.mem (leaf_slot k.mem pagetable va is_huge) 0 }
      else some { k with mem := store k.mem (leaf_slot k.mem pagetable va is_huge) 0 }) with
  | none => rfl
  | some k3 => rfl

/-- The `munmap` of a sharer whose page is backed by the frame of the record:
let the process hold a shared Region of one page that starts at `va`,
let `r` be the Shared-Frame Record that `find_shpg` finds for it, with the
reference count `n`, and let the page be backed by the frame of the record: the
entry of the page is found and holds the cached entry of the record, a present
leaf.  If `n >= 2`, `munmap(va)` returns 0 in the state in which the count of
the record is `n - 1`, its identity and cached entry and the global Region
table (so the validity of the Region) are unchanged, and the allocator is
unchanged: of the memory only the entry of the page is written (cleared).  If
`n == 1`, `munmap(va)` is one call of `kfree_flex` on the frame of the record,
in the state with the entry cleared; when that call returns, `munmap` returns 0
with the record reset and the Region marked invalid. -/
theorem shared_munmap_backed (kernel_end va ai r : Nat) (n : Int) (s : kernel_state)
    (hfind : (get_vma s.p s.mmap_areas va true).1 = some ai)
    (hstart : (s.mmap_areas ai).start = va)
    (hshared : (s.mmap_areas ai).options &&& MAP_SHARED ≠ 0)
    (hone : covered_pages (s.mmap_areas ai) = [va])
    (hva : va < MAXVA)
    (hrec : find_shpg s.shared_pages (s.mmap_areas ai).idx va = some r)
    (hn : (s.shared_pages r).ref_count = n)
    (hslot : leaf_slot s.k.mem s.p.pagetable va (region_huge (s.mmap_areas ai)) ≠ 0)
    (hentry : s.k.mem (leaf_slot s.k.mem s.p.pagetable va (region_huge (s.mmap_areas ai))) =
      (s.shared_pages r).pte)
    (hleaf : present_leaf (s.shared_pages r).pte) :
    (2 ≤ n →
      munmap kernel_end va s =
        some (0,
          { s with
            k := { s.k with
                   mem := store s.k.mem
                     (leaf_slot s.k.mem s.p.pagetable va (region_huge (s.mmap_areas ai))) 0 },
            shared_pages := fun j =>
              if j = r then { s.shared_pages r with ref_count := n - 1 } else s.shared_pages j,
            p := (get_vma s.p s.mmap_areas va true).2 })) ∧
    (n = 1 →
      munmap kernel_end va s =
        (kfree_flex kernel_end (PTE2PA (s.shared_pages r).pte) (region_huge (s.mmap_areas ai))
          { s.k with
            mem := store s.k.mem
              (leaf_slot s.k.mem s.p.pagetable va (region_huge (s.mmap_areas ai))) 0 }).map
          (fun k3 =>
            (0,
              { s with
                k := k3,
                mmap_areas := fun j =>
                  if j = ai then { s.mmap_areas ai with is_valid := FALSE } else s.mmap_areas j,
                shared_pages := fun j => if j = r then ⟨-1, 0, 0, 0⟩ else s.shared_pages j,
                p := (get_vma s.p s.mmap_areas va true).2 }))) := by
  subst hstart
  have hpt := get_vma_pagetable s.p s.mmap_areas (s.mmap_areas ai).start true
  have hcount := region_pages_one _ _ _ _ hone
  have hleaf1 : present_leaf (s.k.mem (leaf_slot s.k.mem s.p.pagetable (s.mmap_areas ai).start
      (region_huge (s.mmap_areas ai)))) := by
    rw [hentry]
    exact hleaf
  have hloop := fun is_idle => munmap_loop_one kernel_end s.p.pagetable (s.mmap_areas ai).start
    (region_huge (s.mmap_areas ai)) is_idle s.k hva hslot hleaf1
  unfold munmap region_huge
  simp only []
  rcases hg : get_vma s.p s.mmap_areas (s.mmap_areas ai).start true with ⟨o, p1⟩
  rw [hg] at hfind hpt
  simp only at hfind hpt
  subst hfind
  simp only [ne_eq, not_true_eq_false, if_false]
  rw [hpt]
  unfold covered_pages page_size region_huge at hcount
  unfold region_huge at hloop hentry
  rw [hcount]
  constructor
  · intro h2
    have hsh : munmap_shared s.mmap_areas s.shared_pages ai (s.mmap_areas ai).start =
        (false, s.mmap_areas,
          fun j => if j = r then { s.shared_pages r with ref_count := n - 1 }
                   else s.shared_pages j) := by
      unfold munmap_shared
      rw [if_pos hshared, hrec]
      simp only
      have hne : ¬ ((s.shared_pages r).ref_count - 1 = 0) := by omega
      rw [if_neg hne, hn]
    rw [hsh, hloop false]
    rfl
  · intro h1
    have hsh : munmap_shared s.mmap_areas s.shared_pages ai (s.mmap_areas ai).start =
        (true,
          fun j => if j = ai then { s.mmap_areas ai with is_valid := FALSE } else s.mmap_areas j,
          fun j => if j = r then ⟨-1, 0, 0, 0⟩ else s.shared_pages j) := by
      unfold munmap_shared
      rw [if_pos hshared, hrec]
      simp only
      have he : (s.shared_pages r).ref_count - 1 = 0 := by omega
      rw [if_pos he]
    rw [hsh, hloop true, hentry]
    simp only [if_true]
    cases kfree_flex kernel_end (PTE2PA (s.shared_pages r).pte)
        (decide ((s.mmap_areas ai).options &&& MAP_HUGEPAGE ≠ 0))
        { s.k with
          mem := store s.k.mem
            (leaf_slot s.k.mem s.p.pagetable (s.mmap_areas ai).start
              (decide ((s.mmap_areas ai).options &&& MAP_HUGEPAGE ≠ 0))) 0 } with
    | none => rfl
    | some k3 => rfl

/-- Two sharers whose pages are backed by the frame of the record: the first
`munmap`, in `shared_state 2`, lowers the
count to 1 and frees nothing; the second, in `shared_state 1`, resets the
record, marks the Region invalid and frees the frame `0x80021000` with one call
of `kfree`, which returns. -/
theorem shared_munmap_backed_example :
    (munmap 0x80021000 0x100000000 (shared_state 2)).map
      (fun t => (t.1, t.2.shared_pages 33, (t.2.mmap_areas 1).is_valid,
        t.2.k.hugepages 0, t.2.k.freemem, t.2.k.mem 0x87002000)) =
      some (0, ⟨1, 0x100000000, 1, PA2PTE 0x80021000 ||| PTE_V ||| PTE_U ||| PTE_R ||| PTE_W⟩,
        1, ⟨0, 0, 0⟩, 0, 0) ∧
    (munmap 0x80021000 0x100000000 (shared_state 1)).map
      (fun t => (t.1, t.2.shared_pages 33, (t.2.mmap_areas 1).is_valid,
        t.2.k.hugepages 0, t.2.k.freemem, t.2.k.mem 0x87002000)) =
      some (0, ⟨-1, 0, 0, 0⟩, 0, ⟨0x80021000, 1, 0⟩, 1, 0) := by
  constructor
  · rw [(shared_munmap_backed 0x80021000 0x100000000 1 33 2 (shared_state 2)
      (by decide) (by decide) (by decide) (by decide) (by decide) (by decide) rfl
      (by decide) (by decide) (by decide)).1 (by decide)]
    rfl
  · rw [(shared_munmap_backed 0x80021000 0x100000000 1 33 1 (shared_state 1)
      (by decide) (by decide) (by decide) (by decide) (by decide) (by decide) rfl
      (by decide) (by decide) (by decide)).2 rfl]
    rfl

/-! ## The Zero Frame -/

/-- C19, evaluated on the code: in `no_region_state` the descriptor of the Zero
Frame is as `kinit` leaves it (allocated-whole) and the first words of the
frame are 0.  After `mmap(0x100000000, 100, PROT_WRITE, MAP_PRIVATE)`, which
returns `addr`, the call `munmap(0x100000000)` on the untouched mapping returns
0 and has applied `kfree` to `ZEROHUGEPG`, the frame of the entry: the frame is
the head of the free list of its descriptor, `freecount` is 513, the first word
of the Zero Frame holds the link and the second the fill pattern of `kfree`,
`freemem` is one more and `used4k` one less. -/
theorem C19_zero_frame_freed :
    no_region_state.k.hugepages (HUGEPGINDEX ZEROHUGEPG) = ⟨0x87FFF000, 512, 1⟩ ∧
    no_region_state.k.mem ZEROHUGEPG = 0 ∧
    no_region_state.k.mem (ZEROHUGEPG + 8) = 0 ∧
    (mmap 0x100000000 100 PROT_WRITE MAP_PRIVATE no_region_state).map
      (fun r => (r.1, PTE2PA (r.2.k.mem 0x87002000))) = some (0x100000000, ZEROHUGEPG) ∧
    ((mmap 0x100000000 100 PROT_WRITE MAP_PRIVATE no_region_state).bind
      (fun r => munmap 0x80021000 0x100000000 r.2)).map
      (fun r => (r.1, r.2.k.hugepages (HUGEPGINDEX ZEROHUGEPG), r.2.k.mem ZEROHUGEPG,
        r.2.k.mem (ZEROHUGEPG + 8), r.2.k.freemem, r.2.k.used4k)) =
      some (0, ⟨ZEROHUGEPG, 513, 1⟩, 0x87FFF000, 0x0101010101010101, 1, 32255) := by
  refine ⟨by decide, by decide, by decide, by decide, by decide⟩

/-! ## `pagefault` -/

/-- C20, evaluated on the code: for the fault address `MAXVA`, which no Region
of the process contains, `pagefault` panics in every state and for every
cause: `walkfind` checks `va >= MAXVA` first.  The process is not marked killed
and the call does not return. -/
theorem C20_pagefault_panics :
    (∀ (scause : Nat) (s : kernel_state), pagefault scause MAXVA s = none) ∧
    (get_vma no_region_state.p no_region_state.mmap_areas MAXVA false).1 = none := by
  refine ⟨?_, by decide⟩
  intro scause s
  rfl

/-! ## `pagefault`: the path through the function -/

/-- The loop of `find_shpg` returns `NULL` when no scanned record matches. -/
theorem find_shpg_loop_none (shpgs : Nat → shared_page) (vma_idx : Int) (start_va : Nat) :
    ∀ (n i : Nat),
      (∀ j, i ≤ j → j < i + n →
        ¬ ((shpgs j).vma_idx = vma_idx ∧ (shpgs j).start_va = start_va)) →
      find_shpg_loop shpgs vma_idx start_va n i = none := by
  intro n
  induction n with
  | zero => intro i _; rfl
  | succ n ih =>
    intro i h
    unfold find_shpg_loop
    rw [if_neg (h i (le_refl _) (by omega))]
    exact ih (i + 1) (fun j h1 h2 => h j (by omega) (by omega))

/-- The loop of `find_shpg` returns the first record that matches. -/
theorem find_shpg_loop_first (shpgs : Nat → shared_page) (vma_idx : Int) (start_va r : Nat)
    (hr : (shpgs r).vma_idx = vma_idx ∧ (shpgs r).start_va = start_va) :
    ∀ (n i : Nat), i ≤ r → r < i + n →
      (∀ j, i ≤ j → j < r →
        ¬ ((shpgs j).vma_idx = vma_idx ∧ (shpgs j).start_va = start_va)) →
      find_shpg_loop shpgs vma_idx start_va n i = some r := by
  intro n
  induction n with
  | zero => intro i h1 h2 _; omega
  | succ n ih =>
    intro i h1 h2 h
    unfold find_shpg_loop
    by_cases hi : i = r
    · subst hi
      rw [if_pos hr]
    · rw [if_neg (h i (le_refl _) (by omega))]
      exact ih (i + 1) (by omega) (by omega) (fun j h3 h4 => h j (by omega) h4)

/-- No record matches: `find_shpg` returns `NULL`. -/
theorem find_shpg_none (shpgs : Nat → shared_page) (vma_idx : Int) (start_va : Nat)
    (h : ∀ j, ¬ ((shpgs j).vma_idx = vma_idx ∧ (shpgs j).start_va = start_va)) :
    find_shpg shpgs vma_idx start_va = none :=
  find_shpg_loop_none shpgs vma_idx start_va MAXPGS 0 (fun j _ _ => h j)

/-- When `find_shpg` returns `NULL`, no scanned record matches. -/
theorem find_shpg_loop_none_inv (shpgs : Nat → shared_page) (vma_idx : Int) (start_va : Nat) :
    ∀ (n i : Nat), find_shpg_loop shpgs vma_idx start_va n i = none →
      ∀ j, i ≤ j → j < i + n →
        ¬ ((shpgs j).vma_idx = vma_idx ∧ (shpgs j).start_va = start_va) := by
  intro n
  induction n with
  | zero => intro i _ j h1 h2; omega
  | succ n ih =>
    intro i h j h1 h2
    unfold find_shpg_loop at h
    by_cases hi : (shpgs i).vma_idx = vma_idx ∧ (shpgs i).start_va = start_va
    · rw [if_pos hi] at h
      cases h
    · rw [if_neg hi] at h
      by_cases hj : j = i
      · rw [hj]
        exact hi
      · exact ih (i + 1) h j (by omega) (by omega)

/-- A fault in a Region whose `options` are not 0 is handled by
`handle_shared_fault`, whatever the options are: the test is
`area->options && MAP_SHARED`. -/
theorem pagefault_nonzero_options (scause stval pte ai : Nat) (is_huge : Bool)
    (s : kernel_state)
    (hw : walkfind s.k.mem s.p.pagetable stval = some (some (pte, is_huge)))
    (hg : (get_vma s.p s.mmap_areas stval false).1 = some ai)
    (ho : (s.mmap_areas ai).options ≠ 0) :
    pagefault scause stval s =
      handle_shared_fault pte stval ai is_huge { s with pagefaults := s.pagefaults + 1 } := by
  unfold pagefault
  simp only []
  rw [hw]
  simp only []
  rw [hg]
  simp only []
  have hc : (s.mmap_areas ai).options ≠ 0 ∧ MAP_SHARED ≠ 0 := ⟨ho, by decide⟩
  rw [if_pos hc]

/-- The first fault on a page of a Region: without a record for the page,
`handle_shared_fault` takes a frame `m` from the allocator, fills it with
zeros, stores the entry and fills in the record of the frame. -/
theorem handle_shared_fault_new (pte va ai m : Nat) (is_huge : Bool) (s : kernel_state)
    (k1 : kstate)
    (hf : find_shpg s.shared_pages (s.mmap_areas ai).idx
      (if is_huge then HUGEPGROUNDDOWN va else PGROUNDDOWN va) = none)
    (hk : kalloc_flex is_huge s.k = some (m, k1)) (hm : m ≠ 0)
    (hc : ¬ (s.shared_pages (get_shpg m)).ref_count > 0) :
    handle_shared_fault pte va ai is_huge s =
      some { s with
        k := { k1 with
               mem := store (memset k1.mem m 0 (page_size is_huge)) pte
                 (if (s.mmap_areas ai).options &&& PROT_WRITE ≠ 0 then
                   PA2PTE m ||| PTE_V ||| PTE_U ||| PTE_R ||| PTE_W
                  else PA2PTE m ||| PTE_V ||| PTE_U ||| PTE_R) },
        shared_pages := fun j =>
          if j = get_shpg m then
            ⟨(s.mmap_areas ai).idx, if is_huge then HUGEPGROUNDDOWN va else PGROUNDDOWN va,
              (s.shared_pages (get_shpg m)).ref_count + 1,
              if (s.mmap_areas ai).options &&& PROT_WRITE ≠ 0 then
                PA2PTE m ||| PTE_V ||| PTE_U ||| PTE_R ||| PTE_W
              else PA2PTE m ||| PTE_V ||| PTE_U ||| PTE_R⟩
          else s.shared_pages j } := by
  unfold handle_shared_fault
  simp only []
  rw [hf]
  simp only []
  rw [hk]
  simp only []
  rw [if_neg hm]
  rw [if_neg hc]
  simp only [store, if_true, page_size]

/-- The lemma `handle_shared_fault_new` with the state of the allocator named
by `kalloc_flex_state`. -/
theorem handle_shared_fault_first (pte va ai m : Nat) (is_huge : Bool) (s : kernel_state)
    (hf : find_shpg s.shared_pages (s.mmap_areas ai).idx
      (if is_huge then HUGEPGROUNDDOWN va else PGROUNDDOWN va) = none)
    (hk : kalloc_flex is_huge s.k = some (m, kalloc_flex_state is_huge s.k)) (hm : m ≠ 0)
    (hc : ¬ (s.shared_pages (get_shpg m)).ref_count > 0) :
    handle_shared_fault pte va ai is_huge s =
      some { s with
        k := { kalloc_flex_state is_huge s.k with
               mem := store (memset (kalloc_flex_state is_huge s.k).mem m 0
                   (page_size is_huge)) pte
                 (if (s.mmap_areas ai).options &&& PROT_WRITE ≠ 0 then
                   PA2PTE m ||| PTE_V ||| PTE_U ||| PTE_R ||| PTE_W
                  else PA2PTE m ||| PTE_V ||| PTE_U ||| PTE_R) },
        shared_pages := fun j =>
          if j = get_shpg m then
            ⟨(s.mmap_areas ai).idx, if is_huge then HUGEPGROUNDDOWN va else PGROUNDDOWN va,
              (s.shared_pages (get_shpg m)).ref_count + 1,
              if (s.mmap_areas ai).options &&& PROT_WRITE ≠ 0 then
                PA2PTE m ||| PTE_V ||| PTE_U ||| PTE_R ||| PTE_W
              else PA2PTE m ||| PTE_V ||| PTE_U ||| PTE_R⟩
          else s.shared_pages j } :=
  handle_shared_fault_new pte va ai m is_huge s _ hf hk hm hc

/-- A later fault on the page: with the record `r` for it, `handle_shared_fault`
stores the cached entry and increments the reference count. -/
theorem handle_shared_fault_join (pte va ai r : Nat) (is_huge : Bool) (s : kernel_state)
    (hf : find_shpg s.shared_pages (s.mmap_areas ai).idx
      (if is_huge then HUGEPGROUNDDOWN va else PGROUNDDOWN va) = some r) :
    handle_shared_fault pte va ai is_huge s =
      some { s with
        k := { s.k with mem := store s.k.mem pte (s.shared_pages r).pte },
        shared_pages := fun j =>
          if j = r then
            { s.shared_pages r with ref_count := (s.shared_pages r).ref_count + 1 }
          else s.shared_pages j } := by
  unfold handle_shared_fault
  simp only []
  rw [hf]

/-- C21, evaluated on the code: `private_ro_state` holds a private read-only
Region (`PROT_READ | MAP_PRIVATE`, without `MAP_SHARED` and `PROT_WRITE`) whose
page `0x100000000` is lazily backed.  A load fault on the page is not
unrecoverable: the test `area->options && MAP_SHARED` of `pagefault` is true
for every Region with `options != 0`, so `handle_shared_fault` runs.  The
process is not killed, the frame `0x80021000` is allocated (`freemem` 3 to 2),
a leaf entry for it is installed in the slot `0x87002000`, and the
Shared-Frame Record of the frame is filled in with reference count 1. -/
theorem C21_private_fault_shared_path :
    (private_ro_state.mmap_areas 0).options = PROT_READ ||| MAP_PRIVATE ∧
    (private_ro_state.mmap_areas 0).options &&& MAP_SHARED = 0 ∧
    (private_ro_state.mmap_areas 0).options &&& PROT_WRITE = 0 ∧
    private_ro_state.k.freemem = 3 ∧
    (pagefault SCAUSE_LOAD 0x100000000 private_ro_state).map
      (fun t => (t.p.killed, t.k.freemem, t.k.used4k, t.k.mem 0x87002000,
        t.shared_pages (get_shpg 0x80021000))) =
      some (0, 2, 32254, PA2PTE 0x80021000 ||| PTE_V ||| PTE_U ||| PTE_R,
        ⟨0, 0x100000000, 1, PA2PTE 0x80021000 ||| PTE_V ||| PTE_U ||| PTE_R⟩) := by
  refine ⟨by decide, by decide, by decide, by decide, ?_⟩
  rw [pagefault_nonzero_options SCAUSE_LOAD 0x100000000 0x87002000 0 false private_ro_state
    (by decide) (by decide) (by decide)]
  rw [handle_shared_fault_new 0x87002000 0x100000000 0 0x80021000 false
    { private_ro_state with pagefaults := private_ro_state.pagefaults + 1 }
    (kalloc_flex_state false private_ro_state.k)
    (find_shpg_none _ _ _ (fun _ h => (by decide : ¬ ((0 : Nat) = 0x100000000)) h.2))
    rfl (by decide) (by decide)]
  rfl

/-- C22, evaluated on the code: `private_rw_state` holds a private writable
Region (`PROT_WRITE | MAP_PRIVATE`, `needs_cow` clear) whose page `0x100000000`
is lazily backed.  A store fault on the page installs the zero-filled frame
`0x80021000`, valid, user, readable and writable, and does not kill the
process, but it is `handle_shared_fault` that does so: the Shared-Frame Record
of the frame, unused before, now names the Region and the page with reference
count 1. -/
theorem C22_private_store_creates_record :
    (private_rw_state.mmap_areas 0).options = PROT_WRITE ||| MAP_PRIVATE ∧
    (private_rw_state.mmap_areas 0).options &&& MAP_SHARED = 0 ∧
    (private_rw_state.mmap_areas 0).needs_cow = 0 ∧
    private_rw_state.shared_pages (get_shpg 0x80021000) = ⟨0, 0, 0, 0⟩ ∧
    (pagefault SCAUSE_STORE 0x100000000 private_rw_state).map
      (fun t => (t.p.killed, t.k.mem 0x87002000, t.k.mem 0x80021000, t.k.mem 0x80021008,
        t.shared_pages (get_shpg 0x80021000))) =
      some (0, PA2PTE 0x80021000 ||| PTE_V ||| PTE_U ||| PTE_R ||| PTE_W, 0, 0,
        ⟨0, 0x100000000, 1, PA2PTE 0x80021000 ||| PTE_V ||| PTE_U ||| PTE_R ||| PTE_W⟩) := by
  refine ⟨by decide, by decide, by decide, by decide, ?_⟩
  rw [pagefault_nonzero_options SCAUSE_STORE 0x100000000 0x87002000 0 false private_rw_state
    (by decide) (by decide) (by decide)]
  rw [handle_shared_fault_new 0x87002000 0x100000000 0 0x80021000 false
    { private_rw_state with pagefaults := private_rw_state.pagefaults + 1 }
    (kalloc_flex_state false private_rw_state.k)
    (find_shpg_none _ _ _ (fun _ h => (by decide : ¬ ((0 : Nat) = 0x100000000)) h.2))
    rfl (by decide) (by decide)]
  rfl

/-- C23, evaluated on the code: in `cow_state` the two pages of a private
writable Region with `needs_cow` set are mapped to frames that hold `0x1234`
in every word.  `handle_private_fault` on the first page installs the frame
`0x80021000` with the contents copied and clears `needs_cow`, the flag of the
whole Region; `handle_private_fault` on the second page then takes the other
branch and installs the frame `0x80022000` filled with zeros: the data of the
second page is lost to the writer.  And a store fault does not reach
`handle_private_fault`: `pagefault` hands it to `handle_shared_fault`, which
installs a zero-filled frame for the first page as well. -/
theorem C23_copy_only_first_page :
    cow_state.k.mem 0x80200008 = 0x1234 ∧ cow_state.k.mem 0x80201008 = 0x1234 ∧
    (handle_private_fault 0x87002000 0 false cow_state).map
      (fun t => (PTE2PA (t.k.mem 0x87002000), t.k.mem 0x80021008, t.k.mem 0x80200008,
        (t.mmap_areas 0).needs_cow)) = some (0x80021000, 0x1234, 0x1234, 0) ∧
    ((handle_private_fault 0x87002000 0 false cow_state).bind
      (fun t => handle_private_fault 0x87002008 0 false t)).map
      (fun t => (PTE2PA (t.k.mem 0x87002008), t.k.mem 0x80022008, t.k.mem 0x80201008)) =
      some (0x80022000, 0, 0x1234) ∧
    (pagefault SCAUSE_STORE 0x100000000 cow_state).map
      (fun t => (PTE2PA (t.k.mem 0x87002000), t.k.mem 0x80021008, t.k.mem 0x80200008,
        (t.mmap_areas 0).needs_cow)) = some (0x80021000, 0, 0x1234, 1) := by
  refine ⟨by decide, by decide, by decide, by decide, ?_⟩
  rw [pagefault_nonzero_options SCAUSE_STORE 0x100000000 0x87002000 0 false cow_state
    (by decide) (by decide) (by decide)]
  rw [handle_shared_fault_new 0x87002000 0x100000000 0 0x80021000 false
    { cow_state with pagefaults := cow_state.pagefaults + 1 }
    (kalloc_flex_state false cow_state.k)
    (find_shpg_none _ _ _ (fun _ h => (by decide : ¬ ((0 : Nat) = 0x100000000)) h.2))
    rfl (by decide) (by decide)]
  rfl

/-! ## Page-table entries -/

/-- The entry of the frame `m` with the flags `f`: the flags are the low ten
bits and the frame number the bits above. -/
theorem entry_split (m f : Nat) (hf : f < 1024) :
    PA2PTE m ||| f = 2 ^ 10 * (m / 4096) + f := by
  unfold PA2PTE
  rw [Nat.shiftRight_eq_div_pow, Nat.shiftLeft_eq, Nat.mul_comm]
  exact (Nat.mul_add_lt_is_or (by simpa using hf) _).symm

/-- The flag bits `c` of the entry of the frame `m` with the flags `f`. -/
theorem entry_flags (m f c : Nat) (hf : f < 1024) (hc : c < 1024) :
    (PA2PTE m ||| f) &&& c = f &&& c := by
  have h1 : (1023 : Nat) &&& c = c := by
    rw [Nat.and_comm]
    have := Nat.and_pow_two_sub_one_eq_mod c 10
    simp only [Nat.reducePow, Nat.add_one_sub_one] at this
    rw [this]
    exact Nat.mod_eq_of_lt hc
  have h2 : (PA2PTE m ||| f) &&& 1023 = f := by
    have := Nat.and_pow_two_sub_one_eq_mod (PA2PTE m ||| f) 10
    simp only [Nat.reducePow, Nat.add_one_sub_one] at this
    rw [this, entry_split m f hf]
    omega
  calc (PA2PTE m ||| f) &&& c = (PA2PTE m ||| f) &&& (1023 &&& c) := by rw [h1]
    _ = ((PA2PTE m ||| f) &&& 1023) &&& c := by rw [Nat.and_assoc]
    _ = f &&& c := by rw [h2]

/-- The frame of the entry of the page-aligned frame `m` with the flags `f`. -/
theorem entry_frame (m f : Nat) (hf : f < 1024) (hm : m % PGSIZE = 0) :
    PTE2PA (PA2PTE m ||| f) = m := by
  rw [entry_split m f hf]
  unfold PTE2PA
  rw [Nat.shiftRight_eq_div_pow, Nat.shiftLeft_eq]
  unfold PGSIZE at hm
  omega

/-- The entry that `handle_shared_fault` installs for the frame `m`: readable
always, writable when the Region has `PROT_WRITE`. -/
theorem shared_entry_bits (m options : Nat) (hm : m % PGSIZE = 0) :
    PTE2PA (if options &&& PROT_WRITE ≠ 0 then
        PA2PTE m ||| PTE_V ||| PTE_U ||| PTE_R ||| PTE_W
      else PA2PTE m ||| PTE_V ||| PTE_U ||| PTE_R) = m ∧
    (if options &&& PROT_WRITE ≠ 0 then PA2PTE m ||| PTE_V ||| PTE_U ||| PTE_R ||| PTE_W
      else PA2PTE m ||| PTE_V ||| PTE_U ||| PTE_R) &&& PTE_V ≠ 0 ∧
    (if options &&& PROT_WRITE ≠ 0 then PA2PTE m ||| PTE_V ||| PTE_U ||| PTE_R ||| PTE_W
      else PA2PTE m ||| PTE_V ||| PTE_U ||| PTE_R) &&& PTE_U ≠ 0 ∧
    (if options &&& PROT_WRITE ≠ 0 then PA2PTE m ||| PTE_V ||| PTE_U ||| PTE_R ||| PTE_W
      else PA2PTE m ||| PTE_V ||| PTE_U ||| PTE_R) &&& PTE_R ≠ 0 ∧
    ((if options &&& PROT_WRITE ≠ 0 then PA2PTE m ||| PTE_V ||| PTE_U ||| PTE_R ||| PTE_W
      else PA2PTE m ||| PTE_V ||| PTE_U ||| PTE_R) &&& PTE_W ≠ 0 ↔
      options &&& PROT_WRITE ≠ 0) := by
  have e3 : PA2PTE m ||| PTE_V ||| PTE_U ||| PTE_R = PA2PTE m ||| 19 := by
    rw [Nat.or_assoc, Nat.or_assoc]
    rfl
  have e4 : PA2PTE m ||| PTE_V ||| PTE_U ||| PTE_R ||| PTE_W = PA2PTE m ||| 23 := by
    rw [Nat.or_assoc, Nat.or_assoc, Nat.or_assoc]
    rfl
  rw [e4, e3]
  by_cases h : options &&& PROT_WRITE ≠ 0
  · simp only [if_pos h]
    refine ⟨entry_frame m 23 (by decide) hm, ?_, ?_, ?_, ?_⟩
    · rw [entry_flags m 23 PTE_V (by decide) (by decide)]; decide
    · rw [entry_flags m 23 PTE_U (by decide) (by decide)]; decide
    · rw [entry_flags m 23 PTE_R (by decide) (by decide)]; decide
    · rw [entry_flags m 23 PTE_W (by decide) (by decide)]
      exact ⟨fun _ => h, fun _ => by decide⟩
  · simp only [if_neg h]
    refine ⟨entry_frame m 19 (by decide) hm, ?_, ?_, ?_, ?_⟩
    · rw [entry_flags m 19 PTE_V (by decide) (by decide)]; decide
    · rw [entry_flags m 19 PTE_U (by decide) (by decide)]; decide
    · rw [entry_flags m 19 PTE_R (by decide) (by decide)]; decide
    · rw [entry_flags m 19 PTE_W (by decide) (by decide)]
      exact ⟨fun hw => absurd rfl hw, fun hw => absurd hw h⟩

/-! ## `handle_shared_fault` -/

/-- C24: let no Shared-Frame Record exist for the Region `ai` and the aligned
fault address, and let the allocator serve the page-aligned frame `m` of the
granularity of the leaf (`kalloc_flex` returns `m`, leaving the allocator in
`k1`).  If the record in the slot of `m` has a reference count above 0,
`handle_shared_fault` panics.  If the count is 0, it returns: the allocator is
`k1` (one frame was taken); the frame is filled with zeros; the slot `pte`
holds an entry of the frame `m` that is valid, user and readable, and writable
exactly when the Region has `PROT_WRITE`; the record in the slot of `m` holds
the index of the Region, the aligned address, the count 1 and the entry
installed; and the other records are unchanged. -/
theorem C24_shared_first_fault (pte va ai m : Nat) (is_huge : Bool) (s : kernel_state)
    (k1 : kstate)
    (hf : find_shpg s.shared_pages (s.mmap_areas ai).idx
      (if is_huge then HUGEPGROUNDDOWN va else PGROUNDDOWN va) = none)
    (hk : kalloc_flex is_huge s.k = some (m, k1)) (hm : m ≠ 0) (hal : m % PGSIZE = 0) :
    ((s.shared_pages (get_shpg m)).ref_count > 0 →
      handle_shared_fault pte va ai is_huge s = none) ∧
    ((s.shared_pages (get_shpg m)).ref_count = 0 →
      ∃ s1, handle_shared_fault pte va ai is_huge s = some s1 ∧
        s1.k.hugepages = k1.hugepages ∧ s1.k.freemem = k1.freemem ∧
        s1.k.used4k = k1.used4k ∧ s1.k.used2m = k1.used2m ∧
        (∀ x, in_frame m (page_size is_huge) x → x ≠ pte → s1.k.mem x = 0) ∧
        (∀ x, ¬ in_frame m (page_size is_huge) x → x ≠ pte → s1.k.mem x = k1.mem x) ∧
        PTE2PA (s1.k.mem pte) = m ∧
        s1.k.mem pte &&& PTE_V ≠ 0 ∧ s1.k.mem pte &&& PTE_U ≠ 0 ∧
        s1.k.mem pte &&& PTE_R ≠ 0 ∧
        (s1.k.mem pte &&& PTE_W ≠ 0 ↔ (s.mmap_areas ai).options &&& PROT_WRITE ≠ 0) ∧
        s1.shared_pages (get_shpg m) =
          ⟨(s.mmap_areas ai).idx, if is_huge then HUGEPGROUNDDOWN va else PGROUNDDOWN va, 1,
            s1.k.mem pte⟩ ∧
        (∀ j, j ≠ get_shpg m → s1.shared_pages j = s.shared_pages j) ∧
        s1.mmap_areas = s.mmap_areas ∧ s1.p.killed = s.p.killed) := by
  constructor
  · intro hc
    unfold handle_shared_fault
    simp only []
    rw [hf]
    simp only []
    rw [hk]
    simp only []
    rw [if_neg hm, if_pos hc]
  · intro hc
    have hc0 : ¬ (s.shared_pages (get_shpg m)).ref_count > 0 := by omega
    refine ⟨_, handle_shared_fault_new pte va ai m is_huge s k1 hf hk hm hc0,
      rfl, rfl, rfl, rfl, ?_, ?_, ?_⟩
    · intro x hx hne
      simp only [store, memset]
      rw [if_neg hne, if_pos (show m ≤ x ∧ x < m + page_size is_huge from hx)]
      rfl
    · intro x hx hne
      simp only [store, memset]
      rw [if_neg hne, if_neg (show ¬ (m ≤ x ∧ x < m + page_size is_huge) from hx)]
    · have hst : (store (memset k1.mem m 0 (page_size is_huge)) pte
          (if (s.mmap_areas ai).options &&& PROT_WRITE ≠ 0 then
            PA2PTE m ||| PTE_V ||| PTE_U ||| PTE_R ||| PTE_W
           else PA2PTE m ||| PTE_V ||| PTE_U ||| PTE_R)) pte =
          (if (s.mmap_areas ai).options &&& PROT_WRITE ≠ 0 then
            PA2PTE m ||| PTE_V ||| PTE_U ||| PTE_R ||| PTE_W
           else PA2PTE m ||| PTE_V ||| PTE_U ||| PTE_R) := by
        simp only [store, if_true]
      obtain ⟨b1, b2, b3, b4, b5⟩ := shared_entry_bits m (s.mmap_areas ai).options hal
      have key : ∀ P : Nat → Prop,
          P (if (s.mmap_areas ai).options &&& PROT_WRITE ≠ 0 then
              PA2PTE m ||| PTE_V ||| PTE_U ||| PTE_R ||| PTE_W
             else PA2PTE m ||| PTE_V ||| PTE_U ||| PTE_R) →
          P ((store (memset k1.mem m 0 (page_size is_huge)) pte
            (if (s.mmap_areas ai).options &&& PROT_WRITE ≠ 0 then
              PA2PTE m ||| PTE_V ||| PTE_U ||| PTE_R ||| PTE_W
             else PA2PTE m ||| PTE_V ||| PTE_U ||| PTE_R)) pte) := by
        intro P h
        rw [hst]
        exact h
      refine ⟨?_, ?_, ?_, ?_, ?_, ?_, ?_, rfl, rfl⟩
      · exact key (fun v => PTE2PA v = m) b1
      · exact key (fun v => v &&& PTE_V ≠ 0) b2
      · exact key (fun v => v &&& PTE_U ≠ 0) b3
      · exact key (fun v => v &&& PTE_R ≠ 0) b4
      · exact key (fun v => (v &&& PTE_W ≠ 0 ↔ (s.mmap_areas ai).options &&& PROT_WRITE ≠ 0)) b5
      · show (if get_shpg m = get_shpg m then _ else _) = _
        rw [if_pos rfl, hc]
        exact key (fun v => (⟨(s.mmap_areas ai).idx,
          if is_huge then HUGEPGROUNDDOWN va else PGROUNDDOWN va, 0 + 1,
          if (s.mmap_areas ai).options &&& PROT_WRITE ≠ 0 then
            PA2PTE m ||| PTE_V ||| PTE_U ||| PTE_R ||| PTE_W
          else PA2PTE m ||| PTE_V ||| PTE_U ||| PTE_R⟩ : shared_page) =
          ⟨(s.mmap_areas ai).idx, if is_huge then HUGEPGROUNDDOWN va else PGROUNDDOWN va, 1, v⟩)
          rfl
      · intro j hj
        show (if j = get_shpg m then _ else _) = _
        rw [if_neg hj]

/-- C24 at the first fault on the page `0x100000000` of the shared writable
Region of `shared_two_page_state`: the frame `0x80021000` is installed
writable and its record filled in with the count 1. -/
theorem C24_shared_first_fault_witness :
    kalloc_flex false shared_two_page_state.k =
      some (0x80021000, kalloc_flex_state false shared_two_page_state.k) ∧
    ∃ s1, handle_shared_fault 0x87002000 0x100000000 0 false shared_two_page_state = some s1 ∧
      PTE2PA (s1.k.mem 0x87002000) = 0x80021000 ∧ s1.k.mem 0x87002000 &&& PTE_W ≠ 0 ∧
      s1.shared_pages (get_shpg 0x80021000) = ⟨0, 0x100000000, 1, s1.k.mem 0x87002000⟩ :=
  ⟨rfl, by
    obtain ⟨s1, h1, _, _, _, _, _, _, h2, _, _, _, h3, h4, _⟩ :=
      (C24_shared_first_fault 0x87002000 0x100000000 0 0x80021000 false shared_two_page_state
        (kalloc_flex_state false shared_two_page_state.k)
        (find_shpg_none _ _ _ (fun _ h => (by decide : ¬ ((0 : Nat) = 0x100000000)) h.2))
        rfl (by decide) (by decide)).2 (by decide)
    exact ⟨s1, h1, h2, h3.mpr (by decide), h4⟩⟩

/-- C25: let no Shared-Frame Record exist for the Region `ai` and the aligned
fault address, let the allocator serve the frame `m`, whose record (one of the
`MAXPGS` records) has the count 0, and let `pteA` and `pteB` be the leaf slots
of the page in two address spaces.  The fault of the first address space
publishes the frame and the fault of the second one joins it: both calls of
`handle_shared_fault` return, both slots hold the same entry, the cached entry
of the record, the count of the record is 2, and the second call leaves the
allocator as the first one left it, in `k1`, so one frame was allocated.  The
entry depends on `m` and the Region only, so the two orders of the faults
(`pteA` and `pteB` exchanged) give the same entries. -/
theorem C25_shared_faults_agree (pteA pteB va ai m : Nat) (is_huge : Bool)
    (s : kernel_state) (k1 : kstate)
    (hf : find_shpg s.shared_pages (s.mmap_areas ai).idx
      (if is_huge then HUGEPGROUNDDOWN va else PGROUNDDOWN va) = none)
    (hk : kalloc_flex is_huge s.k = some (m, k1)) (hm : m ≠ 0)
    (hc : (s.shared_pages (get_shpg m)).ref_count = 0)
    (hr : get_shpg m < MAXPGS) :
    ∃ s1 s2, handle_shared_fault pteA va ai is_huge s = some s1 ∧
      handle_shared_fault pteB va ai is_huge s1 = some s2 ∧
      s2.k.mem pteA =
        (if (s.mmap_areas ai).options &&& PROT_WRITE ≠ 0 then
          PA2PTE m ||| PTE_V ||| PTE_U ||| PTE_R ||| PTE_W
         else PA2PTE m ||| PTE_V ||| PTE_U ||| PTE_R) ∧
      s2.k.mem pteB = s2.k.mem pteA ∧
      (s2.shared_pages (get_shpg m)).pte = s2.k.mem pteA ∧
      (s2.shared_pages (get_shpg m)).ref_count = 2 ∧
      s1.k.hugepages = k1.hugepages ∧ s1.k.freemem = k1.freemem ∧
      s1.k.used4k = k1.used4k ∧ s1.k.used2m = k1.used2m ∧
      s2.k.hugepages = k1.hugepages ∧ s2.k.freemem = k1.freemem ∧
      s2.k.used4k = k1.used4k ∧ s2.k.used2m = k1.used2m := by
  have hc0 : ¬ (s.shared_pages (get_shpg m)).ref_count > 0 := by omega
  have h1 := handle_shared_fault_new pteA va ai m is_huge s k1 hf hk hm hc0
  have hnone := find_shpg_loop_none_inv _ _ _ _ _ hf
  refine ⟨_, _, h1, handle_shared_fault_join pteB va ai (get_shpg m) is_huge _ ?_, ?_⟩
  · show find_shpg_loop _ _ _ MAXPGS 0 = some (get_shpg m)
    apply find_shpg_loop_first
    · show (if get_shpg m = get_shpg m then _ else _ : shared_page).vma_idx = _ ∧
        (if get_shpg m = get_shpg m then _ else _ : shared_page).start_va = _
      rw [if_pos rfl]
      exact ⟨rfl, rfl⟩
    · omega
    · omega
    · intro j _ hj
      show ¬ ((if j = get_shpg m then _ else _ : shared_page).vma_idx = _ ∧
        (if j = get_shpg m then _ else _ : shared_page).start_va = _)
      rw [if_neg (by omega)]
      exact hnone j (by omega) (by omega)
  · refine ⟨?_, ?_, ?_, ?_, rfl, rfl, rfl, rfl, rfl, rfl, rfl, rfl⟩
    · simp only [store, if_true]
      by_cases hab : pteA = pteB
      · rw [if_pos hab]
      · rw [if_neg hab]
    · simp only [store, if_true]
      by_cases hab : pteA = pteB
      · rw [if_pos hab]
      · rw [if_neg hab]
    · simp only [store, if_true]
      by_cases hab : pteA = pteB
      · rw [if_pos hab]
      · rw [if_neg hab]
    · simp only [if_true]
      rw [hc]
      rfl

/-- C25 at the page `0x100000000` of the shared Region of
`shared_two_page_state`, with the leaf slots `0x87002000` and `0x87003000` of
two address spaces: both hold the entry of the frame `0x80021000` and the
count is 2. -/
theorem C25_shared_faults_agree_witness :
    ∃ s1 s2, handle_shared_fault 0x87002000 0x100000000 0 false shared_two_page_state =
        some s1 ∧
      handle_shared_fault 0x87003000 0x100000000 0 false s1 = some s2 ∧
      s2.k.mem 0x87002000 = PA2PTE 0x80021000 ||| PTE_V ||| PTE_U ||| PTE_R ||| PTE_W ∧
      s2.k.mem 0x87003000 = s2.k.mem 0x87002000 ∧
      (s2.shared_pages (get_shpg 0x80021000)).ref_count = 2 := by
  obtain ⟨s1, s2, h1, h2, h3, h4, _, h6, _⟩ :=
    C25_shared_faults_agree 0x87002000 0x87003000 0x100000000 0 0x80021000 false
      shared_two_page_state (kalloc_flex_state false shared_two_page_state.k)
      (find_shpg_none _ _ _ (fun _ h => (by decide : ¬ ((0 : Nat) = 0x100000000)) h.2))
      rfl (by decide) (by decide) (by decide)
  exact ⟨s1, s2, h1, h2, h3, h4, h6⟩

/-! ## `pagefault` without a free frame -/

/-- C28, evaluated on the code: in `two_mappings_state` slot 0 of the process
holds a Region whose `munmap` fails (it ends below its start, so `get_vma`
does not find it) and slot 1 the Region of the page `0x100001000`.
`munmap_all` returns -1 at the first failure: `munmap` is never applied to the
Region of slot 1, both slots still reference their Regions, and the leaf entry
of the page `0x100001000` (word `0x87002008`) is still in the page table. -/
theorem C28_munmap_all_stops :
    two_mappings_state.p.mmap 0 = some 0 ∧ two_mappings_state.p.mmap 1 = some 1 ∧
    (two_mappings_state.mmap_areas 1).start = 0x100001000 ∧
    (munmap 0x80021000 (two_mappings_state.mmap_areas 0).start two_mappings_state).map
      (fun r => r.1) = some (-1) ∧
    (munmap_all 0x80021000 two_mappings_state).map
      (fun r => (r.1, r.2.p.mmap 0, r.2.p.mmap 1, r.2.p.mmap_count, r.2.k.mem 0x87002008)) =
      some (-1, some 0, some 1, 2, PA2PTE ZEROHUGEPG ||| PTE_U ||| PTE_R ||| PTE_V) ∧
    (munmap 0x80021000 0x100001000 two_mappings_state).map
      (fun r => (r.1, r.2.p.mmap 1, r.2.k.mem 0x87002008)) = some (0, none, 0) := by
  refine ⟨by decide, by decide, by decide, by decide, rfl, by decide⟩

/-! ## Shared-Frame Records after `munmap` -/

/-- C30, evaluated on the code: `shared_two_page_state` holds a shared writable
Region of two lazily backed pages.  After a store fault on each page
(`0x100000000` gets the frame `0x80021000`, `0x100001000` the frame
`0x80022000`, each with a record of count 1), `munmap(0x100000000)` returns 0:
it looks up the record of the first page only, resets it, marks the Region
invalid and frees the frames of both pages.  The record of the second page
still has the reference count 1 and still names the Region and the page, while
its frame `0x80022000` is the head of the free list of descriptor 0. -/
theorem C30_stale_record :
    (shared_two_page_state.mmap_areas 0).options &&& MAP_SHARED ≠ 0 ∧
    ((pagefault SCAUSE_STORE 0x100000000 shared_two_page_state).bind
      (fun t => (pagefault SCAUSE_STORE 0x100001000 t).bind
        (fun t2 => munmap 0x80021000 0x100000000 t2))).map
      (fun r => (r.1, (r.2.mmap_areas 0).is_valid, r.2.shared_pages (get_shpg 0x80021000),
        r.2.shared_pages (get_shpg 0x80022000), r.2.k.hugepages 0,
        r.2.k.mem 0x80022000)) =
      some (0, 0, ⟨-1, 0, 0, 0⟩,
        ⟨0, 0x100001000, 1, PA2PTE 0x80022000 ||| PTE_V ||| PTE_U ||| PTE_R ||| PTE_W⟩,
        ⟨0x80022000, 3, 0⟩, 0x80021000) := by
  refine ⟨by decide, ?_⟩
  rw [pagefault_nonzero_options SCAUSE_STORE 0x100000000 0x87002000 0 false
    shared_two_page_state (by decide) (by decide) (by decide)]
  rw [handle_shared_fault_first 0x87002000 0x100000000 0 0x80021000 false
    { shared_two_page_state with pagefaults := shared_two_page_state.pagefaults + 1 }
    (find_shpg_none _ _ _ (fun _ h => (by decide : ¬ ((0 : Nat) = 0x100000000)) h.2))
    rfl (by decide) (by decide)]
  rw [Option.some_bind]
  rw [pagefault_nonzero_options SCAUSE_STORE 0x100001000 0x87002008 0 false _
    (by decide) (by decide) (by decide)]
  rw [handle_shared_fault_first 0x87002008 0x100001000 0 0x80022000 false _ ?_ ?_ ?_ ?_]
  · rfl
  · apply find_shpg_none
    intro j h
    have h2 := h.2
    simp only [] at h2
    by_cases hj : j = get_shpg 0x80021000
    · rw [if_pos hj] at h2
      exact (by decide : ¬ ((0x100000000 : Nat) = 0x100001000)) h2
    · rw [if_neg hj] at h2
      exact (by decide : ¬ ((0 : Nat) = 0x100001000)) h2
  · rfl
  · decide
  · decide

/-! ## The states of a descriptor -/

/-- A chain is the same chain in a memory that agrees on its nodes. -/
theorem chain_to_congr (mem mem1 : Memory) (t : Nat) :
    ∀ (l : List Nat) (head : Nat), (∀ x, x ∈ l → mem1 x = mem x) →
      chain_to mem t head l → chain_to mem1 t head l := by
  intro l
  induction l with
  | nil => intro head _ h; exact h
  | cons y l ih =>
    intro head hsame h
    unfold chain_to at h ⊢
    refine ⟨h.1, ?_⟩
    rw [hsame y (List.mem_cons_self y l)]
    exact ih (mem y) (fun x hx => hsame x (List.mem_cons_of_mem y hx)) h.2

/-- The number of live frames of a descriptor after a frame became live. -/
theorem live_in_cons (live : List Nat) (r i : Nat) :
    live_in (r :: live) i = live_in live i + (if HUGEPGINDEX r = i then 1 else 0) := by
  unfold live_in
  by_cases h : HUGEPGINDEX r = i
  · simp [List.filter_cons, h]
  · simp [List.filter_cons, h]

/-- The number of live frames of a descriptor after a live frame was freed. -/
theorem live_in_erase (live : List Nat) (pa i : Nat) (h : pa ∈ live) :
    live_in (live.erase pa) i = live_in live i - (if HUGEPGINDEX pa = i then 1 else 0) := by
  induction live with
  | nil => cases h
  | cons y l ih =>
    by_cases hy : y = pa
    · subst hy
      rw [List.erase_cons_head, live_in_cons]
      omega
    · have hne : ¬ (y == pa) = true := by simpa using hy
      rw [List.erase_cons_tail hne, live_in_cons, live_in_cons]
      have hm : pa ∈ l := by
        rcases List.mem_cons.mp h with h1 | h1
        · exact absurd h1.symm hy
        · exact h1
      rw [ih hm]
      omega

/-- Serving the head of a free list keeps the invariant of a run, when the head
is an address of the managed memory. -/
theorem count_inv_served (s : kstate) (live : List Nat) (p : Nat) (hp : p < MAXHUGEPGS)
    (hh : (s.hugepages p).freelist ≠ 0)
    (hmem : KERNBASE ≤ (s.hugepages p).freelist ∧ (s.hugepages p).freelist < PHYSTOP)
    (hpos : 0 < (s.hugepages p).freecount) (hinv : count_inv s live) :
    count_inv (served s p) ((s.hugepages p).freelist :: live) := by
  obtain ⟨hdesc, hnd, hfr⟩ := hinv
  obtain ⟨⟨l, t, hc, ht, hlnd, hlfr, hllive⟩, _, hsum⟩ := hdesc p hp
  cases l with
  | nil =>
    unfold chain_to at hc
    rcases ht with ht | ht | ht
    · exact absurd (hc.trans ht) hh
    · omega
    · omega
  | cons h l1 =>
    unfold chain_to at hc
    obtain ⟨hhead, hc1⟩ := hc
    have hrl : (s.hugepages p).freelist ∈ h :: l1 := by
      rw [hhead]
      exact List.mem_cons_self _ _
    have hrlive := hllive _ hrl
    have hrfr := hlfr _ hrl
    have hr1 : (s.hugepages p).freelist ∉ l1 := by
      rw [hhead]
      exact (List.nodup_cons.mp hlnd).1
    have hidx := frame_of_index p _ hrfr
    have hmemx : ∀ i x, frame_of i x → x ≠ (s.hugepages p).freelist →
        (served s p).mem x = s.mem x := by
      intro i x hx hne
      have := frame_apart x _ hx.1 hrfr.1 hne
      simp only [served, memset, this, if_false]
    refine ⟨?_, List.nodup_cons.mpr ⟨hrlive, hnd⟩, ?_⟩
    · intro i hi
      by_cases hip : i = p
      · subst hip
        refine ⟨⟨l1, t, ?_, ht, (List.nodup_cons.mp hlnd).2,
          fun x hx => hlfr x (List.mem_cons_of_mem _ hx), ?_⟩, ?_, ?_⟩
        · rw [served_self]
          show chain_to (served s i).mem t (s.mem (s.hugepages i).freelist) l1
          rw [hhead]
          apply chain_to_congr s.mem _ t l1 _ _ hc1
          intro x hx
          exact hmemx i x (hlfr x (List.mem_cons_of_mem _ hx)) (fun e => hr1 (e ▸ hx))
        · intro x hx hxl
          rcases List.mem_cons.mp hxl with e | e
          · exact hr1 (e ▸ hx)
          · exact hllive x (List.mem_cons_of_mem _ hx) e
        · rw [served_self]
          show 0 ≤ (s.hugepages i).freecount - 1
          omega
        · rw [served_self, live_in_cons, if_pos hidx]
          show (s.hugepages i).freecount - 1 + (live_in live i + 1) ≤ PGINHUGEPG
          omega
      · obtain ⟨⟨li, ti, hci, hti, hlind, hlifr, hlilive⟩, hnn, hsumi⟩ := hdesc i hi
        have hne : ∀ x, x ∈ li → x ≠ (s.hugepages p).freelist := by
          intro x hx e
          exact hip (frame_of_unique i p x (hlifr x hx) (e ▸ hrfr))
        refine ⟨⟨li, ti, ?_, hti, hlind, hlifr, ?_⟩, ?_, ?_⟩
        · rw [served_other s p i hip]
          apply chain_to_congr s.mem _ ti li _ _ hci
          intro x hx
          exact hmemx i x (hlifr x hx) (hne x hx)
        · intro x hx hxl
          rcases List.mem_cons.mp hxl with e | e
          · exact hne x hx e
          · exact hlilive x hx e
        · rw [served_other s p i hip]
          exact hnn
        · have hni : ¬ HUGEPGINDEX (s.hugepages p).freelist = i := by
            rw [hidx]
            exact fun e => hip e.symm
          rw [served_other s p i hip, live_in_cons, if_neg hni]
          simpa using hsumi
    · intro x hx
      rcases List.mem_cons.mp hx with e | e
      · exact ⟨p, hp, e ▸ hrfr⟩
      · exact hfr x e

/-- The function `kfree` applied to a live frame keeps the invariant of a
run. -/
theorem count_inv_kfree (kernel_end pa : Nat) (s s1 : kstate) (live : List Nat)
    (hinv : count_inv s live) (hlive : pa ∈ live)
    (hk : kfree kernel_end pa s = some s1) : count_inv s1 (live.erase pa) := by
  obtain ⟨hdesc, hnd, hfr⟩ := hinv
  obtain ⟨ip, hip, hpafr⟩ := hfr pa hlive
  have hidx : HUGEPGINDEX pa = ip := frame_of_index ip pa hpafr
  unfold kfree at hk
  by_cases hc : pa % PGSIZE ≠ 0 ∨ pa < kernel_end ∨ pa ≥ PHYSTOP
  · rw [if_pos hc] at hk
    cases hk
  · rw [if_neg hc] at hk
    simp only [Option.some.injEq] at hk
    rw [hidx] at hk
    have hmem : ∀ i x, frame_of i x → x ≠ pa → s1.mem x = s.mem x := by
      intro i x hx hne
      have := frame_apart x pa hx.1 hpafr.1 hne
      rw [← hk]
      simp only [store, memset, hne, this, if_false]
    have hmempa : s1.mem pa = (s.hugepages ip).freelist := by
      rw [← hk]
      simp only [store, if_true]
    have hself : s1.hugepages ip =
        { s.hugepages ip with freelist := pa, freecount := (s.hugepages ip).freecount + 1 } := by
      rw [← hk]
      simp only [set_entry, if_true]
    have hother : ∀ i, i ≠ ip → s1.hugepages i = s.hugepages i := by
      intro i hi
      rw [← hk]
      simp only [set_entry, hi, if_false]
    refine ⟨?_, hnd.erase pa, fun x hx => hfr x (List.mem_of_mem_erase hx)⟩
    intro i hi
    obtain ⟨⟨li, ti, hci, hti, hlind, hlifr, hlilive⟩, hnn, hsum⟩ := hdesc i hi
    have hne : ∀ x, x ∈ li → x ≠ pa := fun x hx e => hlilive x hx (e ▸ hlive)
    have hci1 : chain_to s1.mem ti (s.hugepages i).freelist li :=
      chain_to_congr s.mem s1.mem ti li _ (fun x hx => hmem i x (hlifr x hx) (hne x hx)) hci
    have hnolive : ∀ x, x ∈ li → x ∉ live.erase pa :=
      fun x hx e => hlilive x hx (List.mem_of_mem_erase e)
    by_cases hiip : i = ip
    · subst hiip
      refine ⟨⟨pa :: li, ti, ?_, hti, ?_, ?_, ?_⟩, ?_, ?_⟩
      · rw [hself]
        show pa = pa ∧ chain_to s1.mem ti (s1.mem pa) li
        rw [hmempa]
        exact ⟨rfl, hci1⟩
      · exact List.nodup_cons.mpr ⟨fun e => hne pa e rfl, hlind⟩
      · intro x hx
        rcases List.mem_cons.mp hx with e | e
        · exact e ▸ hpafr
        · exact hlifr x e
      · intro x hx
        rcases List.mem_cons.mp hx with e | e
        · rw [e]
          exact fun hm => (List.Nodup.mem_erase_iff hnd).mp hm |>.1 rfl
        · exact hnolive x e
      · rw [hself]
        show 0 ≤ (s.hugepages i).freecount + 1
        omega
      · rw [hself, live_in_erase live pa i hlive, if_pos hidx]
        show (s.hugepages i).freecount + 1 + (live_in live i - 1) ≤ PGINHUGEPG
        omega
    · have hni : ¬ HUGEPGINDEX pa = i := by
        rw [hidx]
        exact fun e => hiip e.symm
      refine ⟨⟨li, ti, ?_, hti, hlind, hlifr, hnolive⟩, ?_, ?_⟩
      · rw [hother i hiip]
        exact hci1
      · rw [hother i hiip]
        exact hnn
      · rw [hother i hiip, live_in_erase live pa i hlive, if_neg hni]
        simpa using hsum

/-- Filling the region of descriptor `w` with a byte keeps the free lists well
formed when the fill pattern is not an address of the managed memory: the
links of the other lists lie outside the region, and the list of `w` ends
after its head, at the fill pattern. -/
theorem list_ok_fill (s s1 : kstate) (live : List Nat) (w c : Nat)
    (hc : outside_memory (fillword c))
    (hmem : s1.mem = memset s.mem (HUGEPAGEADDR w) c HUGEPGSIZE)
    (hhead : ∀ i, (s1.hugepages i).freelist = (s.hugepages i).freelist)
    (i : Nat) (h : list_ok s live i) : list_ok s1 live i := by
  obtain ⟨l, t, hch, ht, hnd, hfr, hlive⟩ := h
  unfold list_ok
  rw [hmem, hhead i]
  by_cases hiw : i = w
  · subst hiw
    cases l with
    | nil => exact ⟨[], t, hch, ht, hnd, hfr, hlive⟩
    | cons x l1 =>
      unfold chain_to at hch
      have hx := hfr x (List.mem_cons_self _ _)
      refine ⟨[x], fillword c, ?_, hc, List.nodup_singleton x, ?_, ?_⟩
      · show (s.hugepages i).freelist = x ∧
          memset s.mem (HUGEPAGEADDR i) c HUGEPGSIZE x = fillword c
        refine ⟨hch.1, ?_⟩
        unfold memset
        rw [if_pos ⟨hx.2.1, hx.2.2⟩]
      · intro y hy
        rw [List.mem_singleton.mp hy]
        exact hx
      · intro y hy
        rw [List.mem_singleton.mp hy]
        exact hlive x (List.mem_cons_self _ _)
  · refine ⟨l, t, ?_, ht, hnd, hfr, hlive⟩
    apply chain_to_congr s.mem _ t l _ _ hch
    intro x hx
    unfold memset
    have hxf := hfr x hx
    have : ¬ (HUGEPAGEADDR w ≤ x ∧ x < HUGEPAGEADDR w + HUGEPGSIZE) := by
      intro hin
      exact hiw (frame_of_unique i w x hxf ⟨hxf.1, hin.1, hin.2⟩)
    rw [if_neg this]

/-- A state that differs from `s` by a fill of the region of a descriptor and
in the allocated-whole flags keeps the invariant of a run. -/
theorem count_inv_fill (s s1 : kstate) (live : List Nat) (w c : Nat)
    (hc : outside_memory (fillword c))
    (hmem : s1.mem = memset s.mem (HUGEPAGEADDR w) c HUGEPGSIZE)
    (hhead : ∀ i, (s1.hugepages i).freelist = (s.hugepages i).freelist)
    (hcount : ∀ i, (s1.hugepages i).freecount = (s.hugepages i).freecount)
    (hinv : count_inv s live) : count_inv s1 live := by
  obtain ⟨hdesc, hnd, hfr⟩ := hinv
  refine ⟨?_, hnd, hfr⟩
  intro i hi
  obtain ⟨hl, hnn, hsum⟩ := hdesc i hi
  rw [hcount i]
  exact ⟨list_ok_fill s s1 live w c hc hmem hhead i hl, hnn, hsum⟩

/-- The function `kalloc_huge` keeps the invariant of a run. -/
theorem count_inv_kalloc_huge (s : kstate) (live : List Nat) (hinv : count_inv s live) :
    count_inv (kalloc_huge s).2 live := by
  cases hf : first_from (fun j => whole_free (s.hugepages j)) MAXHUGEPGS 0 with
  | none =>
    have hnone := (first_from_none _ MAXHUGEPGS 0).mp hf
    rw [kalloc_huge_none s (fun i hi => hnone i (Nat.zero_le _) (by omega))]
    exact hinv
  | some w =>
    obtain ⟨_, hw, hwf, hfirst⟩ := (first_from_some _ MAXHUGEPGS 0 w).mp hf
    rw [kalloc_huge_some s w (by omega) hwf (fun j hj => hfirst j (Nat.zero_le _) hj)]
    apply count_inv_fill s _ live w 5 (Or.inr (Or.inr (by decide))) rfl _ _ hinv
    · intro i
      show (set_entry s.hugepages w _ i).freelist = _
      unfold set_entry
      by_cases hi : i = w
      · rw [if_pos hi, hi]
      · rw [if_neg hi]
    · intro i
      show (set_entry s.hugepages w _ i).freecount = _
      unfold set_entry
      by_cases hi : i = w
      · rw [if_pos hi, hi]
      · rw [if_neg hi]

/-- A 2 MiB-aligned address of the managed memory is the base of the region of
its descriptor. -/
theorem HUGEPAGEADDR_of_index (pa : Nat) (ha : pa % HUGEPGSIZE = 0) (hb : KERNBASE ≤ pa) :
    HUGEPAGEADDR (HUGEPGINDEX pa) = pa := by
  unfold HUGEPAGEADDR HUGEPGINDEX
  unfold HUGEPGSIZE at *
  unfold KERNBASE at *
  omega

/-- The function `kfree_huge` keeps the invariant of a run. -/
theorem count_inv_kfree_huge (kernel_end pa : Nat) (s s1 : kstate) (live : List Nat)
    (hke : KERNBASE ≤ kernel_end) (hinv : count_inv s live)
    (hk : kfree_huge kernel_end pa s = some s1) : count_inv s1 live := by
  unfold kfree_huge at hk
  by_cases hc : pa % HUGEPGSIZE ≠ 0 ∨ pa < kernel_end ∨ pa ≥ PHYSTOP
  · rw [if_pos hc] at hk
    cases hk
  · rw [if_neg hc] at hk
    simp only at hk
    by_cases hfl : ¬ (s.hugepages (HUGEPGINDEX pa)).hugealloced ≠ 0
    · rw [if_pos hfl] at hk
      cases hk
    · rw [if_neg hfl] at hk
      simp only [Option.some.injEq] at hk
      have hpa : HUGEPAGEADDR (HUGEPGINDEX pa) = pa :=
        HUGEPAGEADDR_of_index pa (by omega) (by omega)
      apply count_inv_fill s s1 live (HUGEPGINDEX pa) 1 (Or.inr (Or.inr (by decide))) _ _ _ hinv
      · rw [← hk, hpa]
      · intro i
        rw [← hk]
        show (set_entry s.hugepages (HUGEPGINDEX pa) _ i).freelist = _
        unfold set_entry
        by_cases hi : i = HUGEPGINDEX pa
        · rw [if_pos hi, hi]
        · rw [if_neg hi]
      · intro i
        rw [← hk]
        show (set_entry s.hugepages (HUGEPGINDEX pa) _ i).freecount = _
        unfold set_entry
        by_cases hi : i = HUGEPGINDEX pa
        · rw [if_pos hi, hi]
        · rw [if_neg hi]

/-- Every run of the allocator keeps the invariant. -/
theorem count_inv_arun (kernel_end : Nat) (hke : KERNBASE ≤ kernel_end) :
    ∀ (ops : List aop) (s : kstate) (live : List Nat) (s1 : kstate) (live1 : List Nat),
      count_inv s live → arun kernel_end ops (s, live) = some (s1, live1) →
      count_inv s1 live1 := by
  intro ops
  induction ops with
  | nil =>
    intro s live s1 live1 hinv hrun
    simp only [arun, Option.some.injEq, Prod.mk.injEq] at hrun
    rw [← hrun.1, ← hrun.2]
    exact hinv
  | cons op ops ih =>
    intro s live s1 live1 hinv hrun
    cases op with
    | alloc =>
      rcases kalloc_cases s with h0 | ⟨p, hp, -, hh, hcase, hserved⟩
      · simp only [arun, h0, if_true] at hrun
        exact ih s live s1 live1 hinv hrun
      · simp only [arun, hserved] at hrun
        rw [if_neg hh] at hrun
        by_cases hm : KERNBASE ≤ (s.hugepages p).freelist ∧ (s.hugepages p).freelist < PHYSTOP
        · rw [if_pos hm] at hrun
          have hpos : 0 < (s.hugepages p).freecount := by
            rcases hcase with ⟨hs, -⟩ | ⟨hwf, -⟩
            · exact hs.2.1
            · rw [hwf.1]
              decide
          exact ih _ _ s1 live1 (count_inv_served s live p hp hh hm hpos hinv) hrun
        · rw [if_neg hm] at hrun
          cases hrun
    | free pa =>
      simp only [arun] at hrun
      by_cases hlive : pa ∈ live
      · rw [if_pos hlive] at hrun
        cases hk : kfree kernel_end pa s with
        | none =>
          rw [hk] at hrun
          cases hrun
        | some s2 =>
          rw [hk] at hrun
          exact ih s2 _ s1 live1 (count_inv_kfree kernel_end pa s s2 live hinv hlive hk) hrun
      · rw [if_neg hlive] at hrun
        cases hrun
    | alloc_huge =>
      simp only [arun] at hrun
      exact ih _ live s1 live1 (count_inv_kalloc_huge s live hinv) hrun
    | free_huge pa =>
      simp only [arun] at hrun
      cases hk : kfree_huge kernel_end pa s with
      | none =>
        rw [hk] at hrun
        cases hrun
      | some s2 =>
        rw [hk] at hrun
        exact ih s2 live s1 live1 (count_inv_kfree_huge kernel_end pa s s2 live hke hinv hk) hrun

/-- A page-aligned address of the managed memory is a frame of its
descriptor. -/
theorem frame_of_HUGEPGINDEX (p : Nat) (ha : p % PGSIZE = 0) (hb : KERNBASE ≤ p)
    (ht : p < PHYSTOP) : HUGEPGINDEX p < MAXHUGEPGS ∧ frame_of (HUGEPGINDEX p) p := by
  unfold frame_of HUGEPAGEADDR HUGEPGINDEX MAXHUGEPGS
  unfold PHYSTOP at ht
  unfold PGSIZE at ha
  unfold HUGEPGSIZE PGSIZE
  unfold KERNBASE at *
  omega

/-- One iteration of the loop of `freerange`. -/
theorem free_below_step (kernel_end p : Nat) (s : kstate) (ha : p % PGSIZE = 0)
    (he : kernel_end ≤ p) (hb : KERNBASE ≤ p) (ht : p + PGSIZE ≤ PHYSTOP)
    (hinv : free_below p s) :
    ∃ s1, kfree kernel_end p s = some s1 ∧ free_below (p + PGSIZE) s1 := by
  have hps : PGSIZE = 4096 := rfl
  obtain ⟨hj, hpf⟩ := frame_of_HUGEPGINDEX p ha hb (by omega)
  have hc : ¬ (p % PGSIZE ≠ 0 ∨ p < kernel_end ∨ p ≥ PHYSTOP) := by omega
  unfold kfree
  rw [if_neg hc]
  refine ⟨_, rfl, ?_⟩
  intro i hi
  obtain ⟨⟨l, hch, hnd, hfr⟩, hnn, hle, hbd⟩ := hinv i hi
  have hmem : ∀ x, x ∈ l →
      store (memset s.mem p 1 PGSIZE) p (s.hugepages (HUGEPGINDEX p)).freelist x = s.mem x := by
    intro x hx
    obtain ⟨hxf, hxp⟩ := hfr x hx
    have h1 : x ≠ p := by omega
    have h2 : ¬ (p ≤ x ∧ x < p + PGSIZE) := by omega
    simp only [store, memset, h1, h2, if_false]
  have hch1 := chain_to_congr s.mem _ 0 l _ hmem hch
  by_cases hij : i = HUGEPGINDEX p
  · subst hij
    simp only [set_entry, if_true]
    refine ⟨⟨p :: l, ?_, ?_, ?_⟩, ?_, ?_, ?_⟩
    · show p = p ∧ chain_to _ 0 (store (memset s.mem p 1 PGSIZE) p
        (s.hugepages (HUGEPGINDEX p)).freelist p) l
      refine ⟨rfl, ?_⟩
      have : store (memset s.mem p 1 PGSIZE) p (s.hugepages (HUGEPGINDEX p)).freelist p =
          (s.hugepages (HUGEPGINDEX p)).freelist := by
        simp only [store, if_true]
      rw [this]
      exact hch1
    · refine List.nodup_cons.mpr ⟨?_, hnd⟩
      intro hm
      have := (hfr p hm).2
      omega
    · intro x hx
      rcases List.mem_cons.mp hx with e | e
      · rw [e]
        exact ⟨hpf, by omega⟩
      · exact ⟨(hfr x e).1, by have := (hfr x e).2; omega⟩
    · omega
    · obtain ⟨-, h2, h3⟩ := hpf
      unfold HUGEPGSIZE at h3
      unfold PGINHUGEPG at hle ⊢
      have hal : HUGEPAGEADDR (HUGEPGINDEX p) % 4096 = 0 := by
        have := HUGEPAGEADDR_aligned (HUGEPGINDEX p)
        unfold HUGEPGSIZE at this
        omega
      omega
    · obtain ⟨-, h2, h3⟩ := hpf
      omega
  · simp only [set_entry, hij, if_false]
    refine ⟨⟨l, hch1, hnd, fun x hx => ⟨(hfr x hx).1, by have := (hfr x hx).2; omega⟩⟩,
      hnn, hle, ?_⟩
    omega

/-- The loop of `freerange` returns and keeps its invariant. -/
theorem free_below_loop (kernel_end : Nat) :
    ∀ (n p : Nat) (s : kstate), p % PGSIZE = 0 → kernel_end ≤ p → KERNBASE ≤ p →
      p + n * PGSIZE ≤ PHYSTOP → free_below p s →
      ∃ s1, freerange_loop kernel_end n p s = some s1 ∧ free_below (p + n * PGSIZE) s1 := by
  intro n
  induction n with
  | zero =>
    intro p s _ _ _ _ hinv
    exact ⟨s, rfl, by simpa using hinv⟩
  | succ n ih =>
    intro p s ha he hb ht hinv
    have e : p + (n + 1) * PGSIZE = p + PGSIZE + n * PGSIZE := by
      rw [Nat.add_mul, Nat.one_mul]
      omega
    rw [e] at ht ⊢
    have ha1 : (p + PGSIZE) % PGSIZE = 0 := by
      rw [Nat.add_mod_right]
      exact ha
    obtain ⟨s1, hk, hinv1⟩ := free_below_step kernel_end p s ha he hb (by omega) hinv
    obtain ⟨s2, hl, hinv2⟩ := ih (p + PGSIZE) s1 ha1 (by omega) (by omega) ht hinv1
    refine ⟨s2, ?_, hinv2⟩
    unfold freerange_loop
    rw [hk]
    exact hl

/-- The function `kinit` returns, in a state that satisfies the invariant of a
run with no frame live. -/
theorem kinit_count_inv (kernel_end : Nat) (mem : Memory) (hke : KERNBASE ≤ kernel_end)
    (hkt : kernel_end ≤ PHYSTOP) :
    ∃ s0, kinit kernel_end (boot_state mem) = some s0 ∧ count_inv s0 [] := by
  have hps : PGSIZE = 4096 := rfl
  have hpt : PHYSTOP = 2281701376 := by decide
  have hkb : KERNBASE = 2147483648 := by decide
  have hup : PGROUNDUP kernel_end % PGSIZE = 0 ∧ kernel_end ≤ PGROUNDUP kernel_end ∧
      PGROUNDUP kernel_end ≤ PHYSTOP := by
    unfold PGROUNDUP PGSIZE
    rw [hpt]
    rw [hpt] at hkt
    rw [hkb] at hke
    omega
  have hboot : free_below (PGROUNDUP kernel_end) (boot_state mem) := by
    intro i _
    refine ⟨⟨[], rfl, List.nodup_nil, fun x hx => absurd hx (List.not_mem_nil x)⟩, ?_, ?_, ?_⟩
    · exact le_refl _
    · show (0 : Int) ≤ PGINHUGEPG
      decide
    · show (0 : Int) * 4096 ≤ _
      omega
  obtain ⟨s1, hl, hinv1⟩ := free_below_loop kernel_end
    ((PHYSTOP - PGROUNDUP kernel_end) / PGSIZE) (PGROUNDUP kernel_end) (boot_state mem)
    hup.1 hup.2.1 (by omega)
    (by have := Nat.div_mul_le_self (PHYSTOP - PGROUNDUP kernel_end) PGSIZE; omega) hboot
  have hinv : count_inv s1 [] := by
    refine ⟨?_, List.nodup_nil, fun x hx => absurd hx (List.not_mem_nil x)⟩
    intro i hi
    obtain ⟨⟨l, hch, hnd, hfr⟩, hnn, hle, -⟩ := hinv1 i hi
    refine ⟨⟨l, 0, hch, Or.inl rfl, hnd, fun x hx => (hfr x hx).1,
      fun x _ hx => absurd hx (List.not_mem_nil x)⟩, hnn, ?_⟩
    show _ + ((0 : Nat) : Int) ≤ _
    omega
  refine ⟨{ mem := memset s1.mem ZEROHUGEPG 0 HUGEPGSIZE,
             hugepages := set_entry s1.hugepages (HUGEPGINDEX ZEROHUGEPG)
               { s1.hugepages (HUGEPGINDEX ZEROHUGEPG) with hugealloced := TRUE },
             freemem := s1.freemem - PGINHUGEPG,
             used4k := (1 <<< 15 : Int) - s1.freemem,
             used2m := 0 + 1 }, ?_, ?_⟩
  · unfold kinit freerange
    rw [hl]
  · apply count_inv_fill s1 _ [] 63 0 (Or.inl rfl) rfl _ _ hinv
    · intro i
      show (set_entry s1.hugepages (HUGEPGINDEX ZEROHUGEPG) _ i).freelist = _
      unfold set_entry
      by_cases hi : i = HUGEPGINDEX ZEROHUGEPG
      · rw [if_pos hi, hi]
      · rw [if_neg hi]
    · intro i
      show (set_entry s1.hugepages (HUGEPGINDEX ZEROHUGEPG) _ i).freecount = _
      unfold set_entry
      by_cases hi : i = HUGEPGINDEX ZEROHUGEPG
      · rw [if_pos hi, hi]
      · rw [if_neg hi]

/-- A descriptor with a count from 0 to `PGINHUGEPG` is in exactly one of the
four states. -/
theorem exactly_one_state (e : hugepage_entry) (h0 : 0 ≤ e.freecount)
    (h1 : e.freecount ≤ PGINHUGEPG) :
    exactly_one (whole_free e) (split e) (exhausted e) (allocated_whole e) := by
  unfold exactly_one whole_free split exhausted allocated_whole
  unfold PGINHUGEPG at *
  by_cases ha : e.hugealloced = 0
  · by_cases hw : e.freecount = 512
    · left
      exact ⟨⟨hw, ha⟩, fun h => by omega, fun h => by omega, fun h => h ha⟩
    · by_cases hz : e.freecount = 0
      · right; right; left
        exact ⟨fun h => hw h.1, fun h => by omega, ⟨ha, hz⟩, fun h => h ha⟩
      · right; left
        exact ⟨fun h => hw h.1, ⟨ha, by omega, by omega⟩, fun h => hz h.2, fun h => h ha⟩
  · right; right; right
    exact ⟨fun h => ha h.2, fun h => ha h.1, fun h => ha h.1, ha⟩

/-- C29, amended: in every state that a run of `kalloc`, `kfree` (of live
frames), `kalloc_huge` and `kfree_huge` reaches from the state after `kinit`,
while `kalloc` hands out frames of the managed memory, every descriptor is in
exactly one of four states: whole-free, split (`0 < freecount < PGINHUGEPG`),
exhausted (`freecount == 0`, not allocated-whole) or allocated-whole. -/
theorem C29_descriptor_states (kernel_end : Nat) (mem : Memory) (ops : List aop)
    (s0 s : kstate) (live : List Nat)
    (hke : KERNBASE ≤ kernel_end) (hkt : kernel_end ≤ PHYSTOP)
    (hinit : kinit kernel_end (boot_state mem) = some s0)
    (hrun : arun kernel_end ops (s0, []) = some (s, live)) :
    ∀ i, i < MAXHUGEPGS →
      exactly_one (whole_free (s.hugepages i)) (split (s.hugepages i))
        (exhausted (s.hugepages i)) (allocated_whole (s.hugepages i)) := by
  obtain ⟨s0', h0, hinv0⟩ := kinit_count_inv kernel_end mem hke hkt
  rw [hinit] at h0
  cases h0
  have hinv := count_inv_arun kernel_end hke ops s0 [] s live hinv0 hrun
  intro i hi
  obtain ⟨-, hnn, hsum⟩ := hinv.1 i hi
  have hl : 0 ≤ live_in live i := by
    unfold live_in
    omega
  exact exactly_one_state _ hnn (by omega)

/-- C29, a counterexample to the three states: a descriptor all of whose frames
are in use has `freecount == 0` and is not allocated-whole, so it is neither
whole-free nor split nor allocated-whole.  In `roomy_kstate` descriptor 0 is
split with three free frames; after three calls of `kalloc`, which return the
three frames, its count is 0.  The state after `kinit` itself has such
descriptors when the kernel image covers a whole 2 MiB region, as for `end` at
`0x87FFE000`. -/
theorem C29_exhausted_descriptor :
    split ((roomy_kstate (fun _ => 0)).hugepages 0) ∧
    (arun 0x80021000 [aop.alloc, aop.alloc, aop.alloc] (roomy_kstate (fun _ => 0), [])).map
      (fun r => (r.1.hugepages 0, r.2)) =
      some (⟨0, 0, 0⟩, [0x80023000, 0x80022000, 0x80021000]) ∧
    (kinit 0x87FFE000 (boot_state (fun _ => 0))).map (fun s => s.hugepages 0) =
      some ⟨0, 0, 0⟩ ∧
    ¬ whole_free ⟨0, 0, 0⟩ ∧ ¬ split ⟨0, 0, 0⟩ ∧ ¬ allocated_whole ⟨0, 0, 0⟩ := by
  refine ⟨by decide, by decide, by decide, by decide, by decide, by decide⟩

/-- C29 at the run `kalloc_huge(); kalloc()` after `kinit` with `end` at
`0x87FFE000`: both calls return null and leave the state as it is. -/
theorem C29_descriptor_states_witness :
    kinit 0x87FFE000 (boot_state (fun _ => 0)) = some tiny_boot_state ∧
    arun 0x87FFE000 [aop.alloc_huge, aop.alloc] (tiny_boot_state, []) =
      some (tiny_boot_state, []) ∧
    ∀ i, i < MAXHUGEPGS →
      exactly_one (whole_free (tiny_boot_state.hugepages i))
        (split (tiny_boot_state.hugepages i)) (exhausted (tiny_boot_state.hugepages i))
        (allocated_whole (tiny_boot_state.hugepages i)) :=
  ⟨rfl, rfl,
    C29_descriptor_states 0x87FFE000 (fun _ => 0) [aop.alloc_huge, aop.alloc]
      tiny_boot_state tiny_boot_state [] (by decide) (by decide) rfl rfl⟩

/-! ## `uvmcopy`: the allocator -/

/-- A chain visits one list of addresses only. -/
theorem is_chain_unique (mem : Memory) :
    ∀ (l l1 : List Nat) (head : Nat), is_chain mem head l → is_chain mem head l1 → l = l1 := by
  intro l
  induction l with
  | nil =>
    intro l1 head h h1
    cases l1 with
    | nil => rfl
    | cons y l1 =>
      unfold is_chain at h h1
      exact absurd (h1.1.symm.trans h) h1.2.1
  | cons x l ih =>
    intro l1 head h h1
    cases l1 with
    | nil =>
      unfold is_chain at h h1
      exact absurd (h.1.symm.trans h1) h.2.1
    | cons y l1 =>
      unfold is_chain at h h1
      have hxy : x = y := h.1.symm.trans h1.1
      subst hxy
      rw [ih l1 (mem x) h.2.2 h1.2.2]

/-- A frame of a descriptor lies in the managed memory. -/
theorem frame_of_in_memory (i x : Nat) (hi : i < MAXHUGEPGS) (h : frame_of i x) :
    KERNBASE ≤ x ∧ x < PHYSTOP := by
  obtain ⟨-, h2, h3⟩ := h
  unfold HUGEPAGEADDR at h2 h3
  unfold MAXHUGEPGS at hi
  unfold PHYSTOP
  unfold KERNBASE HUGEPGSIZE at *
  omega

/-- A word of a frame is not a word of another frame. -/
theorem in_frame_apart (f g x : Nat) (hf : f % PGSIZE = 0) (hg : g % PGSIZE = 0)
    (hne : f ≠ g) (hx : in_frame f PGSIZE x) : ¬ in_frame g PGSIZE x := by
  unfold in_frame PGSIZE at *
  omega

/-- The start of a frame is a word of it. -/
theorem in_frame_self (f : Nat) : in_frame f PGSIZE f := by
  unfold in_frame PGSIZE
  omega

/-- Writes inside live frames keep the invariant of the allocator. -/
theorem kinv_write (kernel_end : Nat) (s : kstate) (live : List Nat) (mem1 : Memory)
    (hinv : kinv kernel_end s live)
    (hw : ∀ x, mem1 x ≠ s.mem x → ∃ f, f ∈ live ∧ in_frame f PGSIZE x) :
    kinv kernel_end { s with mem := mem1 } live := by
  obtain ⟨⟨hlists, hnd, hfr⟩, hlb, hcb⟩ := hinv
  have hnode : ∀ i, ∀ x, frame_of i x → x ∉ live → mem1 x = s.mem x := by
    intro i x hx hxl
    by_contra hne
    obtain ⟨f, hf, hin⟩ := hw x hne
    obtain ⟨j, -, hfj⟩ := hfr f hf
    have hfx : f ≠ x := fun e => hxl (e ▸ hf)
    exact in_frame_apart x f x hx.1 hfj.1 (fun e => hfx e.symm) (in_frame_self x) hin
  refine ⟨⟨?_, hnd, hfr⟩, hlb, ?_⟩
  · intro i hi
    obtain ⟨l, hc, hlnd, hlfr, hllive⟩ := hlists i hi
    exact ⟨l, is_chain_congr s.mem mem1 l _
      (fun x hx => hnode i x (hlfr x hx) (hllive x hx)) hc, hlnd, hlfr, hllive⟩
  · intro i hi l hl x hx
    obtain ⟨l0, hc, -, hlfr, hllive⟩ := hlists i hi
    have hc1 : is_chain mem1 (s.hugepages i).freelist l0 :=
      is_chain_congr s.mem mem1 l0 _ (fun y hy => hnode i y (hlfr y hy) (hllive y hy)) hc
    have e := is_chain_unique mem1 l l0 _ hl hc1
    subst e
    exact hcb i hi l hc x hx

/-- The function `kalloc` under the invariant: it returns null and leaves the
state as it is, or it returns a frame that was not live and lies at or above
`kernel_end`, filled with junk, and the invariant holds with the frame live. -/
theorem kinv_kalloc (kernel_end : Nat) (s : kstate) (live : List Nat) (r : Nat) (s1 : kstate)
    (hinv : kinv kernel_end s live) (hk : kalloc s = some (r, s1)) :
    (r = 0 ∧ s1 = s) ∨
    (r ≠ 0 ∧ r ∉ live ∧ r % PGSIZE = 0 ∧ kinv kernel_end s1 (r :: live) ∧
      s1.mem = memset s.mem r 5 PGSIZE ∧ s1.freemem = s.freemem - 1) := by
  obtain ⟨hainv, hlb, hcb⟩ := hinv
  rcases kalloc_cases s with h0 | ⟨p, hp, -, hh, -, hserved⟩
  · rw [h0] at hk
    simp only [Option.some.injEq, Prod.mk.injEq] at hk
    exact Or.inl ⟨hk.1.symm, hk.2.symm⟩
  · rw [hserved] at hk
    simp only [Option.some.injEq, Prod.mk.injEq] at hk
    obtain ⟨hr, hs1⟩ := hk
    subst hr hs1
    obtain ⟨h1, h2, h3⟩ := alloc_inv_served s live p hp hh hainv
    obtain ⟨hlists, -, -⟩ := hainv
    obtain ⟨lp, hcp, -, -, -⟩ := hlists p hp
    obtain ⟨lp1, hlp, hcp1⟩ := is_chain_cons s.mem _ lp hh hcp
    have hrb : kernel_end ≤ (s.hugepages p).freelist :=
      hcb p hp lp hcp _ (hlp ▸ List.mem_cons_self _ _)
    refine Or.inr ⟨hh, h1, h2.1, ⟨h3, ?_, ?_⟩, rfl, rfl⟩
    · intro x hx
      rcases List.mem_cons.mp hx with e | e
      · rw [e]
        exact hrb
      · exact hlb x e
    · intro i hi l hl x hx
      obtain ⟨l1, hc1, hl1nd, hl1fr, hl1live⟩ := h3.1 i hi
      have e := is_chain_unique _ l l1 _ hl hc1
      subst e
      have hback : is_chain s.mem ((served s p).hugepages i).freelist l := by
        apply is_chain_congr (served s p).mem s.mem l _ _ hl
        intro y hy
        have hyr : y ≠ (s.hugepages p).freelist :=
          fun e => hl1live y hy (e ▸ List.mem_cons_self _ _)
        have := frame_apart y _ (hl1fr y hy).1 h2.1 hyr
        simp only [served, memset, this, if_false]
      by_cases hip : i = p
      · subst hip
        rw [served_self] at hback
        have hfull : is_chain s.mem (s.hugepages i).freelist ((s.hugepages i).freelist :: l) :=
          ⟨rfl, hh, hback⟩
        exact hcb i hi _ hfull x (List.mem_cons_of_mem _ hx)
      · rw [served_other s p i hip] at hback
        exact hcb i hi l hback x hx

/-- The function `kfree` applied to a live frame under the invariant: it
returns, and the invariant holds with the frame live no more. -/
theorem kinv_kfree (kernel_end pa : Nat) (s : kstate) (live : List Nat)
    (hinv : kinv kernel_end s live) (hlive : pa ∈ live) :
    ∃ s1, kfree kernel_end pa s = some s1 ∧ kinv kernel_end s1 (live.erase pa) ∧
      (∀ x, ¬ in_frame pa PGSIZE x → s1.mem x = s.mem x) ∧
      s1.freemem = s.freemem + 1 := by
  obtain ⟨hainv, hlb, hcb⟩ := hinv
  obtain ⟨hlists, hnd, hfr⟩ := hainv
  obtain ⟨ip, hip, hpafr⟩ := hfr pa hlive
  have hin := frame_of_in_memory ip pa hip hpafr
  have hc : ¬ (pa % PGSIZE ≠ 0 ∨ pa < kernel_end ∨ pa ≥ PHYSTOP) := by
    have := hlb pa hlive
    have := hpafr.1
    omega
  have hk : kfree kernel_end pa s = some (freed s pa) := by
    unfold kfree
    rw [if_neg hc]
    rfl
  have h3 := alloc_inv_kfree kernel_end pa s _ live ⟨hlists, hnd, hfr⟩ hlive hk
  refine ⟨_, hk, ⟨h3, fun x hx => hlb x (List.mem_of_mem_erase hx), ?_⟩, ?_, rfl⟩
  · intro i hi l hl x hx
    obtain ⟨l1, hc1, hl1nd, hl1fr, hl1live⟩ := h3.1 i hi
    have e := is_chain_unique _ l l1 _ hl hc1
    subst e
    by_cases hxpa : x = pa
    · rw [hxpa]
      exact hlb pa hlive
    · have hmem : ∀ y, y ∈ l → y ≠ pa → (freed s pa).mem y = s.mem y := by
        intro y hy hne
        have := frame_apart y pa (hl1fr y hy).1 hpafr.1 hne
        simp only [freed, store, memset, hne, this, if_false]
      have hidx : HUGEPGINDEX pa = ip := frame_of_index ip pa hpafr
      by_cases hiip : i = ip
      · subst hiip
        have hhead : ((freed s pa).hugepages i).freelist = pa := by
          simp only [freed, set_entry, hidx, if_true]
        rw [hhead] at hl
        obtain ⟨t, ht, hct⟩ := is_chain_cons _ pa l (frame_of_ne_zero i pa hpafr) hl
        subst ht
        have hpat : pa ∉ t := (List.nodup_cons.mp hl1nd).1
        have hmpa : (freed s pa).mem pa = (s.hugepages i).freelist := by
          simp only [freed, store, hidx, if_true]
        rw [hmpa] at hct
        have hback : is_chain s.mem (s.hugepages i).freelist t := by
          apply is_chain_congr (freed s pa).mem s.mem t _ _ hct
          intro y hy
          exact (hmem y (List.mem_cons_of_mem _ hy) (fun e => hpat (e ▸ hy))).symm
        rcases List.mem_cons.mp hx with e | e
        · exact absurd e hxpa
        · exact hcb i hi t hback x e
      · have hhead : ((freed s pa).hugepages i).freelist = (s.hugepages i).freelist := by
          simp only [freed, set_entry, hidx, hiip, if_false]
        rw [hhead] at hl
        have hpal : pa ∉ l := fun hm => hiip (frame_of_unique i ip pa (hl1fr pa hm) hpafr)
        have hback : is_chain s.mem (s.hugepages i).freelist l := by
          apply is_chain_congr (freed s pa).mem s.mem l _ _ hl
          intro y hy
          exact (hmem y hy (fun e => hpal (e ▸ hy))).symm
        exact hcb i hi l hback x hx
  · intro x hx
    have hne : x ≠ pa := fun e => hx (e ▸ in_frame_self pa)
    simp only [freed, store, memset]
    rw [if_neg hne, if_neg (show ¬ (pa ≤ x ∧ x < pa + PGSIZE) from hx)]

/-! ## `uvmcopy`: frames and tables -/

theorem kinv_frames (kernel_end : Nat) (s : kstate) (L : List Nat)
    (h : kinv kernel_end s L) : frames_apart L := by
  refine ⟨h.1.2.1, fun f hf => ?_⟩
  obtain ⟨i, -, hfr⟩ := h.1.2.2 f hf
  exact hfr.1

theorem frames_apart_perm (L L1 : List Nat) (hp : L.Perm L1) (h : frames_apart L) :
    frames_apart L1 :=
  ⟨hp.nodup_iff.mp h.1, fun f hf => h.2 f (hp.mem_iff.mpr hf)⟩

theorem frames_apart_sub (L L1 : List Nat) (hs : L1.Sublist L) (h : frames_apart L) :
    frames_apart L1 :=
  ⟨h.1.sublist hs, fun f hf => h.2 f (hs.subset hf)⟩

/-- A word lies in at most one of the frames of a list of distinct aligned frames. -/
theorem frames_apart_word (L : List Nat) (h : frames_apart L) (f g x : Nat)
    (hf : f ∈ L) (hg : g ∈ L) (hxf : in_frame f PGSIZE x) (hxg : in_frame g PGSIZE x) :
    f = g := by
  by_contra hne
  exact in_frame_apart f g x (h.2 f hf) (h.2 g hg) hne hxf hxg

/-- The invariant of the allocator depends on the live frames as a set. -/
theorem kinv_perm (kernel_end : Nat) (s : kstate) (L L1 : List Nat) (hp : L.Perm L1)
    (h : kinv kernel_end s L) : kinv kernel_end s L1 := by
  obtain ⟨⟨hlists, hnd, hfr⟩, hlb, hcb⟩ := h
  refine ⟨⟨?_, hp.nodup_iff.mp hnd, fun x hx => hfr x (hp.mem_iff.mpr hx)⟩,
    fun x hx => hlb x (hp.mem_iff.mpr hx), hcb⟩
  intro i hi
  obtain ⟨l, hc, hlnd, hlfr, hllive⟩ := hlists i hi
  exact ⟨l, hc, hlnd, hlfr, fun x hx hm => hllive x hx (hp.mem_iff.mpr hm)⟩

/-- An index of a table is below 512. -/
theorem PX_lt (level va : Nat) : PX level va < 512 := by
  unfold PX
  have := @Nat.and_le_right (va >>> (12 + 9 * level)) 0x1FF
  omega

/-- The entries of a table lie in the frame of the table. -/
theorem pte_addr_in_frame (t level va : Nat) : in_frame t PGSIZE (pte_addr t (PX level va)) := by
  have := PX_lt level va
  unfold in_frame pte_addr PGSIZE
  omega

/-- An entry that points to a table: the frame `r` with the flag `V`. -/
theorem table_entry (r : Nat) (hr : r % PGSIZE = 0) :
    (PA2PTE r ||| PTE_V) &&& PTE_V ≠ 0 ∧ PTE2PA (PA2PTE r ||| PTE_V) = r := by
  refine ⟨?_, entry_frame r PTE_V (by decide) hr⟩
  rw [entry_flags r PTE_V PTE_V (by decide) (by decide)]
  decide

/-- The walk to a page reads two entries above the leaf; a memory that agrees
on them has the same walk. -/
theorem path_ok_congr (mem mem1 : Memory) (new : Nat) (T1 T0 T1a T0a : List Nat) (va : Nat)
    (h : path_ok mem new T1 T0 va)
    (h2 : mem1 (pte_addr new (PX 2 va)) = mem (pte_addr new (PX 2 va)))
    (h1 : mem1 (l1_word mem new va) = mem (l1_word mem new va))
    (hT1 : ∀ t, t ∈ T1 → t ∈ T1a) (hT0 : ∀ t, t ∈ T0 → t ∈ T0a) :
    path_ok mem1 new T1a T0a va ∧ l1_word mem1 new va = l1_word mem new va ∧
      l0_word mem1 new va = l0_word mem new va := by
  have e1 : l1_word mem1 new va = l1_word mem new va := by
    unfold l1_word
    rw [h2]
  have e0 : l0_word mem1 new va = l0_word mem new va := by
    unfold l0_word
    rw [e1, h1]
  obtain ⟨a, b, c, d, e⟩ := h
  refine ⟨⟨a, ?_, ?_, ?_, ?_⟩, e1, e0⟩
  · rw [h2]
    exact b
  · rw [h2]
    exact hT1 _ c
  · rw [e1, h1]
    exact d
  · rw [e1, h1]
    exact hT0 _ e

/-- A mapped page stays mapped in a memory that agrees on the three entries of
its walk. -/
theorem page_mapped_congr (mem mem1 : Memory) (new : Nat) (T1 T0 T1a T0a : List Nat)
    (p : Nat × Nat) (h : page_mapped mem new T1 T0 p)
    (h2 : mem1 (pte_addr new (PX 2 p.1)) = mem (pte_addr new (PX 2 p.1)))
    (h1 : mem1 (l1_word mem new p.1) = mem (l1_word mem new p.1))
    (h0 : mem1 (l0_word mem new p.1) = mem (l0_word mem new p.1))
    (hT1 : ∀ t, t ∈ T1 → t ∈ T1a) (hT0 : ∀ t, t ∈ T0 → t ∈ T0a) :
    page_mapped mem1 new T1a T0a p ∧ l0_word mem1 new p.1 = l0_word mem new p.1 := by
  obtain ⟨hp, hl, hf⟩ := h
  obtain ⟨q, -, e0⟩ := path_ok_congr mem mem1 new T1 T0 T1a T0a p.1 hp h2 h1 hT1 hT0
  refine ⟨⟨q, ?_, ?_⟩, e0⟩
  · rw [e0, h0]
    exact hl
  · rw [e0, h0]
    exact hf

/-- The three entries of the walk to a mapped page are valid. -/
theorem page_mapped_valid (mem : Memory) (new : Nat) (T1 T0 : List Nat) (p : Nat × Nat)
    (h : page_mapped mem new T1 T0 p) (x : Nat) (hx : mem x &&& PTE_V = 0) :
    x ≠ pte_addr new (PX 2 p.1) ∧ x ≠ l1_word mem new p.1 ∧ x ≠ l0_word mem new p.1 := by
  obtain ⟨⟨-, b, -, d, -⟩, hl, -⟩ := h
  refine ⟨?_, ?_, ?_⟩
  · intro e
    rw [e] at hx
    exact b hx
  · intro e
    rw [e] at hx
    exact d hx
  · intro e
    rw [e] at hx
    exact hl.1 hx

/-- The table `new` after a change of the memory that keeps the frames that
were in use before, puts new entries of the root and of the tables of level 1
only where they point to tables of the lists, keeps the entries of the walks
to the mapped pages, and keeps the entries above the leaves of the cleared
pages and leaves their leaves null. -/
theorem tables_inv_update (new : Nat) (mem0 mem mem1 : Memory)
    (live0 T1 T0 T1a T0a : List Nat) (M : List (Nat × Nat)) (C : List Nat)
    (h : tables_inv new mem0 mem live0 T1 T0 M C)
    (hT1 : ∀ t, t ∈ T1 → t ∈ T1a) (hT0 : ∀ t, t ∈ T0 → t ∈ T0a)
    (hold : ∀ f, f ∈ live0 → f ≠ new → ∀ x, in_frame f PGSIZE x → mem1 x = mem x)
    (hroot : ∀ x, in_frame new PGSIZE x → mem1 x ≠ mem x → PTE2PA (mem1 x) ∈ T1a)
    (hl1 : ∀ t, t ∈ T1a → ∀ x, in_frame t PGSIZE x → mem1 x &&& PTE_V ≠ 0 →
      (t ∈ T1 ∧ mem1 x = mem x) ∨ PTE2PA (mem1 x) ∈ T0a)
    (hM : ∀ p, p ∈ M → mem1 (pte_addr new (PX 2 p.1)) = mem (pte_addr new (PX 2 p.1)) ∧
      mem1 (l1_word mem new p.1) = mem (l1_word mem new p.1) ∧
      mem1 (l0_word mem new p.1) = mem (l0_word mem new p.1))
    (hC : ∀ va, va ∈ C → mem1 (pte_addr new (PX 2 va)) = mem (pte_addr new (PX 2 va)) ∧
      mem1 (l1_word mem new va) = mem (l1_word mem new va) ∧
      mem1 (l0_word mem new va) = 0) :
    tables_inv new mem0 mem1 live0 T1a T0a M C := by
  refine ⟨?_, ?_, ?_, ?_, ?_, ?_⟩
  · intro f hf hne x hx
    rw [hold f hf hne x hx]
    exact h.old f hf hne x hx
  · intro x hx hne
    by_cases e : mem1 x = mem x
    · rw [e] at hne ⊢
      exact hT1 _ (h.root x hx hne)
    · exact hroot x hx e
  · intro t ht x hx hv
    rcases hl1 t ht x hx hv with ⟨ht1, e⟩ | h1
    · rw [e] at hv ⊢
      exact hT0 _ (h.l1 t ht1 x hx hv)
    · exact h1
  · intro p hp
    obtain ⟨a, b, c⟩ := hM p hp
    exact (page_mapped_congr mem mem1 new T1 T0 T1a T0a p (h.pages p hp) a b c hT1 hT0).1
  · refine List.Pairwise.imp_of_mem ?_ h.slots
    intro a b ha hb hne
    obtain ⟨a2, a1, a0⟩ := hM a ha
    obtain ⟨b2, b1, b0⟩ := hM b hb
    rw [(page_mapped_congr mem mem1 new T1 T0 T1a T0a a (h.pages a ha) a2 a1 a0 hT1 hT0).2,
      (page_mapped_congr mem mem1 new T1 T0 T1a T0a b (h.pages b hb) b2 b1 b0 hT1 hT0).2]
    exact hne
  · intro va hva
    obtain ⟨a, b, c⟩ := hC va hva
    obtain ⟨q, -, e0⟩ := path_ok_congr mem mem1 new T1 T0 T1a T0a va (h.cleared va hva).1 a b
      hT1 hT0
    refine ⟨q, ?_⟩
    rw [e0]
    exact c

/-- One more mapped page, whose leaf entry is none of the leaf entries of the
pages mapped before. -/
theorem tables_inv_add_page (new : Nat) (mem0 mem : Memory) (live0 T1 T0 : List Nat)
    (M : List (Nat × Nat)) (C : List Nat) (p : Nat × Nat)
    (h : tables_inv new mem0 mem live0 T1 T0 M C) (hp : page_mapped mem new T1 T0 p)
    (hne : ∀ a, a ∈ M → l0_word mem new a.1 ≠ l0_word mem new p.1) :
    tables_inv new mem0 mem live0 T1 T0 (M ++ [p]) C := by
  refine ⟨h.old, h.root, h.l1, ?_, ?_, h.cleared⟩
  · intro q hq
    rcases List.mem_append.mp hq with hq | hq
    · exact h.pages q hq
    · rw [List.mem_singleton.mp hq]
      exact hp
  · refine List.pairwise_append.mpr ⟨h.slots, List.pairwise_singleton _ _, ?_⟩
    intro a ha b hb
    rw [List.mem_singleton.mp hb]
    exact hne a ha

/-- The first mapped page leaves the list of the mapped pages. -/
theorem tables_inv_tail (new : Nat) (mem0 mem : Memory) (live0 T1 T0 : List Nat)
    (p : Nat × Nat) (M : List (Nat × Nat)) (C : List Nat)
    (h : tables_inv new mem0 mem live0 T1 T0 (p :: M) C) :
    tables_inv new mem0 mem live0 T1 T0 M C :=
  ⟨h.old, h.root, h.l1, fun q hq => h.pages q (List.mem_cons_of_mem _ hq),
    (List.pairwise_cons.mp h.slots).2, h.cleared⟩

/-- One more cleared page. -/
theorem tables_inv_add_cleared (new : Nat) (mem0 mem : Memory) (live0 T1 T0 : List Nat)
    (M : List (Nat × Nat)) (C : List Nat) (va : Nat)
    (h : tables_inv new mem0 mem live0 T1 T0 M C) (hc : page_cleared mem new T1 T0 va) :
    tables_inv new mem0 mem live0 T1 T0 M (va :: C) := by
  refine ⟨h.old, h.root, h.l1, h.pages, h.slots, ?_⟩
  intro a ha
  rcases List.mem_cons.mp ha with e | e
  · rw [e]
    exact hc
  · exact h.cleared a e

theorem mem_copy_live (X : List Nat) (M : List (Nat × Nat)) (T1 T0 live0 : List Nat) (x : Nat) :
    x ∈ copy_live X M T1 T0 live0 ↔
      x ∈ X ∨ x ∈ M.map Prod.snd ∨ x ∈ T0 ∨ x ∈ T1 ∨ x ∈ live0 := by
  unfold copy_live
  simp only [List.mem_append]

theorem copy_live_length (X : List Nat) (M : List (Nat × Nat)) (T1 T0 : List Nat) :
    (((copy_live X M T1 T0 []).length : Nat) : Int) =
      (X.length : Int) + M.length + T0.length + T1.length := by
  unfold copy_live
  simp only [List.length_append, List.length_map, List.append_nil, Nat.cast_add]
  omega

/-- The frames of the roles differ. -/
theorem copy_live_roles (X : List Nat) (M : List (Nat × Nat)) (T1 T0 live0 : List Nat)
    (h : (copy_live X M T1 T0 live0).Nodup) :
    (∀ t, t ∈ T1 → t ∉ live0) ∧ (∀ t, t ∈ T0 → t ∉ T1 ∧ t ∉ live0) ∧
    (∀ m, m ∈ M.map Prod.snd → m ∉ T0 ∧ m ∉ T1 ∧ m ∉ live0) := by
  unfold copy_live at h
  rw [List.nodup_append] at h
  obtain ⟨-, h, -⟩ := h
  rw [List.nodup_append] at h
  obtain ⟨-, h, hM⟩ := h
  rw [List.nodup_append] at h
  obtain ⟨-, h, hT0⟩ := h
  rw [List.nodup_append] at h
  obtain ⟨-, -, hT1⟩ := h
  refine ⟨fun t ht hl => hT1 ht hl, fun t ht => ⟨fun h1 => hT0 ht (List.mem_append_left _ h1),
    fun h1 => hT0 ht (List.mem_append_right _ h1)⟩, fun m hm => ⟨?_, ?_, ?_⟩⟩
  · exact fun h1 => hM hm (List.mem_append_left _ h1)
  · exact fun h1 => hM hm (List.mem_append_right _ (List.mem_append_left _ h1))
  · exact fun h1 => hM hm (List.mem_append_right _ (List.mem_append_right _ h1))

theorem copy_live_perm_T1 (X : List Nat) (M : List (Nat × Nat)) (T1 T0 live0 : List Nat)
    (r : Nat) :
    (r :: copy_live X M T1 T0 live0).Perm (copy_live X M (r :: T1) T0 live0) := by
  unfold copy_live
  rw [← List.append_assoc X, ← List.append_assoc (X ++ _), ← List.append_assoc X,
    ← List.append_assoc (X ++ _)]
  exact (List.perm_middle).symm

theorem copy_live_perm_T0 (X : List Nat) (M : List (Nat × Nat)) (T1 T0 live0 : List Nat)
    (r : Nat) :
    (r :: copy_live X M T1 T0 live0).Perm (copy_live X M T1 (r :: T0) live0) := by
  unfold copy_live
  rw [← List.append_assoc X, ← List.append_assoc X]
  exact (List.perm_middle).symm

theorem copy_live_perm_page (M : List (Nat × Nat)) (T1 T0 live0 : List Nat) (p : Nat × Nat) :
    (copy_live [p.2] M T1 T0 live0).Perm (copy_live [] (M ++ [p]) T1 T0 live0) := by
  unfold copy_live
  simp only [List.map_append, List.map_cons, List.map_nil, List.nil_append,
    List.singleton_append, List.append_assoc]
  exact (List.perm_middle).symm

/-! ## `uvmcopy`: `walk` with allocation -/

/-- The frames of the three entries of the walk to a page. -/
theorem path_frames (mem : Memory) (new : Nat) (T1 T0 : List Nat) (va : Nat)
    (h : path_ok mem new T1 T0 va) :
    in_frame new PGSIZE (pte_addr new (PX 2 va)) ∧
    (∃ t, t ∈ T1 ∧ in_frame t PGSIZE (l1_word mem new va)) ∧
    (∃ t, t ∈ T0 ∧ in_frame t PGSIZE (l0_word mem new va)) :=
  ⟨pte_addr_in_frame _ _ _, ⟨_, h.2.2.1, pte_addr_in_frame _ _ _⟩,
    ⟨_, h.2.2.2.2, pte_addr_in_frame _ _ _⟩⟩

/-- The step of `walk` that installs a table: the frame `r` from `kalloc` is
new and page-aligned, it is zero-filled apart from the entry `x` if that lies
in it, the entry `x` points to `r`, and the rest of the memory is as before. -/
theorem install_table (kernel_end : Nat) (s s1 : kstate) (L : List Nat) (r x par : Nat)
    (hk : kinv kernel_end s L) (hpar : par ∈ L) (hx : in_frame par PGSIZE x)
    (hr : r ≠ 0) (ha : kalloc s = some (r, s1)) :
    kinv kernel_end
      { s1 with mem := store (memset s1.mem r 0 PGSIZE) x (PA2PTE r ||| PTE_V) } (r :: L) ∧
    r % PGSIZE = 0 ∧ r ∉ L ∧
    store (memset s1.mem r 0 PGSIZE) x (PA2PTE r ||| PTE_V) x = (PA2PTE r ||| PTE_V) ∧
    (∀ y, y ≠ x → in_frame r PGSIZE y →
      store (memset s1.mem r 0 PGSIZE) x (PA2PTE r ||| PTE_V) y = 0) ∧
    (∀ y, y ≠ x → ¬ in_frame r PGSIZE y →
      store (memset s1.mem r 0 PGSIZE) x (PA2PTE r ||| PTE_V) y = s.mem y) ∧
    (∀ g, g ∈ L → ∀ y, in_frame g PGSIZE y → ¬ in_frame r PGSIZE y) ∧
    s1.freemem = s.freemem - 1 := by
  rcases kinv_kalloc kernel_end s L r s1 hk ha with ⟨e, -⟩ | ⟨-, hrl, hal, hk1, hm, hf⟩
  · exact absurd e hr
  have hfa := kinv_frames kernel_end s1 (r :: L) hk1
  have hap : ∀ g, g ∈ L → ∀ y, in_frame g PGSIZE y → ¬ in_frame r PGSIZE y := by
    intro g hg y hy hry
    have e := frames_apart_word (r :: L) hfa g r y (List.mem_cons_of_mem _ hg)
      (List.mem_cons_self _ _) hy hry
    exact hrl (e ▸ hg)
  refine ⟨?_, hal, hrl, ?_, ?_, ?_, hap, hf⟩
  · apply kinv_write kernel_end s1 (r :: L) _ hk1
    intro y hy
    by_cases e : y = x
    · exact ⟨par, List.mem_cons_of_mem _ hpar, e ▸ hx⟩
    · refine ⟨r, List.mem_cons_self _ _, ?_⟩
      by_contra hn
      apply hy
      unfold in_frame at hn
      simp only [store, memset, if_neg e, if_neg hn]
  · simp only [store, if_true]
  · intro y hy hin
    unfold in_frame at hin
    simp only [store, memset, if_neg hy, if_pos hin]
    rfl
  · intro y hy hin
    unfold in_frame at hin
    simp only [store, memset, if_neg hy, if_neg hin, hm]

/-- The entries of the walk to a mapped page keep their values when a table is
installed at an entry that was not valid. -/
theorem pages_keep (mem mem1 : Memory) (new : Nat) (X : List Nat) (M : List (Nat × Nat))
    (T1 T0 live0 : List Nat) (p : Nat × Nat) (r x : Nat)
    (hp : page_mapped mem new T1 T0 p) (hxv : mem x &&& PTE_V = 0) (hnew : new ∈ live0)
    (hsame : ∀ y, y ≠ x → ¬ in_frame r PGSIZE y → mem1 y = mem y)
    (hap : ∀ g, g ∈ copy_live X M T1 T0 live0 → ∀ y, in_frame g PGSIZE y →
      ¬ in_frame r PGSIZE y) :
    mem1 (pte_addr new (PX 2 p.1)) = mem (pte_addr new (PX 2 p.1)) ∧
    mem1 (l1_word mem new p.1) = mem (l1_word mem new p.1) ∧
    mem1 (l0_word mem new p.1) = mem (l0_word mem new p.1) := by
  obtain ⟨n2, n1, n0⟩ := page_mapped_valid mem new T1 T0 p hp x hxv
  obtain ⟨f2, ⟨t1, ht1, f1⟩, ⟨t0, ht0, f0⟩⟩ := path_frames mem new T1 T0 p.1 hp.1
  refine ⟨hsame _ (Ne.symm n2) ?_, hsame _ (Ne.symm n1) ?_, hsame _ (Ne.symm n0) ?_⟩
  · exact hap new ((mem_copy_live _ _ _ _ _ _).mpr (Or.inr (Or.inr (Or.inr (Or.inr hnew))))) _ f2
  · exact hap t1 ((mem_copy_live _ _ _ _ _ _).mpr (Or.inr (Or.inr (Or.inr (Or.inl ht1))))) _ f1
  · exact hap t0 ((mem_copy_live _ _ _ _ _ _).mpr (Or.inr (Or.inr (Or.inl ht0)))) _ f0

/-- The step of `walk` at the root of `new` while `uvmcopy` runs: it follows an
entry to a table of level 1, or installs a new one, or returns null and leaves
the state as it is. -/
theorem walk_step_root (kernel_end new : Nat) (mem0 : Memory) (live0 : List Nat) (f0 : Int)
    (s : kstate) (X : List Nat) (M : List (Nat × Nat)) (T1 T0 : List Nat) (va : Nat)
    (hinv : copy_inv kernel_end new mem0 live0 f0 s X M T1 T0 [])
    (h0 : mem0 (pte_addr new (PX 2 va)) &&& PTE_V = 0) :
    ∃ r s1 T1a, walk_step new va true 2 s = some (r, s1) ∧
      copy_inv kernel_end new mem0 live0 f0 s1 X M T1a T0 [] ∧ (∀ t, t ∈ T1 → t ∈ T1a) ∧
      ∀ t, r = some t → t ∈ T1a ∧ s1.mem (pte_addr new (PX 2 va)) &&& PTE_V ≠ 0 ∧
        PTE2PA (s1.mem (pte_addr new (PX 2 va))) = t := by
  obtain ⟨hk, hnew, ht, hfm⟩ := hinv
  have hx := pte_addr_in_frame new 2 va
  have hnewL : new ∈ copy_live X M T1 T0 live0 :=
    (mem_copy_live _ _ _ _ _ _).mpr (Or.inr (Or.inr (Or.inr (Or.inr hnew))))
  unfold walk_step
  simp only []
  by_cases hv : s.mem (pte_addr new (PX 2 va)) &&& PTE_V ≠ 0
  · rw [if_pos hv]
    refine ⟨_, s, T1, rfl, ⟨hk, hnew, ht, hfm⟩, fun t h => h, ?_⟩
    intro t e
    simp only [Option.some.injEq] at e
    subst e
    refine ⟨ht.root _ hx ?_, hv, rfl⟩
    intro e
    rw [e] at hv
    exact hv h0
  · rw [if_neg hv]
    simp only [Bool.true_eq_false, if_false]
    obtain ⟨r, s1, ha⟩ := kalloc_returns s
    rw [ha]
    simp only []
    by_cases hr : r = 0
    · rw [if_pos hr]
      rcases kinv_kalloc kernel_end s _ r s1 hk ha with ⟨-, e⟩ | ⟨h, -⟩
      · subst e
        exact ⟨none, s1, T1, rfl, ⟨hk, hnew, ht, hfm⟩, fun t h => h, fun t e => by cases e⟩
      · exact absurd hr h
    · rw [if_neg hr]
      obtain ⟨k2, hal, hrl, ex, hz, hsame, hap, hf⟩ :=
        install_table kernel_end s s1 _ r _ new hk hnewL hx hr ha
      have hxv : s.mem (pte_addr new (PX 2 va)) &&& PTE_V = 0 := by
        by_contra h
        exact hv h
      have hfa := kinv_frames kernel_end s _ hk
      obtain ⟨hT1, hT0, -⟩ := copy_live_roles X M T1 T0 live0 hfa.1
      have hne : ∀ g, g ∈ copy_live X M T1 T0 live0 → g ≠ new → ∀ y, in_frame g PGSIZE y →
          y ≠ pte_addr new (PX 2 va) := by
        intro g hg hgn y hy e
        exact hgn (frames_apart_word _ hfa g new y hg hnewL hy (e ▸ hx))
      refine ⟨some r, _, r :: T1, rfl, ⟨kinv_perm _ _ _ _ (copy_live_perm_T1 _ _ _ _ _ _) k2,
        hnew, ?_, ?_⟩, fun t h => List.mem_cons_of_mem _ h, ?_⟩
      · apply tables_inv_update new mem0 s.mem _ live0 T1 T0 (r :: T1) T0 M [] ht
          (fun t h => List.mem_cons_of_mem _ h) (fun t h => h)
        · intro f hf hfn y hy
          have hfL : f ∈ copy_live X M T1 T0 live0 :=
            (mem_copy_live _ _ _ _ _ _).mpr (Or.inr (Or.inr (Or.inr (Or.inr hf))))
          exact hsame y (hne f hfL hfn y hy) (hap f hfL y hy)
        · intro y hy hch
          have e : y = pte_addr new (PX 2 va) := by
            by_contra hn
            exact hch (hsame y hn (hap new hnewL y hy))
          rw [e]
          show PTE2PA (store (memset s1.mem r 0 PGSIZE) _ (PA2PTE r ||| PTE_V) _) ∈ r :: T1
          rw [ex, (table_entry r hal).2]
          exact List.mem_cons_self _ _
        · intro t htm y hy hyv
          rcases List.mem_cons.mp htm with e | h1
          · subst e
            exfalso
            have hyx : y ≠ pte_addr new (PX 2 va) := by
              intro e
              exact hap new hnewL _ hx (e ▸ hy)
            have := hz y hyx hy
            apply hyv
            show store (memset s1.mem t 0 PGSIZE) _ (PA2PTE t ||| PTE_V) y &&& PTE_V = 0
            rw [this]
            rfl
          · left
            have htL : t ∈ copy_live X M T1 T0 live0 :=
              (mem_copy_live _ _ _ _ _ _).mpr (Or.inr (Or.inr (Or.inr (Or.inl h1))))
            have htn : t ≠ new := fun e => hT1 t h1 (e ▸ hnew)
            exact ⟨h1, hsame y (hne t htL htn y hy) (hap t htL y hy)⟩
        · intro p hp
          exact pages_keep s.mem _ new X M T1 T0 live0 p r _ (ht.pages p hp) hxv hnew hsame hap
        · intro c hc
          cases hc
      · show s1.freemem = _
        rw [hf, hfm, copy_live_length, copy_live_length]
        simp only [List.length_cons, Nat.cast_add, Nat.cast_one]
        omega
      · intro t e
        simp only [Option.some.injEq] at e
        subst e
        show r ∈ r :: T1 ∧
          store (memset s1.mem r 0 PGSIZE) _ (PA2PTE r ||| PTE_V) _ &&& PTE_V ≠ 0 ∧
          PTE2PA (store (memset s1.mem r 0 PGSIZE) _ (PA2PTE r ||| PTE_V) _) = r
        rw [ex]
        exact ⟨List.mem_cons_self _ _, table_entry r hal⟩

/-- The step of `walk` at a table of level 1 of `new` while `uvmcopy` runs: it
follows an entry to a table of level 0, or installs a new one, or returns null
and leaves the state as it is.  The root is not written. -/
theorem walk_step_l1 (kernel_end new : Nat) (mem0 : Memory) (live0 : List Nat) (f0 : Int)
    (s : kstate) (X : List Nat) (M : List (Nat × Nat)) (T1 T0 : List Nat) (va t1 : Nat)
    (hinv : copy_inv kernel_end new mem0 live0 f0 s X M T1 T0 []) (ht1 : t1 ∈ T1) :
    ∃ r s1 T0a, walk_step t1 va true 1 s = some (r, s1) ∧
      copy_inv kernel_end new mem0 live0 f0 s1 X M T1 T0a [] ∧ (∀ t, t ∈ T0 → t ∈ T0a) ∧
      (∀ y, in_frame new PGSIZE y → s1.mem y = s.mem y) ∧
      ∀ t, r = some t → t ∈ T0a ∧ s1.mem (pte_addr t1 (PX 1 va)) &&& PTE_V ≠ 0 ∧
        PTE2PA (s1.mem (pte_addr t1 (PX 1 va))) = t := by
  obtain ⟨hk, hnew, ht, hfm⟩ := hinv
  have hx := pte_addr_in_frame t1 1 va
  have hnewL : new ∈ copy_live X M T1 T0 live0 :=
    (mem_copy_live _ _ _ _ _ _).mpr (Or.inr (Or.inr (Or.inr (Or.inr hnew))))
  have ht1L : t1 ∈ copy_live X M T1 T0 live0 :=
    (mem_copy_live _ _ _ _ _ _).mpr (Or.inr (Or.inr (Or.inr (Or.inl ht1))))
  unfold walk_step
  simp only []
  by_cases hv : s.mem (pte_addr t1 (PX 1 va)) &&& PTE_V ≠ 0
  · rw [if_pos hv]
    refine ⟨_, s, T0, rfl, ⟨hk, hnew, ht, hfm⟩, fun t h => h, fun y _ => rfl, ?_⟩
    intro t e
    simp only [Option.some.injEq] at e
    subst e
    exact ⟨ht.l1 t1 ht1 _ hx hv, hv, rfl⟩
  · rw [if_neg hv]
    simp only [Bool.true_eq_false, if_false]
    obtain ⟨r, s1, ha⟩ := kalloc_returns s
    rw [ha]
    simp only []
    by_cases hr : r = 0
    · rw [if_pos hr]
      rcases kinv_kalloc kernel_end s _ r s1 hk ha with ⟨-, e⟩ | ⟨h, -⟩
      · subst e
        exact ⟨none, s1, T0, rfl, ⟨hk, hnew, ht, hfm⟩, fun t h => h, fun y _ => rfl,
          fun t e => by cases e⟩
      · exact absurd hr h
    · rw [if_neg hr]
      obtain ⟨k2, hal, hrl, ex, hz, hsame, hap, hf⟩ :=
        install_table kernel_end s s1 _ r _ t1 hk ht1L hx hr ha
      have hxv : s.mem (pte_addr t1 (PX 1 va)) &&& PTE_V = 0 := by
        by_contra h
        exact hv h
      have hfa := kinv_frames kernel_end s _ hk
      obtain ⟨hT1, hT0, -⟩ := copy_live_roles X M T1 T0 live0 hfa.1
      have hne : ∀ g, g ∈ copy_live X M T1 T0 live0 → g ≠ t1 → ∀ y, in_frame g PGSIZE y →
          y ≠ pte_addr t1 (PX 1 va) := by
        intro g hg hgn y hy e
        exact hgn (frames_apart_word _ hfa g t1 y hg ht1L hy (e ▸ hx))
      have ht1new : new ≠ t1 := fun e => hT1 t1 ht1 (e ▸ hnew)
      refine ⟨some r, _, r :: T0, rfl, ⟨kinv_perm _ _ _ _ (copy_live_perm_T0 _ _ _ _ _ _) k2,
        hnew, ?_, ?_⟩, fun t h => List.mem_cons_of_mem _ h, ?_, ?_⟩
      · apply tables_inv_update new mem0 s.mem _ live0 T1 T0 T1 (r :: T0) M [] ht
          (fun t h => h) (fun t h => List.mem_cons_of_mem _ h)
        · intro f hf hfn y hy
          have hfL : f ∈ copy_live X M T1 T0 live0 :=
            (mem_copy_live _ _ _ _ _ _).mpr (Or.inr (Or.inr (Or.inr (Or.inr hf))))
          have hft : f ≠ t1 := fun e => hT1 t1 ht1 (e ▸ hf)
          exact hsame y (hne f hfL hft y hy) (hap f hfL y hy)
        · intro y hy hch
          exact absurd (hsame y (hne new hnewL ht1new y hy) (hap new hnewL y hy)) hch
        · intro t htm y hy hyv
          have htL : t ∈ copy_live X M T1 T0 live0 :=
            (mem_copy_live _ _ _ _ _ _).mpr (Or.inr (Or.inr (Or.inr (Or.inl htm))))
          by_cases e : y = pte_addr t1 (PX 1 va)
          · right
            rw [e]
            show PTE2PA (store (memset s1.mem r 0 PGSIZE) _ (PA2PTE r ||| PTE_V) _) ∈ r :: T0
            rw [ex, (table_entry r hal).2]
            exact List.mem_cons_self _ _
          · left
            exact ⟨htm, hsame y e (hap t htL y hy)⟩
        · intro p hp
          exact pages_keep s.mem _ new X M T1 T0 live0 p r _ (ht.pages p hp) hxv hnew hsame hap
        · intro c hc
          cases hc
      · show s1.freemem = _
        rw [hf, hfm, copy_live_length, copy_live_length]
        simp only [List.length_cons, Nat.cast_add, Nat.cast_one]
        omega
      · intro y hy
        exact hsame y (hne new hnewL ht1new y hy) (hap new hnewL y hy)
      · intro t e
        simp only [Option.some.injEq] at e
        subst e
        show r ∈ r :: T0 ∧
          store (memset s1.mem r 0 PGSIZE) _ (PA2PTE r ||| PTE_V) _ &&& PTE_V ≠ 0 ∧
          PTE2PA (store (memset s1.mem r 0 PGSIZE) _ (PA2PTE r ||| PTE_V) _) = r
        rw [ex]
        exact ⟨List.mem_cons_self _ _, table_entry r hal⟩

/-- The function `walk` with `alloc` on the table `new` while `uvmcopy` runs:
it returns null after an allocation failed, or the leaf entry of the page. -/
theorem walk_new (kernel_end new : Nat) (mem0 : Memory) (live0 : List Nat) (f0 : Int)
    (s : kstate) (X : List Nat) (M : List (Nat × Nat)) (T1 T0 : List Nat) (va : Nat)
    (hinv : copy_inv kernel_end new mem0 live0 f0 s X M T1 T0 []) (hva : va < MAXVA)
    (h0 : mem0 (pte_addr new (PX 2 va)) &&& PTE_V = 0) :
    ∃ pte s1 T1a T0a, walk new va true s = some (pte, s1) ∧
      copy_inv kernel_end new mem0 live0 f0 s1 X M T1a T0a [] ∧
      (pte ≠ 0 → path_ok s1.mem new T1a T0a va ∧ pte = l0_word s1.mem new va) := by
  have hge : ¬ va ≥ MAXVA := by omega
  unfold walk
  rw [if_neg hge]
  obtain ⟨r, s1, T1a, e1, hinv1, -, hr⟩ :=
    walk_step_root kernel_end new mem0 live0 f0 s X M T1 T0 va hinv h0
  rw [e1]
  cases r with
  | none => exact ⟨0, s1, T1a, T0, rfl, hinv1, fun h => absurd rfl h⟩
  | some t1 =>
    obtain ⟨ht1, hv1, hp1⟩ := hr t1 rfl
    obtain ⟨r0, s2, T0a, e2, hinv2, -, hroot, hr0⟩ :=
      walk_step_l1 kernel_end new mem0 live0 f0 s1 X M T1a T0 va t1 hinv1 ht1
    simp only []
    rw [e2]
    cases r0 with
    | none => exact ⟨0, s2, T1a, T0a, rfl, hinv2, fun h => absurd rfl h⟩
    | some t0 =>
      obtain ⟨ht0, hv0, hp0⟩ := hr0 t0 rfl
      refine ⟨_, s2, T1a, T0a, rfl, hinv2, fun _ => ?_⟩
      have ex : s2.mem (pte_addr new (PX 2 va)) = s1.mem (pte_addr new (PX 2 va)) :=
        hroot _ (pte_addr_in_frame new 2 va)
      have el : l1_word s2.mem new va = pte_addr t1 (PX 1 va) := by
        unfold l1_word
        rw [ex, hp1]
      refine ⟨⟨hva, ?_, ?_, ?_, ?_⟩, ?_⟩
      · rw [ex]
        exact hv1
      · rw [ex, hp1]
        exact ht1
      · rw [el]
        exact hv0
      · rw [el, hp0]
        exact ht0
      · unfold l0_word
        rw [el, hp0]

/-- The call `mappages(pagetable, va, PGSIZE, pa, perm)` for a page-aligned
`va`: one iteration of the loop. -/
theorem mappages_page (pagetable va pa perm : Nat) (s : kstate) (hal : va % PGSIZE = 0)
    (hva : va < MAXVA) :
    mappages pagetable va PGSIZE pa perm s =
      match walk pagetable va true s with
      | none => none
      | some (pte, s1) =>
        if pte = 0 then some (-1, s1)
        else if s1.mem pte &&& PTE_V ≠ 0 then none
        else some (0, { s1 with mem := store s1.mem pte (PA2PTE pa ||| perm ||| PTE_V) }) := by
  have e1 : PGROUNDDOWN va = va := by
    unfold PGROUNDDOWN
    omega
  have e2 : PGROUNDDOWN (u64 (va + PGSIZE - 1)) = va := by
    unfold PGROUNDDOWN u64
    unfold MAXVA at hva
    unfold PGSIZE at *
    omega
  unfold mappages
  rw [if_neg (by decide : ¬ PGSIZE = 0), e1, e2]
  rw [mappages_loop]
  cases walk pagetable va true s with
  | none => rfl
  | some c =>
    obtain ⟨pte, s1⟩ := c
    simp only [if_true]

/-- The entry that `uvmcopy` installs for the frame `m`, with the flags of a
present leaf `o`: a present leaf for `m`. -/
theorem copied_entry (m o : Nat) (hm : m % PGSIZE = 0) (ho : present_leaf o) :
    present_leaf (PA2PTE m ||| PTE_FLAGS o ||| PTE_V) ∧
    PTE2PA (PA2PTE m ||| PTE_FLAGS o ||| PTE_V) = m := by
  have hlt : PTE_FLAGS o < 1024 := by
    unfold PTE_FLAGS
    have := @Nat.and_le_right o 0x3FF
    omega
  have hv : PTE_FLAGS o &&& PTE_V ≠ 0 := by
    unfold PTE_FLAGS
    rw [Nat.and_assoc]
    exact ho.1
  have key : ∀ f, f < 1024 → f &&& PTE_V ≠ 0 → f ≠ PTE_V →
      (f ||| PTE_V) < 1024 ∧ (f ||| PTE_V) &&& PTE_V ≠ 0 ∧ (f ||| PTE_V) &&& 0x3FF ≠ PTE_V := by
    unfold PTE_V
    intro f hf h1 h2
    have hodd : f % 2 = 1 := by
      rw [Nat.and_one_is_mod] at h1
      omega
    have hor : f ||| 1 = f := by
      apply Nat.eq_of_testBit_eq
      intro i
      rw [Nat.testBit_or]
      cases i with
      | zero => simp [Nat.testBit_zero, hodd]
      | succ i => simp [Nat.testBit_succ]
    have hm : f &&& 0x3FF = f := by
      have := Nat.and_pow_two_sub_one_eq_mod f 10
      simp only [Nat.reducePow, Nat.add_one_sub_one] at this
      rw [this]
      exact Nat.mod_eq_of_lt hf
    rw [hor, hm]
    exact ⟨hf, h1, h2⟩
  obtain ⟨k1, k2, k3⟩ := key _ hlt hv ho.2
  rw [Nat.or_assoc]
  refine ⟨⟨?_, ?_⟩, entry_frame m _ k1 hm⟩
  · rw [entry_flags m _ PTE_V k1 (by decide)]
    exact k2
  · show (PA2PTE m ||| (PTE_FLAGS o ||| PTE_V)) &&& 0x3FF ≠ PTE_V
    rw [entry_flags m _ 0x3FF k1 (by decide)]
    exact k3

/-- Writes inside a frame that is none of the tables and none of the frames
that were in use before keep the table `new` as it is. -/
theorem tables_inv_frame_write (new : Nat) (mem0 mem mem1 : Memory) (live0 T1 T0 : List Nat)
    (M : List (Nat × Nat)) (C : List Nat) (m : Nat)
    (h : tables_inv new mem0 mem live0 T1 T0 M C) (hnew : new ∈ live0)
    (hsame : ∀ y, ¬ in_frame m PGSIZE y → mem1 y = mem y)
    (hap : ∀ g, g ∈ T0 ∨ g ∈ T1 ∨ g ∈ live0 → ∀ y, in_frame g PGSIZE y →
      ¬ in_frame m PGSIZE y) :
    tables_inv new mem0 mem1 live0 T1 T0 M C := by
  have hpath : ∀ va, path_ok mem new T1 T0 va →
      mem1 (pte_addr new (PX 2 va)) = mem (pte_addr new (PX 2 va)) ∧
      mem1 (l1_word mem new va) = mem (l1_word mem new va) ∧
      mem1 (l0_word mem new va) = mem (l0_word mem new va) := by
    intro va hp
    obtain ⟨f2, ⟨t1, ht1, f1⟩, ⟨t0, ht0, f0⟩⟩ := path_frames mem new T1 T0 va hp
    exact ⟨hsame _ (hap new (Or.inr (Or.inr hnew)) _ f2),
      hsame _ (hap t1 (Or.inr (Or.inl ht1)) _ f1), hsame _ (hap t0 (Or.inl ht0) _ f0)⟩
  apply tables_inv_update new mem0 mem mem1 live0 T1 T0 T1 T0 M C h (fun t h => h)
    (fun t h => h)
  · intro f hf _ y hy
    exact hsame y (hap f (Or.inr (Or.inr hf)) y hy)
  · intro y hy hch
    exact absurd (hsame y (hap new (Or.inr (Or.inr hnew)) y hy)) hch
  · intro t ht y hy _
    exact Or.inl ⟨ht, hsame y (hap t (Or.inr (Or.inl ht)) y hy)⟩
  · intro p hp
    exact hpath p.1 (h.pages p hp).1
  · intro c hc
    obtain ⟨a, b, d⟩ := hpath c (h.cleared c hc).1
    exact ⟨a, b, d.trans (h.cleared c hc).2⟩

/-- A store to a leaf entry, in a table of level 0: the entries of the root,
of the tables of level 1 and of the frames that were in use before are not
written, so the walks are as before. -/
theorem tables_inv_store_leaf (new : Nat) (mem0 mem : Memory) (live0 T1 T0 : List Nat)
    (M : List (Nat × Nat)) (C : List Nat) (pte v : Nat)
    (h : tables_inv new mem0 mem live0 T1 T0 M C)
    (hsep : ∀ g, g = new ∨ g ∈ T1 ∨ g ∈ live0 → ∀ y, in_frame g PGSIZE y → y ≠ pte)
    (hM : ∀ p, p ∈ M → l0_word mem new p.1 ≠ pte)
    (hC : ∀ c, c ∈ C → l0_word mem new c = pte → v = 0) :
    tables_inv new mem0 (store mem pte v) live0 T1 T0 M C ∧
    ∀ va, path_ok mem new T1 T0 va → path_ok (store mem pte v) new T1 T0 va ∧
      l0_word (store mem pte v) new va = l0_word mem new va := by
  have hst : ∀ y, y ≠ pte → store mem pte v y = mem y := by
    intro y hy
    simp only [store, if_neg hy]
  have hpath : ∀ va, path_ok mem new T1 T0 va →
      store mem pte v (pte_addr new (PX 2 va)) = mem (pte_addr new (PX 2 va)) ∧
      store mem pte v (l1_word mem new va) = mem (l1_word mem new va) := by
    intro va hp
    obtain ⟨f2, ⟨t1, ht1, f1⟩, -⟩ := path_frames mem new T1 T0 va hp
    exact ⟨hst _ (hsep new (Or.inl rfl) _ f2), hst _ (hsep t1 (Or.inr (Or.inl ht1)) _ f1)⟩
  constructor
  · apply tables_inv_update new mem0 mem _ live0 T1 T0 T1 T0 M C h (fun t h => h)
      (fun t h => h)
    · intro f hf _ y hy
      exact hst y (hsep f (Or.inr (Or.inr hf)) y hy)
    · intro y hy hch
      exact absurd (hst y (hsep new (Or.inl rfl) y hy)) hch
    · intro t ht y hy _
      exact Or.inl ⟨ht, hst y (hsep t (Or.inr (Or.inl ht)) y hy)⟩
    · intro p hp
      obtain ⟨a, b⟩ := hpath p.1 (h.pages p hp).1
      exact ⟨a, b, hst _ (hM p hp)⟩
    · intro c hc
      obtain ⟨a, b⟩ := hpath c (h.cleared c hc).1
      refine ⟨a, b, ?_⟩
      by_cases e : l0_word mem new c = pte
      · rw [e]
        simp only [store, if_true]
        exact hC c hc e
      · rw [hst _ e]
        exact (h.cleared c hc).2
  · intro va hp
    obtain ⟨a, b⟩ := hpath va hp
    obtain ⟨q, -, e⟩ := path_ok_congr mem _ new T1 T0 T1 T0 va hp a b (fun t h => h)
      (fun t h => h)
    exact ⟨q, e⟩

/-- The frames of the data pages and the frames just allocated overlap none of
the tables and none of the frames that were in use before. -/
theorem data_apart (kernel_end : Nat) (s : kstate) (X : List Nat) (M : List (Nat × Nat))
    (T1 T0 live0 : List Nat) (m : Nat)
    (hk : kinv kernel_end s (copy_live X M T1 T0 live0))
    (hm : m ∈ X ∨ m ∈ M.map Prod.snd) :
    ∀ g, g ∈ T0 ∨ g ∈ T1 ∨ g ∈ live0 → ∀ y, in_frame g PGSIZE y → ¬ in_frame m PGSIZE y := by
  have hfa := kinv_frames kernel_end s _ hk
  intro g hg y hy hmy
  have hgL : g ∈ copy_live X M T1 T0 live0 :=
    (mem_copy_live _ _ _ _ _ _).mpr (Or.inr (Or.inr hg))
  have hmL : m ∈ copy_live X M T1 T0 live0 := by
    rcases hm with h | h
    · exact (mem_copy_live _ _ _ _ _ _).mpr (Or.inl h)
    · exact (mem_copy_live _ _ _ _ _ _).mpr (Or.inr (Or.inl h))
  have e := frames_apart_word _ hfa g m y hgL hmL hy hmy
  subst e
  have hnd := hfa.1
  unfold copy_live at hnd
  rw [List.nodup_append] at hnd
  obtain ⟨-, hnd2, hX⟩ := hnd
  rw [List.nodup_append] at hnd2
  obtain ⟨-, -, hMd⟩ := hnd2
  have hgR : g ∈ T0 ++ (T1 ++ live0) := by
    simp only [List.mem_append]
    exact hg
  rcases hm with h | h
  · exact hX h (List.mem_append_right _ hgR)
  · exact hMd h hgR

/-- A leaf entry, in a table of level 0, is no word of the root, of a table of
level 1 or of a frame that was in use before. -/
theorem leaf_word_apart (kernel_end : Nat) (s : kstate) (X : List Nat) (M : List (Nat × Nat))
    (T1 T0 live0 : List Nat) (new t0 pte : Nat)
    (hk : kinv kernel_end s (copy_live X M T1 T0 live0)) (hnew : new ∈ live0)
    (ht0 : t0 ∈ T0) (hp : in_frame t0 PGSIZE pte) :
    ∀ g, g = new ∨ g ∈ T1 ∨ g ∈ live0 → ∀ y, in_frame g PGSIZE y → y ≠ pte := by
  have hfa := kinv_frames kernel_end s _ hk
  obtain ⟨-, hT0, -⟩ := copy_live_roles X M T1 T0 live0 hfa.1
  intro g hg y hy e
  have hg1 : g ∈ T1 ∨ g ∈ live0 := by
    rcases hg with h | h | h
    · exact Or.inr (h ▸ hnew)
    · exact Or.inl h
    · exact Or.inr h
  have hgL : g ∈ copy_live X M T1 T0 live0 :=
    (mem_copy_live _ _ _ _ _ _).mpr (Or.inr (Or.inr (Or.inr hg1)))
  have ht0L : t0 ∈ copy_live X M T1 T0 live0 :=
    (mem_copy_live _ _ _ _ _ _).mpr (Or.inr (Or.inr (Or.inl ht0)))
  have e1 := frames_apart_word _ hfa g t0 y hgL ht0L hy (e ▸ hp)
  subst e1
  rcases hg1 with h | h
  · exact (hT0 g ht0).1 h
  · exact (hT0 g ht0).2 h

/-! ## `uvmcopy`: the frames of the data pages -/

/-- After `kfree(pa)` of a frame in use, the frame is on a free list, with the
frames that were on a free list before. -/
theorem kfree_on_free_list (kernel_end pa : Nat) (s s1 : kstate) (live : List Nat)
    (hinv : kinv kernel_end s live) (hlive : pa ∈ live)
    (hk : kfree kernel_end pa s = some s1) :
    on_free_list s1 pa ∧ ∀ x, on_free_list s x → on_free_list s1 x := by
  obtain ⟨⟨hlists, hnd, hfr⟩, -, -⟩ := hinv
  obtain ⟨ip, hip, hpafr⟩ := hfr pa hlive
  have hidx : HUGEPGINDEX pa = ip := frame_of_index ip pa hpafr
  unfold kfree at hk
  by_cases hc : pa % PGSIZE ≠ 0 ∨ pa < kernel_end ∨ pa ≥ PHYSTOP
  · rw [if_pos hc] at hk
    cases hk
  · rw [if_neg hc] at hk
    simp only [Option.some.injEq] at hk
    rw [hidx] at hk
    have hmem : ∀ i x, frame_of i x → x ≠ pa → s1.mem x = s.mem x := by
      intro i x hx hne
      have := frame_apart x pa hx.1 hpafr.1 hne
      rw [← hk]
      simp only [store, memset, hne, this, if_false]
    have hmempa : s1.mem pa = (s.hugepages ip).freelist := by
      rw [← hk]
      simp only [store, if_true]
    have hself : (s1.hugepages ip).freelist = pa := by
      rw [← hk]
      simp only [set_entry, if_true]
    have hother : ∀ i, i ≠ ip → s1.hugepages i = s.hugepages i := by
      intro i hi
      rw [← hk]
      simp only [set_entry, hi, if_false]
    have hchain : ∀ i, i < MAXHUGEPGS → ∀ l, is_chain s.mem (s.hugepages i).freelist l →
        is_chain s1.mem (s.hugepages i).freelist l := by
      intro i hi l hl
      obtain ⟨li, hci, -, hlifr, hlilive⟩ := hlists i hi
      have e := is_chain_unique s.mem l li _ hl hci
      subst e
      exact is_chain_congr s.mem s1.mem l _
        (fun x hx => hmem i x (hlifr x hx) (fun h => hlilive x hx (h ▸ hlive))) hl
    have hip1 : ∀ l, is_chain s.mem (s.hugepages ip).freelist l →
        is_chain s1.mem (s1.hugepages ip).freelist (pa :: l) := by
      intro l hl
      rw [hself]
      show pa = pa ∧ pa ≠ 0 ∧ is_chain s1.mem (s1.mem pa) l
      rw [hmempa]
      exact ⟨rfl, frame_of_ne_zero ip pa hpafr, hchain ip hip l hl⟩
    constructor
    · obtain ⟨li, hci, -, -, -⟩ := hlists ip hip
      exact ⟨ip, pa :: li, hip, hip1 li hci, List.mem_cons_self _ _⟩
    · intro x ⟨i, l, hi, hl, hx⟩
      by_cases hiip : i = ip
      · subst hiip
        exact ⟨i, pa :: l, hi, hip1 l hl, List.mem_cons_of_mem _ hx⟩
      · refine ⟨i, l, hi, ?_, hx⟩
        rw [hother i hiip]
        exact hchain i hi l hl

/-- Writes inside frames in use keep the free lists. -/
theorem on_free_list_write (kernel_end : Nat) (s : kstate) (live : List Nat) (mem1 : Memory)
    (hinv : kinv kernel_end s live)
    (hw : ∀ y, mem1 y ≠ s.mem y → ∃ f, f ∈ live ∧ in_frame f PGSIZE y) (x : Nat)
    (h : on_free_list s x) : on_free_list { s with mem := mem1 } x := by
  obtain ⟨⟨hlists, hnd, hfr⟩, -, -⟩ := hinv
  obtain ⟨i, l, hi, hl, hx⟩ := h
  obtain ⟨li, hci, -, hlifr, hlilive⟩ := hlists i hi
  have e := is_chain_unique s.mem l li _ hl hci
  subst e
  refine ⟨i, l, hi, ?_, hx⟩
  apply is_chain_congr s.mem mem1 l _ _ hl
  intro y hy
  by_contra hne
  obtain ⟨f, hf, hin⟩ := hw y hne
  obtain ⟨j, -, hfj⟩ := hfr f hf
  have hfy : f ≠ y := fun e => hlilive y hy (e ▸ hf)
  exact in_frame_apart y f y (hlifr y hy).1 hfj.1 (fun e => hfy e.symm) (in_frame_self y) hin

/-- The frame `m` of a data page, the first of the frames in use, is freed: the
allocator and the table `new` are as before, with `m` on a free list. -/
theorem kfree_data (kernel_end new : Nat) (mem0 : Memory) (s : kstate)
    (Ms : List (Nat × Nat)) (T1 T0 live0 : List Nat) (M : List (Nat × Nat)) (C : List Nat)
    (m : Nat)
    (hk : kinv kernel_end s (m :: copy_live [] Ms T1 T0 live0)) (hnew : new ∈ live0)
    (ht : tables_inv new mem0 s.mem live0 T1 T0 M C) :
    ∃ s1, kfree kernel_end m s = some s1 ∧
      kinv kernel_end s1 (copy_live [] Ms T1 T0 live0) ∧
      tables_inv new mem0 s1.mem live0 T1 T0 M C ∧ s1.freemem = s.freemem + 1 ∧
      on_free_list s1 m ∧ ∀ x, on_free_list s x → on_free_list s1 x := by
  obtain ⟨s1, e, k1, hsame, hf⟩ := kinv_kfree kernel_end m s _ hk (List.mem_cons_self _ _)
  rw [List.erase_cons_head] at k1
  obtain ⟨a, b⟩ := kfree_on_free_list kernel_end m s s1 _ hk (List.mem_cons_self _ _) e
  refine ⟨s1, e, k1, ?_, hf, a, b⟩
  apply tables_inv_frame_write new mem0 s.mem s1.mem live0 T1 T0 M C m ht hnew hsame
  have hk2 : kinv kernel_end s (copy_live [m] Ms T1 T0 live0) := hk
  exact data_apart kernel_end s [m] Ms T1 T0 live0 m hk2 (Or.inl (List.mem_singleton.mpr rfl))

/-- A frame `m` for a data page is allocated and filled: the invariant of
`uvmcopy` holds with `m` as the frame just allocated. -/
theorem copy_inv_kalloc (kernel_end new : Nat) (mem0 : Memory) (live0 : List Nat) (f0 : Int)
    (s s2 : kstate) (M : List (Nat × Nat)) (T1 T0 : List Nat) (C : List Nat) (m : Nat)
    (mem1 : Memory)
    (hinv : copy_inv kernel_end new mem0 live0 f0 s [] M T1 T0 C)
    (ha : kalloc s = some (m, s2)) (hm : m ≠ 0)
    (hw : ∀ y, ¬ in_frame m PGSIZE y → mem1 y = s2.mem y) :
    m % PGSIZE = 0 ∧
    copy_inv kernel_end new mem0 live0 f0 { s2 with mem := mem1 } [m] M T1 T0 C := by
  obtain ⟨hk, hnew, ht, hfm⟩ := hinv
  rcases kinv_kalloc kernel_end s _ m s2 hk ha with ⟨e, -⟩ | ⟨-, hrl, hal, hk1, hmm, hf⟩
  · exact absurd e hm
  have hk2 : kinv kernel_end s2 (copy_live [m] M T1 T0 live0) := hk1
  have hk3 : kinv kernel_end { s2 with mem := mem1 } (copy_live [m] M T1 T0 live0) := by
    apply kinv_write kernel_end s2 _ mem1 hk2
    intro y hy
    refine ⟨m, (mem_copy_live _ _ _ _ _ _).mpr (Or.inl (List.mem_singleton.mpr rfl)), ?_⟩
    by_contra hn
    exact hy (hw y hn)
  refine ⟨hal, hk3, hnew, ?_, ?_⟩
  · apply tables_inv_frame_write new mem0 s.mem mem1 live0 T1 T0 M C m ht hnew
    · intro y hy
      rw [hw y hy, hmm]
      unfold in_frame at hy
      simp only [memset, if_neg hy]
    · exact data_apart kernel_end s2 [m] M T1 T0 live0 m hk2
        (Or.inl (List.mem_singleton.mpr rfl))
  · show s2.freemem = _
    rw [hf, hfm, copy_live_length, copy_live_length]
    simp only [List.length_cons, List.length_nil, Nat.cast_add, Nat.cast_one]
    omega

/-- The leaf of the page `va` is installed for the frame `m` just allocated:
the page joins the mapped pages. -/
theorem copy_inv_install (kernel_end new : Nat) (mem0 : Memory) (live0 : List Nat) (f0 : Int)
    (s : kstate) (M : List (Nat × Nat)) (T1 T0 : List Nat) (va m e : Nat)
    (hinv : copy_inv kernel_end new mem0 live0 f0 s [m] M T1 T0 [])
    (hp : path_ok s.mem new T1 T0 va) (hv : s.mem (l0_word s.mem new va) &&& PTE_V = 0)
    (he : present_leaf e) (hf : PTE2PA e = m) :
    copy_inv kernel_end new mem0 live0 f0
      { s with mem := store s.mem (l0_word s.mem new va) e } [] (M ++ [(va, m)]) T1 T0 [] := by
  obtain ⟨hk, hnew, ht, hfm⟩ := hinv
  obtain ⟨-, -, ⟨t0, ht0, fr0⟩⟩ := path_frames s.mem new T1 T0 va hp
  have hsep := leaf_word_apart kernel_end s [m] M T1 T0 live0 new t0 _ hk hnew ht0 fr0
  obtain ⟨ht1, hpath⟩ := tables_inv_store_leaf new mem0 s.mem live0 T1 T0 M []
    (l0_word s.mem new va) e ht hsep
    (fun p hp1 => Ne.symm (page_mapped_valid s.mem new T1 T0 p (ht.pages p hp1) _ hv).2.2)
    (fun c hc => by cases hc)
  refine ⟨?_, hnew, ?_, ?_⟩
  · apply kinv_perm kernel_end _ _ _ (copy_live_perm_page M T1 T0 live0 (va, m))
    apply kinv_write kernel_end s _ _ hk
    intro y hy
    refine ⟨t0, (mem_copy_live _ _ _ _ _ _).mpr (Or.inr (Or.inr (Or.inl ht0))), ?_⟩
    have e1 : y = l0_word s.mem new va := by
      by_contra hn
      apply hy
      simp only [store, if_neg hn]
    rw [e1]
    exact fr0
  · apply tables_inv_add_page new mem0 _ live0 T1 T0 M [] (va, m) ht1
    · obtain ⟨q, e0⟩ := hpath va hp
      refine ⟨q, ?_, ?_⟩
      · show present_leaf (store s.mem (l0_word s.mem new va) e
          (l0_word (store s.mem (l0_word s.mem new va) e) new va))
        rw [e0]
        simp only [store, if_true]
        exact he
      · show PTE2PA (store s.mem (l0_word s.mem new va) e
          (l0_word (store s.mem (l0_word s.mem new va) e) new va)) = m
        rw [e0]
        simp only [store, if_true]
        exact hf
    · intro a ha
      show l0_word (store s.mem (l0_word s.mem new va) e) new a.1 ≠
        l0_word (store s.mem (l0_word s.mem new va) e) new va
      rw [(hpath a.1 (ht.pages a ha).1).2, (hpath va hp).2]
      exact Ne.symm (page_mapped_valid s.mem new T1 T0 a (ht.pages a ha) _ hv).2.2
  · show s.freemem = _
    rw [hfm, copy_live_length, copy_live_length]
    simp only [List.length_cons, List.length_nil, List.length_append, Nat.cast_add,
      Nat.cast_one]
    omega

/-- The frame just allocated is freed again, after `mappages` failed. -/
theorem copy_inv_kfree (kernel_end new : Nat) (mem0 : Memory) (live0 : List Nat) (f0 : Int)
    (s : kstate) (M : List (Nat × Nat)) (T1 T0 : List Nat) (m : Nat)
    (hinv : copy_inv kernel_end new mem0 live0 f0 s [m] M T1 T0 []) :
    ∃ s1, kfree kernel_end m s = some s1 ∧
      copy_inv kernel_end new mem0 live0 f0 s1 [] M T1 T0 [] := by
  obtain ⟨hk, hnew, ht, hfm⟩ := hinv
  obtain ⟨s1, e, k1, t1, hf, -, -⟩ :=
    kfree_data kernel_end new mem0 s M T1 T0 live0 M [] m hk hnew ht
  refine ⟨s1, e, k1, hnew, t1, ?_⟩
  rw [hf, hfm, copy_live_length, copy_live_length]
  simp only [List.length_cons, List.length_nil, Nat.cast_add, Nat.cast_one]
  omega

/-- The pages that a loop over `n + 1` pages visits: the first `n` and the
last. -/
theorem region_pages_append (step : Nat) :
    ∀ n a, region_pages step (n + 1) a = region_pages step n a ++ [a + n * step] := by
  intro n
  induction n with
  | zero =>
    intro a
    simp [region_pages]
  | succ n ih =>
    intro a
    rw [region_pages, ih (a + step)]
    simp only [region_pages, List.cons_append, List.cons.injEq, true_and]
    congr 2
    rw [Nat.add_mul]
    omega

/-- The walk to a page of `old` while `uvmcopy` runs: as at the start. -/
theorem walk_old (new old : Nat) (mem0 : Memory) (live0 T1 T0 : List Nat)
    (M : List (Nat × Nat)) (C : List Nat) (s : kstate) (va : Nat)
    (ht : tables_inv new mem0 s.mem live0 T1 T0 M C) (ho : old_page mem0 old new live0 va) :
    walk old va false s = some (leaf_slot mem0 old va false, s) ∧
    s.mem (leaf_slot mem0 old va false) = mem0 (leaf_slot mem0 old va false) := by
  obtain ⟨hva, -, -, hw⟩ := ho
  have hsame : ∀ w, w ∈ leaf_slot mem0 old va false :: path_words mem0 old va false →
      s.mem w = mem0 w := by
    intro w hm
    obtain ⟨f, hf, hfn, hin⟩ := hw w hm
    exact ht.old f hf hfn w hin
  have e := (leaf_slot_congr mem0 s.mem old va false
    (fun w hm => hsame w (List.mem_cons_of_mem _ hm))).1
  have h1 := walk_no_alloc old va false s hva
  simp only [Bool.false_eq_true, if_false] at h1
  rw [h1, e]
  exact ⟨rfl, hsame _ (List.mem_cons_self _ _)⟩

/-! ## `uvmcopy`: the loop and its unwinding -/

/-- The loop of `uvmcopy` that leaves at `err`: the invariant holds there, no
frame is pending, and the pages below the page of the failure are mapped. -/
theorem uvmcopy_loop_inv (kernel_end old new : Nat) (mem0 : Memory) (live0 : List Nat)
    (f0 : Int) :
    ∀ (n k : Nat) (s : kstate) (M : List (Nat × Nat)) (T1 T0 : List Nat) (e : Nat)
      (s1 : kstate),
      copy_inv kernel_end new mem0 live0 f0 s [] M T1 T0 [] →
      M.map Prod.fst = region_pages PGSIZE k 0 →
      (∀ j, k ≤ j → j < k + n → old_page mem0 old new live0 (j * PGSIZE) ∧
        mem0 (pte_addr new (PX 2 (j * PGSIZE))) &&& PTE_V = 0) →
      uvmcopy_loop kernel_end old new n (k * PGSIZE) s = some (some e, s1) →
      ∃ ka Ma T1a T0a, copy_inv kernel_end new mem0 live0 f0 s1 [] Ma T1a T0a [] ∧
        Ma.map Prod.fst = region_pages PGSIZE ka 0 ∧ e = ka * PGSIZE := by
  intro n
  induction n with
  | zero =>
    intro k s M T1 T0 e s1 _ _ _ hloop
    rw [uvmcopy_loop] at hloop
    simp at hloop
  | succ n ih =>
    intro k s M T1 T0 e s1 hinv hmap hpages hloop
    obtain ⟨ho, h0⟩ := hpages k (Nat.le_refl k) (by omega)
    have hva := ho.1
    obtain ⟨hw, hme⟩ := walk_old new old mem0 live0 T1 T0 M [] s (k * PGSIZE) hinv.2.2.1 ho
    rw [uvmcopy_loop, hw] at hloop
    simp only [] at hloop
    rw [if_neg ho.2.1, hme, if_neg ho.2.2.1.1] at hloop
    obtain ⟨m, s2, ha⟩ := kalloc_returns s
    rw [ha] at hloop
    simp only [] at hloop
    by_cases hm : m = 0
    · rw [if_pos hm] at hloop
      simp only [Option.some.injEq, Prod.mk.injEq] at hloop
      obtain ⟨e1, e2⟩ := hloop
      rcases kinv_kalloc kernel_end s _ m s2 hinv.1 ha with ⟨-, e3⟩ | ⟨h, -⟩
      · rw [← e2, e3]
        exact ⟨k, M, T1, T0, hinv, hmap, e1.symm⟩
      · exact absurd hm h
    · rw [if_neg hm] at hloop
      obtain ⟨hal, hinv3⟩ := copy_inv_kalloc kernel_end new mem0 live0 f0 s s2 M T1 T0 [] m
        (memmove s2.mem m (PTE2PA (mem0 (leaf_slot mem0 old (k * PGSIZE) false))) PGSIZE)
        hinv ha hm (by
          intro y hy
          unfold in_frame at hy
          simp only [memmove, if_neg hy])
      have hka : k * PGSIZE % PGSIZE = 0 := Nat.mul_mod_left k PGSIZE
      rw [mappages_page new (k * PGSIZE) m _ _ hka hva] at hloop
      obtain ⟨pte, s4, T1a, T0a, ew, hinv4, hpte⟩ := walk_new kernel_end new mem0 live0 f0 _
        [m] M T1 T0 (k * PGSIZE) hinv3 hva h0
      rw [ew] at hloop
      simp only [] at hloop
      by_cases hp0 : pte = 0
      · rw [if_pos hp0] at hloop
        simp only [] at hloop
        rw [if_pos (by decide : (-1 : Int) ≠ 0)] at hloop
        obtain ⟨s5, ek, hinv5⟩ := copy_inv_kfree kernel_end new mem0 live0 f0 s4 M T1a T0a m
          hinv4
        rw [ek] at hloop
        simp only [Option.some.injEq, Prod.mk.injEq] at hloop
        obtain ⟨e1, e2⟩ := hloop
        rw [← e2]
        exact ⟨k, M, T1a, T0a, hinv5, hmap, e1.symm⟩
      · rw [if_neg hp0] at hloop
        obtain ⟨hpath, epte⟩ := hpte hp0
        by_cases hv : s4.mem pte &&& PTE_V ≠ 0
        · rw [if_pos hv] at hloop
          cases hloop
        · rw [if_neg hv] at hloop
          simp only [] at hloop
          rw [if_neg (by decide : ¬ (0 : Int) ≠ 0)] at hloop
          have hv1 : s4.mem (l0_word s4.mem new (k * PGSIZE)) &&& PTE_V = 0 := by
            rw [← epte]
            by_contra h
            exact hv h
          obtain ⟨c1, c2⟩ := copied_entry m (mem0 (leaf_slot mem0 old (k * PGSIZE) false)) hal
            ho.2.2.1
          have hinv5 := copy_inv_install kernel_end new mem0 live0 f0 s4 M T1a T0a
            (k * PGSIZE) m _ hinv4 hpath hv1 c1 c2
          rw [← epte] at hinv5
          have enext : u64 (k * PGSIZE + PGSIZE) = (k + 1) * PGSIZE := by
            unfold u64
            unfold MAXVA at hva
            rw [Nat.add_mul]
            unfold PGSIZE at *
            omega
          rw [enext] at hloop
          apply ih (k + 1) _ (M ++ [(k * PGSIZE, m)]) T1a T0a e s1 hinv5 ?_ ?_ hloop
          · rw [List.map_append, hmap, region_pages_append]
            simp only [List.map_cons, List.map_nil, Nat.zero_add]
          · intro j hj1 hj2
            exact hpages j (by omega) (by omega)

/-- The entry that `walk` reaches without allocating, for a page whose walk
goes through valid entries. -/
theorem leaf_slot_of_path (mem : Memory) (new : Nat) (T1 T0 : List Nat) (va : Nat)
    (h : path_ok mem new T1 T0 va) : leaf_slot mem new va false = l0_word mem new va := by
  obtain ⟨-, b, -, d, -⟩ := h
  unfold l1_word at d
  unfold leaf_slot l0_word l1_word
  rw [if_pos b]
  simp only [Bool.false_eq_true, if_false]
  rw [if_pos d]

/-- Writes inside the frame of a data page keep the walks. -/
theorem frame_write_path (kernel_end : Nat) (s : kstate) (X : List Nat) (M : List (Nat × Nat))
    (T1 T0 live0 : List Nat) (new m : Nat) (mem1 : Memory)
    (hk : kinv kernel_end s (copy_live X M T1 T0 live0)) (hnew : new ∈ live0)
    (hm : m ∈ X ∨ m ∈ M.map Prod.snd)
    (hsame : ∀ y, ¬ in_frame m PGSIZE y → mem1 y = s.mem y) (va : Nat)
    (hp : path_ok s.mem new T1 T0 va) :
    l0_word mem1 new va = l0_word s.mem new va ∧
      mem1 (l0_word s.mem new va) = s.mem (l0_word s.mem new va) := by
  have hap := data_apart kernel_end s X M T1 T0 live0 m hk hm
  obtain ⟨f2, ⟨t1, ht1, f1⟩, ⟨t0, ht0, f0⟩⟩ := path_frames s.mem new T1 T0 va hp
  have a := hsame _ (hap new (Or.inr (Or.inr hnew)) _ f2)
  have b := hsame _ (hap t1 (Or.inr (Or.inl ht1)) _ f1)
  exact ⟨(path_ok_congr s.mem mem1 new T1 T0 T1 T0 va hp a b (fun t h => h) (fun t h => h)).2.2,
    hsame _ (hap t0 (Or.inl ht0) _ f0)⟩

/-- One iteration of the loop of `uvmunmap` on the table `new` after `uvmcopy`
failed: the leaf of the first mapped page is found, its frame is freed and the
leaf is cleared. -/
theorem unmap_page (kernel_end new : Nat) (mem0 : Memory) (live0 : List Nat) (f0 : Int)
    (s : kstate) (p : Nat × Nat) (M : List (Nat × Nat)) (T1 T0 : List Nat) (C : List Nat)
    (hinv : copy_inv kernel_end new mem0 live0 f0 s [] (p :: M) T1 T0 C) :
    walk new p.1 false s = some (l0_word s.mem new p.1, s) ∧
    l0_word s.mem new p.1 ≠ 0 ∧ s.mem (l0_word s.mem new p.1) &&& PTE_V ≠ 0 ∧
    PTE_FLAGS (s.mem (l0_word s.mem new p.1)) ≠ PTE_V ∧
    ∃ s1, kfree kernel_end (PTE2PA (s.mem (l0_word s.mem new p.1))) s = some s1 ∧
      copy_inv kernel_end new mem0 live0 f0
        { s1 with mem := store s1.mem (l0_word s.mem new p.1) 0 } [] M T1 T0 (p.1 :: C) ∧
      on_free_list { s1 with mem := store s1.mem (l0_word s.mem new p.1) 0 } p.2 ∧
      (∀ x, on_free_list s x →
        on_free_list { s1 with mem := store s1.mem (l0_word s.mem new p.1) 0 } x) ∧
      ∀ va, path_ok s.mem new T1 T0 va →
        l0_word (store s1.mem (l0_word s.mem new p.1) 0) new va = l0_word s.mem new va := by
  obtain ⟨hk, hnew, ht, hfm⟩ := hinv
  obtain ⟨hp, hl, hf⟩ := ht.pages p (List.mem_cons_self _ _)
  obtain ⟨-, -, ⟨t0, ht0, fr0⟩⟩ := path_frames s.mem new T1 T0 p.1 hp
  have hw := walk_no_alloc new p.1 false s hp.1
  simp only [Bool.false_eq_true, if_false] at hw
  rw [leaf_slot_of_path s.mem new T1 T0 p.1 hp] at hw
  have ht0L : t0 ∈ copy_live [] (p :: M) T1 T0 live0 :=
    (mem_copy_live _ _ _ _ _ _).mpr (Or.inr (Or.inr (Or.inl ht0)))
  have hne0 : l0_word s.mem new p.1 ≠ 0 := by
    obtain ⟨i, hi, hfr⟩ := hk.1.2.2 t0 ht0L
    have := frame_of_in_memory i t0 hi hfr
    unfold in_frame at fr0
    unfold KERNBASE at this
    omega
  refine ⟨hw, hne0, hl.1, hl.2, ?_⟩
  rw [hf]
  have hk0 : kinv kernel_end s (p.2 :: copy_live [] M T1 T0 live0) := hk
  obtain ⟨s1, ek, k1, t1, hfree, hon, hkeep⟩ :=
    kfree_data kernel_end new mem0 s M T1 T0 live0 (p :: M) C p.2 hk0 hnew ht
  obtain ⟨s1a, e1, -, hsame, -⟩ := kinv_kfree kernel_end p.2 s _ hk0 (List.mem_cons_self _ _)
  have hs : s1a = s1 := by
    rw [ek] at e1
    exact (Option.some.inj e1).symm
  subst hs
  have hpm : p.2 ∈ ([] : List Nat) ∨ p.2 ∈ (p :: M).map Prod.snd :=
    Or.inr (List.mem_map.mpr ⟨p, List.mem_cons_self _ _, rfl⟩)
  have hfw := frame_write_path kernel_end s [] (p :: M) T1 T0 live0 new p.2 s1a.mem hk hnew hpm
    hsame
  have ht0L1 : t0 ∈ copy_live [] M T1 T0 live0 :=
    (mem_copy_live _ _ _ _ _ _).mpr (Or.inr (Or.inr (Or.inl ht0)))
  have hwr : ∀ y, store s1a.mem (l0_word s.mem new p.1) 0 y ≠ s1a.mem y →
      ∃ f, f ∈ copy_live [] M T1 T0 live0 ∧ in_frame f PGSIZE y := by
    intro y hy
    refine ⟨t0, ht0L1, ?_⟩
    have e1 : y = l0_word s.mem new p.1 := by
      by_contra hn
      apply hy
      simp only [store, if_neg hn]
    rw [e1]
    exact fr0
  have hsep := leaf_word_apart kernel_end s1a [] M T1 T0 live0 new t0 _ k1 hnew ht0 fr0
  have hslots := List.pairwise_cons.mp t1.slots
  obtain ⟨t2, hpath⟩ := tables_inv_store_leaf new mem0 s1a.mem live0 T1 T0 M C
    (l0_word s.mem new p.1) 0 (tables_inv_tail new mem0 s1a.mem live0 T1 T0 p M C t1) hsep
    (fun q hq => by
      rw [← (hfw p.1 hp).1]
      exact Ne.symm (hslots.1 q hq))
    (fun c _ _ => rfl)
  have hp1 : path_ok s1a.mem new T1 T0 p.1 := (t1.pages p (List.mem_cons_self _ _)).1
  refine ⟨s1a, ek, ⟨kinv_write kernel_end s1a _ _ k1 hwr, hnew, ?_, ?_⟩, ?_, ?_, ?_⟩
  · apply tables_inv_add_cleared new mem0 _ live0 T1 T0 M C p.1 t2
    obtain ⟨q, e0⟩ := hpath p.1 hp1
    refine ⟨q, ?_⟩
    rw [e0, (hfw p.1 hp).1]
    simp only [store, if_true]
  · show s1a.freemem = _
    rw [hfree, hfm, copy_live_length, copy_live_length]
    simp only [List.length_cons, List.length_nil, Nat.cast_add, Nat.cast_one]
    omega
  · exact on_free_list_write kernel_end s1a _ _ k1 hwr p.2 hon
  · intro x hx
    exact on_free_list_write kernel_end s1a _ _ k1 hwr x (hkeep x hx)
  · intro va hva
    have h1 := hfw va hva
    have hva1 : path_ok s1a.mem new T1 T0 va := by
      obtain ⟨f2, ⟨u1, hu1, g1⟩, -⟩ := path_frames s.mem new T1 T0 va hva
      have hap := data_apart kernel_end s [] (p :: M) T1 T0 live0 p.2 hk hpm
      exact (path_ok_congr s.mem s1a.mem new T1 T0 T1 T0 va hva
        (hsame _ (hap new (Or.inr (Or.inr hnew)) _ f2))
        (hsame _ (hap u1 (Or.inr (Or.inl hu1)) _ g1)) (fun t h => h) (fun t h => h)).1
    rw [(hpath va hva1).2, h1.1]

/-- The loop of `uvmunmap` on the table `new` after `uvmcopy` failed, over the
pages that were mapped: it returns, every page is cleared, every frame is on a
free list, and only the tables stay in use. -/
theorem uvmunmap_loop_inv (kernel_end new : Nat) (mem0 : Memory) (live0 : List Nat)
    (f0 : Int) (T1 T0 : List Nat) :
    ∀ (n a : Nat) (s : kstate) (M : List (Nat × Nat)) (C : List Nat),
      copy_inv kernel_end new mem0 live0 f0 s [] M T1 T0 C →
      M.map Prod.fst = region_pages PGSIZE n a →
      ∃ s2 Ca, uvmunmap_loop kernel_end new true n a s = some s2 ∧
        copy_inv kernel_end new mem0 live0 f0 s2 [] [] T1 T0 Ca ∧
        (∀ p, p ∈ M → page_cleared s2.mem new T1 T0 p.1 ∧
          l0_word s2.mem new p.1 = l0_word s.mem new p.1 ∧ on_free_list s2 p.2) ∧
        (∀ c, c ∈ C → c ∈ Ca ∧ l0_word s2.mem new c = l0_word s.mem new c) ∧
        ∀ x, on_free_list s x → on_free_list s2 x := by
  intro n
  induction n with
  | zero =>
    intro a s M C hinv hmap
    have hM : M = [] := by
      cases M with
      | nil => rfl
      | cons p M => simp [region_pages] at hmap
    subst hM
    exact ⟨s, C, rfl, hinv, fun p hp => (by cases hp), fun c hc => ⟨hc, rfl⟩, fun x hx => hx⟩
  | succ n ih =>
    intro a s M C hinv hmap
    cases M with
    | nil => simp [region_pages] at hmap
    | cons p M =>
      simp only [region_pages, List.map_cons, List.cons.injEq] at hmap
      obtain ⟨hpa, hmap1⟩ := hmap
      subst hpa
      obtain ⟨hw, h0, hv, hfl, s1, ek, hinv1, hon, hkeep, hl0⟩ :=
        unmap_page kernel_end new mem0 live0 f0 s p M T1 T0 C hinv
      have hva : p.1 < MAXVA := (hinv.2.2.1.pages p (List.mem_cons_self _ _)).1.1
      have enext : u64 (p.1 + PGSIZE) = p.1 + PGSIZE := by
        unfold u64
        unfold MAXVA at hva
        unfold PGSIZE
        omega
      obtain ⟨s2, Ca, e2, hinv2, hM2, hC2, hkeep2⟩ := ih (p.1 + PGSIZE) _ M (p.1 :: C) hinv1 hmap1
      refine ⟨s2, Ca, ?_, hinv2, ?_, ?_, fun x hx => hkeep2 x (hkeep x hx)⟩
      · rw [uvmunmap_loop, hw]
        simp only []
        rw [if_neg h0, if_neg hv, if_neg hfl]
        simp only [if_true]
        rw [ek]
        simp only []
        rw [enext]
        exact e2
      · intro q hq
        rcases List.mem_cons.mp hq with e | hq1
        · subst e
          obtain ⟨hc1, hc2⟩ := hC2 q.1 (List.mem_cons_self _ _)
          refine ⟨hinv2.2.2.1.cleared q.1 hc1, ?_, hkeep2 _ hon⟩
          rw [hc2]
          exact hl0 q.1 (hinv.2.2.1.pages q (List.mem_cons_self _ _)).1
        · obtain ⟨a1, a2, a3⟩ := hM2 q hq1
          refine ⟨a1, ?_, a3⟩
          rw [a2]
          exact hl0 q.1 (hinv.2.2.1.pages q hq).1
      · intro c hc
        obtain ⟨hc1, hc2⟩ := hC2 c (List.mem_cons_of_mem _ hc)
        refine ⟨hc1, ?_⟩
        rw [hc2]
        exact hl0 c (hinv.2.2.1.cleared c hc).1

/-- The pages that a loop over `n` pages visits. -/
theorem mem_region_pages (step : Nat) :
    ∀ n a j, j < n → a + j * step ∈ region_pages step n a := by
  intro n
  induction n with
  | zero =>
    intro a j hj
    omega
  | succ n ih =>
    intro a j hj
    rw [region_pages]
    cases j with
    | zero => simp
    | succ j =>
      have := ih (a + step) j (by omega)
      rw [Nat.add_mul, Nat.one_mul]
      rw [show a + (j * step + step) = a + step + j * step by omega]
      exact List.mem_cons_of_mem _ this

/-- The unwinding of `uvmcopy(old, new, sz)` from a state in which the allocator is well
formed with the frames of `live0` in use, the root `new` among them, where every
page below `sz` is a present leaf of `old` reached through entries in frames in
use other than `new`, and the entries of the root `new` for these pages are not
valid.  If the loop leaves at `err` with the page `i`, after `kalloc` or
`mappages` could not allocate, then `uvmcopy` returns -1, without a panic in
`uvmunmap`; every page below `i` had a present leaf in `new`, at an entry that
is still reached and holds 0, and its frame is on a free list; the allocator
is well formed with only the tables `T` that `walk` installed in use besides
`live0`, and the count of free frames has gone down by their number; and every
word of every frame of `live0` other than the root `new` is as before. -/
theorem uvmcopy_unwinds (kernel_end old new sz : Nat) (s0 s1 : kstate)
    (live0 : List Nat) (i : Nat)
    (hinv : kinv kernel_end s0 live0) (hnew : new ∈ live0)
    (hpages : ∀ j, j < (sz + PGSIZE - 1) / PGSIZE →
      old_page s0.mem old new live0 (j * PGSIZE) ∧
      s0.mem (pte_addr new (PX 2 (j * PGSIZE))) &&& PTE_V = 0)
    (hloop : uvmcopy_loop kernel_end old new ((sz + PGSIZE - 1) / PGSIZE) 0 s0 =
      some (some i, s1)) :
    ∃ s2 T, uvmcopy kernel_end old new sz s0 = some (-1, s2) ∧
      (∀ j, j * PGSIZE < i →
        leaf_slot s1.mem new (j * PGSIZE) false ≠ 0 ∧
        present_leaf (s1.mem (leaf_slot s1.mem new (j * PGSIZE) false)) ∧
        leaf_slot s2.mem new (j * PGSIZE) false = leaf_slot s1.mem new (j * PGSIZE) false ∧
        s2.mem (leaf_slot s1.mem new (j * PGSIZE) false) = 0 ∧
        on_free_list s2 (PTE2PA (s1.mem (leaf_slot s1.mem new (j * PGSIZE) false)))) ∧
      alloc_inv s2 (T ++ live0) ∧ s2.freemem = s0.freemem - T.length ∧
      ∀ f, f ∈ live0 → f ≠ new → ∀ x, in_frame f PGSIZE x → s2.mem x = s0.mem x := by
  have hstart : copy_inv kernel_end new s0.mem live0 s0.freemem s0 [] [] [] [] [] := by
    refine ⟨hinv, hnew, ⟨fun _ _ _ _ _ => rfl, fun x _ h => absurd rfl h,
      fun t ht => (by cases ht), fun p hp => (by cases hp), List.Pairwise.nil,
      fun c hc => (by cases hc)⟩, ?_⟩
    simp [copy_live]
  have hloop0 : uvmcopy_loop kernel_end old new ((sz + PGSIZE - 1) / PGSIZE) (0 * PGSIZE) s0 =
      some (some i, s1) := by
    rw [Nat.zero_mul]
    exact hloop
  obtain ⟨ka, M, T1, T0, hinv1, hmap, hi⟩ := uvmcopy_loop_inv kernel_end old new s0.mem live0
    s0.freemem _ 0 s0 [] [] [] i s1 hstart rfl
    (fun j _ hj => hpages j (by omega)) hloop0
  obtain ⟨s2, Ca, e2, hinv2, hM2, -, -⟩ := uvmunmap_loop_inv kernel_end new s0.mem live0
    s0.freemem T1 T0 ka 0 s1 M [] hinv1 hmap
  have hle : ka * PGSIZE ≤ MAXVA := by
    cases ka with
    | zero => simp
    | succ k =>
      have hmem := mem_region_pages PGSIZE (k + 1) 0 k (Nat.lt_succ_self k)
      rw [← hmap, Nat.zero_add] at hmem
      obtain ⟨p, hp, hp1⟩ := List.mem_map.mp hmem
      have := (hinv1.2.2.1.pages p hp).1.1
      rw [hp1] at this
      rw [Nat.add_mul]
      unfold MAXVA PGSIZE at *
      omega
  have hdiv : (u64 (0 + i / PGSIZE * PGSIZE) - 0) / PGSIZE = ka := by
    rw [hi, Nat.mul_div_cancel ka (by decide), Nat.zero_add, Nat.sub_zero]
    unfold u64
    rw [Nat.mod_eq_of_lt (by unfold MAXVA at hle; omega)]
    exact Nat.mul_div_cancel ka (by decide)
  refine ⟨s2, T0 ++ T1, ?_, ?_, ?_, ?_, ?_⟩
  · unfold uvmcopy
    rw [hloop]
    simp only []
    unfold uvmunmap
    rw [if_neg (by decide), hdiv, e2]
  · intro j hj
    have hjk : j < ka := by
      rw [hi] at hj
      exact Nat.lt_of_mul_lt_mul_right hj
    have hmem := mem_region_pages PGSIZE ka 0 j hjk
    rw [← hmap, Nat.zero_add] at hmem
    obtain ⟨p, hp, hp1⟩ := List.mem_map.mp hmem
    obtain ⟨a1, a2, a3⟩ := hM2 p hp
    obtain ⟨b1, b2, b3⟩ := hinv1.2.2.1.pages p hp
    rw [hp1] at a1 a2 b1 b2 b3
    rw [leaf_slot_of_path s1.mem new T1 T0 _ b1, leaf_slot_of_path s2.mem new T1 T0 _ a1.1, b3]
    refine ⟨?_, b2, a2, ?_, a3⟩
    · obtain ⟨-, -, ⟨t0, ht0, fr0⟩⟩ := path_frames s1.mem new T1 T0 _ b1
      obtain ⟨i0, hi0, hfr⟩ := hinv1.1.1.2.2 t0
        ((mem_copy_live _ _ _ _ _ _).mpr (Or.inr (Or.inr (Or.inl ht0))))
      have := frame_of_in_memory i0 t0 hi0 hfr
      unfold in_frame at fr0
      unfold KERNBASE at this
      omega
    · rw [← a2]
      exact a1.2
  · have h := hinv2.1.1
    unfold copy_live at h
    simp only [List.map_nil, List.nil_append] at h
    rw [List.append_assoc]
    exact h
  · rw [hinv2.2.2.2, copy_live_length]
    simp only [List.length_nil, List.length_append, Nat.cast_add, Nat.cast_zero]
    omega
  · intro f hf hfn x hx
    exact hinv2.2.2.1.old f hf hfn x hx

theorem fork_state_kinv : kinv 0x80021000 fork_state fork_live := by
  have key : ∀ i, i < MAXHUGEPGS →
      is_chain fork_state.mem (fork_state.hugepages i).freelist
        (follow fork_state.mem (fork_state.hugepages i).freelist
          (fork_state.hugepages i).freecount.toNat) ∧
      (follow fork_state.mem (fork_state.hugepages i).freelist
          (fork_state.hugepages i).freecount.toNat).Nodup ∧
      (∀ x, x ∈ follow fork_state.mem (fork_state.hugepages i).freelist
          (fork_state.hugepages i).freecount.toNat → frame_of i x ∧ x ∉ fork_live ∧
            0x80021000 ≤ x) := by
    decide
  refine ⟨⟨?_, by decide, ?_⟩, by decide, ?_⟩
  · intro i hi
    obtain ⟨a, b, c⟩ := key i hi
    exact ⟨_, a, b, fun x hx => (c x hx).1, fun x hx => (c x hx).2.1⟩
  · intro x hx
    refine ⟨HUGEPGINDEX x, ?_⟩
    revert x
    decide
  · intro i hi l hl x hx
    obtain ⟨a, -, c⟩ := key i hi
    rw [is_chain_unique _ l _ _ hl a] at hx
    exact (c x hx).2.2

theorem fork_state_pages : ∀ j, j < (8192 + PGSIZE - 1) / PGSIZE →
    old_page fork_state.mem 0x87000000 0x87010000 fork_live (j * PGSIZE) ∧
    fork_state.mem (pte_addr 0x87010000 (PX 2 (j * PGSIZE))) &&& PTE_V = 0 := by
  unfold old_page
  decide

/-- An example of `uvmcopy_unwinds`: the copy of two pages in `fork_state`,
where three frames are free. -/
theorem uvmcopy_unwinds_example :
    ∃ s2 T, uvmcopy 0x80021000 0x87000000 0x87010000 8192 fork_state = some (-1, s2) ∧
      (∀ j, j * PGSIZE < 4096 →
        leaf_slot fork_err_state.mem 0x87010000 (j * PGSIZE) false ≠ 0 ∧
        present_leaf (fork_err_state.mem
          (leaf_slot fork_err_state.mem 0x87010000 (j * PGSIZE) false)) ∧
        leaf_slot s2.mem 0x87010000 (j * PGSIZE) false =
          leaf_slot fork_err_state.mem 0x87010000 (j * PGSIZE) false ∧
        s2.mem (leaf_slot fork_err_state.mem 0x87010000 (j * PGSIZE) false) = 0 ∧
        on_free_list s2 (PTE2PA (fork_err_state.mem
          (leaf_slot fork_err_state.mem 0x87010000 (j * PGSIZE) false)))) ∧
      alloc_inv s2 (T ++ fork_live) ∧ s2.freemem = fork_state.freemem - T.length ∧
      ∀ f, f ∈ fork_live → f ≠ 0x87010000 → ∀ x, in_frame f PGSIZE x →
        s2.mem x = fork_state.mem x :=
  uvmcopy_unwinds 0x80021000 0x87000000 0x87010000 8192 fork_state fork_err_state
    fork_live 4096 fork_state_kinv (by decide) fork_state_pages rfl

/-! ## `walk` -/

/-- The allocator invariant without a bound from `end`. -/
theorem kinv_zero (s : kstate) (live : List Nat) (h : alloc_inv s live) : kinv 0 s live :=
  ⟨h, fun _ _ => Nat.zero_le _, fun _ _ _ _ _ _ => Nat.zero_le _⟩

/-- The step of `walk` with allocation at an entry that is valid. -/
theorem walk_step_valid (par va level : Nat) (alloc : Bool) (s : kstate)
    (hv : s.mem (pte_addr par (PX level va)) &&& PTE_V ≠ 0) :
    walk_step par va alloc level s =
      some (some (PTE2PA (s.mem (pte_addr par (PX level va)))), s) := by
  unfold walk_step
  simp only []
  rw [if_pos hv]

/-- The step of `walk` with allocation at an entry that is not valid: `kalloc`
returns null and the state is as before, or a table is installed. -/
theorem walk_step_install (kernel_end : Nat) (s : kstate) (live : List Nat)
    (par va level : Nat) (hk : kinv kernel_end s live) (hpar : par ∈ live)
    (hv : ¬ s.mem (pte_addr par (PX level va)) &&& PTE_V ≠ 0) :
    ∃ r s1, walk_step par va true level s = some (r, s1) ∧ (r = none → s1 = s) ∧
      ∀ t, r = some t → kinv kernel_end s1 (t :: live) ∧
        installed s s1 live (pte_addr par (PX level va)) t := by
  have hx := pte_addr_in_frame par level va
  unfold walk_step
  simp only []
  rw [if_neg hv]
  simp only [Bool.true_eq_false, if_false]
  obtain ⟨r, s1, ha⟩ := kalloc_returns s
  rw [ha]
  simp only []
  by_cases hr : r = 0
  · rw [if_pos hr]
    rcases kinv_kalloc kernel_end s _ r s1 hk ha with ⟨-, e⟩ | ⟨h, -⟩
    · exact ⟨none, s1, rfl, fun _ => e, fun t e => (by cases e)⟩
    · exact absurd hr h
  · rw [if_neg hr]
    obtain ⟨k2, hal, hrl, ex, hz, hsame, hap, -⟩ :=
      install_table kernel_end s s1 live r _ par hk hpar hx hr ha
    refine ⟨some r, _, rfl, fun e => (by cases e), ?_⟩
    intro t e
    simp only [Option.some.injEq] at e
    subst e
    exact ⟨k2, ⟨hrl, hal, hr, ex, hz, hsame, hap⟩⟩

/-- The flags of the entry that `walk` installs are `V` alone. -/
theorem table_entry_flags (r : Nat) : PTE_FLAGS (PA2PTE r ||| PTE_V) = PTE_V := by
  unfold PTE_FLAGS
  rw [entry_flags r PTE_V 0x3FF (by decide) (by decide)]
  decide

/-- The entry reached by `walk` without allocation when the two entries above
it are valid. -/
theorem leaf_slot_valid (mem : Memory) (pagetable va : Nat)
    (h2 : mem (pte_addr pagetable (PX 2 va)) &&& PTE_V ≠ 0)
    (h1 : mem (l1_word mem pagetable va) &&& PTE_V ≠ 0) :
    leaf_slot mem pagetable va false = l0_word mem pagetable va := by
  unfold l1_word at h1
  unfold leaf_slot l0_word l1_word
  rw [if_pos h2]
  simp only [Bool.false_eq_true, if_false]
  rw [if_pos h1]

/-- The entry reached by `walk` without allocation is null when one of the two
entries above it is not valid. -/
theorem leaf_slot_invalid (mem : Memory) (pagetable va : Nat)
    (h : ¬ mem (pte_addr pagetable (PX 2 va)) &&& PTE_V ≠ 0 ∨
      ¬ mem (l1_word mem pagetable va) &&& PTE_V ≠ 0) :
    leaf_slot mem pagetable va false = 0 := by
  unfold l1_word at h
  unfold leaf_slot
  by_cases h2 : mem (pte_addr pagetable (PX 2 va)) &&& PTE_V ≠ 0
  · rw [if_pos h2]
    simp only [Bool.false_eq_true, if_false]
    rcases h with h | h
    · exact absurd h2 h
    · rw [if_neg h]
  · rw [if_neg h2]

/-- The function `walk` with allocation, from a state in which the allocator is
well formed with the frames of `live` in use, among them the root and the
table of level 1 of `va` if there is one: it returns; and when the result is
not null, the two entries above the slot are valid, the slot is the one that
`walk` without allocation finds, an entry that was not valid before points,
with the flags `V` alone, to a frame that was not in use and that holds 0
(but for the level-1 entry of `va` in a new table of level 1), and every valid
entry in a frame that was in use is as before. -/
theorem walk_alloc (kernel_end pagetable va : Nat) (s : kstate) (live : List Nat)
    (hva : va < MAXVA) (hk : kinv kernel_end s live) (hroot : pagetable ∈ live)
    (hl1 : s.mem (pte_addr pagetable (PX 2 va)) &&& PTE_V ≠ 0 →
      PTE2PA (s.mem (pte_addr pagetable (PX 2 va))) ∈ live) :
    ∃ r s1, walk pagetable va true s = some (r, s1) ∧
      (r ≠ 0 →
        s1.mem (pte_addr pagetable (PX 2 va)) &&& PTE_V ≠ 0 ∧
        s1.mem (l1_word s1.mem pagetable va) &&& PTE_V ≠ 0 ∧
        r = l0_word s1.mem pagetable va ∧
        (¬ s.mem (pte_addr pagetable (PX 2 va)) &&& PTE_V ≠ 0 →
          PTE_FLAGS (s1.mem (pte_addr pagetable (PX 2 va))) = PTE_V ∧
          PTE2PA (s1.mem (pte_addr pagetable (PX 2 va))) ∉ live ∧
          ∀ y, in_frame (PTE2PA (s1.mem (pte_addr pagetable (PX 2 va)))) PGSIZE y →
            y ≠ l1_word s1.mem pagetable va → s1.mem y = 0) ∧
        ((¬ s.mem (pte_addr pagetable (PX 2 va)) &&& PTE_V ≠ 0 ∨
            ¬ s.mem (l1_word s.mem pagetable va) &&& PTE_V ≠ 0) →
          PTE_FLAGS (s1.mem (l1_word s1.mem pagetable va)) = PTE_V ∧
          PTE2PA (s1.mem (l1_word s1.mem pagetable va)) ∉ live ∧
          ∀ y, in_frame (PTE2PA (s1.mem (l1_word s1.mem pagetable va))) PGSIZE y →
            s1.mem y = 0) ∧
        ∀ f, f ∈ live → ∀ y, in_frame f PGSIZE y → s.mem y &&& PTE_V ≠ 0 →
          s1.mem y = s.mem y) := by
  have hge : ¬ va ≥ MAXVA := by omega
  have hx2 := pte_addr_in_frame pagetable 2 va
  unfold walk
  rw [if_neg hge]
  by_cases hv2 : s.mem (pte_addr pagetable (PX 2 va)) &&& PTE_V ≠ 0
  · -- the level-2 entry is valid
    rw [walk_step_valid pagetable va 2 true s hv2]
    simp only []
    have ht1 := hl1 hv2
    have hx1 := pte_addr_in_frame (PTE2PA (s.mem (pte_addr pagetable (PX 2 va)))) 1 va
    by_cases hv1 : s.mem (pte_addr (PTE2PA (s.mem (pte_addr pagetable (PX 2 va)))) (PX 1 va))
        &&& PTE_V ≠ 0
    · rw [walk_step_valid _ va 1 true s hv1]
      refine ⟨_, s, rfl, fun _ => ⟨hv2, hv1, rfl, fun h => absurd hv2 h, ?_, fun _ _ _ _ _ => rfl⟩⟩
      rintro (h | h)
      · exact absurd hv2 h
      · exact absurd hv1 h
    · obtain ⟨r, s1, e, hnone, hsome⟩ := walk_step_install kernel_end s live _ va 1 hk ht1 hv1
      rw [e]
      cases r with
      | none => exact ⟨0, s1, rfl, fun h => absurd rfl h⟩
      | some t0 =>
        obtain ⟨-, hi⟩ := hsome t0 rfl
        have hne : pte_addr pagetable (PX 2 va) ≠
            pte_addr (PTE2PA (s.mem (pte_addr pagetable (PX 2 va)))) (PX 1 va) := by
          intro e1
          rw [← e1] at hv1
          exact hv1 hv2
        have e2 : s1.mem (pte_addr pagetable (PX 2 va)) = s.mem (pte_addr pagetable (PX 2 va)) :=
          hi.same _ hne (hi.apart pagetable hroot _ hx2)
        have el : l1_word s1.mem pagetable va =
            pte_addr (PTE2PA (s.mem (pte_addr pagetable (PX 2 va)))) (PX 1 va) := by
          unfold l1_word
          rw [e2]
        have te := table_entry t0 hi.aligned
        refine ⟨_, s1, rfl, fun _ => ⟨?_, ?_, ?_, ?_, ?_, ?_⟩⟩
        · rw [e2]
          exact hv2
        · rw [el, hi.entry]
          exact te.1
        · unfold l0_word
          rw [el, hi.entry, te.2]
        · intro h
          exact absurd hv2 h
        · intro _
          rw [el, hi.entry, te.2]
          refine ⟨table_entry_flags t0, hi.fresh, ?_⟩
          intro y hy
          apply hi.zero y ?_ hy
          intro e1
          exact hi.apart _ ht1 _ hx1 (e1 ▸ hy)
        · intro f hf y hy hyv
          apply hi.same y ?_ (hi.apart f hf y hy)
          intro e1
          rw [e1] at hyv
          exact hv1 hyv
  · -- the level-2 entry is not valid
    obtain ⟨r, s1, e, hnone, hsome⟩ := walk_step_install kernel_end s live pagetable va 2 hk
      hroot hv2
    rw [e]
    cases r with
    | none => exact ⟨0, s1, rfl, fun h => absurd rfl h⟩
    | some t1 =>
      obtain ⟨hk1, hi⟩ := hsome t1 rfl
      simp only []
      have hx1 := pte_addr_in_frame t1 1 va
      have hne : pte_addr t1 (PX 1 va) ≠ pte_addr pagetable (PX 2 va) := by
        intro e1
        exact hi.apart pagetable hroot _ hx2 (e1 ▸ hx1)
      have hz1 : s1.mem (pte_addr t1 (PX 1 va)) = 0 := hi.zero _ hne hx1
      have hv1 : ¬ s1.mem (pte_addr t1 (PX 1 va)) &&& PTE_V ≠ 0 := by
        rw [hz1]
        decide
      obtain ⟨r0, s2, e0, -, hsome0⟩ := walk_step_install kernel_end s1 (t1 :: live) t1 va 1 hk1
        (List.mem_cons_self _ _) hv1
      rw [e0]
      cases r0 with
      | none => exact ⟨0, s2, rfl, fun h => absurd rfl h⟩
      | some t0 =>
        obtain ⟨-, hj⟩ := hsome0 t0 rfl
        have e2 : s2.mem (pte_addr pagetable (PX 2 va)) = PA2PTE t1 ||| PTE_V := by
          rw [hj.same _ (Ne.symm hne)
            (hj.apart pagetable (List.mem_cons_of_mem _ hroot) _ hx2)]
          exact hi.entry
        have te1 := table_entry t1 hi.aligned
        have te0 := table_entry t0 hj.aligned
        have el : l1_word s2.mem pagetable va = pte_addr t1 (PX 1 va) := by
          unfold l1_word
          rw [e2, te1.2]
        refine ⟨_, s2, rfl, fun _ => ⟨?_, ?_, ?_, ?_, ?_, ?_⟩⟩
        · rw [e2]
          exact te1.1
        · rw [el, hj.entry]
          exact te0.1
        · unfold l0_word
          rw [el, hj.entry, te0.2]
        · intro _
          rw [e2, te1.2, el]
          refine ⟨table_entry_flags t1, hi.fresh, ?_⟩
          intro y hy hyn
          rw [hj.same y hyn (hj.apart t1 (List.mem_cons_self _ _) y hy)]
          apply hi.zero y ?_ hy
          intro e1
          exact hi.apart pagetable hroot _ hx2 (e1 ▸ hy)
        · intro _
          rw [el, hj.entry, te0.2]
          refine ⟨table_entry_flags t0, fun h => hj.fresh (List.mem_cons_of_mem _ h), ?_⟩
          intro y hy
          apply hj.zero y ?_ hy
          intro e1
          exact hj.apart t1 (List.mem_cons_self _ _) _ hx1 (e1 ▸ hy)
        · intro f hf y hy hyv
          have n1 : y ≠ pte_addr t1 (PX 1 va) := by
            intro e1
            exact hi.apart f hf y hy (e1 ▸ hx1)
          have n2 : y ≠ pte_addr pagetable (PX 2 va) := by
            intro e1
            rw [e1] at hyv
            exact hv2 hyv
          rw [hj.same y n1 (hj.apart f (List.mem_cons_of_mem _ hf) y hy)]
          exact hi.same y n2 (hi.apart f hf y hy)

/-- C31, amended: for an address below `MAXVA`, `walk` without allocation
returns the entry `leaf_slot` and leaves the state as it is; the result is
null when the level-2 or the level-1 entry of `va` is not valid, and it is the
level-0 slot, not null for a table that is not at the address 0, when both are
valid.  And from a state in which the allocator is well formed with the frames
of `live` in use, among them the root and the table of level 1 of `va` if there
is one, `walk` with allocation returns; when its result is not null, `walk`
without allocation returns the same slot afterwards; an entry of level 2 or 1
that the call installed has the flags `V` alone and points to a frame that was
not in use; the new table of level 0 holds 0 in every word, the new table of
level 1 in every word but the level-1 entry of `va`, which the same call
installed; and every valid entry in a frame that was in use is as before. -/
theorem C31_walk (pagetable va : Nat) (s : kstate) (live : List Nat) (hva : va < MAXVA)
    (hinv : alloc_inv s live) (hroot : pagetable ∈ live)
    (hl1 : s.mem (pte_addr pagetable (PX 2 va)) &&& PTE_V ≠ 0 →
      PTE2PA (s.mem (pte_addr pagetable (PX 2 va))) ∈ live) :
    (walk pagetable va false s = some (leaf_slot s.mem pagetable va false, s) ∧
      ((¬ s.mem (pte_addr pagetable (PX 2 va)) &&& PTE_V ≠ 0 ∨
          ¬ s.mem (l1_word s.mem pagetable va) &&& PTE_V ≠ 0) →
        leaf_slot s.mem pagetable va false = 0) ∧
      (s.mem (pte_addr pagetable (PX 2 va)) &&& PTE_V ≠ 0 →
        s.mem (l1_word s.mem pagetable va) &&& PTE_V ≠ 0 →
        leaf_slot s.mem pagetable va false = l0_word s.mem pagetable va ∧
        (PTE2PA (s.mem (l1_word s.mem pagetable va)) ≠ 0 →
          leaf_slot s.mem pagetable va false ≠ 0))) ∧
    ∃ r s1, walk pagetable va true s = some (r, s1) ∧
      (r ≠ 0 →
        walk pagetable va false s1 = some (r, s1) ∧
        (¬ s.mem (pte_addr pagetable (PX 2 va)) &&& PTE_V ≠ 0 →
          PTE_FLAGS (s1.mem (pte_addr pagetable (PX 2 va))) = PTE_V ∧
          PTE2PA (s1.mem (pte_addr pagetable (PX 2 va))) ∉ live ∧
          ∀ y, in_frame (PTE2PA (s1.mem (pte_addr pagetable (PX 2 va)))) PGSIZE y →
            y ≠ l1_word s1.mem pagetable va → s1.mem y = 0) ∧
        ((¬ s.mem (pte_addr pagetable (PX 2 va)) &&& PTE_V ≠ 0 ∨
            ¬ s.mem (l1_word s.mem pagetable va) &&& PTE_V ≠ 0) →
          PTE_FLAGS (s1.mem (l1_word s1.mem pagetable va)) = PTE_V ∧
          PTE2PA (s1.mem (l1_word s1.mem pagetable va)) ∉ live ∧
          ∀ y, in_frame (PTE2PA (s1.mem (l1_word s1.mem pagetable va))) PGSIZE y →
            s1.mem y = 0) ∧
        ∀ f, f ∈ live → ∀ y, in_frame f PGSIZE y → s.mem y &&& PTE_V ≠ 0 →
          s1.mem y = s.mem y) := by
  have hno : ∀ t : kstate, walk pagetable va false t =
      some (leaf_slot t.mem pagetable va false, t) := by
    intro t
    have h := walk_no_alloc pagetable va false t hva
    simp only [Bool.false_eq_true, if_false] at h
    exact h
  refine ⟨⟨hno s, leaf_slot_invalid s.mem pagetable va, ?_⟩, ?_⟩
  · intro h2 h1
    have e := leaf_slot_valid s.mem pagetable va h2 h1
    refine ⟨e, fun hne => ?_⟩
    rw [e]
    unfold l0_word pte_addr
    omega
  · obtain ⟨r, s1, e, hpost⟩ := walk_alloc 0 pagetable va s live hva (kinv_zero s live hinv)
      hroot hl1
    refine ⟨r, s1, e, fun hr => ?_⟩
    obtain ⟨v2, v1, er, a, b, c⟩ := hpost hr
    refine ⟨?_, a, b, c⟩
    rw [hno s1, leaf_slot_valid s1.mem pagetable va v2 v1, er]

/-- C31, a counterexample to the zero-filled table: in `fork_state` the root
`0x87010000` is empty.  `walk` with allocation for the address 0 installs the
table `0x80021000` at the level-2 entry and the table `0x80022000` at the
level-1 entry, the word `0x80021000`, and returns the slot `0x80022000`.  The
level-2 entry was installed by the call, but the table it points to is not
zero-filled: its word `0x80021000` holds the level-1 entry. -/
theorem C31_new_table_not_zero :
    fork_state.mem (pte_addr 0x87010000 (PX 2 0)) &&& PTE_V = 0 ∧
    (walk 0x87010000 0 true fork_state).map
      (fun r => (r.1, r.2.mem (pte_addr 0x87010000 (PX 2 0)), r.2.mem 0x80021000)) =
      some (0x80022000, PA2PTE 0x80021000 ||| PTE_V, PA2PTE 0x80022000 ||| PTE_V) ∧
    in_frame (PTE2PA (PA2PTE 0x80021000 ||| PTE_V)) PGSIZE 0x80021000 ∧
    PA2PTE 0x80022000 ||| PTE_V ≠ 0 := by
  decide

/-- Witness of C31: `walk` for the address 0 in the empty table `0x87010000` of
`fork_state`, with the frames of `fork_live` in use. -/
theorem C31_walk_witness :
    (0 : Nat) < MAXVA ∧ alloc_inv fork_state fork_live ∧ 0x87010000 ∈ fork_live ∧
    ∃ r s1, walk 0x87010000 0 true fork_state = some (r, s1) ∧
      (r ≠ 0 →
        walk 0x87010000 0 false s1 = some (r, s1) ∧
        (¬ fork_state.mem (pte_addr 0x87010000 (PX 2 0)) &&& PTE_V ≠ 0 →
          PTE_FLAGS (s1.mem (pte_addr 0x87010000 (PX 2 0))) = PTE_V ∧
          PTE2PA (s1.mem (pte_addr 0x87010000 (PX 2 0))) ∉ fork_live ∧
          ∀ y, in_frame (PTE2PA (s1.mem (pte_addr 0x87010000 (PX 2 0)))) PGSIZE y →
            y ≠ l1_word s1.mem 0x87010000 0 → s1.mem y = 0) ∧
        ((¬ fork_state.mem (pte_addr 0x87010000 (PX 2 0)) &&& PTE_V ≠ 0 ∨
            ¬ fork_state.mem (l1_word fork_state.mem 0x87010000 0) &&& PTE_V ≠ 0) →
          PTE_FLAGS (s1.mem (l1_word s1.mem 0x87010000 0)) = PTE_V ∧
          PTE2PA (s1.mem (l1_word s1.mem 0x87010000 0)) ∉ fork_live ∧
          ∀ y, in_frame (PTE2PA (s1.mem (l1_word s1.mem 0x87010000 0))) PGSIZE y →
            s1.mem y = 0) ∧
        ∀ f, f ∈ fork_live → ∀ y, in_frame f PGSIZE y → fork_state.mem y &&& PTE_V ≠ 0 →
          s1.mem y = fork_state.mem y) :=
  ⟨by decide, fork_state_kinv.1, by decide,
    (C31_walk 0x87010000 0 fork_state fork_live (by decide) fork_state_kinv.1 (by decide)
      (fun h => absurd h (by decide))).2⟩

/-! ## `walkfind` -/

/-- The cases of `walkfind`: for an address below `MAXVA`, `walkfind` reads the level-2
entry `e2` and, through it, the level-1 entry `e1`, and treats as a leaf every
valid entry whose flags are not `V` alone (`present_leaf`), whatever its bits
R, W and X.  It returns `NULL` exactly when `e2` is not valid, or `e2` points
to a table and `e1` is not valid; it panics exactly when `e2` is a leaf; it
returns the level-1 slot with `is_huge` set exactly when `e2` points to a table
and `e1` is a leaf; and it returns the level-0 slot with `is_huge` clear
exactly when both point to tables.  The function reads the memory only. -/
theorem walkfind_cases (mem : Memory) (pagetable va : Nat) (hva : va < MAXVA) :
    (walkfind mem pagetable va = some none ↔
      (¬ mem (pte_addr pagetable (PX 2 va)) &&& PTE_V ≠ 0 ∨
        (table_pointer (mem (pte_addr pagetable (PX 2 va))) ∧
          ¬ mem (l1_word mem pagetable va) &&& PTE_V ≠ 0))) ∧
    (walkfind mem pagetable va = none ↔ present_leaf (mem (pte_addr pagetable (PX 2 va)))) ∧
    (walkfind mem pagetable va = some (some (l1_word mem pagetable va, true)) ↔
      (table_pointer (mem (pte_addr pagetable (PX 2 va))) ∧
        present_leaf (mem (l1_word mem pagetable va)))) ∧
    (walkfind mem pagetable va = some (some (l0_word mem pagetable va, false)) ↔
      (table_pointer (mem (pte_addr pagetable (PX 2 va))) ∧
        table_pointer (mem (l1_word mem pagetable va)))) := by
  have hge : ¬ va ≥ MAXVA := by omega
  unfold walkfind
  rw [if_neg hge]
  unfold table_pointer present_leaf l0_word l1_word
  simp only [walkfind_loop]
  by_cases h2 : mem (pte_addr pagetable (PX 2 va)) &&& PTE_V ≠ 0
  · by_cases f2 : PTE_FLAGS (mem (pte_addr pagetable (PX 2 va))) = PTE_V
    · by_cases h1 : mem (pte_addr (PTE2PA (mem (pte_addr pagetable (PX 2 va)))) (PX 1 va))
          &&& PTE_V ≠ 0
      · by_cases f1 : PTE_FLAGS (mem (pte_addr (PTE2PA (mem (pte_addr pagetable (PX 2 va))))
            (PX 1 va))) = PTE_V
        · simp [h2, f2, h1, f1]
        · simp [h2, f2, h1, f1]
      · simp [h2, f2, h1]
    · simp [h2, f2]
  · simp [h2]

/-- The leaf test of `walkfind` is `PTE_FLAGS(*pte) != PTE_V`, not a test of
R, W and X.  The tests differ only on a valid entry with none of R, W and X
and another flag set, which no function of the kernel stores: in `flag_mem` with a
level-2 entry that points to the table `0x87001000` and a level-1 entry that is
valid and user-accessible with none of R, W and X set, `walkfind` returns the
level-1 slot with `is_huge` set; and with a level-2 entry that is valid and
user-accessible with none of R, W and X set, `walkfind` panics. -/
theorem walkfind_leaf_without_rwx :
    (PA2PTE 0x80400000 ||| PTE_V ||| PTE_U) &&& PTE_V ≠ 0 ∧
    (PA2PTE 0x80400000 ||| PTE_V ||| PTE_U) &&& (PTE_R ||| PTE_W ||| PTE_X) = 0 ∧
    table_pointer (PA2PTE 0x87001000 ||| PTE_V) ∧
    walkfind (flag_mem (PA2PTE 0x87001000 ||| PTE_V) (PA2PTE 0x80400000 ||| PTE_V ||| PTE_U))
      0x87000000 0x100000000 = some (some (0x87001000, true)) ∧
    (PA2PTE 0x87001000 ||| PTE_V ||| PTE_U) &&& (PTE_R ||| PTE_W ||| PTE_X) = 0 ∧
    walkfind (flag_mem (PA2PTE 0x87001000 ||| PTE_V ||| PTE_U) 0) 0x87000000 0x100000000 =
      none := by
  decide

/-- An example of `walkfind_cases`: in `huge_mapped_state` the level-2 entry of `0x100000000`
points to a table and its level-1 entry is a leaf. -/
theorem walkfind_cases_example :
    0x100000000 < MAXVA ∧
    (walkfind huge_mapped_state.mem 0x87000000 0x100000000 =
      some (some (l1_word huge_mapped_state.mem 0x87000000 0x100000000, true)) ↔
      (table_pointer (huge_mapped_state.mem (pte_addr 0x87000000 (PX 2 0x100000000))) ∧
        present_leaf (huge_mapped_state.mem
          (l1_word huge_mapped_state.mem 0x87000000 0x100000000)))) :=
  ⟨by decide, (walkfind_cases huge_mapped_state.mem 0x87000000 0x100000000 (by decide)).2.2.1⟩

/-! ## The free lists under `kalloc_huge` and `kfree_huge` -/

/-- The chains of the two whole-free descriptors of `fresh_state`: from a
frame `a` of the region of descriptor `d` the chain runs through the `n + 1`
frames up to the end of the region. -/
theorem fresh_chain (d : Nat) (hd : d = 2 ∨ d = 3) :
    ∀ n a, HUGEPAGEADDR d ≤ a → a % 4096 = 0 →
      a + 4096 * (n + 1) = HUGEPAGEADDR d + HUGEPGSIZE →
      is_chain fresh_state.mem a (follow fresh_state.mem a (n + 1)) ∧
      ∀ x, x ∈ follow fresh_state.mem a (n + 1) → frame_of d x := by
  have hb : HUGEPAGEADDR d = 0x80400000 ∨ HUGEPAGEADDR d = 0x80600000 := by
    rcases hd with h | h <;> subst h
    · left; decide
    · right; decide
  intro n
  induction n with
  | zero =>
    intro a h1 h2 h3
    have hm : fresh_state.mem a = 0 := by
      have : (a + 4096) % 2097152 = 0 := by
        unfold HUGEPGSIZE at h3
        rcases hb with h | h <;> rw [h] at h3 <;> omega
      simp only [fresh_state, this, ne_eq, not_true_eq_false, and_false, if_false]
    have hne : a ≠ 0 := by
      rcases hb with h | h <;> rw [h] at h1 <;> omega
    constructor
    · show a = a ∧ a ≠ 0 ∧ is_chain fresh_state.mem (fresh_state.mem a) []
      rw [hm]
      exact ⟨rfl, hne, rfl⟩
    · intro x hx
      simp only [follow, List.mem_singleton] at hx
      subst hx
      unfold frame_of PGSIZE
      unfold HUGEPGSIZE at h3 ⊢
      omega
  | succ n ih =>
    intro a h1 h2 h3
    have hm : fresh_state.mem a = a + 4096 := by
      have c1 : 0x80400000 ≤ a := by
        rcases hb with h | h <;> rw [h] at h1 <;> omega
      have c2 : a < 0x80800000 := by
        unfold HUGEPGSIZE at h3
        rcases hb with h | h <;> rw [h] at h3 <;> omega
      have c3 : (a + 4096) % 2097152 ≠ 0 := by
        unfold HUGEPGSIZE at h3
        rcases hb with h | h <;> rw [h] at h1 h3 <;> omega
      simp only [fresh_state, c1, c2, c3, ne_eq, not_false_eq_true, and_self, if_true]
    have hne : a ≠ 0 := by
      rcases hb with h | h <;> rw [h] at h1 <;> omega
    obtain ⟨r1, r2⟩ := ih (a + 4096) (by omega) (by omega) (by omega)
    constructor
    · show a = a ∧ a ≠ 0 ∧
        is_chain fresh_state.mem (fresh_state.mem a)
          (follow fresh_state.mem (fresh_state.mem a) (n + 1))
      rw [hm]
      exact ⟨rfl, hne, r1⟩
    · intro x hx
      rw [follow, hm] at hx
      rcases List.mem_cons.mp hx with e | e
      · subst e
        unfold frame_of PGSIZE
        unfold HUGEPGSIZE at h3 ⊢
        omega
      · exact r2 x e

/-- The free lists of `fresh_state` are well formed. -/
theorem fresh_state_lists : lists_in_region fresh_state := by
  have hrest : ∀ i, i < MAXHUGEPGS → i ≠ 2 → i ≠ 3 →
      is_chain fresh_state.mem (fresh_state.hugepages i).freelist
        (follow fresh_state.mem (fresh_state.hugepages i).freelist
          (fresh_state.hugepages i).freecount.toNat) ∧
      (fresh_state.hugepages i).freecount =
        ((fresh_state.hugepages i).freecount.toNat : Int) ∧
      ∀ x, x ∈ follow fresh_state.mem (fresh_state.hugepages i).freelist
          (fresh_state.hugepages i).freecount.toNat → frame_of i x := by
    decide
  intro i hi
  by_cases h2 : i = 2
  · subst h2
    obtain ⟨a, b⟩ := fresh_chain 2 (Or.inl rfl) 511 0x80400000 (by decide) (by decide)
      (by decide)
    exact ⟨_, a, by rw [follow_length]; rfl, b⟩
  · by_cases h3 : i = 3
    · subst h3
      obtain ⟨a, b⟩ := fresh_chain 3 (Or.inr rfl) 511 0x80600000 (by decide) (by decide)
        (by decide)
      exact ⟨_, a, by rw [follow_length]; rfl, b⟩
    · obtain ⟨a, b, c⟩ := hrest i hi h2 h3
      refine ⟨_, a, ?_, c⟩
      rw [follow_length]
      exact b

/-- A free list whose head is a frame with a link that is not null and not
page-aligned is no chain of frames. -/
theorem broken_list (mem : Memory) (head i : Nat) (h0 : head ≠ 0) (h1 : mem head ≠ 0)
    (h2 : mem head % PGSIZE ≠ 0) :
    ¬ ∃ l : List Nat, is_chain mem head l ∧ ∀ x, x ∈ l → frame_of i x := by
  rintro ⟨l, hc, hf⟩
  obtain ⟨l1, e1, hc1⟩ := is_chain_cons mem head l h0 hc
  obtain ⟨l2, e2, -⟩ := is_chain_cons mem (mem head) l1 h1 hc1
  have := (hf (mem head) (by rw [e1, e2]; simp)).1
  exact h2 this

/-- C33, evaluated on the code: in `fresh_state` the predicate holds (every
count is the length of the free list, which links frames of the region of its
descriptor), and descriptor 2 is whole-free.  `kalloc_huge` returns
`0x80400000`, the base of descriptor 2, and fills the 2 MiB with the byte 5
over the links of the list: the head and the count 512 of the descriptor are
as before, but the link of the head frame is `0x0505050505050505`, and the
predicate does not hold.  `kfree_huge(0x80400000)` then fills the region with
the byte 1 and clears the flag: descriptor 2 is whole-free again with the
count 512, the link of its head frame is `0x0101010101010101`, and the
predicate does not hold. -/
theorem C33_huge_calls_break_lists :
    lists_in_region fresh_state ∧ whole_free (fresh_state.hugepages 2) ∧
    (kalloc_huge fresh_state).1 = 0x80400000 ∧
    (kalloc_huge fresh_state).2.hugepages 2 = ⟨0x80400000, 512, 1⟩ ∧
    (kalloc_huge fresh_state).2.mem 0x80400000 = 0x0505050505050505 ∧
    ¬ lists_in_region (kalloc_huge fresh_state).2 ∧
    (kfree_huge 0x80021000 0x80400000 (kalloc_huge fresh_state).2).isSome = true ∧
    (kfree_huge_state 0x80021000 0x80400000 (kalloc_huge fresh_state).2).hugepages 2 =
      ⟨0x80400000, 512, 0⟩ ∧
    (kfree_huge_state 0x80021000 0x80400000 (kalloc_huge fresh_state).2).mem 0x80400000 =
      0x0101010101010101 ∧
    ¬ lists_in_region (kfree_huge_state 0x80021000 0x80400000 (kalloc_huge fresh_state).2) := by
  refine ⟨fresh_state_lists, by decide, by decide, by decide, by decide, ?_, by decide,
    by decide, by decide, ?_⟩
  · intro h
    obtain ⟨l, hc, -, hf⟩ := h 2 (by decide)
    exact broken_list _ _ 2 (by decide) (by decide) (by decide) ⟨l, hc, hf⟩
  · intro h
    obtain ⟨l, hc, -, hf⟩ := h 2 (by decide)
    exact broken_list _ _ 2 (by decide) (by decide) (by decide) ⟨l, hc, hf⟩

/-- C34, evaluated on the code: in `fresh_state` descriptor 2 is whole-free and
its free list links its 512 frames.  `kalloc_huge` returns its base
`0x80400000`, and `kfree_huge(0x80400000)` returns without a panic with the
record of descriptor 2 (head, count 512, flag clear), `freemem` and `used2m`
as before `kalloc_huge`.  But the links are not restored: the two calls filled
the region with the bytes 5 and 1, the link of the head frame is
`0x0101010101010101`, and the list is no chain of frames of descriptor 2.  Of
the following calls of `kalloc`, the first serves the split descriptor 0 and
the second returns the head `0x80400000` and leaves descriptor 2 with the head
pointer `0x0101010101010101`, which is not a frame of the descriptor: the next
call of `kalloc` pops this pointer. -/
theorem C34_list_not_restored :
    whole_free (fresh_state.hugepages 2) ∧
    (∃ l : List Nat, is_chain fresh_state.mem (fresh_state.hugepages 2).freelist l ∧
      l.length = 512 ∧ ∀ x, x ∈ l → frame_of 2 x) ∧
    (kalloc_huge fresh_state).1 = 0x80400000 ∧
    (kfree_huge 0x80021000 0x80400000 (kalloc_huge fresh_state).2).map
      (fun s2 => (s2.hugepages 2, s2.freemem, s2.used2m, s2.mem 0x80400000)) =
      some (fresh_state.hugepages 2, fresh_state.freemem, fresh_state.used2m,
        0x0101010101010101) ∧
    (¬ ∃ l : List Nat,
      is_chain (kfree_huge_state 0x80021000 0x80400000 (kalloc_huge fresh_state).2).mem
        ((kfree_huge_state 0x80021000 0x80400000 (kalloc_huge fresh_state).2).hugepages
          2).freelist l ∧ ∀ x, x ∈ l → frame_of 2 x) ∧
    (kalloc (kfree_huge_state 0x80021000 0x80400000 (kalloc_huge fresh_state).2)).map
      (fun r => r.1) = some 0x80100000 ∧
    ((kalloc (kfree_huge_state 0x80021000 0x80400000 (kalloc_huge fresh_state).2)).bind
      (fun r => kalloc r.2)).map (fun r => (r.1, r.2.hugepages 2)) =
      some (0x80400000, ⟨0x0101010101010101, 511, 0⟩) ∧
    ¬ frame_of 2 0x0101010101010101 := by
  refine ⟨by decide, ?_, by decide, by decide, ?_, by decide, by decide, by decide⟩
  · obtain ⟨a, b⟩ := fresh_chain 2 (Or.inl rfl) 511 0x80400000 (by decide) (by decide)
      (by decide)
    exact ⟨_, a, follow_length _ _ _, b⟩
  · exact broken_list _ _ 2 (by decide) (by decide) (by decide)

/-! ## The Region slots of a process -/

/-- C35, evaluated on the code: in `private_rw_state` slot 0 of the process
references the Region of `0x100000000` (100 bytes, lazily backed) and
`mmap_count` is 1; `munmap(0x100000000)` would return 0 and a store fault on
the page would be resolved.  `munmap(0x100000010)`, an address inside the
Region that is not its start, returns -1, but `get_vma` was called with `pop` set: the slot
is `NULL` and `mmap_count` is 0, while the Region is still valid and the leaf
of the page is still in the table.  A later `munmap(0x100000000)` returns -1,
and a later store fault on the page finds no Region and kills the process. -/
theorem C35_failed_munmap_pops :
    private_rw_state.p.mmap 0 = some 0 ∧ private_rw_state.p.mmap_count = 1 ∧
    (private_rw_state.mmap_areas 0).start = 0x100000000 ∧
    (private_rw_state.mmap_areas 0).area_end = 0x100000064 ∧
    (munmap 0x80021000 0x100000000 private_rw_state).map (fun r => r.1) = some 0 ∧
    (pagefault SCAUSE_STORE 0x100000000 private_rw_state).map (fun t => t.p.killed) =
      some 0 ∧
    (munmap 0x80021000 0x100000010 private_rw_state).map
      (fun r => (r.1, r.2.p.mmap 0, r.2.p.mmap_count, (r.2.mmap_areas 0).is_valid,
        r.2.k.mem 0x87002000)) =
      some (-1, none, 0, 1, PA2PTE ZEROHUGEPG ||| PTE_U ||| PTE_R ||| PTE_V) ∧
    ((munmap 0x80021000 0x100000010 private_rw_state).bind
      (fun r => munmap 0x80021000 0x100000000 r.2)).map (fun r => r.1) = some (-1) ∧
    ((munmap 0x80021000 0x100000010 private_rw_state).bind
      (fun r => pagefault SCAUSE_STORE 0x100000000 r.2)).map
      (fun t => (t.p.killed, t.k.mem 0x87002000, t.k.freemem)) =
      some (1, PA2PTE ZEROHUGEPG ||| PTE_U ||| PTE_R ||| PTE_V, 3) := by
  refine ⟨by decide, by decide, by decide, by decide, by decide, ?_, by decide, by decide,
    by decide⟩
  rw [pagefault_nonzero_options SCAUSE_STORE 0x100000000 0x87002000 0 false private_rw_state
    (by decide) (by decide) (by decide)]
  rw [handle_shared_fault_new 0x87002000 0x100000000 0 0x80021000 false
    { private_rw_state with pagefaults := private_rw_state.pagefaults + 1 }
    (kalloc_flex_state false private_rw_state.k)
    (find_shpg_none _ _ _ (fun _ h => (by decide : ¬ ((0 : Nat) = 0x100000000)) h.2))
    rfl (by decide) (by decide)]
  rfl

/-- C36, evaluated on the code: `mmap(0x100000000, -1, PROT_WRITE,
MAP_PRIVATE)` in `no_region_state` returns its `addr` argument and records a
Region in slot 0 that is not well formed: its length is the `uint64`
`2^64 - 1`, its end `0xFFFFFFFF` lies below its start, and no leaf entry was
stored (the entries of the pages `0x100000000` and `0x100001000` are 0).
`get_vma(p, start)` does not find the Region and `munmap(start)` returns -1
with the slot still in use. -/
theorem C36_region_of_negative_length :
    (mmap 0x100000000 (-1) PROT_WRITE MAP_PRIVATE no_region_state).map
      (fun r => (r.1, r.2.p.mmap 0, r.2.p.mmap_count, (r.2.mmap_areas 0).is_valid,
        (r.2.mmap_areas 0).start, (r.2.mmap_areas 0).length, (r.2.mmap_areas 0).area_end,
        r.2.k.mem 0x87002000, r.2.k.mem 0x87002008)) =
      some (0x100000000, some 0, 1, 1, 0x100000000, 2 ^ 64 - 1, 0xFFFFFFFF, 0, 0) ∧
    (mmap 0x100000000 (-1) PROT_WRITE MAP_PRIVATE no_region_state).map
      (fun r => (get_vma r.2.p r.2.mmap_areas 0x100000000 false).1) = some none ∧
    ((mmap 0x100000000 (-1) PROT_WRITE MAP_PRIVATE no_region_state).bind
      (fun r => munmap 0x80021000 0x100000000 r.2)).map
      (fun r => (r.1, r.2.p.mmap 0, r.2.p.mmap_count)) = some (-1, some 0, 1) := by
  refine ⟨rfl, by decide, by decide⟩

/-- C37, evaluated on the code: `share_vma` takes a slot that is `NULL` or
that points to a Region that is not valid.  In `stale_proc` the count 1 is the
number of slots in use; `share_vma` of the Region 1 overwrites slot 0 and
increments the count: the count is 2 with one slot in use.  In
`stale_full_proc` the four slots are in use with the count 4; `share_vma`
returns 0 with the count 5, above `MMAP_PROC_MAX`. -/
theorem C37_share_vma_overcounts :
    (stale_areas 0).is_valid = FALSE ∧
    slots_ok stale_proc ∧
    (share_vma 1 stale_areas stale_proc).1 = 0 ∧
    (share_vma 1 stale_areas stale_proc).2.mmap 0 = some 1 ∧
    (share_vma 1 stale_areas stale_proc).2.mmap_count = 2 ∧
    slots_used (share_vma 1 stale_areas stale_proc).2.mmap MMAP_PROC_MAX 0 = 1 ∧
    ¬ slots_ok (share_vma 1 stale_areas stale_proc).2 ∧
    slots_ok stale_full_proc ∧
    (share_vma 4 stale_areas stale_full_proc).1 = 0 ∧
    (share_vma 4 stale_areas stale_full_proc).2.mmap_count = 5 ∧
    ¬ slots_ok (share_vma 4 stale_areas stale_full_proc).2 := by
  decide

/-! ## `walk` and `walkaddr` over a huge leaf -/

/-- C38, evaluated on the code: in `huge_data_state d` the address
`0x100000000` is covered by a valid, user-accessible 2 MiB leaf at level 1,
which maps the frame `0x80400000`.  `walk` without allocation follows the leaf
as if it pointed to a table and returns the word `0x80400000`, the first word
of the mapped frame.  `walkaddr` then reads this word as an entry: for user
data that looks like a valid user entry of the frame `0x87000000` (the root of
the page table) it returns `0x87000000`, outside the mapped frame; for the
data 0 it returns 0, as if the address were not mapped. -/
theorem C38_walk_through_huge_leaf :
    walkfind (huge_data_state 0).mem 0x87000000 0x100000000 = some (some (0x87001000, true)) ∧
    (huge_data_state 0).mem 0x87001000 =
      PA2PTE 0x80400000 ||| PTE_V ||| PTE_U ||| PTE_R ||| PTE_W ∧
    (walk 0x87000000 0x100000000 false (huge_data_state 0)).map (fun r => r.1) =
      some 0x80400000 ∧
    (walkaddr 0x87000000 0x100000000
      (huge_data_state (PA2PTE 0x87000000 ||| PTE_V ||| PTE_U))).map (fun r => r.1) =
      some 0x87000000 ∧
    ¬ in_frame 0x80400000 HUGEPGSIZE 0x87000000 ∧
    (walkaddr 0x87000000 0x100000000 (huge_data_state 0)).map (fun r => r.1) = some 0 := by
  refine ⟨by decide, by decide, by decide, by decide, by decide, by decide⟩

/-! ## `kalloc`: split descriptors first -/

/-- A count that does not exceed `PGINHUGEPG` passes the test of the scan of
`kalloc` exactly when the descriptor is split. -/
theorem servable_iff_split (e : hugepage_entry) (h : e.freecount ≤ PGINHUGEPG) :
    servable e ↔ split e := by
  unfold servable split
  constructor
  · rintro ⟨a, b, c⟩
    exact ⟨a, b, lt_of_le_of_ne h c⟩
  · rintro ⟨a, b, c⟩
    exact ⟨a, b, ne_of_lt c⟩

/-- The invariant that `kinit` establishes and every call of the allocator
keeps bounds every count by `PGINHUGEPG`. -/
theorem count_inv_le (s : kstate) (live : List Nat) (hinv : count_inv s live) :
    ∀ i, i < MAXHUGEPGS → (s.hugepages i).freecount ≤ PGINHUGEPG := by
  intro i hi
  have h := (hinv.1 i hi).2.2
  have h0 : 0 ≤ live_in live i := by
    unfold live_in
    exact Int.ofNat_nonneg _
  omega

theorem fresh_state_count_ok :
    ∀ i, i < MAXHUGEPGS → count_ok fresh_state.mem (fresh_state.hugepages i) := by
  intro i hi
  obtain ⟨l, a, b, -⟩ := fresh_state_lists i hi
  exact ⟨l, a, b⟩

theorem whole_only_state_count_ok :
    ∀ i, i < MAXHUGEPGS → count_ok whole_only_state.mem (whole_only_state.hugepages i) := by
  intro i hi
  by_cases h0 : i = 0
  · subst h0
    exact ⟨[], rfl, rfl⟩
  · have e : whole_only_state.hugepages i = fresh_state.hugepages i := by
      simp only [whole_only_state, h0, if_false]
    rw [e]
    exact fresh_state_count_ok i hi

/-- C2: let every count be the length of its free list and at most
`PGINHUGEPG`, the number of frames of a descriptor, as in every state that a run
of the allocator reaches from `kinit` (`count_inv_le`, `count_inv_arun`).  If
descriptor `p` is the lowest-indexed split descriptor, `kalloc` returns the head
of its free list, which is not null, and changes no other descriptor.  If no
descriptor is split and `w` is the lowest-indexed whole-free descriptor,
`kalloc` returns the head of its free list, leaves it with count
`PGINHUGEPG - 1` and not allocated whole, and changes no other descriptor. -/
theorem C2_kalloc_split_first (s : kstate)
    (hok : ∀ i, i < MAXHUGEPGS → count_ok s.mem (s.hugepages i))
    (hle : ∀ i, i < MAXHUGEPGS → (s.hugepages i).freecount ≤ PGINHUGEPG) :
    (∀ p, p < MAXHUGEPGS → split (s.hugepages p) →
      (∀ j, j < p → ¬ split (s.hugepages j)) →
      ∃ s1, kalloc s = some ((s.hugepages p).freelist, s1) ∧
        (s.hugepages p).freelist ≠ 0 ∧
        ∀ j, j ≠ p → s1.hugepages j = s.hugepages j) ∧
    ((∀ j, j < MAXHUGEPGS → ¬ split (s.hugepages j)) →
      ∀ w, w < MAXHUGEPGS → whole_free (s.hugepages w) →
      (∀ j, j < w → ¬ whole_free (s.hugepages j)) →
      ∃ s1, kalloc s = some ((s.hugepages w).freelist, s1) ∧
        (s.hugepages w).freelist ≠ 0 ∧
        (s1.hugepages w).freecount = PGINHUGEPG - 1 ∧
        (s1.hugepages w).hugealloced = 0 ∧
        ∀ j, j ≠ w → s1.hugepages j = s.hugepages j) := by
  constructor
  · intro p hp hs hfirst
    exact (kalloc_choice s hok).1 p hp
      ((servable_iff_split _ (hle p hp)).mpr hs)
      (fun j hj h => hfirst j hj ((servable_iff_split _ (hle j (by omega))).mp h))
  · intro hnone w hw hwf hfirst
    exact (kalloc_choice s hok).2
      (fun j hj h => hnone j hj ((servable_iff_split _ (hle j hj)).mp h)) w hw hwf hfirst

/-- Witness of C2.  In `fresh_state` descriptor 0 is split and descriptors 2
and 3 are whole-free: `kalloc` returns the head `0x80100000` of descriptor 0.
In `whole_only_state` no descriptor is split and descriptor 2 is the first
whole-free one: `kalloc` returns its head `0x80400000` and leaves it with 511
free frames. -/
theorem C2_kalloc_split_first_witness :
    (∃ s1, kalloc fresh_state = some (0x80100000, s1) ∧
      (0x80100000 : Nat) ≠ 0 ∧
      ∀ j, j ≠ 0 → s1.hugepages j = fresh_state.hugepages j) ∧
    (∃ s1, kalloc whole_only_state = some (0x80400000, s1) ∧
      (0x80400000 : Nat) ≠ 0 ∧
      (s1.hugepages 2).freecount = PGINHUGEPG - 1 ∧
      (s1.hugepages 2).hugealloced = 0 ∧
      ∀ j, j ≠ 2 → s1.hugepages j = whole_only_state.hugepages j) :=
  ⟨(C2_kalloc_split_first fresh_state fresh_state_count_ok (by decide)).1 0
      (by decide) (by decide) (by decide),
   (C2_kalloc_split_first whole_only_state whole_only_state_count_ok (by decide)).2
      (by decide) 2 (by decide) (by decide) (by decide)⟩


/-! ## `munmap` by a sharer that has not touched its page -/

/-- C18, the unmap of a sharer that has not touched its page.  In
`lazy_sharer_state` the record of the page holds the frame `0x80021000` with
count 1, and the leaf of the caller is the lazy leaf that `mmap` stores, which
maps the Zero Frame.  `munmap` returns 0, resets the record and marks the
Region invalid; the frame it hands to `kfree` is the Zero Frame, which becomes
the head of the free list of descriptor 63 with the count 513, and the
descriptor and the contents of the backing frame `0x80021000` are unchanged:
the backing frame is never returned to the allocator. -/
theorem C18_lazy_sharer_unmap :
    (mmap 0x100000000 100 PROT_WRITE MAP_SHARED no_region_state).map
      (fun r => r.2.k.mem 0x87002000) = some (lazy_sharer_state.k.mem 0x87002000) ∧
    find_shpg lazy_sharer_state.shared_pages 1 0x100000000 = some 33 ∧
    lazy_sharer_state.shared_pages 33 =
      ⟨1, 0x100000000, 1, PA2PTE 0x80021000 ||| PTE_V ||| PTE_U ||| PTE_R ||| PTE_W⟩ ∧
    PTE2PA (lazy_sharer_state.k.mem 0x87002000) = ZEROHUGEPG ∧
    lazy_sharer_state.k.hugepages (HUGEPGINDEX 0x80021000) = ⟨0, 0, 0⟩ ∧
    lazy_sharer_state.k.hugepages (HUGEPGINDEX ZEROHUGEPG) = ⟨0x87FFF000, 512, 1⟩ ∧
    (munmap 0x80021000 0x100000000 lazy_sharer_state).map
      (fun r => (r.1, r.2.shared_pages 33, (r.2.mmap_areas 1).is_valid,
        r.2.k.mem 0x87002000, r.2.k.hugepages (HUGEPGINDEX 0x80021000),
        r.2.k.mem 0x80021000, r.2.k.hugepages (HUGEPGINDEX ZEROHUGEPG),
        r.2.k.mem ZEROHUGEPG, r.2.k.freemem)) =
      some (0, ⟨-1, 0, 0, 0⟩, 0, 0, ⟨0, 0, 0⟩, 0, ⟨ZEROHUGEPG, 513, 1⟩, 0x87FFF000, 1) := by
  refine ⟨by decide, by decide, by decide, by decide, by decide, by decide, rfl⟩


/-! ## A fault that needs a frame when none is free -/

/-- An entry whose flags are `V` alone has none of R, W and X. -/
theorem table_pointer_no_rwx (e : Nat) (h : PTE_FLAGS e = PTE_V) : ¬ has_rwx e := by
  unfold has_rwx PTE_FLAGS at *
  have e1 : e &&& (PTE_R ||| PTE_W ||| PTE_X) = (e &&& 0x3FF) &&& (PTE_R ||| PTE_W ||| PTE_X) := by
    rw [Nat.and_assoc]
    rfl
  rw [e1, h]
  decide

/-- On an entry that the kernel stores, the leaf test of `walkfind`,
`PTE_FLAGS(*pte) != PTE_V` on a valid entry, is the test of R, W and X. -/
theorem built_entry_leaf (e : Nat) (h : built_entry e) :
    (e &&& PTE_V ≠ 0 ↔ e ≠ 0) ∧ (present_leaf e ↔ has_rwx e) ∧
    (table_pointer e ↔ (e &&& PTE_V ≠ 0 ∧ ¬ has_rwx e)) := by
  rcases h with h | h | h
  · subst h
    refine ⟨by decide, by decide, by decide⟩
  · have hn := table_pointer_no_rwx e h.2
    refine ⟨⟨fun _ h0 => ?_, fun _ => h.1⟩, ⟨fun hp => absurd h.2 hp.2, fun hr => absurd hr hn⟩,
      ⟨fun _ => ⟨h.1, hn⟩, fun _ => h⟩⟩
    rw [h0] at h
    exact h.1 (by decide)
  · have hf : PTE_FLAGS e ≠ PTE_V := fun hf => table_pointer_no_rwx e hf h.2
    refine ⟨⟨fun _ h0 => ?_, fun _ => h.1⟩, ⟨fun _ => h.2, fun _ => ⟨h.1, hf⟩⟩,
      ⟨fun ht => absurd ht.2 hf, fun hh => absurd h.2 hh.2⟩⟩
    rw [h0] at h
    exact h.1 (by decide)

/-- C32: let `va` be below `MAXVA`, let the level-2 entry `e2` of `va` be an
entry as the kernel stores it and, when `e2` points to a table, the level-1
entry `e1` likewise (`built_entry`).  With a leaf being an entry with at least
one of R, W and X: `walkfind` returns `NULL` exactly when `e2` is not valid, or
`e2` is a valid non-leaf and `e1` is not valid; it returns the level-1 slot
with `is_huge` set exactly when `e2` is a valid non-leaf and `e1` is valid with
at least one of R, W and X; it returns the level-0 slot with `is_huge` clear
exactly when both are valid with none of R, W and X; and it panics exactly when
`e2` is a leaf.  The function reads the memory only. -/
theorem C32_walkfind_rwx (mem : Memory) (pagetable va : Nat) (hva : va < MAXVA)
    (h2 : built_entry (mem (pte_addr pagetable (PX 2 va))))
    (h1 : table_pointer (mem (pte_addr pagetable (PX 2 va))) →
      built_entry (mem (l1_word mem pagetable va))) :
    (walkfind mem pagetable va = some none ↔
      (¬ mem (pte_addr pagetable (PX 2 va)) &&& PTE_V ≠ 0 ∨
        (mem (pte_addr pagetable (PX 2 va)) &&& PTE_V ≠ 0 ∧
          ¬ has_rwx (mem (pte_addr pagetable (PX 2 va))) ∧
          ¬ mem (l1_word mem pagetable va) &&& PTE_V ≠ 0))) ∧
    (walkfind mem pagetable va = some (some (l1_word mem pagetable va, true)) ↔
      (mem (pte_addr pagetable (PX 2 va)) &&& PTE_V ≠ 0 ∧
        ¬ has_rwx (mem (pte_addr pagetable (PX 2 va))) ∧
        mem (l1_word mem pagetable va) &&& PTE_V ≠ 0 ∧
        has_rwx (mem (l1_word mem pagetable va)))) ∧
    (walkfind mem pagetable va = some (some (l0_word mem pagetable va, false)) ↔
      (mem (pte_addr pagetable (PX 2 va)) &&& PTE_V ≠ 0 ∧
        ¬ has_rwx (mem (pte_addr pagetable (PX 2 va))) ∧
        mem (l1_word mem pagetable va) &&& PTE_V ≠ 0 ∧
        ¬ has_rwx (mem (l1_word mem pagetable va)))) ∧
    (walkfind mem pagetable va = none ↔ has_rwx (mem (pte_addr pagetable (PX 2 va)))) := by
  obtain ⟨c1, c2, c3, c4⟩ := walkfind_cases mem pagetable va hva
  generalize walkfind mem pagetable va = r at c1 c2 c3 c4 ⊢
  generalize l0_word mem pagetable va = w0 at c4 ⊢
  generalize hq : mem (l1_word mem pagetable va) = e1 at c1 c3 c4 h1 ⊢
  generalize l1_word mem pagetable va = w1 at c3 ⊢
  generalize mem (pte_addr pagetable (PX 2 va)) = e2 at c1 c2 c3 c4 h1 h2 ⊢
  obtain ⟨-, a2, a3⟩ := built_entry_leaf e2 h2
  refine ⟨c1.trans ?_, c3.trans ?_, c4.trans ?_, c2.trans a2⟩
  · constructor
    · rintro (h | h)
      · exact Or.inl h
      · exact Or.inr ⟨(a3.mp h.1).1, (a3.mp h.1).2, h.2⟩
    · rintro (h | h)
      · exact Or.inl h
      · exact Or.inr ⟨a3.mpr ⟨h.1, h.2.1⟩, h.2.2⟩
  · constructor
    · intro h
      obtain ⟨-, b2, -⟩ := built_entry_leaf e1 (h1 h.1)
      exact ⟨(a3.mp h.1).1, (a3.mp h.1).2, h.2.1, b2.mp h.2⟩
    · intro h
      have ht := a3.mpr ⟨h.1, h.2.1⟩
      obtain ⟨-, b2, -⟩ := built_entry_leaf e1 (h1 ht)
      exact ⟨ht, b2.mpr h.2.2.2⟩
  · constructor
    · intro h
      obtain ⟨-, -, b3⟩ := built_entry_leaf e1 (h1 h.1)
      exact ⟨(a3.mp h.1).1, (a3.mp h.1).2, b3.mp h.2⟩
    · intro h
      have ht := a3.mpr ⟨h.1, h.2.1⟩
      obtain ⟨-, -, b3⟩ := built_entry_leaf e1 (h1 ht)
      exact ⟨ht, b3.mpr h.2.2⟩

/-- Witness of C32: in `huge_mapped_state` the level-2 entry of `0x100000000`
points to a table and its level-1 entry is a leaf with R and W, so `walkfind`
returns the level-1 slot `0x87001000` with `is_huge` set. -/
theorem C32_walkfind_rwx_witness :
    0x100000000 < MAXVA ∧
    built_entry (huge_mapped_state.mem (pte_addr 0x87000000 (PX 2 0x100000000))) ∧
    built_entry (huge_mapped_state.mem
      (l1_word huge_mapped_state.mem 0x87000000 0x100000000)) ∧
    l1_word huge_mapped_state.mem 0x87000000 0x100000000 = 0x87001000 ∧
    (walkfind huge_mapped_state.mem 0x87000000 0x100000000 =
      some (some (l1_word huge_mapped_state.mem 0x87000000 0x100000000, true)) ↔
      (huge_mapped_state.mem (pte_addr 0x87000000 (PX 2 0x100000000)) &&& PTE_V ≠ 0 ∧
        ¬ has_rwx (huge_mapped_state.mem (pte_addr 0x87000000 (PX 2 0x100000000))) ∧
        huge_mapped_state.mem (l1_word huge_mapped_state.mem 0x87000000 0x100000000)
          &&& PTE_V ≠ 0 ∧
        has_rwx (huge_mapped_state.mem
          (l1_word huge_mapped_state.mem 0x87000000 0x100000000)))) ∧
    walkfind huge_mapped_state.mem 0x87000000 0x100000000 = some (some (0x87001000, true)) :=
  ⟨by decide, by decide, by decide, by decide,
    (C32_walkfind_rwx huge_mapped_state.mem 0x87000000 0x100000000 (by decide) (by decide)
      (fun _ => by decide)).2.1,
    by decide⟩


/-! ## `uvmcopy` after `kalloc_huge` and `kfree_huge` -/

end Xv6
